import Mathlib

/-!
# BlueprintAssist graph formatter: a shallow embedding

Nodes, pins and comment boxes are identified by natural numbers (the stable
identity of `UEdGraphNode*` / `UEdGraphPin*`).  A `TSet` is a list without
duplicates in insertion order, a `TMap` is a function into `Option`.
Node coordinates (`NodePosX`, `NodePosY`) are `int32` fields; they are modelled
by `Int`, with an explicit wrap to 32 bits where the arithmetic is `int32`.
Where the source computes a node position through `float` values (the anchor
reset, `GetChildX`, `SimpleFormatAll`), the `float`s are modelled by `Float32`,
with the rounding of every operation and of the conversions from and to `int32`.
-/

namespace BlueprintAssist

/-! ## Definitions -/

/-! ### `float` arithmetic -/

/-- A finite `float` (IEEE 754 binary32).  Every finite float, the subnormal ones included,
is a whole multiple of 2^-149; `units` is that multiple, so the value is `units * 2^-149`
and 1.0f has 2^149 units.  Infinities and NaN are not modelled: sums and differences of
floats reach them only beyond 2^128. -/
structure Float32 where
  units : Int
  deriving DecidableEq

/-- The number of low bits of the natural number `n` that a significand of 24 bits cannot
hold: the least `k` with `n / 2^k < 2^24`.  `fuel` bounds the search; `n` is always
enough. -/
def Float32.excessBits : Nat → Nat → Nat
  | 0, _ => 0
  | fuel + 1, n => if n < 2 ^ 24 then 0 else Float32.excessBits fuel (n / 2) + 1

/-- The multiple of `2^k` nearest to `n`; of two nearest ones the even multiple (the default
rounding mode of `float` arithmetic: to nearest, ties to even). -/
def Float32.roundNat (n k : Nat) : Nat :=
  if 2 * (n % 2 ^ k) < 2 ^ k then n / 2 ^ k * 2 ^ k
  else if 2 ^ k < 2 * (n % 2 ^ k) then (n / 2 ^ k + 1) * 2 ^ k
  else if n / 2 ^ k % 2 = 0 then n / 2 ^ k * 2 ^ k else (n / 2 ^ k + 1) * 2 ^ k

/-- The `float` nearest to the real number `z * 2^-149`: the result of a `float` operation
whose exact result is that number. -/
def Float32.round (z : Int) : Float32 :=
  ⟨if 0 ≤ z then (Float32.roundNat z.natAbs (Float32.excessBits z.natAbs z.natAbs) : Nat)
   else -((Float32.roundNat z.natAbs (Float32.excessBits z.natAbs z.natAbs) : Nat) : Int)⟩

/-- The conversion of an `int32` to `float`. -/
def Float32.ofInt (x : Int) : Float32 := Float32.round (x * 2 ^ 149)

/-- The `float` with the value `n / 2^k` (rounded if it needs more than 24 bits), for
`k ≤ 149`. -/
def Float32.ofRatio (n : Int) (k : Nat) : Float32 := Float32.round (n * 2 ^ (149 - k))

/-- The sum `a + b` of two `float`s. -/
def Float32.add (a b : Float32) : Float32 := Float32.round (a.units + b.units)

/-- The difference `a - b` of two `float`s. -/
def Float32.sub (a b : Float32) : Float32 := Float32.round (a.units - b.units)

/-- The conversion of a `float` to `int32`: the fraction is dropped (rounding toward zero).
C++ defines the result only when the truncated value is an `int32`; beyond that range the
model keeps the integer. -/
def Float32.toInt (a : Float32) : Int := Int.tdiv a.units (2 ^ 149)

/-- `FMath::RoundToInt` of the engine: the nearest integer, a fraction of one half going up;
it is `FloorToInt(F + 0.5f)`. -/
def RoundToInt (F : Float32) : Int := (Float32.add F ⟨2 ^ 148⟩).units / 2 ^ 149

/-- `FSlateRect` with the `float` coordinates it has in the engine.  (The structure
`FSlateRect` further down holds whole coordinates.) -/
structure FSlateRectFloat where
  Left : Float32
  Top : Float32
  Right : Float32
  Bottom : Float32
  deriving DecidableEq

/-! ### Node positions and the anchor -/

/-- The `NodePosX` / `NodePosY` fields of every node of the graph. -/
structure NodePositions where
  NodePosX : Nat → Int
  NodePosY : Nat → Int

/-- The statement `NodePos += Delta` for an `int32` field and a `float` delta: the field is
converted to `float`, the sum is formed in `float`, and the result is converted back. -/
def addFloatToInt32 (NodePos : Int) (Delta : Float32) : Int :=
  (Float32.add (Float32.ofInt NodePos) Delta).toInt

/-- The statements `Node->NodePosX += DeltaX; Node->NodePosY += DeltaY;` for one node, with
the `const float` deltas of `ResetRelativeToNodeToKeepStill`. -/
def addToNodePos (p : NodePositions) (Node : Nat) (DeltaX DeltaY : Float32) : NodePositions :=
  { NodePosX := fun m => if m = Node then addFloatToInt32 (p.NodePosX m) DeltaX else p.NodePosX m
    NodePosY := fun m => if m = Node then addFloatToInt32 (p.NodePosY m) DeltaY else p.NodePosY m }

/-- `FEdGraphFormatter::ResetRelativeToNodeToKeepStill` (EdGraphFormatter.cpp 1920-1940).
`SavedLocation` is an `FVector2D` (two `float`s); `FormattedGraphNodes` is the result of
`GetFormattedGraphNodes()`, `KnotNodesSet` the member of that name. -/
def ResetRelativeToNodeToKeepStill (NodeToKeepStill : Nat) (SavedLocation : Float32 × Float32)
    (FormattedGraphNodes KnotNodesSet : List Nat) (p : NodePositions) : NodePositions :=
  let DeltaX := Float32.sub SavedLocation.1 (Float32.ofInt (p.NodePosX NodeToKeepStill))
  let DeltaY := Float32.sub SavedLocation.2 (Float32.ofInt (p.NodePosY NodeToKeepStill))
  if DeltaX.units ≠ 0 ∨ DeltaY.units ≠ 0 then
    let p1 := FormattedGraphNodes.foldl (fun q Node => addToNodePos q Node DeltaX DeltaY) p
    KnotNodesSet.foldl (fun q Node => addToNodePos q Node DeltaX DeltaY) p1
  else p

/-- The loop `Node->NodePosX = FBAUtils::SnapToGrid(Node->NodePosX)` over
`GetFormattedGraphNodes()` (EdGraphFormatter.cpp 277-285).  `FBAUtils::SnapToGrid` is not
part of the available sources and is a parameter. -/
def SnapAllNodesToGrid (SnapToGrid : Int → Int) (FormattedGraphNodes : List Nat)
    (p : NodePositions) : NodePositions :=
  FormattedGraphNodes.foldl
    (fun q Node =>
      { q with NodePosX := fun m => if m = Node then SnapToGrid (q.NodePosX m) else q.NodePosX m })
    p

/-- The part of `FEdGraphFormatter::FormatNode` (EdGraphFormatter.cpp 101-308) that decides
the node positions of a full pass.  `SavedLocation` is `FVector2D(NodeToKeepStill->NodePosX,
NodeToKeepStill->NodePosY)` (line 163), read from the anchor before the layout passes run;
`Layout` stands for the combined effect on the positions of everything between
line 166 and line 272 (`InitNodePool` ... `FormatKnotNodes`, knot pool clean-up);
then come `ResetRelativeToNodeToKeepStill` and, under `bSnapToGrid`, the snapping loop.
`SaveFormattingEndInfo` and `ModifyCommentNodes`, which follow, write no node position. -/
def FormatNode_positions (bSnapToGrid : Bool) (SnapToGrid : Int → Int)
    (Layout : NodePositions → NodePositions) (NodeToKeepStill : Nat)
    (FormattedGraphNodes KnotNodesSet : List Nat) (p0 : NodePositions) : NodePositions :=
  let SavedLocation :=
    (Float32.ofInt (p0.NodePosX NodeToKeepStill), Float32.ofInt (p0.NodePosY NodeToKeepStill))
  let p1 := Layout p0
  let p2 := ResetRelativeToNodeToKeepStill NodeToKeepStill SavedLocation
    FormattedGraphNodes KnotNodesSet p1
  if bSnapToGrid then SnapAllNodesToGrid SnapToGrid FormattedGraphNodes p2 else p2

/-- Modelled from the spec: the configuration option snap-to-grid; the helper
`FBAUtils::SnapToGrid` is missing from the sources.  This instance snaps a coordinate
to the multiple of the grid size 16 at or below it. -/
def SnapToGrid16 (x : Int) : Int := 16 * (x / 16)

/-- A position table with every node at the same place. -/
def constPositions (x y : Int) : NodePositions :=
  { NodePosX := fun _ => x, NodePosY := fun _ => y }

/-! ### Pin-link graph -/

/-- `EEdGraphPinDirection` restricted to the two values a pin can carry.  The third value
`EGPD_MAX` only occurs as the "any direction" argument of `GetChildren` and is modelled by
`none : Option EEdGraphPinDirection` there. -/
inductive EEdGraphPinDirection
  | EGPD_Input
  | EGPD_Output
  deriving DecidableEq, Repr

/-- The part of the live `UEdGraph` that the traversals read: the pins of each node in
declaration order, the owner and direction of each pin, the `LinkedTo` array of each pin, and
the two classification predicates `FEdGraphFormatter::IsExecOrDelegatePin` and
`FBAUtils::IsNodePure`. -/
structure EdGraph where
  Pins : Nat → List Nat
  OwningNode : Nat → Nat
  Direction : Nat → EEdGraphPinDirection
  LinkedTo : Nat → List Nat
  IsExecOrDelegatePin : Nat → Bool
  IsNodePure : Nat → Bool

/-- `FPinLink`: the two pins of a wire (`nullptr` is `none`) and the fallback node of the
root link.  Two links are equal when their two pins are. -/
structure FPinLink where
  From : Option Nat
  To : Option Nat
  FallbackNode : Nat
  deriving DecidableEq, Repr

/-- `FPinLink::GetNode` (GraphFormatterTypes.cpp 158-161). -/
def FPinLink.GetNode (g : EdGraph) (l : FPinLink) : Nat :=
  match l.To with
  | none => l.FallbackNode
  | some p => g.OwningNode p

/-- `FPinLink::GetDirection` (GraphFormatterTypes.cpp 163-166). -/
def FPinLink.GetDirection (g : EdGraph) (l : FPinLink) : EEdGraphPinDirection :=
  match l.From with
  | some p => g.Direction p
  | none => EEdGraphPinDirection.EGPD_Output

/-- `FBAUtils::GetLinkedPins(Node, Direction)`: the pins of the node, in declaration order,
that have the given direction (`none` = any) and at least one link. -/
def GetLinkedPins (g : EdGraph) (Node : Nat) (Dir : Option EEdGraphPinDirection) : List Nat :=
  (g.Pins Node).filter (fun p =>
    (match Dir with
      | none => true
      | some d => decide (g.Direction p = d)) && !(g.LinkedTo p).isEmpty)

/-- `TSet::Add` on a set kept as a duplicate-free list in insertion order. -/
def TSetAdd {α : Type} [DecidableEq α] (s : List α) (a : α) : List α :=
  if a ∈ s then s else s ++ [a]

/-! ### X placement: `FFormatXInfo` and `FormatX` -/

/-- `FFormatXInfo` (GraphFormatterTypes.cpp 470-574).  Shared pointers to infos are indices
into the arena `FormatXState.Infos`. -/
structure FFormatXInfo where
  Link : FPinLink
  Parent : Option Nat
  Children : List Nat
  deriving DecidableEq, Repr

/-- Overwrite one cell of an arena. -/
def setInfo (Infos : Nat → FFormatXInfo) (i : Nat) (v : FFormatXInfo) : Nat → FFormatXInfo :=
  fun j => if j = i then v else Infos j

/-- Lines 481-484 of `FFormatXInfo::SetParent`: when the info `self` has a parent, remove
`self` from that parent's children (`TArray::Remove` removes every occurrence). -/
def SetParent_removeFromOld (Infos : Nat → FFormatXInfo) (self : Nat) : Nat → FFormatXInfo :=
  match (Infos self).Parent with
  | some p => setInfo Infos p { Infos p with Children := (Infos p).Children.filter (· ≠ self) }
  | none => Infos

/-- Lines 486-501 of `FFormatXInfo::SetParent`: when the new parent is valid, append `self`
to its children. -/
def SetParent_addToNew (Infos : Nat → FFormatXInfo) (self : Nat) (NewParent : Option Nat) :
    Nat → FFormatXInfo :=
  match NewParent with
  | some q => setInfo Infos q { Infos q with Children := (Infos q).Children ++ [self] }
  | none => Infos

/-- `FFormatXInfo::SetParent` (GraphFormatterTypes.cpp 479-504) called on the info `self`:
remove `self` from the children of the old parent, append it to the children of the new
parent, store the new parent (line 503). -/
def SetParent (Infos : Nat → FFormatXInfo) (self : Nat) (NewParent : Option Nat) :
    Nat → FFormatXInfo :=
  let I2 := SetParent_addToNew (SetParent_removeFromOld Infos self) self NewParent
  setInfo I2 self { I2 self with Parent := NewParent }

/-- The direction filter of `FFormatXInfo::GetChildren`:
`Info->Link.GetDirection() == Direction || Direction == EGPD_MAX`. -/
def FilterByDirection (g : EdGraph) (Infos : Nat → FFormatXInfo)
    (Dir : Option EEdGraphPinDirection) (i : Nat) : Bool :=
  match Dir with
  | none => true
  | some d => decide ((Infos i).Link.GetDirection g = d)

/-- The `while (PendingInfo.Num() > 0)` loop of `FFormatXInfo::GetChildren`
(GraphFormatterTypes.cpp 516-530).  `Pending` is the stack with its top at the head,
`Out` is `OutChildren`.  The loop stops at the first info whose node was already output
(`break`).  One unit of fuel is one pass of the loop. -/
def GetChildren_loop (g : EdGraph) (Infos : Nat → FFormatXInfo)
    (Dir : Option EEdGraphPinDirection) (bInitialDirectionOnly : Bool) :
    Nat → List Nat → List Nat → List Nat
  | 0, _, Out => Out
  | _ + 1, [], Out => Out
  | fuel + 1, cur :: rest, Out =>
    let Node := (Infos cur).Link.GetNode g
    if Node ∈ Out then Out
    else
      let next := if bInitialDirectionOnly then (Infos cur).Children
        else (Infos cur).Children.filter (FilterByDirection g Infos Dir)
      GetChildren_loop g Infos Dir bInitialDirectionOnly fuel (next.reverse ++ rest) (Out ++ [Node])

/-- `FFormatXInfo::GetChildren(Direction, bInitialDirectionOnly)` called on the info `self`.
Every pass of the loop either stops or outputs the node of an info of the arena that was not
output before, so `NumInfos + 1` passes are enough. -/
def GetChildren (g : EdGraph) (Infos : Nat → FFormatXInfo) (NumInfos : Nat) (self : Nat)
    (Dir : Option EEdGraphPinDirection) (bInitialDirectionOnly : Bool) : List Nat :=
  GetChildren_loop g Infos Dir bInitialDirectionOnly (NumInfos + 1)
    (((Infos self).Children.filter (FilterByDirection g Infos Dir)).reverse) []

/-- What `FormatX` reads from its surroundings.  `Env` is the state of the collaborators that
is not modelled (parameter formatters, sub-graph formatters, size cache).
`GetChildX` is `FEdGraphFormatter::GetChildX`, `RefreshFirstVisit` the block
`SubGraphFormatters[CurrentNode]->FormatNode(CurrentNode); RefreshParameters(CurrentNode)`
of lines 512-525, `RefreshParameters` the call of line 609; both may move nodes.
`GetExecTreeInput n` is `FBAUtils::GetExecTree(n, EGPD_Input)`. -/
structure FormatXParams (Env : Type) where
  g : EdGraph
  RootNode : Nat
  NodePool : List Nat
  bUseParameter : Bool
  bExpanded : Bool
  GetChildX : Env → (Nat → Int) → FPinLink → Int
  RefreshFirstVisit : Env → (Nat → Int) → Nat → Env × (Nat → Int)
  RefreshParameters : Env → (Nat → Int) → Nat → Env × (Nat → Int)
  GetExecTreeInput : Nat → List Nat

/-- The variables of `FEdGraphFormatter::FormatX` (EdGraphFormatter.cpp 460-702).
`Infos` is the arena of all `FFormatXInfo` objects made so far and `NumInfos` their number;
the two stacks have their top at the head. -/
structure FormatXState (Env : Type) where
  Infos : Nat → FFormatXInfo
  NumInfos : Nat
  FormatXInfoMap : Nat → Option Nat
  OutputStack : List Nat
  InputStack : List Nat
  LastDirection : EEdGraphPinDirection
  VisitedNodes : List Nat
  PendingNodes : List Nat
  VisitedLinks : List (Nat × Nat)
  NodesToExpand : List Nat
  Path : List FPinLink
  NodePosX : Nat → Int
  env : Env

/-- Write one `NodePosX`. -/
def setPosX (pos : Nat → Int) (Node : Nat) (x : Int) : Nat → Int :=
  fun m => if m = Node then x else pos m

/-- Lines 464-478: the state when the `while` loop is entered.  The root info is info 0; it is
on the output stack and already in `FormatXInfoMap`. -/
def FormatX_init {Env : Type} (P : FormatXParams Env) (pos : Nat → Int) (env : Env) :
    FormatXState Env :=
  { Infos := fun _ => { Link := { From := none, To := none, FallbackNode := P.RootNode },
                        Parent := none, Children := [] }
    NumInfos := 1
    FormatXInfoMap := fun n => if n = P.RootNode then some 0 else none
    OutputStack := [0]
    InputStack := []
    LastDirection := EEdGraphPinDirection.EGPD_Output
    VisitedNodes := []
    PendingNodes := [P.RootNode]
    VisitedLinks := []
    NodesToExpand := []
    Path := []
    NodePosX := pos
    env := env }

/-- Lines 480-495: choose the stack by `LastDirection` and pop.  Returns the popped info and
the two stacks (output, input) after the pop. -/
def FormatX_pop {Env : Type} (s : FormatXState Env) : Option (Nat × List Nat × List Nat) :=
  match s.LastDirection with
  | EEdGraphPinDirection.EGPD_Output =>
    match s.OutputStack, s.InputStack with
    | c :: o, i => some (c, o, i)
    | [], c :: i => some (c, [], i)
    | [], [] => none
  | EEdGraphPinDirection.EGPD_Input =>
    match s.InputStack, s.OutputStack with
    | c :: i, o => some (c, o, i)
    | [], c :: o => some (c, o, [])
    | [], [] => none

/-- Lines 612-622: push the children of the re-parented info again, each on the stack of its
link direction. -/
def FormatX_pushChildren (g : EdGraph) (Infos : Nat → FFormatXInfo) (Children : List Nat)
    (OutputStack InputStack : List Nat) : List Nat × List Nat :=
  Children.foldl
    (fun st c =>
      if (Infos c).Link.GetDirection g = EEdGraphPinDirection.EGPD_Output
      then (c :: st.1, st.2) else (st.1, c :: st.2))
    (OutputStack, InputStack)

/-- Lines 505-532: the popped info `cur` is the first one for its node. -/
def FormatX_firstVisit {Env : Type} (P : FormatXParams Env) (s : FormatXState Env)
    (cur : Nat) (NewX : Int) : FormatXState Env :=
  let CurrentNode := (s.Infos cur).Link.GetNode P.g
  let s1 :=
    if CurrentNode ≠ P.RootNode then
      let Infos1 := SetParent s.Infos cur (s.Infos cur).Parent
      let pos1 := setPosX s.NodePosX CurrentNode NewX
      let r := if P.bUseParameter then P.RefreshFirstVisit s.env pos1 CurrentNode
        else (s.env, pos1)
      { s with Infos := Infos1, NodePosX := r.2, env := r.1,
               Path := s.Path ++ [(s.Infos cur).Link] }
    else s
  { s1 with FormatXInfoMap := fun n => if n = CurrentNode then some cur else s1.FormatXInfoMap n }

/-- Lines 545-569: `bHasCycle` of the revisit branch, for the popped info `cur` and the
info `old` stored for its node. -/
def FormatX_bHasCycle {Env : Type} (P : FormatXParams Env) (s : FormatXState Env)
    (cur old : Nat) : Bool :=
  match (s.Infos cur).Link.From, (s.Infos cur).Parent with
  | some _, some par =>
    decide ((s.Infos par).Link.GetNode P.g ∈ GetChildren P.g s.Infos s.NumInfos old none true)
  | _, _ => false

/-- Lines 569-597: `bTakeNewParent` of the revisit branch (false when the outer conditions
fail). -/
def FormatX_bTakeNewParent {Env : Type} (P : FormatXParams Env) (s : FormatXState Env)
    (cur old : Nat) (NewX : Int) : Bool :=
  let bHasNoParent := (s.Infos cur).Link.From.isNone
  let bHasCycle := FormatX_bHasCycle P s cur old
  if bHasNoParent || !bHasCycle then
    if (s.Infos old).Parent.isSome then
      if bHasNoParent then true
      else
        let OldX := s.NodePosX ((s.Infos cur).Link.GetNode P.g)
        let bPositionIsBetter :=
          if (s.Infos cur).Link.From.map P.g.Direction = some EEdGraphPinDirection.EGPD_Output
          then decide (NewX > OldX) else decide (NewX < OldX)
        let bSameDirection :=
          decide ((s.Infos old).Link.To.map P.g.Direction = (s.Infos cur).Link.To.map P.g.Direction)
        bPositionIsBetter && bSameDirection
    else false
  else false

/-- Lines 533-628: the node of the popped info `cur` already has the info `old`.  Returns the
new state and the info that `CurrentInfo` designates afterwards. -/
def FormatX_revisit {Env : Type} (P : FormatXParams Env) (s : FormatXState Env)
    (cur old : Nat) (NewX : Int) : FormatXState Env × Nat :=
  if FormatX_bTakeNewParent P s cur old NewX then
    let CurrentNode := (s.Infos cur).Link.GetNode P.g
    let Infos1 := setInfo s.Infos old { s.Infos old with Link := (s.Infos cur).Link }
    let Infos2 := SetParent Infos1 old (Infos1 cur).Parent
    let pos1 := setPosX s.NodePosX CurrentNode NewX
    let r := if P.bUseParameter then P.RefreshParameters s.env pos1 CurrentNode else (s.env, pos1)
    let st := FormatX_pushChildren P.g Infos2 (Infos2 old).Children s.OutputStack s.InputStack
    ({ s with Infos := Infos2, NodePosX := r.2, env := r.1,
              OutputStack := st.1, InputStack := st.2,
              Path := s.Path ++ [(Infos2 old).Link] }, old)
  else (s, cur)

/-- The pairs (ParentPin, LinkedPin) in the order lines 630-636 enumerate them: linked
exec/delegate pins of the node from the last to the first, the links of each pin from the first
to the last. -/
def FormatX_linksOf (g : EdGraph) (Node : Nat) : List (Nat × Nat) :=
  (((GetLinkedPins g Node none).filter g.IsExecOrDelegatePin).reverse).flatMap
    (fun ParentPin => (g.LinkedTo ParentPin).map (fun LinkedPin => (ParentPin, LinkedPin)))

/-- Lines 638-693: the body of the inner loop for one pair (ParentPin, LinkedPin), with
`CurrentInfo` the info `cur`. -/
def FormatX_visitLink {Env : Type} (P : FormatXParams Env) (cur : Nat) (s : FormatXState Env)
    (l : Nat × Nat) : FormatXState Env :=
  let ParentPin := l.1
  let LinkedPin := l.2
  let LinkedNode := P.g.OwningNode LinkedPin
  if (ParentPin, LinkedPin) ∈ s.VisitedLinks then s
  else
    let s1 := { s with VisitedLinks := s.VisitedLinks ++ [(ParentPin, LinkedPin)] }
    if LinkedNode ∉ P.NodePool then s1
    else if P.g.IsNodePure LinkedNode then s1
    else
      let LinkedInfo : FFormatXInfo :=
        { Link := { From := some ParentPin, To := some LinkedPin, FallbackNode := LinkedNode },
          Parent := some cur, Children := [] }
      let id := s1.NumInfos
      let s2 := { s1 with Infos := setInfo s1.Infos id LinkedInfo, NumInfos := id + 1 }
      let s3 :=
        if P.g.Direction ParentPin = EEdGraphPinDirection.EGPD_Output then
          { s2 with OutputStack := id :: s2.OutputStack }
        else
          let CurrentNode := (s2.Infos cur).Link.GetNode P.g
          let bHasCycle := decide (LinkedNode ∈ s2.PendingNodes) ||
            decide (CurrentNode ∈ P.GetExecTreeInput LinkedNode)
          let expand := P.bExpanded && !bHasCycle &&
            decide ((s2.Infos cur).Link.GetDirection P.g = EEdGraphPinDirection.EGPD_Output) &&
            (match (s2.Infos cur).Parent with
              | none => true
              | some par => decide (LinkedNode ≠ (s2.Infos par).Link.GetNode P.g))
          { s2 with NodesToExpand := if expand then TSetAdd s2.NodesToExpand cur
                                     else s2.NodesToExpand,
                    InputStack := id :: s2.InputStack }
      { s3 with PendingNodes := TSetAdd s3.PendingNodes LinkedNode }

/-- Lines 497-500: the state right after the pop of the info `cur`: the stacks without it,
`LastDirection` updated, the node of `cur` recorded as visited. -/
def FormatX_afterPop {Env : Type} (P : FormatXParams Env) (s : FormatXState Env)
    (cur : Nat) (out inp : List Nat) : FormatXState Env :=
  { s with OutputStack := out, InputStack := inp,
           LastDirection := (s.Infos cur).Link.GetDirection P.g,
           VisitedNodes := TSetAdd s.VisitedNodes ((s.Infos cur).Link.GetNode P.g) }

/-- One pass of the `while` loop of `FormatX` (lines 480-696).  With both stacks empty the
loop has ended and the state is returned unchanged. -/
def FormatX_step {Env : Type} (P : FormatXParams Env) (s : FormatXState Env) :
    FormatXState Env :=
  match FormatX_pop s with
  | none => s
  | some (cur, out, inp) =>
    let CurrentNode := (s.Infos cur).Link.GetNode P.g
    let s0 := FormatX_afterPop P s cur out inp
    let NewX := P.GetChildX s0.env s0.NodePosX (s0.Infos cur).Link
    let r : FormatXState Env × Nat :=
      match s0.FormatXInfoMap CurrentNode with
      | none => (FormatX_firstVisit P s0 cur NewX, cur)
      | some old => FormatX_revisit P s0 cur old NewX
    (FormatX_linksOf P.g ((r.1.Infos r.2).Link.GetNode P.g)).foldl (FormatX_visitLink P r.2) r.1

/-- The `while` loop of `FormatX` run for at most `fuel` passes. -/
def FormatX_loop {Env : Type} (P : FormatXParams Env) : Nat → FormatXState Env → FormatXState Env
  | 0, s => s
  | fuel + 1, s => FormatX_loop P fuel (FormatX_step P s)

/-- The loop condition of `FormatX` is false: both stacks are empty. -/
def FormatX_done {Env : Type} (s : FormatXState Env) : Bool :=
  s.OutputStack.isEmpty && s.InputStack.isEmpty

/-- `FEdGraphFormatter::GetChildX` (EdGraphFormatter.cpp 2050-2113) when comment handling is
off and `bUseClusterNodes` is false, so that every `GetRelativeNodeBounds` call returns the
cached bounds of the node (lines 2254-2257) and `ParentBounds` stays the parent's own bounds.
The cached bounds are those of `FBAGraphHandler::GetCachedNodeBounds`
(BlueprintAssistGraphHandler.cpp 1488-1513): `Left` is the `NodePosX` converted to `float`
and `Right` is `Left` plus the cached width `Width`, a `float`.  `NodePaddingX` is
`NodePadding.X`.  A link has both pins or, for the root, none. -/
def GetChildX_plain (g : EdGraph) (Width : Nat → Float32) (NodePaddingX : Float32) (_ : Unit)
    (pos : Nat → Int) (Link : FPinLink) : Int :=
  match Link.From, Link.To with
  | some f, some t =>
    let Parent := g.OwningNode f
    let Child := g.OwningNode t
    let ParentLeft := Float32.ofInt (pos Parent)
    let ParentRight := Float32.add ParentLeft (Width Parent)
    let ChildLeft := Float32.ofInt (pos Child)
    let ChildRight := Float32.add ChildLeft (Width Child)
    if g.Direction f = EEdGraphPinDirection.EGPD_Input
    then RoundToInt (Float32.sub (Float32.sub ParentLeft (Float32.sub ChildRight ChildLeft))
      NodePaddingX)
    else RoundToInt (Float32.add (Float32.add ParentRight (Float32.sub ChildLeft ChildLeft))
      NodePaddingX)
  | _, _ => (Float32.ofInt (pos (Link.GetNode g))).toInt

/-- The left edge of `FBAUtils::GetCachedNodeArrayBounds` for nodes without comment bubble.
Modelled from the spec, the helper being absent from the sources: the least left edge of the
cached bounds of the nodes. -/
def CachedNodeArrayLeft (pos : Nat → Int) (Nodes : List Nat) : Float32 :=
  match Nodes with
  | [] => ⟨0⟩
  | n :: rest =>
    rest.foldl
      (fun m k => if (Float32.ofInt (pos k)).units < m.units then Float32.ofInt (pos k) else m)
      (Float32.ofInt (pos n))

/-- The body of the loop of `FEdGraphFormatter::ExpandPendingNodes` (EdGraphFormatter.cpp
377-437) for one info of `NodesToExpand`; the result `none` is the `return` of line 384.
`InputBoundsLeft env pos InputChildren Parent` is `InputBounds.Left` and
`ParentBoundsRight env pos Parent Node` is `ParentBounds.Right` as lines 395-407 compute
them (cached, cluster or relative bounds, by `bUseParameter` and `bAccountForComments`). -/
def ExpandPendingNodes_info {Env : Type} (P : FormatXParams Env)
    (InputBoundsLeft : Env → (Nat → Int) → List Nat → Nat → Float32)
    (ParentBoundsRight : Env → (Nat → Int) → Nat → Nat → Float32)
    (NodePaddingX : Float32) (s : FormatXState Env) (Info : Nat) :
    Option (FormatXState Env) :=
  match (s.Infos Info).Parent with
  | none => none
  | some par =>
    let Node := (s.Infos Info).Link.GetNode P.g
    let Parent := (s.Infos par).Link.GetNode P.g
    let InputChildren :=
      GetChildren P.g s.Infos s.NumInfos Info (some EEdGraphPinDirection.EGPD_Input) true
    if InputChildren.length > 0 then
      let InputLeft := InputBoundsLeft s.env s.NodePosX InputChildren Parent
      let ParentRight := ParentBoundsRight s.env s.NodePosX Parent Node
      if ParentRight.units > InputLeft.units then
        let Delta := Float32.add (Float32.sub ParentRight InputLeft) NodePaddingX
        let move := fun (st : Env × (Nat → Int)) (n : Nat) =>
          let pos1 := setPosX st.2 n (addFloatToInt32 (st.2 n) Delta)
          if P.bUseParameter then P.RefreshParameters st.1 pos1 n else (st.1, pos1)
        let AllChildren := GetChildren P.g s.Infos s.NumInfos Info none true
        let r := AllChildren.foldl move (move (s.env, s.NodePosX) Node)
        some { s with env := r.1, NodePosX := r.2 }
      else some s
    else some s

/-- `FEdGraphFormatter::ExpandPendingNodes` (EdGraphFormatter.cpp 377-437): the loop over
`NodesToExpand`, left at the first info without parent. -/
def ExpandPendingNodes {Env : Type} (P : FormatXParams Env)
    (InputBoundsLeft : Env → (Nat → Int) → List Nat → Nat → Float32)
    (ParentBoundsRight : Env → (Nat → Int) → Nat → Nat → Float32)
    (NodePaddingX : Float32) (s : FormatXState Env) : FormatXState Env :=
  (s.NodesToExpand.foldl
    (fun (st : FormatXState Env × Bool) Info =>
      if st.2 then st
      else
        match ExpandPendingNodes_info P InputBoundsLeft ParentBoundsRight NodePaddingX st.1 Info
        with
        | none => (st.1, true)
        | some s1 => (s1, false))
    (s, false)).1

/-- `FEdGraphFormatter::FormatX` (EdGraphFormatter.cpp 460-702): the worklist loop, run for
`fuel` passes, followed in the formatting style `Expanded` by `ExpandPendingNodes`
(lines 698-701). -/
def FormatX {Env : Type} (P : FormatXParams Env)
    (InputBoundsLeft : Env → (Nat → Int) → List Nat → Nat → Float32)
    (ParentBoundsRight : Env → (Nat → Int) → Nat → Nat → Float32)
    (NodePaddingX : Float32) (fuel : Nat) (pos : Nat → Int) (env : Env) : FormatXState Env :=
  if P.bExpanded then
    ExpandPendingNodes P InputBoundsLeft ParentBoundsRight NodePaddingX
      (FormatX_loop P fuel (FormatX_init P pos env))
  else FormatX_loop P fuel (FormatX_init P pos env)

/-- `FormatX(false)` without comment handling: `FormatX` with the cached bounds for
`GetChildX` and for `ExpandPendingNodes`. -/
def FormatX_plain (P : FormatXParams Unit) (Width : Nat → Float32) (NodePaddingX : Float32)
    (fuel : Nat) (pos : Nat → Int) : FormatXState Unit :=
  FormatX P (fun _ p InputChildren _ => CachedNodeArrayLeft p InputChildren)
    (fun _ p Parent _ => Float32.add (Float32.ofInt (p Parent)) (Width Parent))
    NodePaddingX fuel pos ()

/-- A graph of two impure nodes: the root 0 with the execution output pin 0, and node 1 with
the execution input pin 1 and the execution output pin 2.  Pin 0 is wired to pin 1, and pin 2
is wired back to pin 1 of its own node. -/
def selfLinkGraph : EdGraph :=
  { Pins := fun n => if n = 0 then [0] else if n = 1 then [1, 2] else []
    OwningNode := fun p => if p = 0 then 0 else 1
    Direction := fun p =>
      if p = 1 then EEdGraphPinDirection.EGPD_Input else EEdGraphPinDirection.EGPD_Output
    LinkedTo := fun p => if p = 0 then [1] else if p = 1 then [0, 2] else if p = 2 then [1] else []
    IsExecOrDelegatePin := fun _ => true
    IsNodePure := fun _ => false }

/-- `FormatX(false)` on `selfLinkGraph` from root 0 with both nodes in the node pool, every
node 100 wide, horizontal padding 80. -/
def selfLinkParams : FormatXParams Unit :=
  { g := selfLinkGraph
    RootNode := 0
    NodePool := [0, 1]
    bUseParameter := false
    bExpanded := true
    GetChildX := GetChildX_plain selfLinkGraph (fun _ => Float32.ofInt 100) (Float32.ofInt 80)
    RefreshFirstVisit := fun e p _ => (e, p)
    RefreshParameters := fun e p _ => (e, p)
    GetExecTreeInput := fun _ => [] }

/-! ### Incremental-change detector: snapshots, `IsFormattingRequired`, the relative shortcut -/

/-- The value of an `int32` expression: the integer result reduced modulo 2^32 into
[-2^31, 2^31). -/
def wrapInt32 (x : Int) : Int := (x + 2147483648) % 4294967296 - 2147483648

/-- A coordinate is a value of type `int32`. -/
def IsInt32 (x : Int) : Prop := -2147483648 ≤ x ∧ x < 2147483648

/-- `FNodeChangeInfo`: the per-node snapshot.  `Links` holds the pairs (Pin, LinkedPin). -/
structure FNodeChangeInfo where
  bIsNodeToKeepStill : Bool
  NodeX : Int
  NodeY : Int
  NodeOffsetX : Int
  NodeOffsetY : Int
  Links : List (Nat × Nat)
  deriving DecidableEq, Repr

/-- The double loop `for Pin : Node->Pins, for LinkedPin : Pin->LinkedTo` that both
`UpdateValues` and `HasChanged` run: every (Pin, LinkedPin) of the node, in order. -/
def NodeLinks (g : EdGraph) (Node : Nat) : List (Nat × Nat) :=
  (g.Pins Node).flatMap (fun Pin => (g.LinkedTo Pin).map (fun LinkedPin => (Pin, LinkedPin)))

/-- `FNodeChangeInfo::UpdateValues` (EdGraphFormatter.cpp 26-42). -/
def FNodeChangeInfo.UpdateValues (g : EdGraph) (p : NodePositions) (Node NodeToKeepStill : Nat)
    (info : FNodeChangeInfo) : FNodeChangeInfo :=
  { info with
    NodeX := p.NodePosX Node
    NodeY := p.NodePosY Node
    NodeOffsetX := wrapInt32 (p.NodePosX Node - p.NodePosX NodeToKeepStill)
    NodeOffsetY := wrapInt32 (p.NodePosY Node - p.NodePosY NodeToKeepStill)
    Links := NodeLinks g Node }

/-- The constructor `FNodeChangeInfo::FNodeChangeInfo` (EdGraphFormatter.cpp 19-24). -/
def FNodeChangeInfo.make (g : EdGraph) (p : NodePositions) (Node NodeToKeepStill : Nat) :
    FNodeChangeInfo :=
  FNodeChangeInfo.UpdateValues g p Node NodeToKeepStill
    { bIsNodeToKeepStill := decide (Node = NodeToKeepStill)
      NodeX := 0, NodeY := 0, NodeOffsetX := 0, NodeOffsetY := 0, Links := [] }

/-- `FNodeChangeInfo::HasChanged` (EdGraphFormatter.cpp 44-72) for the snapshot `info` of
`Node`.  `NewLinks` is a `TSet`, so its `Num()` counts distinct links.  The argument
`NodeToKeepStill` of the source is not used by its body. -/
def FNodeChangeInfo.HasChanged (g : EdGraph) (info : FNodeChangeInfo) (Node : Nat) : Bool :=
  let NewLinks := (NodeLinks g Node).dedup
  if NewLinks.length ≠ info.Links.length then true
  else info.Links.any (fun Link => decide (Link ∉ NewLinks))

/-- What the detector reads from the live graph besides pins and links:
`FBAUtils::IsNodeDeleted`, `FBAUtils::GetCommentNodesFromGraph` and
`FBAUtils::GetNodesUnderComment`. -/
structure GraphComments where
  IsNodeDeleted : Nat → Bool
  CommentNodes : List Nat
  NodesUnderComment : Nat → List Nat

/-- The members of `FEdGraphFormatter` that the detector and the shortcut read.
`FormattedNodes` is the value of `GetFormattedNodes()`; `CommentNodesContains` is a `TMap`
kept as a list of (comment, contained nodes) in insertion order. -/
structure FormatterCache where
  NodeToKeepStill : Nat
  NodeTree : List Nat
  FormattedNodes : List Nat
  NodeChangeInfos : Nat → Option FNodeChangeInfo
  CommentNodesContains : List (Nat × List Nat)

/-- `CommentNodesContains.FindOrAdd(Comment).Add(Node)`. -/
def TMapFindOrAddAdd (m : List (Nat × List Nat)) (Comment Node : Nat) : List (Nat × List Nat) :=
  if m.any (fun e => decide (e.1 = Comment)) then
    m.map (fun e => if e.1 = Comment then (e.1, e.2 ++ [Node]) else e)
  else m ++ [(Comment, [Node])]

/-- `FEdGraphFormatter::InitCommentNodeInfo` (EdGraphFormatter.cpp 750-786), the map
`CommentNodesContains` it builds.  `SortedComments` is the comment list of the graph after
the sort by `CommentDepth`. -/
def InitCommentNodeInfo (NodeTree : List Nat) (SortedComments : List Nat)
    (NodesUnderComment : Nat → List Nat) : List (Nat × List Nat) :=
  SortedComments.foldl
    (fun m Comment =>
      (NodesUnderComment Comment).foldl
        (fun m' Node => if Node ∈ NodeTree then TMapFindOrAddAdd m' Comment Node else m') m)
    []

/-- `FEdGraphFormatter::IsFormattingRequired` (EdGraphFormatter.cpp 2712-2806). -/
def IsFormattingRequired (g : EdGraph) (c : GraphComments) (f : FormatterCache)
    (NewNodeTree : List Nat) : Bool :=
  if f.NodeToKeepStill ∉ NewNodeTree then true
  else if f.NodeTree.any c.IsNodeDeleted then true
  else if f.NodeTree.length ≠ NewNodeTree.length then true
  else if NewNodeTree.any (fun Node => decide (Node ∉ f.NodeTree)) then true
  else if f.FormattedNodes.any (fun Node =>
      match f.NodeChangeInfos Node with
      | some ChangeInfo => ChangeInfo.HasChanged g Node
      | none => false) then true
  else
    let CachedComments := f.CommentNodesContains.map (·.1)
    if c.CommentNodes.any (fun Comment =>
        (c.NodesUnderComment Comment).any (fun Node => decide (Node ∈ f.NodeTree)) &&
          decide (Comment ∉ CachedComments)) then true
    else if f.CommentNodesContains.any (fun e =>
        decide (e.1 ∉ c.CommentNodes) ||
        decide (e.2.length ≠ (c.NodesUnderComment e.1).length) ||
        e.2.any (fun Contained => decide (Contained ∉ c.NodesUnderComment e.1))) then true
    else false

/-- `FEdGraphFormatter::SaveFormattingEndInfo` (EdGraphFormatter.cpp 2808-2826), the map
`NodeChangeInfos` it leaves. -/
def SaveFormattingEndInfo (g : EdGraph) (p : NodePositions) (NodeToKeepStill : Nat)
    (FormattedNodes : List Nat) (NodeChangeInfos : Nat → Option FNodeChangeInfo) :
    Nat → Option FNodeChangeInfo :=
  FormattedNodes.foldl
    (fun m Node =>
      match m Node with
      | some info => fun n => if n = Node
          then some (info.UpdateValues g p Node NodeToKeepStill) else m n
      | none => fun n => if n = Node
          then some (FNodeChangeInfo.make g p Node NodeToKeepStill) else m n)
    NodeChangeInfos

/-- The loop of `FEdGraphFormatter::SimpleRelativeFormatting` (EdGraphFormatter.cpp 441-453):
the positions after it.  The anchor position is read again for every node, and the sums are
`int32` sums. -/
def SimpleRelativeFormatting_positions (NodeToKeepStill : Nat) (FormattedNodes : List Nat)
    (NodeChangeInfos : Nat → Option FNodeChangeInfo) (p : NodePositions) : NodePositions :=
  FormattedNodes.foldl
    (fun q Node =>
      match NodeChangeInfos Node with
      | some info =>
        { NodePosX := fun m => if m = Node
            then wrapInt32 (q.NodePosX NodeToKeepStill + info.NodeOffsetX) else q.NodePosX m
          NodePosY := fun m => if m = Node
            then wrapInt32 (q.NodePosY NodeToKeepStill + info.NodeOffsetY) else q.NodePosY m }
      | none => q)
    p

/-- The state of the formatter right after a full pass of `FormatNode` (lines 108-292):
`NodeToKeepStill` is the given anchor or else the root (line 153), `CommentNodesContains` was
built by `InitCommentNodeInfo` from the node tree `NodeTreeStart` computed at line 110, the
snapshots were taken by `SaveFormattingEndInfo` on the final graph and positions, and
`NodeTree` was refreshed at line 292 (`NodeTreeEnd`). -/
def FormatNode_endCache (g : EdGraph) (c : GraphComments) (p : NodePositions)
    (RootNode : Nat) (ParamNodeToKeepStill : Option Nat)
    (NodeTreeStart NodeTreeEnd FormattedNodes : List Nat) : FormatterCache :=
  let NodeToKeepStill := match ParamNodeToKeepStill with
    | some a => a
    | none => RootNode
  { NodeToKeepStill := NodeToKeepStill
    NodeTree := NodeTreeEnd
    FormattedNodes := FormattedNodes
    NodeChangeInfos := SaveFormattingEndInfo g p NodeToKeepStill FormattedNodes (fun _ => none)
    CommentNodesContains := InitCommentNodeInfo NodeTreeStart c.CommentNodes c.NodesUnderComment }

/-- Lines 122-127 of `FormatNode`: whether a call takes the relative shortcut. -/
def FormatNode_takesShortcut (bEnableFasterFormatting : Bool) (g : EdGraph) (c : GraphComments)
    (f : FormatterCache) (NewNodeTree : List Nat) : Bool :=
  bEnableFasterFormatting && !IsFormattingRequired g c f NewNodeTree

/-- Two nodes: node 0 with the output pin 0, node 1 with the input pin 1, one wire between
the two pins. -/
def twoNodeGraph : EdGraph :=
  { Pins := fun n => if n = 0 then [0] else if n = 1 then [1] else []
    OwningNode := fun p => if p = 0 then 0 else 1
    Direction := fun p =>
      if p = 0 then EEdGraphPinDirection.EGPD_Output else EEdGraphPinDirection.EGPD_Input
    LinkedTo := fun p => if p = 0 then [1] else if p = 1 then [0] else []
    IsExecOrDelegatePin := fun _ => true
    IsNodePure := fun _ => false }

/-- Positions with node 0 at (x0, y0) and every other node at (x1, y1). -/
def twoNodePositions (x0 y0 x1 y1 : Int) : NodePositions :=
  { NodePosX := fun n => if n = 0 then x0 else x1
    NodePosY := fun n => if n = 0 then y0 else y1 }

/-- A graph without comment boxes and without deleted nodes. -/
def noComments : GraphComments :=
  { IsNodeDeleted := fun _ => false, CommentNodes := [], NodesUnderComment := fun _ => [] }

/-- A snapshot of node 1 of `twoNodeGraph` at offset (200, 0) with its wire (pin 1, pin 0). -/
def sampleInfo : FNodeChangeInfo :=
  { bIsNodeToKeepStill := false
    NodeX := 200
    NodeY := 0
    NodeOffsetX := 200
    NodeOffsetY := 0
    Links := [(1, 0)] }

/-- A formatter cache for `twoNodeGraph`: anchor 0, recorded tree {0, 1}, node 1 snapshotted
by `sampleInfo`, box 9 cached with the single member 1. -/
def sampleCache : FormatterCache :=
  { NodeToKeepStill := 0
    NodeTree := [0, 1]
    FormattedNodes := [0, 1]
    NodeChangeInfos := fun n => if n = 1 then some sampleInfo else none
    CommentNodesContains := [(9, [1])] }

/-- The nodes of `twoNodeGraph` after the wire was removed. -/
def unlinkedGraph : EdGraph :=
  { twoNodeGraph with LinkedTo := fun _ => [] }

/-- One comment box, 9, whose only member is node 1. -/
def boxAroundNode1 : GraphComments :=
  { IsNodeDeleted := fun _ => false
    CommentNodes := [9]
    NodesUnderComment := fun b => if b = 9 then [1] else [] }

/-! ### Knot tracks: `MakeKnotTracksForParameterPins`, `RemoveUselessCreationNodes`,
`CreateKnotTracks` -/

/-- What knot synthesis reads from its surroundings.  Coordinates are `float` in the source
and hold integers here.  `PinPos` is `FBAUtils::GetPinPos` (its second component is
`GetPinY`), `PinNodePos` the `NodePosX`/`NodePosY` of the pin's owning node, `PinNode`
the owning node.  `FormattedNodes` is `GetFormattedNodes()` and `FormattedGraphNodes` is
`GetFormattedGraphNodes()`.
`LineHitsNode n x1 x2 y` is `FBAUtils::LineRectIntersection` of the cached bounds of node
`n`, extended vertically by `TrackSpacing - 1`, with the horizontal segment from (x1, y)
to (x2, y); `ExtendedBottom n` is the bottom of those extended bounds.
`LineRectIntersection n Start End` is `FBAUtils::LineRectIntersection` of the same extended
bounds of node `n` with the segment from `Start` to `End` (the helper is not part of the
available sources). -/
structure KnotWorld where
  PinPos : Nat → Int × Int
  PinNode : Nat → Nat
  PinNodePos : Nat → Int × Int
  PinDirection : Nat → EEdGraphPinDirection
  IsExecPin : Nat → Bool
  IsParameterPin : Nat → Bool
  FormattedNodes : List Nat
  FormattedGraphNodes : List Nat
  LineHitsNode : Nat → Int → Int → Int → Bool
  LineRectIntersection : Nat → Int × Int → Int × Int → Bool
  ExtendedBottom : Nat → Int
  NodePaddingX : Int
  PinPaddingX : Int
  KnotNodeDistanceThreshold : Int
  bExpandNodesByHeight : Bool

/-- `FEdGraphFormatter::NodeCollisionBetweenLocation` (EdGraphFormatter.cpp 3166-3186): the
loop over `GetFormattedGraphNodes()` that skips the ignored nodes and returns at the first
node whose bounds, extended by `TrackSpacing - 1`, the segment from `Start` to `End`
meets. -/
def KnotWorld.NodeCollisionBetweenLocation (w : KnotWorld) (Start End : Int × Int)
    (IgnoredNodes : List Nat) : Bool :=
  w.FormattedGraphNodes.any (fun NodeToCollisionCheck =>
    !decide (NodeToCollisionCheck ∈ IgnoredNodes) &&
      w.LineRectIntersection NodeToCollisionCheck Start End)

/-- `FEdGraphFormatter::AnyCollisionBetweenPins` (EdGraphFormatter.cpp 3156-3164): the
collision test between the positions of the two pins, the owning nodes of the two pins being
ignored. -/
def KnotWorld.AnyCollisionBetweenPins (w : KnotWorld) (Pin OtherPin : Nat) : Bool :=
  w.NodeCollisionBetweenLocation (w.PinPos Pin) (w.PinPos OtherPin)
    [w.PinNode Pin, w.PinNode OtherPin]

/-- `FKnotNodeCreation`.  Its constructor stores the position, the creation to connect to and
the pin handle, and puts that pin into `PinHandlesToConnectTo`. -/
structure FKnotNodeCreation where
  KnotPosX : Int
  KnotPosY : Int
  KnotToConnectTo : Option Nat
  PinToConnectToHandle : Nat
  PinHandlesToConnectTo : List Nat
  CreatedKnot : Option Nat
  deriving DecidableEq, Repr

/-- The constructor of `FKnotNodeCreation` with a non-null pin. -/
def FKnotNodeCreation.make (KnotPosX KnotPosY : Int) (KnotToConnectTo : Option Nat)
    (PinToConnectTo : Nat) : FKnotNodeCreation :=
  { KnotPosX := KnotPosX, KnotPosY := KnotPosY, KnotToConnectTo := KnotToConnectTo
    PinToConnectToHandle := PinToConnectTo, PinHandlesToConnectTo := [PinToConnectTo]
    CreatedKnot := none }

/-- `FKnotNodeTrack` (GraphFormatterTypes.cpp 250-464).  `KnotCreations` holds indices into
the arena of creations. -/
structure FKnotNodeTrack where
  ParentPin : Nat
  LinkedTo : List Nat
  TrackHeight : Int
  PinToAlignTo : Option Nat
  PinAlignedX : Int
  bIsLoopingTrack : Bool
  KnotCreations : List Nat
  deriving DecidableEq, Repr

/-- `FKnotNodeTrack::GetLastPin`: `LinkedTo.Last()`; the parent pin stands in for the value
of the empty list, which the source never asks for. -/
def FKnotNodeTrack.GetLastPin (t : FKnotNodeTrack) : Nat :=
  t.LinkedTo.getLast?.getD t.ParentPin

/-- `FKnotNodeTrack::GetTrackHeight` (GraphFormatterTypes.cpp 236-244). -/
def FKnotNodeTrack.GetTrackHeight (w : KnotWorld) (t : FKnotNodeTrack) : Int :=
  match t.PinToAlignTo with
  | some Pin => (w.PinPos Pin).2
  | none => t.TrackHeight

/-- The loop of `FKnotNodeTrack::TryAlignTrack` (GraphFormatterTypes.cpp 427-459): no
formatted node other than the two end nodes is hit by the segment at `TestHeight`. -/
def FKnotNodeTrack.TryAlignTrack (w : KnotWorld) (t : FKnotNodeTrack)
    (TrackStart TrackEnd TestHeight : Int) : Bool :=
  w.FormattedNodes.all (fun n =>
    decide (n = w.PinNode t.ParentPin) || decide (n = w.PinNode t.GetLastPin) ||
      !w.LineHitsNode n TrackStart TrackEnd TestHeight)

/-- One pass of the downward scan of `SetTrackHeight` (lines 344-367) over the formatted
nodes: returns `bNoCollisionInDirection` and the new `TestSolution`.  `StartPoint` and
`EndPoint` are made once, before the inner loop, so every node is tested at the height the
pass started with. -/
def FKnotNodeTrack.scanPass (w : KnotWorld) (t : FKnotNodeTrack) (TrackStart TrackEnd : Int)
    (TestSolution : Int) : Bool × Int :=
  w.FormattedNodes.foldl
    (fun st n =>
      if n = w.PinNode t.ParentPin ∨ n = w.PinNode t.GetLastPin then st
      else if w.LineHitsNode n TrackStart TrackEnd TestSolution then
        (false, w.ExtendedBottom n + 1)
      else st)
    (true, TestSolution)

/-- The `for (int i = 0; i < 100; ++i)` loop of `SetTrackHeight` with `fuel` passes left:
the `TrackHeight` it leaves (`old` when no pass ends without collision). -/
def FKnotNodeTrack.scan (w : KnotWorld) (t : FKnotNodeTrack) (TrackStart TrackEnd : Int)
    (old : Int) : Nat → Int → Int
  | 0, _ => old
  | fuel + 1, TestSolution =>
    let r := FKnotNodeTrack.scanPass w t TrackStart TrackEnd TestSolution
    if r.1 then r.2 else FKnotNodeTrack.scan w t TrackStart TrackEnd old fuel r.2

/-- `FKnotNodeTrack::SetTrackHeight` (GraphFormatterTypes.cpp 309-375), called by the
constructor: the track with its height chosen.  `GetTrackBounds().Left` is
min(parent x, last x) + 5 and `.Right` is max(parent x, last x) - 5. -/
def FKnotNodeTrack.SetTrackHeight (w : KnotWorld) (t : FKnotNodeTrack) : FKnotNodeTrack :=
  let ParentX := (w.PinPos t.ParentPin).1
  let LastPinX := (w.PinPos t.GetLastPin).1
  let TrackStart := min ParentX LastPinX + 5 + 10
  let TrackEnd := max ParentX LastPinX - 5 - 10
  if t.bIsLoopingTrack then t
  else if t.TryAlignTrack w TrackStart TrackEnd (w.PinPos t.ParentPin).2 then
    { t with TrackHeight := (w.PinPos t.ParentPin).2 }
  else if t.TryAlignTrack w TrackStart TrackEnd (w.PinPos t.GetLastPin).2 then
    { t with TrackHeight := (w.PinPos t.GetLastPin).2 }
  else
    { t with TrackHeight :=
        FKnotNodeTrack.scan w t TrackStart TrackEnd t.TrackHeight 100 (w.PinPos t.GetLastPin).2 }

/-- The state of knot synthesis: the live links (`LinkedTo` of every pin), the arena of
creations, the tracks (`KnotTracks`), the created knot nodes (`KnotNodesSet`) and the
direction of the pins of created knots.  Knot number `k` has the input pin `2 * k` and the
output pin `2 * k + 1` above `PinBase`. -/
structure KnotState where
  LinkedTo : Nat → List Nat
  Creations : Nat → FKnotNodeCreation
  NumCreations : Nat
  KnotTracks : List FKnotNodeTrack
  NumKnots : Nat
  PinBase : Nat

/-- `UEdGraphPin::BreakLinkTo`. -/
def BreakLinkTo (LinkedTo : Nat → List Nat) (a b : Nat) : Nat → List Nat :=
  fun p => if p = a then (LinkedTo p).filter (· ≠ b)
    else if p = b then (LinkedTo p).filter (· ≠ a) else LinkedTo p

/-- `UEdGraphPin::MakeLinkTo`: link the two pins unless they are linked already. -/
def MakeLinkTo (LinkedTo : Nat → List Nat) (a b : Nat) : Nat → List Nat :=
  if b ∈ LinkedTo a then LinkedTo
  else fun p => if p = a then LinkedTo p ++ [b]
    else if p = b then LinkedTo p ++ [a] else LinkedTo p

/-- The steepness test `FMath::Abs(ToLast.Y) / FMath::Abs(ToLast.X) >= 2.75f` on `float`:
with a zero divisor the quotient is +infinity (test true) unless the dividend is zero too
(NaN, test false). -/
def bTooSteep (dx dy : Int) : Bool :=
  if dx = 0 then decide (dy ≠ 0) else decide (4 * |dy| ≥ 11 * |dx|)

/-- `FEdGraphFormatter::TryAlignTrackToEndPins` (EdGraphFormatter.cpp 3043-3133) for a track
that is the only one in `KnotTracks`, so that the loop over the other tracks finds nothing:
the track after the call. -/
def TryAlignTrackToEndPins_single (w : KnotWorld) (t : FKnotNodeTrack) : FKnotNodeTrack :=
  let ParentPinY := (w.PinPos t.ParentPin).2
  let LastPinY := (w.PinPos t.GetLastPin).2
  let bPreferParentPin := w.IsExecPin t.ParentPin || decide (ParentPinY > LastPinY)
  let attempt (prefer : Bool) : Option FKnotNodeTrack :=
    let SourcePin := if prefer then t.ParentPin else t.GetLastPin
    let OtherPin := if prefer then t.GetLastPin else t.ParentPin
    let PaddingX := if w.IsParameterPin OtherPin then w.PinPaddingX else w.NodePaddingX
    let PointX := if w.PinDirection SourcePin = EEdGraphPinDirection.EGPD_Output
      then (w.PinPos OtherPin).1 - PaddingX else (w.PinPos OtherPin).1 + PaddingX
    let bAnyCollision := w.FormattedNodes.any (fun n =>
      !(decide (n = w.PinNode SourcePin) || decide (n = w.PinNode OtherPin)) &&
        w.LineHitsNode n (w.PinPos SourcePin).1 PointX (w.PinPos SourcePin).2)
    if bAnyCollision then none
    else some { t with PinAlignedX := PointX, TrackHeight := (w.PinPos SourcePin).2,
                       PinToAlignTo := some SourcePin }
  match attempt bPreferParentPin with
  | some t' => t'
  | none =>
    match attempt (!bPreferParentPin) with
    | some t' => t'
    | none => t

/-- Lines 3488-3510 of `MakeKnotTracksForParameterPins`: the body of the loop over
`KnotTrack->LinkedTo` for one pin.  The state is (links, creations, number of creations,
creation list of the track, `PreviousKnot`). -/
def MakeKnotTracksForParameterPins_pin (w : KnotWorld) (ParentPin : Nat) (TrackHeight : Int)
    (st : (Nat → List Nat) × (Nat → FKnotNodeCreation) × Nat × List Nat × Nat) (OtherPin : Nat) :
    (Nat → List Nat) × (Nat → FKnotNodeCreation) × Nat × List Nat × Nat :=
  let LinkedTo := BreakLinkTo st.1 ParentPin OtherPin
  let Creations := st.2.1
  let Num := st.2.2.1
  let Track := st.2.2.2.1
  let PreviousKnot := st.2.2.2.2
  let KnotX := max ((w.PinPos OtherPin).1 - w.PinPaddingX) ((w.PinPos ParentPin).1 + w.PinPaddingX)
  if |KnotX - (Creations PreviousKnot).KnotPosX| < 50 then
    (LinkedTo,
     fun i => if i = PreviousKnot then
       { Creations i with KnotPosX := KnotX,
                          PinHandlesToConnectTo := TSetAdd (Creations i).PinHandlesToConnectTo OtherPin }
       else Creations i,
     Num, Track, PreviousKnot)
  else
    (LinkedTo,
     fun i => if i = Num then FKnotNodeCreation.make KnotX TrackHeight (some PreviousKnot) OtherPin
       else Creations i,
     Num + 1, Track ++ [Num], Num)

/-- `FEdGraphFormatter::DoesPinNeedTrack` (EdGraphFormatter.cpp 3135-3154). -/
def DoesPinNeedTrack (w : KnotWorld) (Pin : Nat) (LinkedTo : List Nat) : Bool :=
  match LinkedTo with
  | [] => false
  | [OtherPin] => w.AnyCollisionBetweenPins Pin OtherPin
  | _ => true

/-- `FEdGraphFormatter::MakeKnotTracksForParameterPins` (EdGraphFormatter.cpp 3409-3515) called
with no other track in `KnotTracks`.  `SortedPins` is `LinkedPins` after the removal of the
pins that are too close (lines 3415-3425) and the sort of line 3441; `bPreviousHasTrack` is
`PreviousTracks.Num() > 0`.  When a track is made it is appended to `KnotTracks`. -/
def MakeKnotTracksForParameterPins (w : KnotWorld) (s : KnotState) (ParentPin : Nat)
    (SortedPins : List Nat) (bPreviousHasTrack : Bool) : KnotState :=
  match SortedPins.getLast? with
  | none => s
  | some LastPin =>
    let ParentPinPos := w.PinPos ParentPin
    let LastPinPos := w.PinPos LastPin
    let Dist := |ParentPinPos.1 - LastPinPos.1|
    let bLastPinFarAway := decide (Dist > w.KnotNodeDistanceThreshold) && !w.bExpandNodesByHeight
    let bPinNeedsTrack := DoesPinNeedTrack w ParentPin SortedPins
    if bTooSteep (LastPinPos.1 - ParentPinPos.1) (LastPinPos.2 - ParentPinPos.2) then s
    else if !(bPinNeedsTrack || bPreviousHasTrack || bLastPinFarAway) then s
    else
      let t0 : FKnotNodeTrack :=
        FKnotNodeTrack.SetTrackHeight w
          { ParentPin := ParentPin, LinkedTo := SortedPins, TrackHeight := ParentPinPos.2
            PinToAlignTo := none, PinAlignedX := 0, bIsLoopingTrack := false, KnotCreations := [] }
      let t1 := TryAlignTrackToEndPins_single w t0
      let h := t1.GetTrackHeight w
      let c0 := s.NumCreations
      let Creations0 := fun i =>
        if i = c0 then FKnotNodeCreation.make (ParentPinPos.1 + w.PinPaddingX) h none ParentPin
        else s.Creations i
      let LinkedTo0 := BreakLinkTo s.LinkedTo ParentPin LastPin
      let r := SortedPins.foldl (MakeKnotTracksForParameterPins_pin w ParentPin h)
        (LinkedTo0, Creations0, c0 + 1, [c0], c0)
      { s with LinkedTo := r.1, Creations := r.2.1, NumCreations := r.2.2.1
               KnotTracks := s.KnotTracks ++ [{ t1 with KnotCreations := r.2.2.2.1 }] }

/-- The loop body of `FEdGraphFormatter::RemoveUselessCreationNodes` (EdGraphFormatter.cpp
1748-1768) for one creation of the copy of the track's list.  The state is (creations,
creation list of the track, `LastCreation`). -/
def RemoveUselessCreationNodes_creation (w : KnotWorld) (TrackHeight : Int)
    (st : (Nat → FKnotNodeCreation) × List Nat × Option Nat) (Creation : Nat) :
    (Nat → FKnotNodeCreation) × List Nat × Option Nat :=
  let Creations := st.1
  let bHasOneConnection := decide ((Creations Creation).PinHandlesToConnectTo.length = 1)
  let PinHeight := (w.PinPos (Creations Creation).PinToConnectToHandle).2
  if bHasOneConnection && decide (PinHeight = TrackHeight) then
    let Handle := (Creations Creation).PinToConnectToHandle
    let Creations1 := match st.2.2 with
      | some Last => fun i =>
        if i = Last then
          { Creations i with
            PinHandlesToConnectTo := TSetAdd (Creations i).PinHandlesToConnectTo Handle }
        else Creations i
      | none => Creations
    (Creations1, st.2.1.filter (· ≠ Creation), some Creation)
  else (Creations, st.2.1, some Creation)

/-- `FEdGraphFormatter::RemoveUselessCreationNodes` for one track: the creations and the track
afterwards. -/
def RemoveUselessCreationNodes_track (w : KnotWorld) (Creations : Nat → FKnotNodeCreation)
    (t : FKnotNodeTrack) : (Nat → FKnotNodeCreation) × FKnotNodeTrack :=
  let r := t.KnotCreations.foldl (RemoveUselessCreationNodes_creation w (t.GetTrackHeight w))
    (Creations, t.KnotCreations, none)
  (r.1, { t with KnotCreations := r.2.1 })

/-- `FEdGraphFormatter::RemoveUselessCreationNodes` (EdGraphFormatter.cpp 1742-1770). -/
def RemoveUselessCreationNodes (w : KnotWorld) (s : KnotState) : KnotState :=
  let r := s.KnotTracks.foldl
    (fun st t =>
      let x := RemoveUselessCreationNodes_track w st.1 t
      (x.1, st.2 ++ [x.2]))
    (s.Creations, [])
  { s with Creations := r.1, KnotTracks := r.2 }

/-- Modelled from the spec: `FBAUtils::CreateKnotNode` / `LinkKnotNodeBetween`, missing from
the sources, are the boundary operation CreateRoutingNode(position, linkedPinA, linkedPinB):
a new routing node wired to both pins, each pin on the side of the knot that has the opposite
direction.  Followed by the loop of `FKnotNodeCreation::CreateKnotNode`
(GraphFormatterTypes.cpp 207-221) over `PinHandlesToConnectTo`.  Returns the links and the
number of knots afterwards; the new knot has the number `NumKnots`. -/
def CreateKnotNode (PinDirection : Nat → EEdGraphPinDirection) (PinBase : Nat)
    (LinkedTo : Nat → List Nat) (NumKnots : Nat) (c : FKnotNodeCreation) (PreviousPin : Nat) :
    (Nat → List Nat) × Nat :=
  let KnotIn := PinBase + 2 * NumKnots
  let KnotOut := PinBase + 2 * NumKnots + 1
  let link := fun (L : Nat → List Nat) (Pin : Nat) =>
    if PinDirection Pin = EEdGraphPinDirection.EGPD_Input then MakeLinkTo L KnotOut Pin
    else MakeLinkTo L KnotIn Pin
  let L1 := link (link LinkedTo c.PinToConnectToHandle) PreviousPin
  (c.PinHandlesToConnectTo.foldl link L1, NumKnots + 1)

/-- The direction of a pin once knots exist: pins above `PinBase` are knot pins, even ones
inputs and odd ones outputs. -/
def KnotPinDirection (w : KnotWorld) (PinBase : Nat) (p : Nat) : EEdGraphPinDirection :=
  if p < PinBase then w.PinDirection p
  else if (p - PinBase) % 2 = 0 then EEdGraphPinDirection.EGPD_Input
  else EEdGraphPinDirection.EGPD_Output

/-- The comparison of `CreationSorter` (EdGraphFormatter.cpp 1827-1837), as the relation
"A may stay before B" of a stable sort: B is not strictly before A. -/
def CreationSorter_le (w : KnotWorld) (Creations : Nat → FKnotNodeCreation) (a b : Nat) : Prop :=
  ¬ (if w.IsExecPin (Creations b).PinToConnectToHandle
     then (Creations b).KnotPosX > (Creations a).KnotPosX
     else (Creations b).KnotPosX < (Creations a).KnotPosX)

instance (w : KnotWorld) (Creations : Nat → FKnotNodeCreation) :
    DecidableRel (CreationSorter_le w Creations) :=
  fun _ _ => by unfold CreationSorter_le; infer_instance

/-- The loop over the creations of one track in `FEdGraphFormatter::CreateKnotTracks`
(EdGraphFormatter.cpp 1850-1914).  The branch of lines 1886-1898 needs `LastCreation` to be
valid and the track to have a single creation, which exclude each other, so every creation
after the first is chained to the previous knot (lines 1900-1912).  The state is (links,
number of knots, creations, `LastCreation`). -/
def CreateKnotTracks_creation (w : KnotWorld) (PinBase : Nat) (t : FKnotNodeTrack)
    (st : (Nat → List Nat) × Nat × (Nat → FKnotNodeCreation) × Option Nat) (Creation : Nat) :
    (Nat → List Nat) × Nat × (Nat → FKnotNodeCreation) × Option Nat :=
  let Creations := st.2.2.1
  let PreviousPin :=
    match st.2.2.2 with
    | none => t.ParentPin
    | some Last =>
      let ParentKnot := ((Creations Last).CreatedKnot).getD 0
      if w.PinDirection t.GetLastPin = EEdGraphPinDirection.EGPD_Output
      then PinBase + 2 * ParentKnot else PinBase + 2 * ParentKnot + 1
  let r := CreateKnotNode (KnotPinDirection w PinBase) PinBase st.1 st.2.1 (Creations Creation)
    PreviousPin
  (r.1, r.2,
   fun i => if i = Creation then { Creations i with CreatedKnot := some st.2.1 } else Creations i,
   some Creation)

/-- `FEdGraphFormatter::CreateKnotTracks` (EdGraphFormatter.cpp 1792-1918): every track, in
the sorted order `SortedTracks` of line 1821, has its creations sorted (unless it loops) and
materialised. -/
def CreateKnotTracks (w : KnotWorld) (s : KnotState) (SortedTracks : List FKnotNodeTrack) :
    KnotState :=
  let r := SortedTracks.foldl
    (fun st t =>
      let sorted := if t.bIsLoopingTrack then t.KnotCreations
        else t.KnotCreations.insertionSort (CreationSorter_le w st.2.2.1)
      let x := sorted.foldl (CreateKnotTracks_creation w s.PinBase t)
        (st.1, st.2.1, st.2.2.1, none)
      (x.1, x.2.1, x.2.2.1, (none : Option Nat)))
    (s.LinkedTo, s.NumKnots, s.Creations, (none : Option Nat))
  { s with LinkedTo := r.1, NumKnots := r.2.1, Creations := r.2.2.1 }

/-- `FEdGraphFormatter::FormatKnotNodes` (EdGraphFormatter.cpp 1772-1790) on a graph in which
`MakeKnotTrack` has a single parameter output pin with formatted consumers to treat, so that
at most one track exists: `MergeNearbyKnotTracks` finds no second track to merge with and
`ExpandKnotTracks` finds no overlapping track (`OverlappingTracks.Num() == 1`, line 1549), and
both leave the track as it is. -/
def FormatKnotNodes_singlePin (w : KnotWorld) (s : KnotState) (ParentPin : Nat)
    (SortedPins : List Nat) : KnotState :=
  let s1 := MakeKnotTracksForParameterPins w s ParentPin SortedPins false
  let s2 := RemoveUselessCreationNodes w s1
  CreateKnotTracks w s2 s2.KnotTracks

/-- Two formatted nodes 0 and 1 and one data wire: the parameter output pin 0 of node 0 at
(100, 36) feeds the parameter input pin 1 of node 1 at (1000, 36), 900 units to the right at
the same height.  `bExpandNodesByHeight` is off, the distance threshold is 800, the paddings
are 80 and 40.  There is no third node, so no segment between the two pins collides with a
node other than the two end nodes (`LineHitsNode` and `LineRectIntersection` are never asked
about another node and are left true). -/
def farPinWorld : KnotWorld :=
  { PinPos := fun p => if p = 0 then (100, 36) else (1000, 36)
    PinNode := fun p => p
    PinNodePos := fun p => if p = 0 then (0, 0) else (1000, 0)
    PinDirection := fun p =>
      if p = 0 then EEdGraphPinDirection.EGPD_Output else EEdGraphPinDirection.EGPD_Input
    IsExecPin := fun _ => false
    IsParameterPin := fun _ => true
    FormattedNodes := [0, 1]
    FormattedGraphNodes := [0, 1]
    LineHitsNode := fun _ _ _ _ => true
    LineRectIntersection := fun _ _ _ => true
    ExtendedBottom := fun _ => 0
    NodePaddingX := 80
    PinPaddingX := 40
    KnotNodeDistanceThreshold := 800
    bExpandNodesByHeight := false }

/-- The links of `farPinWorld` before knot synthesis: pin 0 and pin 1 are linked. -/
def farPinState : KnotState :=
  { LinkedTo := fun p => if p = 0 then [1] else if p = 1 then [0] else []
    Creations := fun _ => FKnotNodeCreation.make 0 0 none 0
    NumCreations := 0
    KnotTracks := []
    NumKnots := 0
    PinBase := 100 }

/-! ### Y placement: `FormatY_Recursive` and `FormatY` -/

/-- `FSlateRect`: the four edges of a rectangle (`float` in the source, integers here). -/
structure FSlateRect where
  Left : Int
  Top : Int
  Right : Int
  Bottom : Int
  deriving DecidableEq, Repr

/-- `FSlateRect::DoRectanglesIntersect(A, B)`: the rectangles do not intersect exactly when one
lies strictly beyond an edge of the other, so rectangles that only touch do intersect. -/
def FSlateRect.DoRectanglesIntersect (A B : FSlateRect) : Bool :=
  !(decide (B.Right < A.Left) || decide (A.Right < B.Left) ||
    decide (B.Bottom < A.Top) || decide (A.Bottom < B.Top))

/-- `FSlateRect::ExtendBy(FMargin(Left, Top, Right, Bottom))`. -/
def FSlateRect.ExtendBy (r : FSlateRect) (l t rt b : Int) : FSlateRect :=
  { Left := r.Left - l, Top := r.Top - t, Right := r.Right + rt, Bottom := r.Bottom + b }

/-- The `NodePosY` of the nodes as a finite table; a node without an entry is at 0. -/
abbrev PosMap := List (Nat × Int)

/-- Read `Node->NodePosY`. -/
def PosY (m : PosMap) (Node : Nat) : Int := (m.lookup Node).getD 0

/-- Write `Node->NodePosY`. -/
def setPosY (m : PosMap) (Node : Nat) (y : Int) : PosMap :=
  (Node, y) :: m.filter (fun e => decide (e.1 ≠ Node))

/-- What `FormatY_Recursive` reads from its surroundings, for nodes whose parameter formatter
holds only the node itself (no parameter nodes): then `GetClusterBounds(Node)` is the cached
bounds of the node and `RefreshParameters` moves nothing.  `NodePosX` is the result of X
placement, `NodeSize` the cached size of `FBAGraphHandler::GetCachedNodeBounds`, `PinOffset`
the cached pin offset of `FBAGraphHandler::GetPinY`, `Path` the links accepted by `FormatX`.
`StraightenPin pos SourcePin PinToAlign` is `FBAUtils::StraightenPin`,
`IsImmediateChild a b` is `FormatXInfoMap[a]->GetImmediateChildren().Contains(b)`, and
`CenterBranches pos CurrentNode ChildBranches NodesToCollisionCheck` is the function of that
name.  `bAccountForComments` is false (the default of `bAccountForCommentsWhenFormatting`). -/
structure FormatYParams where
  g : EdGraph
  NodePool : List Nat
  Path : List FPinLink
  NodePosX : Nat → Int
  NodeSize : Nat → Int × Int
  PinOffset : Nat → Int
  NodePaddingY : Int
  VerticalPinSpacing : Int
  StraightenPin : PosMap → Nat → Nat → PosMap
  bCenterBranches : Bool
  NumRequiredBranches : Nat
  IsImmediateChild : Nat → Nat → Bool
  CenterBranches : PosMap → Nat → List (Nat × Nat × List Nat) → List Nat → PosMap

/-- The variables that the recursion of `FormatY_Recursive` shares by reference: the
`NodePosY` of every node, `NodesToCollisionCheck` and `VisitedLinks`. -/
structure FormatYState where
  NodePosY : PosMap
  NodesToCollisionCheck : List Nat
  VisitedLinks : List (Nat × Nat)

/-- `FBAGraphHandler::GetCachedNodeBounds` (BlueprintAssistGraphHandler.cpp 1488-1513) without
comment bubble: the rectangle from the node position with the cached size. -/
def GetCachedNodeBounds (P : FormatYParams) (posY : PosMap) (Node : Nat) : FSlateRect :=
  { Left := P.NodePosX Node, Top := PosY posY Node
    Right := P.NodePosX Node + (P.NodeSize Node).1
    Bottom := PosY posY Node + (P.NodeSize Node).2 }

/-- `FBAGraphHandler::GetPinY` (BlueprintAssistGraphHandler.cpp 1612-1627) with a cached pin
offset. -/
def GetPinY (P : FormatYParams) (posY : PosMap) (Pin : Nat) : Int :=
  PosY posY (P.g.OwningNode Pin) + P.PinOffset Pin

/-- `Node->NodePosY += Delta`. -/
def addPosY (posY : PosMap) (Node : Nat) (Delta : Int) : PosMap :=
  setPosY posY Node (PosY posY Node + Delta)

/-- The body of the `while (NodesCopy.Num() > 0)` loop of lines 862-919 for one popped node:
`bNoCollision` and the positions before and after. -/
def FormatY_collisionStep (P : FormatYParams) (CurrentNode : Nat) (ParentPin : Option Nat)
    (st : Bool × PosMap) (NodeToCollisionCheck : Nat) : Bool × PosMap :=
  if NodeToCollisionCheck = CurrentNode then st
  else if ParentPin.map P.g.OwningNode = some NodeToCollisionCheck then st
  else
    let MyBounds := GetCachedNodeBounds P st.2 CurrentNode
    let OtherBounds :=
      (GetCachedNodeBounds P st.2 NodeToCollisionCheck).ExtendBy 0 0 0 P.NodePaddingY
    if MyBounds.DoRectanglesIntersect OtherBounds then
      (false, addPosY st.2 CurrentNode (OtherBounds.Bottom - MyBounds.Top + 1))
    else st

/-- One pass of the `for` loop of lines 857-925 over the nodes of `NodesToCollisionCheck`,
popped from the end: returns `bNoCollision` and the positions. -/
def FormatY_collisionPass (P : FormatYParams) (CurrentNode : Nat) (ParentPin : Option Nat)
    (Nodes : List Nat) (posY : PosMap) : Bool × PosMap :=
  Nodes.reverse.foldl (FormatY_collisionStep P CurrentNode ParentPin) (true, posY)

/-- The `for (int CollisionLimit = 0; CollisionLimit < 30; CollisionLimit++)` loop of lines
857-925 with `fuel` passes left: returns whether the loop ended through `bNoCollision`, and
the positions. -/
def FormatY_collisionLoop (P : FormatYParams) (CurrentNode : Nat) (ParentPin : Option Nat)
    (Nodes : List Nat) : Nat → PosMap → Bool × PosMap
  | 0, posY => (false, posY)
  | fuel + 1, posY =>
    let r := FormatY_collisionPass P CurrentNode ParentPin Nodes posY
    if r.1 then r else FormatY_collisionLoop P CurrentNode ParentPin Nodes fuel r.2

/-- The local variables of the two pin loops of `FormatY_Recursive` (lines 931-1086). -/
structure FormatYLocals where
  st : FormatYState
  bFirstPin : Bool
  MainPin : Option Nat
  bCenteredParent : Bool
  LastProcessed : Option Nat
  ChildBranches : List (Nat × Nat × List Nat)
  Children : List Nat

/-- Lines 1030-1067: after a child that is not on the same row, push the nodes of its branch
below the pin to avoid.  Returns the positions and the new `MainPin`. -/
def FormatY_avoidPin (P : FormatYParams) (posY : PosMap) (MainPin LastLinked : Option Nat)
    (LocalChildren : List Nat) : PosMap × Option Nat :=
  let PinToAvoid := match MainPin with
    | some m => some m
    | none => LastLinked
  match PinToAvoid, LocalChildren with
  | some pa, c :: cs =>
    let Top := cs.foldl (fun t n => min t (PosY posY n)) (PosY posY c)
    let Delta := GetPinY P posY pa + P.VerticalPinSpacing - Top
    (if Delta > 0 then LocalChildren.foldl (fun p n => addPosY p n Delta) posY else posY, none)
  | _, _ => (posY, none)

/-- `FEdGraphFormatter::FormatY_Recursive` (EdGraphFormatter.cpp 835-1099) with `fuel` levels
of recursion left; returns the shared state and the set `Children`.  The bookkeeping of
`NodeHeightLevels` does not feed back into positions and is left out. -/
def FormatY_Recursive (P : FormatYParams) :
    Nat → Nat → Option Nat → Option Nat → Bool → FormatYState → FormatYState × List Nat
  | 0, _, _, _, _, st => (st, [])
  | fuel + 1, CurrentNode, CurrentPin, ParentPin, bSameRow, st =>
    let posC :=
      (FormatY_collisionLoop P CurrentNode ParentPin st.NodesToCollisionCheck 30 st.NodePosY).2
    let st1 : FormatYState :=
      { st with NodePosY := posC,
                NodesToCollisionCheck := TSetAdd st.NodesToCollisionCheck CurrentNode }
    let ParentDirection := match ParentPin with
      | none => EEdGraphPinDirection.EGPD_Output
      | some p => P.g.Direction p
    let Complementary := match ParentDirection with
      | EEdGraphPinDirection.EGPD_Output => EEdGraphPinDirection.EGPD_Input
      | EEdGraphPinDirection.EGPD_Input => EEdGraphPinDirection.EGPD_Output
    let loc0 : FormatYLocals :=
      { st := st1, bFirstPin := true, MainPin := CurrentPin, bCenteredParent := false
        LastProcessed := none, ChildBranches := [], Children := [] }
    let locEnd := [ParentDirection, Complementary].foldl
      (fun (loc : FormatYLocals) CurrentDirection =>
        let Pins := ((GetLinkedPins P.g CurrentNode (some CurrentDirection)).filter
          P.g.IsExecOrDelegatePin).filter (fun p => !(P.g.LinkedTo p).isEmpty)
        let r := Pins.foldl
          (fun (acc : FormatYLocals × Option Nat) MyPin =>
            ((P.g.LinkedTo MyPin).foldl
              (fun (loc : FormatYLocals) OtherPin =>
                let OtherNode := P.g.OwningNode OtherPin
                let bIsSameLink :=
                  P.Path.any (fun l => decide (l.From = some MyPin ∧ l.To = some OtherPin))
                if decide ((MyPin, OtherPin) ∈ loc.st.VisitedLinks)
                    || decide (OtherNode ∉ P.NodePool)
                    || P.g.IsNodePure OtherNode
                    || decide (OtherNode ∈ loc.st.NodesToCollisionCheck)
                    || !bIsSameLink then loc
                else
                  let pos1 := P.StraightenPin loc.st.NodePosY MyPin OtherPin
                  let bChildIsSameRow := loc.bFirstPin &&
                    (ParentPin.isNone ||
                      decide (ParentPin.map P.g.Direction = some (P.g.Direction MyPin)))
                  let pos2 :=
                    if bChildIsSameRow then pos1
                    else match loc.LastProcessed with
                      | none => pos1
                      | some lp =>
                        setPosY pos1 OtherNode
                          (max (PosY pos1 OtherNode) (PosY pos1 (P.g.OwningNode lp)))
                  let Visited := TSetAdd loc.st.VisitedLinks (MyPin, OtherPin)
                  let r := FormatY_Recursive P fuel OtherNode (some OtherPin) (some MyPin)
                    bChildIsSameRow { loc.st with NodePosY := pos2, VisitedLinks := Visited }
                  let LocalChildren := r.2
                  let a :=
                    if !bChildIsSameRow && decide (LocalChildren.length > 0) then
                      FormatY_avoidPin P r.1.NodePosY loc.MainPin acc.2 LocalChildren
                    else (r.1.NodePosY, loc.MainPin)
                  { st := { r.1 with NodePosY := a.1 }
                    bFirstPin := loc.bFirstPin && !bChildIsSameRow
                    MainPin := a.2
                    bCenteredParent := loc.bCenteredParent
                    LastProcessed := some OtherPin
                    ChildBranches :=
                      if P.IsImmediateChild CurrentNode OtherNode
                      then loc.ChildBranches ++ [(OtherPin, MyPin, LocalChildren)]
                      else loc.ChildBranches
                    Children := LocalChildren.foldl TSetAdd loc.Children })
              acc.1, some MyPin))
          ({ loc with LastProcessed := none, ChildBranches := [] }, CurrentPin)
        let loc1 := r.1
        if P.bCenterBranches && decide (loc1.ChildBranches.length ≥ P.NumRequiredBranches)
            && decide (ParentDirection = EEdGraphPinDirection.EGPD_Output) then
          let posB := P.CenterBranches loc1.st.NodePosY CurrentNode loc1.ChildBranches
            loc1.st.NodesToCollisionCheck
          let bCentered := loc1.bCenteredParent || decide (CurrentDirection ≠ ParentDirection)
          { loc1 with bCenteredParent := bCentered, st := { loc1.st with NodePosY := posB } }
        else loc1)
      loc0
    let Children := TSetAdd locEnd.Children CurrentNode
    match CurrentPin, ParentPin with
    | some cp, some pp =>
      if bSameRow && !locEnd.bCenteredParent then
        ({ locEnd.st with NodePosY := P.StraightenPin locEnd.st.NodePosY cp pp }, Children)
      else (locEnd.st, Children)
    | _, _ => (locEnd.st, Children)

/-- `FEdGraphFormatter::FormatY` (EdGraphFormatter.cpp 2964-2983): two runs of the recursion
from the root, each with empty `NodesToCollisionCheck` and `VisitedLinks`; the second run
keeps `bAccountForComments` false when `bAccountForCommentsWhenFormatting` is off.  The depth
of the recursion is bounded by the number of nodes of the pool. -/
def FormatY (P : FormatYParams) (RootNode : Nat) (posY : PosMap) : PosMap :=
  let r1 := FormatY_Recursive P (P.NodePool.length + 1) RootNode none none true
    { NodePosY := posY, NodesToCollisionCheck := [], VisitedLinks := [] }
  let r2 := FormatY_Recursive P (P.NodePool.length + 1) RootNode none none true
    { NodePosY := r1.1.NodePosY, NodesToCollisionCheck := [], VisitedLinks := [] }
  r2.1.NodePosY

/-- `FBAUtils::StraightenPin(GraphHandler, SourcePin, PinToAlign)` is not part of the sources
at hand.  Read off its three call sites: it moves the owning node of `PinToAlign` vertically
until `PinToAlign` has the `GetPinY` of `SourcePin` (line 982 aligns the child that is about
to be placed with the pin of the placed node, line 1096 is followed by
`RefreshParameters(ParentPin->GetOwningNode())`, the node of its second argument). -/
def StraightenPin_align (OwningNode : Nat → Nat) (PinOffset : Nat → Int) (posY : PosMap)
    (SourcePin PinToAlign : Nat) : PosMap :=
  addPosY posY (OwningNode PinToAlign)
    ((PosY posY (OwningNode SourcePin) + PinOffset SourcePin)
      - (PosY posY (OwningNode PinToAlign) + PinOffset PinToAlign))

/-- Six impure nodes.  Node 0 (root) has the execution outputs 0 and 1; nodes 1 and 2 have
the execution input 2 resp. 4 and the execution output 3 resp. 5; node 3 has the two
execution inputs 6 and 7; node 4 has the execution output 8; node 5 has the execution
input 9.  Wires: 0-2, 1-4, 3-6, 8-7, 5-9. -/
def followGraph : EdGraph :=
  { Pins := fun n => match n with
      | 0 => [0, 1] | 1 => [2, 3] | 2 => [4, 5] | 3 => [6, 7] | 4 => [8] | 5 => [9] | _ => []
    OwningNode := fun p => match p with
      | 0 => 0 | 1 => 0 | 2 => 1 | 3 => 1 | 4 => 2 | 5 => 2 | 6 => 3 | 7 => 3 | 8 => 4 | _ => 5
    Direction := fun p => match p with
      | 2 => EEdGraphPinDirection.EGPD_Input | 4 => EEdGraphPinDirection.EGPD_Input
      | 6 => EEdGraphPinDirection.EGPD_Input | 7 => EEdGraphPinDirection.EGPD_Input
      | 9 => EEdGraphPinDirection.EGPD_Input | _ => EEdGraphPinDirection.EGPD_Output
    LinkedTo := fun p => match p with
      | 0 => [2] | 2 => [0] | 1 => [4] | 4 => [1] | 3 => [6] | 6 => [3]
      | 8 => [7] | 7 => [8] | 5 => [9] | 9 => [5] | _ => []
    IsExecOrDelegatePin := fun _ => true
    IsNodePure := fun _ => false }

/-- The cached node sizes of the example: every node is 100 wide; node 3 is 600 high, node 4
is 400 high, the others 50. -/
def followSize (n : Nat) : Int × Int :=
  (100, if n = 3 then 600 else if n = 4 then 400 else 50)

/-- The cached pin offsets of the example: 20 for every pin but the second output of the
root (46) and the second input of node 3 (590). -/
def followPinOffset (p : Nat) : Int :=
  if p = 1 then 46 else if p = 7 then 590 else 20

/-- `FormatX(false)` on `followGraph` from root 0, horizontal padding 80, in the formatting
style `Compact` (`bExpanded` off: no node is put into `NodesToExpand` and
`ExpandPendingNodes` is not run). -/
def followXParams : FormatXParams Unit :=
  { g := followGraph
    RootNode := 0
    NodePool := [0, 1, 2, 3, 4, 5]
    bUseParameter := false
    bExpanded := false
    GetChildX := GetChildX_plain followGraph (fun n => Float32.ofInt (followSize n).1)
      (Float32.ofInt 80)
    RefreshFirstVisit := fun e p _ => (e, p)
    RefreshParameters := fun e p _ => (e, p)
    GetExecTreeInput := fun _ => [] }

/-- The state in which `FormatX` leaves `followGraph` in the style `Compact` (all nodes start
at x = 0; the loop ends within 12 passes). -/
def followXEnd : FormatXState Unit :=
  FormatX_plain followXParams (fun n => Float32.ofInt (followSize n).1) (Float32.ofInt 80) 12
    (fun _ => 0)

/-- `FormatY` on `followGraph` after that X placement: vertical padding 150, vertical pin
spacing 26, branch centering off. -/
def followYParams : FormatYParams :=
  { g := followGraph
    NodePool := [0, 1, 2, 3, 4, 5]
    Path := followXEnd.Path
    NodePosX := followXEnd.NodePosX
    NodeSize := followSize
    PinOffset := followPinOffset
    NodePaddingY := 150
    VerticalPinSpacing := 26
    StraightenPin := StraightenPin_align followGraph.OwningNode followPinOffset
    bCenterBranches := false
    NumRequiredBranches := 3
    IsImmediateChild := fun _ _ => false
    CenterBranches := fun p _ _ _ => p }

/-- Seven impure nodes that form a tree of execution links.  Node 0 (root) has the execution
outputs 0 and 1; node 1 has the execution input 2 and the execution outputs 3 and 10; node 2
has the execution input 4 and the execution output 5; node 3 has the execution input 6 and
the execution output 7; nodes 4, 5, 6 have the execution inputs 8, 9, 11.
Wires: 0-2, 1-4, 3-6, 10-8, 7-11, 5-9. -/
def dragGraph : EdGraph :=
  { Pins := fun n => match n with
      | 0 => [0, 1] | 1 => [2, 3, 10] | 2 => [4, 5] | 3 => [6, 7] | 4 => [8] | 5 => [9]
      | 6 => [11] | _ => []
    OwningNode := fun p => match p with
      | 0 => 0 | 1 => 0 | 2 => 1 | 3 => 1 | 10 => 1 | 4 => 2 | 5 => 2 | 6 => 3 | 7 => 3
      | 8 => 4 | 9 => 5 | _ => 6
    Direction := fun p => match p with
      | 2 => EEdGraphPinDirection.EGPD_Input | 4 => EEdGraphPinDirection.EGPD_Input
      | 6 => EEdGraphPinDirection.EGPD_Input | 8 => EEdGraphPinDirection.EGPD_Input
      | 9 => EEdGraphPinDirection.EGPD_Input | 11 => EEdGraphPinDirection.EGPD_Input
      | _ => EEdGraphPinDirection.EGPD_Output
    LinkedTo := fun p => match p with
      | 0 => [2] | 2 => [0] | 1 => [4] | 4 => [1] | 3 => [6] | 6 => [3]
      | 10 => [8] | 8 => [10] | 7 => [11] | 11 => [7] | 5 => [9] | 9 => [5] | _ => []
    IsExecOrDelegatePin := fun _ => true
    IsNodePure := fun _ => false }

/-- The cached node sizes of the example: nodes 1 and 3 are 20 wide, node 2 is 150 wide,
node 4 is 120 wide, the others 100; node 6 is 400 high, the others 50. -/
def dragSize (n : Nat) : Int × Int :=
  (if n = 1 then 20 else if n = 2 then 150 else if n = 3 then 20 else if n = 4 then 120
    else 100,
   if n = 6 then 400 else 50)

/-- The cached pin offsets of the example: 20 for every pin but the second output of the
root and the second output of node 1 (46). -/
def dragPinOffset (p : Nat) : Int :=
  if p = 1 then 46 else if p = 10 then 46 else 20

/-- `FormatX(false)` on `dragGraph` from root 0, horizontal padding 80, in the formatting
style `Expanded` (the default).  `FBAUtils::GetExecTree` has no say on this graph: every
input link of the tree leads to a node that is already in `PendingNodes`, which makes
`bHasCycle` true at line 674 whatever the exec tree holds. -/
def dragXParams : FormatXParams Unit :=
  { g := dragGraph
    RootNode := 0
    NodePool := [0, 1, 2, 3, 4, 5, 6]
    bUseParameter := false
    bExpanded := true
    GetChildX := GetChildX_plain dragGraph (fun n => Float32.ofInt (dragSize n).1)
      (Float32.ofInt 80)
    RefreshFirstVisit := fun e p _ => (e, p)
    RefreshParameters := fun e p _ => (e, p)
    GetExecTreeInput := fun _ => [] }

/-- The state in which `FormatX` leaves `dragGraph` (all nodes start at x = 0; the loop ends
within 13 passes, and `ExpandPendingNodes` follows). -/
def dragXEnd : FormatXState Unit :=
  FormatX_plain dragXParams (fun n => Float32.ofInt (dragSize n).1) (Float32.ofInt 80) 13
    (fun _ => 0)

/-- `FormatY` on `dragGraph` after that X placement, with the default settings: vertical
padding 150, vertical pin spacing 26, branch centering off. -/
def dragYParams : FormatYParams :=
  { g := dragGraph
    NodePool := [0, 1, 2, 3, 4, 5, 6]
    Path := dragXEnd.Path
    NodePosX := dragXEnd.NodePosX
    NodeSize := dragSize
    PinOffset := dragPinOffset
    NodePaddingY := 150
    VerticalPinSpacing := 26
    StraightenPin := StraightenPin_align dragGraph.OwningNode dragPinOffset
    bCenterBranches := false
    NumRequiredBranches := 3
    IsImmediateChild := fun _ _ => false
    CenterBranches := fun p _ _ _ => p }

/-! ### Container boxes: `FCommentHandler` and `GetRelativeNodeBounds` -/

/-- `FSlateRect::Expand(Other)`: the smallest rectangle that holds both. -/
def FSlateRect.Expand (r o : FSlateRect) : FSlateRect :=
  { Left := min r.Left o.Left, Top := min r.Top o.Top
    Right := max r.Right o.Right, Bottom := max r.Bottom o.Bottom }

/-- `FSlateRect::IsRectangleContained(A, B)`: B lies inside A. -/
def FSlateRect.IsRectangleContained (A B : FSlateRect) : Bool :=
  decide (A.Left ≤ B.Left) && decide (A.Right ≥ B.Right) &&
    decide (A.Top ≤ B.Top) && decide (A.Bottom ≥ B.Bottom)

/-- What the box-aware bounds read.  `ParentComments n` is the array stored for `n` in the
map of that name (empty when the map has no key `n`), `GetNodesUnderComment` is
`FBAUtils::GetNodesUnderComment`, `GetNodeTreeWithFilter first members` is
`FBAUtils::GetNodeTreeWithFilter(first, IsUnderComment)` for the lambda over `members`,
`GetCachedNodeBounds` and `GetCachedNodeArrayBounds` are the functions of `FBAUtils`,
`TitlebarHeight c` is `GetCachedNodeBounds(c, false).GetSize().Y`, and `CommentNodeRect c`
the rectangle of the comment node's own position and size. -/
structure CommentWorld where
  ParentComments : Nat → List Nat
  GetNodesUnderComment : Nat → List Nat
  IsCommentNode : Nat → Bool
  IsKnotNode : Nat → Bool
  GetNodeTreeWithFilter : Nat → List Nat → List Nat
  GetCachedNodeBounds : Nat → FSlateRect
  GetCachedNodeArrayBounds : List Nat → FSlateRect
  TitlebarHeight : Nat → Int
  CommentNodeRect : Nat → FSlateRect
  CommentNodePadding : Int × Int

/-- The padding step shared by both `GetCommentBounds` (GraphFormatterTypes.cpp 653-667):
`ExtendBy(FMargin(Padding.X, Padding.Y + TitlebarHeight, Padding.X, Padding.Y))`. -/
def CommentWorld.ApplyCommentPadding (w : CommentWorld) (CommentNode : Nat) (b : FSlateRect) :
    FSlateRect :=
  b.ExtendBy w.CommentNodePadding.1 (w.CommentNodePadding.2 + w.TitlebarHeight CommentNode)
    w.CommentNodePadding.1 w.CommentNodePadding.2

/-- `FCommentHandler::GetCommentBounds` (GraphFormatterTypes.cpp 616-668) with `fuel` levels
of nested boxes followed; deeper boxes are not expanded. -/
def FCommentHandler.GetCommentBounds (w : CommentWorld) : Nat → Nat → Nat → FSlateRect
  | 0, CommentNode, _ =>
    w.ApplyCommentPadding CommentNode (w.GetCachedNodeArrayBounds
      ((w.GetNodesUnderComment CommentNode).filter (fun n => !w.IsCommentNode n)))
  | fuel + 1, CommentNode, NodeAsking =>
    let NodesUnderComment := (w.GetNodesUnderComment CommentNode).filter (fun n => !w.IsCommentNode n)
    let CommentNodesUnderComment := (w.GetNodesUnderComment CommentNode).filter w.IsCommentNode
    let ContainedNodesBounds := CommentNodesUnderComment.foldl
      (fun b CommentUnderComment =>
        if CommentUnderComment ∈ w.ParentComments NodeAsking then b
        else b.Expand (FCommentHandler.GetCommentBounds w fuel CommentUnderComment NodeAsking))
      (w.GetCachedNodeArrayBounds NodesUnderComment)
    w.ApplyCommentPadding CommentNode ContainedNodesBounds

/-- `FEdGraphFormatter::GetCommentBounds` (EdGraphFormatter.cpp 2482-2538), same fuel. -/
def FEdGraphFormatter.GetCommentBounds (w : CommentWorld) : Nat → Nat → Nat → FSlateRect
  | 0, CommentNode, _ =>
    if (w.GetNodesUnderComment CommentNode).isEmpty then w.CommentNodeRect CommentNode
    else w.ApplyCommentPadding CommentNode (w.GetCachedNodeArrayBounds
      ((w.GetNodesUnderComment CommentNode).filter (fun n => !w.IsCommentNode n)))
  | fuel + 1, CommentNode, NodeAsking =>
    let NodesUnderComment := (w.GetNodesUnderComment CommentNode).filter (fun n => !w.IsCommentNode n)
    let CommentNodesUnderComment := (w.GetNodesUnderComment CommentNode).filter w.IsCommentNode
    if NodesUnderComment.isEmpty && CommentNodesUnderComment.isEmpty then
      w.CommentNodeRect CommentNode
    else
      let ContainedNodesBounds := CommentNodesUnderComment.foldl
        (fun b CommentUnderComment =>
          if (w.GetNodesUnderComment CommentUnderComment).isEmpty then b
          else if CommentUnderComment ∈ w.ParentComments NodeAsking then b
          else b.Expand (FEdGraphFormatter.GetCommentBounds w fuel CommentUnderComment NodeAsking))
        (w.GetCachedNodeArrayBounds NodesUnderComment)
      w.ApplyCommentPadding CommentNode ContainedNodesBounds

/-- The `bSkipCommentNode` search (GraphFormatterTypes.cpp 733-762, EdGraphFormatter.cpp
2339-2368): some other box of the asking node, not nested with this one, shares a member
with it. -/
def GetRelativeNodeBounds_bSkipCommentNode (w : CommentWorld) (CommentNode NodeAsking : Nat) :
    Bool :=
  (w.ParentComments NodeAsking).any (fun OtherComment =>
    !(decide (CommentNode = OtherComment)
        || decide (OtherComment ∈ w.GetNodesUnderComment CommentNode)
        || decide (CommentNode ∈ w.GetNodesUnderComment OtherComment))
      && (w.GetNodesUnderComment OtherComment).any
        (fun OtherNode => decide (OtherNode ∈ w.GetNodesUnderComment CommentNode)))

/-- The lambda `ShouldSkip` of `FCommentHandler::GetRelativeNodeBounds` (lines 716-724). -/
def FCommentHandler.ShouldSkip (w : CommentWorld) (NodesUnderComment : List Nat) (Node : Nat) :
    Bool :=
  if w.IsCommentNode Node || w.IsKnotNode Node then false
  else decide (Node ∉ w.GetNodeTreeWithFilter (NodesUnderComment.headD 0) NodesUnderComment)

/-- The lambda `ShouldSkip` of `FEdGraphFormatter::GetRelativeNodeBounds` (lines 2305-2330),
which also asks for membership in the formatter's `NodeTree`. -/
def FEdGraphFormatter.ShouldSkip (w : CommentWorld) (NodeTree : List Nat)
    (NodesUnderComment : List Nat) (Node : Nat) : Bool :=
  if w.IsCommentNode Node || w.IsKnotNode Node then false
  else decide (Node ∉ w.GetNodeTreeWithFilter (NodesUnderComment.headD 0) NodesUnderComment)
    || decide (Node ∉ NodeTree)

/-- The body of the loop `for (CommentNode : NodeComments)` that the two
`GetRelativeNodeBounds` share (GraphFormatterTypes.cpp 693-777, EdGraphFormatter.cpp
2280-2383): `OutBounds` and the relative nodes before and after one box. -/
def GetRelativeNodeBounds_box (w : CommentWorld) (ShouldSkip : List Nat → Nat → Bool)
    (CommentBounds : Nat → Nat → FSlateRect) (NodeAsking : Nat)
    (acc : FSlateRect × List Nat) (CommentNode : Nat) : FSlateRect × List Nat :=
  let NodesUnderComment := w.GetNodesUnderComment CommentNode
  if CommentNode ∈ w.ParentComments NodeAsking then acc
  else if NodesUnderComment.isEmpty then acc
  else if NodesUnderComment.any (ShouldSkip NodesUnderComment) then acc
  else if GetRelativeNodeBounds_bSkipCommentNode w CommentNode NodeAsking then acc
  else (acc.1.Expand (CommentBounds CommentNode NodeAsking),
        (NodesUnderComment.filter (fun n => !w.IsCommentNode n)).foldl TSetAdd acc.2)

/-- `FCommentHandler::GetRelativeNodeBounds` (GraphFormatterTypes.cpp 676-780): the bounds
and `OutRelativeNodes`. -/
def FCommentHandler.GetRelativeNodeBounds (w : CommentWorld) (fuel : Nat)
    (Node NodeAsking : Nat) : FSlateRect × List Nat :=
  (w.ParentComments Node).foldl
    (GetRelativeNodeBounds_box w (FCommentHandler.ShouldSkip w)
      (FCommentHandler.GetCommentBounds w fuel) NodeAsking)
    (w.GetCachedNodeBounds Node, [])

/-- The sentinel rectangle of EdGraphFormatter.cpp line 2385. -/
def sentinelRect : FSlateRect := { Left := -99999, Top := -99999, Right := 99999, Bottom := 99999 }

/-- `FEdGraphFormatter::GetRelativeNodeBounds` (EdGraphFormatter.cpp 2251-2392).
`bEnabled` is `bAccountForCommentsWhenFormatting && bAccountForComments`, and `Own` is the
value of `bUseClusterBounds ? GetClusterBounds(Node) : GetCachedNodeBounds(Node)`. -/
def FEdGraphFormatter.GetRelativeNodeBounds (w : CommentWorld) (bEnabled : Bool)
    (NodeTree : List Nat) (Own : Nat → FSlateRect) (fuel : Nat) (Node NodeAsking : Nat) :
    FSlateRect × List Nat :=
  if !bEnabled then (Own Node, [])
  else if (w.ParentComments Node).isEmpty then (Own Node, [])
  else
    let r := (w.ParentComments Node).foldl
      (GetRelativeNodeBounds_box w (FEdGraphFormatter.ShouldSkip w NodeTree)
        (FEdGraphFormatter.GetCommentBounds w fuel) NodeAsking)
      (Own Node, [])
    if !sentinelRect.IsRectangleContained r.1 then (Own Node, r.2) else r

/-- A world with one container box, node 10, whose members are `members`; every node listed
is in that box only, all members are linked inside the box, node `n` has the cached bounds
`bounds n`, the title bar is 30 high and the comment padding is (30, 30). -/
def boxWorld (members : List Nat) (bounds : Nat → FSlateRect) : CommentWorld :=
  { ParentComments := fun n => if n ∈ members then [10] else []
    GetNodesUnderComment := fun c => if c = 10 then members else []
    IsCommentNode := fun n => decide (n = 10)
    IsKnotNode := fun _ => false
    GetNodeTreeWithFilter := fun _ ms => ms
    GetCachedNodeBounds := bounds
    GetCachedNodeArrayBounds := fun ns =>
      match ns with
      | [] => { Left := 0, Top := 0, Right := 0, Bottom := 0 }
      | n :: rest => rest.foldl (fun b k => b.Expand (bounds k)) (bounds n)
    TitlebarHeight := fun _ => 30
    CommentNodeRect := fun _ => { Left := 0, Top := 0, Right := 400, Bottom := 200 }
    CommentNodePadding := (30, 30) }

/-- Cached bounds for the examples: node 2 lies far to the right, at x = 200000; every other
node `n` is the 100 x 50 rectangle at (200 n, 0). -/
def boxBounds (n : Nat) : FSlateRect :=
  if n = 2 then { Left := 200000, Top := 0, Right := 200100, Bottom := 50 }
  else { Left := 200 * n, Top := 0, Right := 200 * n + 100, Bottom := 50 }

/-- The two maps of `FCommentHandler`; the array stored for a key is the value of the
function, and a key that is absent has the empty array. -/
structure CommentMaps where
  ParentComments : Nat → List Nat
  CommentNodesContains : Nat → List Nat

/-- `Map.FindOrAdd(Key).Add(Value)` on a map of arrays. -/
def FindOrAddAdd (m : Nat → List Nat) (Key Value : Nat) : Nat → List Nat :=
  fun k => if k = Key then m k ++ [Value] else m k

/-- Lines 610-611: the body of the inner loop of `FCommentHandler::Init`. -/
def FCommentHandler.Init_add (m : CommentMaps) (p : Nat × Nat) : CommentMaps :=
  { CommentNodesContains := FindOrAddAdd m.CommentNodesContains p.1 p.2
    ParentComments := FindOrAddAdd m.ParentComments p.2 p.1 }

/-- `FCommentHandler::Init` (GraphFormatterTypes.cpp 585-614).  `bValid` is
`InGraphHandler.IsValid()`, `SortedComments` is the array of the comment nodes of the graph
after `CommentNodes.Sort` by decreasing `CommentDepth`. -/
def FCommentHandler.Init (bValid : Bool) (SortedComments : List Nat)
    (GetNodesUnderComment : Nat → List Nat) (old : CommentMaps) : CommentMaps :=
  if !bValid then old
  else
    SortedComments.foldl
      (fun m Comment =>
        (GetNodesUnderComment Comment).foldl
          (fun m EdGraphNode => FCommentHandler.Init_add m (Comment, EdGraphNode)) m)
      { ParentComments := fun _ => [], CommentNodesContains := fun _ => [] }

/-- `FEdGraphFormatter::GetChildX` (EdGraphFormatter.cpp 2050-2113).  `Own` is
`bUseClusterNodes ? GetClusterBounds : GetCachedNodeBounds`; `GetRelativeNodeBounds Node
NodeAsking` gives the bounds that `GetRelativeNodeBounds(Node, NodeAsking, ...)` returns and
the nodes it puts into `RelativeNodes`; `SameRow` is the entry of `SameRowMapping` for the
link (`none` when there is none); `NodePaddingX` is `NodePadding.X`.  A link has both pins
or, for the root, none. -/
def FEdGraphFormatter.GetChildX (g : EdGraph) (Own GetCachedNodeBounds : Nat → FSlateRectFloat)
    (GetCachedNodeArrayBounds : List Nat → FSlateRectFloat)
    (GetRelativeNodeBounds : Nat → Option Nat → FSlateRectFloat × List Nat)
    (SameRow : Option Bool) (NodePaddingX : Float32) (Link : FPinLink) : Int :=
  match Link.From, Link.To with
  | some From, some To =>
    let Parent := g.OwningNode From
    let Child := g.OwningNode To
    let ParentBounds0 := Own Parent
    let Relative := GetRelativeNodeBounds Parent (some Child)
    let ParentBounds :=
      if SameRow = some true then Relative.1
      else
        let NodesBounds := GetCachedNodeArrayBounds Relative.2
        let bIsSame :=
          if g.Direction From = EEdGraphPinDirection.EGPD_Output
          then decide (NodesBounds.Right = ParentBounds0.Right)
          else decide (NodesBounds.Left = ParentBounds0.Left)
        if bIsSame then Relative.1 else ParentBounds0
    let ChildBounds := GetCachedNodeBounds Child
    let LargerBounds := (GetRelativeNodeBounds Child (some Parent)).1
    if g.Direction From = EEdGraphPinDirection.EGPD_Input then
      RoundToInt (Float32.sub
        (Float32.sub ParentBounds.Left (Float32.sub LargerBounds.Right ChildBounds.Left))
        NodePaddingX)
    else
      RoundToInt (Float32.add
        (Float32.add ParentBounds.Right (Float32.sub ChildBounds.Left LargerBounds.Left))
        NodePaddingX)
  | _, _ => (GetRelativeNodeBounds (Link.GetNode g) none).1.Left.toInt

/-- A chain of three impure nodes: node 0 has the execution output pin 0, node 1 the
execution input pin 1 and the execution output pin 2, node 2 the execution input pin 3.
Pin 0 is wired to pin 1 and pin 2 to pin 3. -/
def chainGraph : EdGraph :=
  { Pins := fun n => if n = 0 then [0] else if n = 1 then [1, 2] else if n = 2 then [3] else []
    OwningNode := fun p => if p = 0 then 0 else if p = 3 then 2 else 1
    Direction := fun p =>
      if p = 1 ∨ p = 3 then EEdGraphPinDirection.EGPD_Input else EEdGraphPinDirection.EGPD_Output
    LinkedTo := fun p =>
      if p = 0 then [1] else if p = 1 then [0] else if p = 2 then [3] else if p = 3 then [2] else []
    IsExecOrDelegatePin := fun _ => true
    IsNodePure := fun _ => false }

/-- `FormatX(false)` on `chainGraph` from root 0 with node widths `Width` and horizontal
padding 80. -/
def chainParams (Width : Nat → Float32) : FormatXParams Unit :=
  { g := chainGraph
    RootNode := 0
    NodePool := [0, 1, 2]
    bUseParameter := false
    bExpanded := true
    GetChildX := GetChildX_plain chainGraph Width (Float32.ofInt 80)
    RefreshFirstVisit := fun e p _ => (e, p)
    RefreshParameters := fun e p _ => (e, p)
    GetExecTreeInput := fun _ => [] }

/-- The link from pin `f` to pin `t` as `FormatX` stores it. -/
def chainLink (f t : Nat) : FPinLink :=
  { From := some f, To := some t, FallbackNode := chainGraph.OwningNode t }

/-- The infos of `FormatX` on `chainGraph` after the first pass of the loop. -/
def chainI1 : Nat → FFormatXInfo :=
  setInfo (fun _ => { Link := { From := none, To := none, FallbackNode := 0 },
                      Parent := none, Children := [] }) 1
    { Link := chainLink 0 1, Parent := some 0, Children := [] }

/-- The infos after the second pass. -/
def chainI2 : Nat → FFormatXInfo :=
  setInfo (setInfo (SetParent chainI1 1 (some 0)) 2
      { Link := chainLink 2 3, Parent := some 1, Children := [] }) 3
    { Link := chainLink 1 0, Parent := some 1, Children := [] }

/-- The infos after the third pass. -/
def chainI3 : Nat → FFormatXInfo :=
  setInfo (SetParent chainI2 2 (some 1)) 4
    { Link := chainLink 3 2, Parent := some 2, Children := [] }

/-- The state of `FormatX` on `chainGraph` after the first pass: the root is done and the
info of node 1 is on the output stack. -/
def chainS1 (pos : Nat → Int) : FormatXState Unit :=
  { Infos := chainI1, NumInfos := 2
    FormatXInfoMap := fun n => if n = 0 then some 0 else none
    OutputStack := [1], InputStack := []
    LastDirection := EEdGraphPinDirection.EGPD_Output
    VisitedNodes := [0], PendingNodes := [0, 1], VisitedLinks := [(0, 1)]
    NodesToExpand := [], Path := [], NodePosX := pos, env := () }

/-- The `NodePosX` that `FormatX` gives node 1 of `chainGraph`: `GetChildX` for the link
from pin 0 to pin 1. -/
def chainX1 (Width : Nat → Float32) (pos : Nat → Int) : Int :=
  GetChildX_plain chainGraph Width (Float32.ofInt 80) () pos (chainLink 0 1)

/-- The `NodePosX` that `FormatX` gives node 2 of `chainGraph`: `GetChildX` for the link
from pin 2 to pin 3, once node 1 is placed. -/
def chainX2 (Width : Nat → Float32) (pos : Nat → Int) : Int :=
  GetChildX_plain chainGraph Width (Float32.ofInt 80) () (setPosX pos 1 (chainX1 Width pos))
    (chainLink 2 3)

/-- The state after the second pass: node 1 is placed. -/
def chainS2 (Width : Nat → Float32) (pos : Nat → Int) : FormatXState Unit :=
  { Infos := chainI2, NumInfos := 4
    FormatXInfoMap := fun n => if n = 1 then some 1 else if n = 0 then some 0 else none
    OutputStack := [2], InputStack := [3]
    LastDirection := EEdGraphPinDirection.EGPD_Output
    VisitedNodes := [0, 1], PendingNodes := [0, 1, 2], VisitedLinks := [(0, 1), (2, 3), (1, 0)]
    NodesToExpand := [], Path := [chainLink 0 1]
    NodePosX := setPosX pos 1 (chainX1 Width pos), env := () }

/-- The state after the third pass: node 2 is placed; `last` is `LastDirection` and `inp`
the input stack, which are all that the two remaining passes change. -/
def chainS3 (Width : Nat → Float32) (pos : Nat → Int) (last : EEdGraphPinDirection)
    (inp : List Nat) : FormatXState Unit :=
  { Infos := chainI3, NumInfos := 5
    FormatXInfoMap := fun n =>
      if n = 2 then some 2 else if n = 1 then some 1 else if n = 0 then some 0 else none
    OutputStack := [], InputStack := inp
    LastDirection := last
    VisitedNodes := [0, 1, 2], PendingNodes := [0, 1, 2]
    VisitedLinks := [(0, 1), (2, 3), (1, 0), (3, 2)]
    NodesToExpand := [], Path := [chainLink 0 1, chainLink 2 3]
    NodePosX := setPosX (setPosX pos 1 (chainX1 Width pos)) 2 (chainX2 Width pos)
    env := () }

/-- Whether the `for (int i = 0; i < 100; ++i)` loop of `SetTrackHeight` reaches its `break`
with `fuel` passes left, i.e. whether some pass in range ends with
`bNoCollisionInDirection`. -/
def FKnotNodeTrack.scanEnds (w : KnotWorld) (t : FKnotNodeTrack) (TrackStart TrackEnd : Int) :
    Nat → Int → Bool
  | 0, _ => false
  | fuel + 1, TestSolution =>
    let r := FKnotNodeTrack.scanPass w t TrackStart TrackEnd TestSolution
    if r.1 then true else FKnotNodeTrack.scanEnds w t TrackStart TrackEnd fuel r.2

/-- Modelled from the spec: `FBAUtils::LineRectIntersection`, which is missing from the
sources, as the test whether "a straight line between" the two points "would intersect" the
rectangle.  The segment from `Start` to `End` and the rectangle are apart exactly when they
are apart horizontally, or vertically, or when the four corners of the rectangle lie
strictly on one side of the line through `Start` and `End`. -/
def LineRectIntersection (r : FSlateRect) (Start End : Int × Int) : Bool :=
  let side := fun (x y : Int) =>
    (End.1 - Start.1) * (y - Start.2) - (End.2 - Start.2) * (x - Start.1)
  decide (min Start.1 End.1 ≤ r.Right) && decide (r.Left ≤ max Start.1 End.1) &&
  decide (min Start.2 End.2 ≤ r.Bottom) && decide (r.Top ≤ max Start.2 End.2) &&
  !(decide (0 < side r.Left r.Top) && decide (0 < side r.Right r.Top) &&
    decide (0 < side r.Left r.Bottom) && decide (0 < side r.Right r.Bottom)) &&
  !(decide (side r.Left r.Top < 0) && decide (side r.Right r.Top < 0) &&
    decide (side r.Left r.Bottom < 0) && decide (side r.Right r.Bottom < 0))

/-- A world for knot synthesis with three formatted nodes: the parameter output pin 0 of
node 0 at (100, 36), the input pin 1 of node 1 at (1000, 36), and node 2 lying between them,
whose bounds extended by `TrackSpacing - 1` span x from 400 to 600 and y from 0 to 100. -/
def blockedWorld : KnotWorld :=
  { PinPos := fun p => if p = 0 then (100, 36) else (1000, 36)
    PinNode := fun p => p
    PinNodePos := fun p => if p = 0 then (0, 0) else (1000, 0)
    PinDirection := fun p =>
      if p = 0 then EEdGraphPinDirection.EGPD_Output else EEdGraphPinDirection.EGPD_Input
    IsExecPin := fun _ => false
    IsParameterPin := fun _ => true
    FormattedNodes := [0, 1, 2]
    FormattedGraphNodes := [0, 1, 2]
    LineHitsNode := fun n x1 x2 y =>
      decide (n = 2) && decide (0 ≤ y) && decide (y ≤ 100) && decide (x1 ≤ 600) &&
        decide (400 ≤ x2)
    LineRectIntersection := fun n Start End =>
      decide (n = 2) && LineRectIntersection ⟨400, 0, 600, 100⟩ Start End
    ExtendedBottom := fun _ => 100
    NodePaddingX := 80
    PinPaddingX := 40
    KnotNodeDistanceThreshold := 800
    bExpandNodesByHeight := false }

/-- The world `blockedWorld` with the pins 0 and 1 nearer to each other than
`KnotNodeDistanceThreshold` (the threshold is raised to 2000), and with the horizontal test
`LineHitsNode` read off the rectangle of node 2 like `LineRectIntersection`. -/
def crossedWorld : KnotWorld :=
  { blockedWorld with
    KnotNodeDistanceThreshold := 2000
    LineHitsNode := fun n x1 x2 y =>
      decide (n = 2) && LineRectIntersection ⟨400, 0, 600, 100⟩ (x1, y) (x2, y) }

/-- The world `crossedWorld` without node 2: only the end nodes 0 and 1 are formatted. -/
def clearWorld : KnotWorld :=
  { crossedWorld with FormattedNodes := [0, 1], FormattedGraphNodes := [0, 1] }

/-- The track from pin 0 to pin 1 of `blockedWorld` as the constructor receives it. -/
def blockedTrack : FKnotNodeTrack :=
  { ParentPin := 0, LinkedTo := [1], TrackHeight := 36, PinToAlignTo := none, PinAlignedX := 0
    bIsLoopingTrack := false, KnotCreations := [] }

/-- `Node->NodePosY += Offset` for an `int32` position and a `float` offset given as half
units (`Offset2` is twice the offset): the sum is formed in `float` and converted back by
truncation toward zero. -/
def addFloatToPosY (y : Int) (Offset2 : Int) : Int := Int.tdiv (2 * y + Offset2) 2

/-- `FBAUtils::GetCachedNodeArrayBounds` for a non-empty array of nodes without parameter
nodes: the smallest rectangle that holds the cached bounds of all of them. -/
def GetCachedNodeArrayBounds (P : FormatYParams) (posY : PosMap) (Nodes : List Nat) :
    FSlateRect :=
  match Nodes with
  | [] => { Left := 0, Top := 0, Right := 0, Bottom := 0 }
  | n :: rest =>
    rest.foldl (fun b k => b.Expand (GetCachedNodeBounds P posY k)) (GetCachedNodeBounds P posY n)

/-- Lines 3002-3010 of `CenterBranches`: every node of every branch is moved by the offset. -/
def CenterBranches_move (posY : PosMap) (Offset2 : Int) (AllBranchNodes : List Nat) : PosMap :=
  AllBranchNodes.foldl (fun p Child => setPosY p Child (addFloatToPosY (PosY p Child) Offset2)) posY

/-- Lines 3016-3030 of `CenterBranches`: the top and bottom of `AllNodesBounds` after the
cluster was pushed below every colliding node of `NodesToCollisionCheck`. -/
def CenterBranches_resolve (P : FormatYParams) (posY : PosMap) (AllNodes : List Nat)
    (NodesToCollisionCheck : List Nat) (AllNodesBounds : FSlateRect) : FSlateRect :=
  NodesToCollisionCheck.foldl
    (fun b Node =>
      if Node ∈ AllNodes then b
      else
        let Bounds := (GetCachedNodeBounds P posY Node).ExtendBy 0 0 0 P.NodePaddingY
        if Bounds.DoRectanglesIntersect b then
          let OffsetY := Bounds.Bottom - b.Top
          { b with Top := b.Top + OffsetY, Bottom := b.Bottom + OffsetY }
        else b)
    AllNodesBounds

/-- `FEdGraphFormatter::CenterBranches` (EdGraphFormatter.cpp 2985-3041) with
`bAccountForComments` off, for nodes without parameter nodes.  A branch is the triple
(Pin, ParentPin, BranchNodes); `Center2 ys` is twice `FBAUtils::GetCenterYOfPins` for
pins at the heights `ys`. -/
def CenterBranches (P : FormatYParams) (Center2 : List Int → Int) (posY : PosMap)
    (CurrentNode : Nat) (ChildBranches : List (Nat × Nat × List Nat))
    (NodesToCollisionCheck : List Nat) : PosMap :=
  let ChildPins := ChildBranches.map (fun b => b.1)
  let ParentPins := ChildBranches.map (fun b => b.2.1)
  let ChildrenCenter2 := Center2 (ChildPins.map (GetPinY P posY))
  let ParentCenter2 := Center2 (ParentPins.map (GetPinY P posY))
  let Offset2 := ParentCenter2 - ChildrenCenter2
  let AllBranchNodes := ChildBranches.flatMap (fun b => b.2.2)
  let pos1 := CenterBranches_move posY Offset2 AllBranchNodes
  let AllNodes := AllBranchNodes ++ [CurrentNode]
  let AllNodesBounds := GetCachedNodeArrayBounds P pos1 AllNodes
  let Resolved := CenterBranches_resolve P pos1 AllNodes NodesToCollisionCheck AllNodesBounds
  let DeltaY := Resolved.Top - AllNodesBounds.Top
  if DeltaY ≠ 0 then AllNodes.foldl (fun p Node => addPosY p Node DeltaY) pos1 else pos1

/-- Modelled from the spec: the parent is centred "against the midpoint of its children's
pins"; `FBAUtils::GetCenterYOfPins` is not part of the sources at hand.  Twice the midpoint
of the lowest and the highest pin. -/
def GetCenterYOfPins2 (ys : List Int) : Int :=
  match ys with
  | [] => 0
  | y :: rest => rest.foldl min y + rest.foldl max y

/-- A fan of three branches: node 0 has the execution outputs 0, 1, 2, wired to the
execution inputs 3, 4, 5 of the nodes 1, 2, 3. -/
def fanGraph : EdGraph :=
  { Pins := fun n => if n = 0 then [0, 1, 2] else if n ≤ 3 then [n + 2] else []
    OwningNode := fun p => if p ≤ 2 then 0 else p - 2
    Direction := fun p =>
      if p ≤ 2 then EEdGraphPinDirection.EGPD_Output else EEdGraphPinDirection.EGPD_Input
    LinkedTo := fun p => if p ≤ 2 then [p + 3] else if p ≤ 5 then [p - 3] else []
    IsExecOrDelegatePin := fun _ => true
    IsNodePure := fun _ => false }

/-- The geometry of the fan: node 0 at x = 0, the three children at x = 180, every node
100 x 10, every pin at the top edge of its node (pin offset 0 or `parentOffset` for the
pins of node 0). -/
def fanParams (parentOffset : Nat → Int) : FormatYParams :=
  { g := fanGraph
    NodePool := [0, 1, 2, 3]
    Path := []
    NodePosX := fun n => if n = 0 then 0 else 180
    NodeSize := fun _ => (100, 10)
    PinOffset := fun p => if p ≤ 2 then parentOffset p else 0
    NodePaddingY := 150
    VerticalPinSpacing := 26
    StraightenPin := fun p _ _ => p
    bCenterBranches := true
    NumRequiredBranches := 3
    IsImmediateChild := fun _ _ => true
    CenterBranches := fun p _ _ _ => p }

/-! ### Entry guards: `FormatNode`, `GetRootNode`, `SimpleFormatAll` -/

/-- The formatter and graph state that a call of `FEdGraphFormatter::FormatNode` can change:
the fields `RootNode`, `NodeTree`, `NodePool` and the snapshots (`cache`), the node positions
and the links of the graph. -/
structure FormatNodeState where
  RootNode : Option Nat
  NodePool : List Nat
  cache : FormatterCache
  positions : NodePositions
  LinkedTo : Nat → List Nat

/-- `FEdGraphFormatter::IsInitialNodeValid` (EdGraphFormatter.cpp 2839-2855); `none` is the
null pointer, the two predicates are the casts to `UEdGraphNode_Comment` and
`UK2Node_Knot`. -/
def IsInitialNodeValid (IsCommentNode IsKnotNode : Nat → Bool) (Node : Option Nat) : Bool :=
  match Node with
  | none => false
  | some n => if IsCommentNode n then false else if IsKnotNode n then false else true

/-- `FEdGraphFormatter::FormatNode` (EdGraphFormatter.cpp 101-308): the guard of lines
103-106, then everything from line 108 on as `Body`. -/
def FormatNode (IsCommentNode IsKnotNode : Nat → Bool)
    (Body : FormatNodeState → Nat → FormatNodeState) (s : FormatNodeState)
    (InitialNode : Option Nat) : FormatNodeState :=
  if !IsInitialNodeValid IsCommentNode IsKnotNode InitialNode then s
  else match InitialNode with
    | none => s
    | some n => Body s n

/-- One pass of the loop `while (UK2Node_Knot* Knot = Cast<UK2Node_Knot>(NodeInDirection))`
of `FBAGraphHandler::GetRootNode` (BlueprintAssistGraphHandler.cpp 1252-1265).
`KnotOutput n` lists the owning nodes of `Knot->GetOutputPin()->LinkedTo`.  The result is
`Sum.inl node` when the loop is left with that node and `Sum.inr node` when the loop
condition is tested again with that node. -/
def GetRootNode_step (IsKnotNode : Nat → Bool) (KnotOutput : Nat → List Nat)
    (Visited : List Nat) (NodeInDirection : Nat) : Nat ⊕ Nat :=
  if !IsKnotNode NodeInDirection then Sum.inl NodeInDirection
  else match KnotOutput NodeInDirection with
    | [] => Sum.inr NodeInDirection
    | NextNode :: _ =>
      if NextNode ∈ Visited then Sum.inl NodeInDirection else Sum.inr NextNode

/-- The loop of `GetRootNode` run for at most `fuel` passes from the node found by
`GetTopMostWithFilter`; `Visited` is the constant array `{ NodeInDirection }` of line 1251.
`none` means the loop has not ended within `fuel` passes. -/
def GetRootNode_loop (IsKnotNode : Nat → Bool) (KnotOutput : Nat → List Nat)
    (Visited : List Nat) : Nat → Nat → Option Nat
  | 0, _ => none
  | fuel + 1, NodeInDirection =>
    match GetRootNode_step IsKnotNode KnotOutput Visited NodeInDirection with
    | Sum.inl n => some n
    | Sum.inr n => GetRootNode_loop IsKnotNode KnotOutput Visited fuel n

/-- A whole number written where the source has a `float`: `800` is `800.f`. -/
instance (n : Nat) : OfNat Float32 n := ⟨Float32.ofInt n⟩

/-- `FMath::Min` of two `float`s: `(A <= B) ? A : B`. -/
def Float32.min (a b : Float32) : Float32 := if a.units ≤ b.units then a else b

/-- `FMath::Max` of two `float`s: `(A >= B) ? A : B`. -/
def Float32.max (a b : Float32) : Float32 := if b.units ≤ a.units then a else b

/-- `FSlateRect::Expand(Other)` on `float` edges: the smallest rectangle that holds both. -/
def FSlateRectFloat.Expand (r o : FSlateRectFloat) : FSlateRectFloat :=
  { Left := Float32.min r.Left o.Left, Top := Float32.min r.Top o.Top
    Right := Float32.max r.Right o.Right, Bottom := Float32.max r.Bottom o.Bottom }

/-- `FSlateRect::DoRectanglesIntersect(A, B)` on `float` edges: the rectangles do not
intersect exactly when one lies strictly beyond an edge of the other. -/
def FSlateRectFloat.DoRectanglesIntersect (A B : FSlateRectFloat) : Bool :=
  !(decide (B.Right.units < A.Left.units) || decide (A.Right.units < B.Left.units) ||
    decide (B.Bottom.units < A.Top.units) || decide (A.Bottom.units < B.Top.units))

/-- `FBAGraphHandler::GetCachedNodeBounds` (BlueprintAssistGraphHandler.cpp 1488-1513) for a
node without comment bubble: `FSlateRect::FromPointAndExtent(Pos, Size)` with the `int32`
position converted to `float` (`FVector2D Pos(NodePosX, NodePosY)`) and the cached `float`
size, so the right and bottom edges are `float` sums. -/
def NodeRect (Size : Nat → Float32 × Float32) (posX posY : PosMap) (n : Nat) : FSlateRectFloat :=
  { Left := Float32.ofInt (PosY posX n), Top := Float32.ofInt (PosY posY n)
    Right := Float32.add (Float32.ofInt (PosY posX n)) (Size n).1
    Bottom := Float32.add (Float32.ofInt (PosY posY n)) (Size n).2 }

/-- Modelled from the spec: `FBAUtils::GetCachedNodeArrayBounds`, a helper absent from the
sources, taken as the bounding box of the cached bounds of the nodes: the bounds of the first
node expanded by those of the others (the default `FSlateRect` for no node). -/
def ArrayBounds (Size : Nat → Float32 × Float32) (posX posY : PosMap) (Nodes : List Nat) :
    FSlateRectFloat :=
  match Nodes with
  | [] => { Left := Float32.ofInt (-1), Top := Float32.ofInt (-1)
            Right := Float32.ofInt (-1), Bottom := Float32.ofInt (-1) }
  | n :: rest =>
    rest.foldl (fun b k => b.Expand (NodeRect Size posX posY k)) (NodeRect Size posX posY n)

/-- The statement `FormattedNode->NodePos += Delta` with an `int32` delta for every node of
the list (lines 2042-2046). -/
def moveNodes (pos : PosMap) (Nodes : List Nat) (Delta : Int) : PosMap :=
  Nodes.foldl (fun p n => addPosY p n Delta) pos

/-- The statement `FormattedNode->NodePosY += Delta` with the `const float Delta` of line 2059
for every node of the list (lines 2060-2063): each `int32` field is converted to `float`,
the sum is formed in `float` and converted back. -/
def moveNodesFloat (pos : PosMap) (Nodes : List Nat) (Delta : Float32) : PosMap :=
  Nodes.foldl (fun p n => setPosY p n (addFloatToInt32 (PosY p n) Delta)) pos

/-- The variables of `FBAGraphHandler::SimpleFormatAll` (BlueprintAssistGraphHandler.cpp
2008-2077) together with the node positions (`NodePosX`, `NodePosY`). -/
structure FormatAllState where
  posX : PosMap
  posY : PosMap
  FormattedNodes : List Nat
  FormattedBounds : FSlateRectFloat
  ColumnX : Int
  bFirst : Bool
  deriving DecidableEq

/-- The formatter returned by `FormatNodes(Node, true)`: its root node and its formatted
nodes. -/
structure FormatAllFormatter where
  RootNode : Nat
  FormattedNodes : List Nat

/-- The body of the loop over the nodes of one column (lines 2019-2066).  `FormatNodes`
returns the formatter (`none` for an invalid shared pointer) and the positions it leaves.
`Size` is the cached size of the nodes and `FormatAllPadding` the setting of that name, an
`FVector2D`.  `DeltaX` and `DeltaY` are `int32`, `Delta` is a `float`.  The result is `none`
when the body dereferences an invalid formatter: line 2029 calls `Formatter->GetRootNode()`
before the `IsValid` test of line 2031. -/
def SimpleFormatAll_node (Size : Nat → Float32 × Float32) (FormatAllPadding : Float32 × Float32)
    (FormatNodes : PosMap → PosMap → Nat → Option FormatAllFormatter × PosMap × PosMap)
    (s : FormatAllState) (Node : Nat) : Option FormatAllState :=
  if Node ∈ s.FormattedNodes then some s
  else
    let r := FormatNodes s.posX s.posY Node
    match r.1 with
    | none => none
    | some Formatter =>
      let DeltaX := s.ColumnX - PosY r.2.1 Formatter.RootNode
      let DeltaY := if s.bFirst then 0 - PosY r.2.2 Formatter.RootNode else 0
      let posX1 := moveNodes r.2.1 Formatter.FormattedNodes DeltaX
      let posY1 := moveNodes r.2.2 Formatter.FormattedNodes DeltaY
      let Formatted := Formatter.FormattedNodes.foldl TSetAdd s.FormattedNodes
      let CurrentBounds := ArrayBounds Size posX1 posY1 Formatter.FormattedNodes
      if s.bFirst then
        some { posX := posX1, posY := posY1, FormattedNodes := Formatted
               FormattedBounds := CurrentBounds, ColumnX := s.ColumnX, bFirst := false }
      else
        let Delta := Float32.sub (Float32.add s.FormattedBounds.Bottom FormatAllPadding.2)
          CurrentBounds.Top
        let posY2 := moveNodesFloat posY1 Formatter.FormattedNodes Delta
        some { posX := posX1, posY := posY2, FormattedNodes := Formatted
               FormattedBounds := s.FormattedBounds.Expand
                 (ArrayBounds Size posX1 posY2 Formatter.FormattedNodes)
               ColumnX := s.ColumnX, bFirst := false }

/-- One column of `SimpleFormatAll` (lines 2015-2073): `bFirst` is set, the nodes of the
column are handled in turn, and `ColumnX` moves right of the column if a tree was placed:
the `float` sum of line 2071 is converted to the `int32` variable. -/
def SimpleFormatAll_column (Size : Nat → Float32 × Float32)
    (FormatAllPadding : Float32 × Float32)
    (FormatNodes : PosMap → PosMap → Nat → Option FormatAllFormatter × PosMap × PosMap)
    (s : FormatAllState) (Column : List Nat) : Option FormatAllState :=
  match Column.foldl
      (fun (st : Option FormatAllState) Node =>
        st.bind (fun s => SimpleFormatAll_node Size FormatAllPadding FormatNodes s Node))
      (some { s with bFirst := true }) with
  | none => none
  | some s1 =>
    some (if !s1.bFirst then
      { s1 with ColumnX := (Float32.add s1.FormattedBounds.Right FormatAllPadding.1).toInt }
      else s1)

/-- `FBAGraphHandler::SimpleFormatAll` over `FormatAllColumns`; `FormattedBounds` starts as
the default `FSlateRect`, whose edges are -1. -/
def SimpleFormatAll (Size : Nat → Float32 × Float32) (FormatAllPadding : Float32 × Float32)
    (FormatNodes : PosMap → PosMap → Nat → Option FormatAllFormatter × PosMap × PosMap)
    (posX posY : PosMap) (FormatAllColumns : List (List Nat)) : Option FormatAllState :=
  FormatAllColumns.foldl
    (fun (st : Option FormatAllState) Column =>
      st.bind (fun s => SimpleFormatAll_column Size FormatAllPadding FormatNodes s Column))
    (some { posX := posX, posY := posY, FormattedNodes := []
            FormattedBounds := { Left := Float32.ofInt (-1), Top := Float32.ofInt (-1)
                                 Right := Float32.ofInt (-1), Bottom := Float32.ofInt (-1) }
            ColumnX := 0, bFirst := true })

/-- A formatter stand-in for the examples: node 0 is a tree of its own; node 1 is the root of
a tree that also holds node 2, which the formatter leaves 1000 units to the left of the
root; node 3 has no formatter (invalid pointer).  Positions are left as they are. -/
def sampleFormatNodes (posX posY : PosMap) (Node : Nat) :
    Option FormatAllFormatter × PosMap × PosMap :=
  if Node = 0 then (some { RootNode := 0, FormattedNodes := [0] }, posX, posY)
  else if Node = 1 then (some { RootNode := 1, FormattedNodes := [1, 2] }, posX, posY)
  else (none, posX, posY)

/-! ### `InitNodePool` -/

/-- `FBAGraphHandler::FilterSelectiveFormatting` (BlueprintAssistGraphHandler.cpp
1389-1397). -/
def FilterSelectiveFormatting (NodesToFormat : List Nat) (Node : Nat) : Bool :=
  if NodesToFormat.length > 0 then decide (Node ∈ NodesToFormat) else true

/-- The triples (Dir, Pin, LinkedPin) in the order in which the three nested loops of
`InitNodePool` (lines 336-372) reach them: directions input then output, the linked
exec/delegate pins of the direction from the last to the first, the links of each pin from
the last to the first. -/
def InitNodePool_links (g : EdGraph) (CurrentNode : Nat) :
    List (EEdGraphPinDirection × Nat × Nat) :=
  [EEdGraphPinDirection.EGPD_Input, EEdGraphPinDirection.EGPD_Output].flatMap (fun Dir =>
    (((GetLinkedPins g CurrentNode (some Dir)).filter g.IsExecOrDelegatePin).reverse).flatMap
      (fun Pin => (g.LinkedTo Pin).reverse.map (fun LinkedPin => (Dir, Pin, LinkedPin))))

/-- The variables of `FEdGraphFormatter::InitNodePool`; the stacks have their top at the
head. -/
structure InitNodePoolState where
  NodePool : List Nat
  InputNodeStack : List Nat
  OutputNodeStack : List Nat
  deriving DecidableEq

/-- Lines 345-369: the body of the innermost loop for one link.  (`StraightenPin` moves the
linked node; positions are not part of this state.) -/
def InitNodePool_visitLink (g : EdGraph) (NodesToFormat : List Nat) (s : InitNodePoolState)
    (l : EEdGraphPinDirection × Nat × Nat) : InitNodePoolState :=
  let LinkedNode := g.OwningNode l.2.2
  if decide (LinkedNode ∈ s.NodePool) || g.IsNodePure LinkedNode ||
      !FilterSelectiveFormatting NodesToFormat LinkedNode then s
  else if l.1 = EEdGraphPinDirection.EGPD_Output then
    { s with OutputNodeStack := LinkedNode :: s.OutputNodeStack }
  else { s with InputNodeStack := LinkedNode :: s.InputNodeStack }

/-- Lines 325-373: the body of the `while` loop for the popped node. -/
def InitNodePool_visit (g : EdGraph) (NodesToFormat : List Nat) (s : InitNodePoolState)
    (CurrentNode : Nat) : InitNodePoolState :=
  if !FilterSelectiveFormatting NodesToFormat CurrentNode then s
  else if decide (CurrentNode ∈ s.NodePool) || g.IsNodePure CurrentNode then s
  else
    (InitNodePool_links g CurrentNode).foldl (InitNodePool_visitLink g NodesToFormat)
      { s with NodePool := s.NodePool ++ [CurrentNode] }

/-- One pass of the `while` loop of `InitNodePool` (lines 318-374); with both stacks empty
the state is returned unchanged. -/
def InitNodePool_step (g : EdGraph) (NodesToFormat : List Nat) (s : InitNodePoolState) :
    InitNodePoolState :=
  match s.OutputNodeStack, s.InputNodeStack with
  | c :: o, _ => InitNodePool_visit g NodesToFormat { s with OutputNodeStack := o } c
  | [], c :: i => InitNodePool_visit g NodesToFormat { s with InputNodeStack := i } c
  | [], [] => s

/-- The `while` loop of `InitNodePool` run for at most `fuel` passes. -/
def InitNodePool_loop (g : EdGraph) (NodesToFormat : List Nat) :
    Nat → InitNodePoolState → InitNodePoolState
  | 0, s => s
  | fuel + 1, s => InitNodePool_loop g NodesToFormat fuel (InitNodePool_step g NodesToFormat s)

/-- Lines 312-315: the state when the loop is entered. -/
def InitNodePool_init (RootNode : Nat) : InitNodePoolState :=
  { NodePool := [], InputNodeStack := [], OutputNodeStack := [RootNode] }

/-- The loop condition of `InitNodePool` is false. -/
def InitNodePool_done (s : InitNodePoolState) : Bool :=
  s.InputNodeStack.isEmpty && s.OutputNodeStack.isEmpty

/-- The number of loop passes after which `InitNodePool` has emptied both stacks, for a graph
whose nodes are listed in `U`: every pass either drops a stack entry or moves one node of `U`
into the pool while pushing at most its links. -/
def InitNodePool_fuel (g : EdGraph) (U : List Nat) : Nat :=
  U.length * ((U.map (fun n => (InitNodePool_links g n).length)).sum + 1) + 1

/-- The measure that decreases on every pass of the loop of `InitNodePool`. -/
def InitNodePool_measure (g : EdGraph) (U : List Nat) (s : InitNodePoolState) : Nat :=
  (U.filter (fun n => decide (n ∉ s.NodePool))).length
      * ((U.map (fun n => (InitNodePool_links g n).length)).sum + 1)
    + s.OutputNodeStack.length + s.InputNodeStack.length

/-- A graph with an execution cycle and a pure node: node 0 (exec output pin 0), node 1
(exec input pin 1, exec output pin 2, data input pin 3), the pure node 2 (data output
pin 4) and node 3 (exec input pin 5, exec output pin 6).  Wires: 0-1, 2-5, 6-1 (the cycle
1 -> 3 -> 1) and the data wire 4-3. -/
def poolGraph : EdGraph :=
  { Pins := fun n =>
      if n = 0 then [0] else if n = 1 then [1, 2, 3] else if n = 2 then [4]
      else if n = 3 then [5, 6] else []
    OwningNode := fun p =>
      if p = 0 then 0 else if p ≤ 3 then 1 else if p = 4 then 2 else 3
    Direction := fun p =>
      if p = 1 ∨ p = 3 ∨ p = 5 then EEdGraphPinDirection.EGPD_Input
      else EEdGraphPinDirection.EGPD_Output
    LinkedTo := fun p =>
      if p = 0 then [1] else if p = 1 then [0, 6] else if p = 2 then [5]
      else if p = 3 then [4] else if p = 4 then [3] else if p = 5 then [2]
      else if p = 6 then [1] else []
    IsExecOrDelegatePin := fun p => decide (p ≠ 3 ∧ p ≠ 4)
    IsNodePure := fun n => decide (n = 2) }

/-- The invariant of the loop of `InitNodePool`, with `extra` a node that has just been
popped (or `none`): the pool is duplicate-free, impure and accepted by the filter; every
impure accepted node linked by an exec link to a pool node is in the pool, on a stack or the
popped node; and so is the root unless it is pure or rejected. -/
def InitNodePool_inv (g : EdGraph) (NTF : List Nat) (RootNode : Nat) (extra : Option Nat)
    (s : InitNodePoolState) : Prop :=
  s.NodePool.Nodup ∧
  (∀ n ∈ s.NodePool,
    g.IsNodePure n = false ∧ FilterSelectiveFormatting NTF n = true) ∧
  (∀ m ∈ s.NodePool, ∀ l ∈ InitNodePool_links g m,
    g.IsNodePure (g.OwningNode l.2.2) = false →
    FilterSelectiveFormatting NTF (g.OwningNode l.2.2) = true →
    g.OwningNode l.2.2 ∈ s.NodePool ∨ g.OwningNode l.2.2 ∈ s.OutputNodeStack ∨
      g.OwningNode l.2.2 ∈ s.InputNodeStack ∨ some (g.OwningNode l.2.2) = extra) ∧
  (g.IsNodePure RootNode = false → FilterSelectiveFormatting NTF RootNode = true →
    RootNode ∈ s.NodePool ∨ RootNode ∈ s.OutputNodeStack ∨ RootNode ∈ s.InputNodeStack ∨
      some RootNode = extra)

/-! ### `ExpandKnotTracks` -/

/-- `TArray::StableSort` with the comparison `lt`: an element stays before every later element
that is not strictly before it. -/
def StableSort {α : Type} (lt : α → α → Bool) (l : List α) : List α :=
  l.insertionSort (fun a b => lt b a = false)

/-- The node sets of an `FEdGraphParameterFormatter` that `FormatParameterNodes` reads and
writes (EdGraphFormatter.cpp 2633-2656).  The class itself is not part of the sources. -/
structure FEdGraphParameterFormatter where
  FormattedInputNodes : List Nat
  FormattedOutputNodes : List Nat
  AllFormattedNodes : List Nat
  IgnoredNodes : List Nat
  deriving DecidableEq, Repr

/-- Modelled from the spec: `FEdGraphParameterFormatter::GetFormattedNodes`, the formatted
set of the owner, returned by value as a `TSet` (FormatterInterface.h 16): the nodes of
`AllFormattedNodes`, each once. -/
def FEdGraphParameterFormatter.GetFormattedNodes (F : FEdGraphParameterFormatter) : List Nat :=
  F.AllFormattedNodes.dedup

/-- The state of the first loop of `FormatParameterNodes`: `ParameterFormatterMap` (one
formatter per main node, `GetParameterFormatter`, lines 2936-2944), `ParameterParentMap`
(a formatter is named by its main node) and the local `IgnoredNodes`. -/
structure ParameterState where
  ParameterFormatterMap : Nat → FEdGraphParameterFormatter
  ParameterParentMap : Nat → Option Nat
  IgnoredNodes : List Nat

/-- The comparison `LeftTopMostSort(A, B)` (EdGraphFormatter.cpp 2614-2622) on the positions
`NodePosX`, `NodePosY`. -/
def LeftTopMostSort (NodePosX NodePosY : Nat → Int) (A B : Nat) : Bool :=
  if NodePosX A ≠ NodePosX B then decide (NodePosX A < NodePosX B)
  else decide (NodePosY A < NodePosY B)

/-- Lines 2642-2644: the old parent formatter gives the node up and ignores it. -/
def FEdGraphParameterFormatter.dropNode (F : FEdGraphParameterFormatter) (NodeToCheck : Nat) :
    FEdGraphParameterFormatter :=
  { F with
    FormattedOutputNodes := F.FormattedOutputNodes.filter (fun n => decide (n ≠ NodeToCheck))
    AllFormattedNodes := F.AllFormattedNodes.filter (fun n => decide (n ≠ NodeToCheck))
    IgnoredNodes := F.IgnoredNodes ++ [NodeToCheck] }

/-- The body of the loop over the formatted nodes of `MainNode` (EdGraphFormatter.cpp
2636-2651): a node that already has a parent formatter is removed from that formatter, then
`ParameterParentMap.Add` overwrites its entry with the formatter of `MainNode`. -/
def FormatParameterNodes_claim (MainNode : Nat) (s : ParameterState) (NodeToCheck : Nat) :
    ParameterState :=
  { s with
    ParameterFormatterMap :=
      match s.ParameterParentMap NodeToCheck with
      | some ParentFormatter => fun j =>
          if j = ParentFormatter then (s.ParameterFormatterMap j).dropNode NodeToCheck
          else s.ParameterFormatterMap j
      | none => s.ParameterFormatterMap
    ParameterParentMap := fun n => if n = NodeToCheck then some MainNode else s.ParameterParentMap n }

/-- The formatter of `MainNode` after `SetIgnoredNodes(IgnoredNodes)` and `FormatNode(MainNode)`
(lines 2632-2633).  `FEdGraphParameterFormatter::FormatNode` is not part of the sources:
`FormatNode` stands for its result, which may depend on the whole state. -/
def FormatParameterNodes_format
    (FormatNode : ParameterState → Nat → FEdGraphParameterFormatter → FEdGraphParameterFormatter)
    (s : ParameterState) (MainNode : Nat) : FEdGraphParameterFormatter :=
  FormatNode s MainNode { s.ParameterFormatterMap MainNode with IgnoredNodes := s.IgnoredNodes }

/-- The body of the first loop of `FormatParameterNodes` (EdGraphFormatter.cpp 2627-2655). -/
def FormatParameterNodes_main
    (FormatNode : ParameterState → Nat → FEdGraphParameterFormatter → FEdGraphParameterFormatter)
    (s : ParameterState) (MainNode : Nat) : ParameterState :=
  let ParameterFormatter := FormatParameterNodes_format FormatNode s MainNode
  let s1 : ParameterState :=
    { s with ParameterFormatterMap := fun j =>
        if j = MainNode then ParameterFormatter else s.ParameterFormatterMap j }
  let s2 := ParameterFormatter.GetFormattedNodes.foldl (FormatParameterNodes_claim MainNode) s1
  { s2 with
    IgnoredNodes := s2.IgnoredNodes ++ (s2.ParameterFormatterMap MainNode).FormattedInputNodes }

/-- The order of line 2623: the node pool, stably sorted by `LeftTopMostSort`. -/
def FormatParameterNodes_order (NodePosX NodePosY : Nat → Int) (NodePool : List Nat) :
    List Nat :=
  StableSort (LeftTopMostSort NodePosX NodePosY) NodePool

/-- The first pass of `FormatParameterNodes` (EdGraphFormatter.cpp 2610-2655). -/
def FormatParameterNodes_firstPass (NodePosX NodePosY : Nat → Int)
    (FormatNode : ParameterState → Nat → FEdGraphParameterFormatter → FEdGraphParameterFormatter)
    (ParameterFormatterMap : Nat → FEdGraphParameterFormatter) (NodePool : List Nat) :
    ParameterState :=
  (FormatParameterNodes_order NodePosX NodePosY NodePool).foldl
    (FormatParameterNodes_main FormatNode)
    { ParameterFormatterMap := ParameterFormatterMap
      ParameterParentMap := fun _ => none
      IgnoredNodes := [] }

/-- What the first loop of `FormatParameterNodes` keeps true for the main nodes `Proc`
processed so far: every node in the formatted set of a processed main node has that main
node as its parent, and every parent is a processed main node. -/
def ParameterState_inv (Proc : List Nat) (s : ParameterState) : Prop :=
  (∀ A ∈ Proc, ∀ P ∈ (s.ParameterFormatterMap A).AllFormattedNodes,
    s.ParameterParentMap P = some A) ∧
  (∀ P C, s.ParameterParentMap P = some C → C ∈ Proc)

/-- Two main nodes, 1 at x = 0 and 2 at x = 300, whose parameter formatters both claim the
pure node 7: formatter 1 as an output node, formatter 2 as an input node. -/
def sharedFormatNode (_ : ParameterState) (MainNode : Nat) (F : FEdGraphParameterFormatter) :
    FEdGraphParameterFormatter :=
  if MainNode = 1 then
    { F with FormattedInputNodes := [], FormattedOutputNodes := [7], AllFormattedNodes := [1, 7] }
  else
    { F with FormattedInputNodes := [7], FormattedOutputNodes := [], AllFormattedNodes := [2, 7] }

/-- A formatter that has not formatted anything yet. -/
def emptyParameterFormatter : FEdGraphParameterFormatter :=
  { FormattedInputNodes := [], FormattedOutputNodes := [], AllFormattedNodes := []
    IgnoredNodes := [] }

/-! ### Invariants and measures of `FormatX` -/

/-! ### `FormatX`: the invariant of the worklist loop -/

/-- The node of the info `i` of the arena: `Info->GetNode()`. -/
abbrev InfoNode (g : EdGraph) (Infos : Nat → FFormatXInfo) (i : Nat) : Nat :=
  (Infos i).Link.GetNode g

/-- The info `i` is the one that `FormatXInfoMap` stores for its node. -/
def IsMapInfo {Env : Type} (P : FormatXParams Env) (s : FormatXState Env) (i : Nat) : Prop :=
  s.FormatXInfoMap (InfoNode P.g s.Infos i) = some i

/-- The link of the root info (EdGraphFormatter.cpp 468). -/
def RootNodeLink (RootNode : Nat) : FPinLink :=
  { From := none, To := none, FallbackNode := RootNode }

/-- What every state of the loop of `FormatX` satisfies.  Info 0 is the root info, without
parent and stored for the root.  Every other info of the arena carries a link to an impure
node of the pool and has a parent that is stored in `FormatXInfoMap`.  An entry of the map
is an info of the arena for that node.  The stacks hold infos of the arena.  A children list
has no info twice and holds exactly the stored infos whose parent is the owner of the list. -/
structure FormatX_inv {Env : Type} (P : FormatXParams Env) (s : FormatXState Env) : Prop where
  num_pos : 1 ≤ s.NumInfos
  root_parent : (s.Infos 0).Parent = none
  root_link : (s.Infos 0).Link = RootNodeLink P.RootNode
  root_map : s.FormatXInfoMap P.RootNode = some 0
  link : ∀ i, 0 < i → i < s.NumInfos → ∃ pp lp p,
    (s.Infos i).Link = { From := some pp, To := some lp, FallbackNode := P.g.OwningNode lp } ∧
    P.g.OwningNode lp ∈ P.NodePool ∧ P.g.IsNodePure (P.g.OwningNode lp) = false ∧
    (s.Infos i).Parent = some p ∧ p < s.NumInfos ∧ IsMapInfo P s p
  map_lt : ∀ n i, s.FormatXInfoMap n = some i → i < s.NumInfos ∧ InfoNode P.g s.Infos i = n
  stack_lt : ∀ e ∈ s.OutputStack ++ s.InputStack, e < s.NumInfos
  child : ∀ c k, k ∈ (s.Infos c).Children →
    k < s.NumInfos ∧ IsMapInfo P s k ∧ (s.Infos k).Parent = some c
  child_nodup : ∀ c, (s.Infos c).Children.Nodup
  child_conv : ∀ k p, IsMapInfo P s k → (s.Infos k).Parent = some p → k ∈ (s.Infos p).Children

/-- All links of the node `n` have been visited. -/
def LinksVisited {Env : Type} (P : FormatXParams Env) (s : FormatXState Env) (n : Nat) : Prop :=
  ∀ l ∈ FormatX_linksOf P.g n, l ∈ s.VisitedLinks

/-- Between two passes of the loop of `FormatX` the links of every node with an entry in
`FormatXInfoMap` have been visited, except before the first pass, when the root info alone is
on the stacks and the root is the only node with an entry. -/
def FormatX_visited {Env : Type} (P : FormatXParams Env) (s : FormatXState Env) : Prop :=
  (∀ n, s.FormatXInfoMap n ≠ none → LinksVisited P s n) ∨
  (s.OutputStack = [0] ∧ s.InputStack = [] ∧ ∀ n, s.FormatXInfoMap n ≠ none → n = P.RootNode)


/-- Lines 503-628 of `FormatX` for the popped info `cur`: the first-visit branch or the
revisit branch.  Returns the state and the info that `CurrentInfo` designates afterwards. -/
def FormatX_branch {Env : Type} (P : FormatXParams Env) (s0 : FormatXState Env) (cur : Nat) :
    FormatXState Env × Nat :=
  match s0.FormatXInfoMap ((s0.Infos cur).Link.GetNode P.g) with
  | none => (FormatX_firstVisit P s0 cur (P.GetChildX s0.env s0.NodePosX (s0.Infos cur).Link), cur)
  | some old => FormatX_revisit P s0 cur old (P.GetChildX s0.env s0.NodePosX (s0.Infos cur).Link)


/-- The info reached from `y` by following `Parent` `t` times (`none` when the chain ends
before). -/
def iterParent (Infos : Nat → FFormatXInfo) : Nat → Nat → Option Nat
  | 0, y => some y
  | t + 1, y => (iterParent Infos t y).bind (fun z => (Infos z).Parent)

/-- The info `c` is reached from itself by following `Parent` at least once. -/
def OnParentCycle (Infos : Nat → FFormatXInfo) (c : Nat) : Prop :=
  ∃ t, 0 < t ∧ iterParent Infos t c = some c

/-- The invariant of the loop of `FFormatXInfo::GetChildren` called on a stored info `c`, as
long as the node of `c` has not been output: the pending infos are stored infos, pairwise
different, not yet output, each with a parent that is `c` or was output; the children of `c`
and of every info that was output are pending or output; an info that was output has a parent
that is `c` or was output; the output has no node twice and holds nodes of stored infos. -/
structure GetChildren_inv {Env : Type} (P : FormatXParams Env) (s : FormatXState Env)
    (c : Nat) (Pending : List Nat) (Out : List Nat) : Prop where
  pending : ∀ y ∈ Pending, IsMapInfo P s y ∧
    ∃ z, (s.Infos y).Parent = some z ∧ (z = c ∨ InfoNode P.g s.Infos z ∈ Out)
  closed : ∀ z, IsMapInfo P s z → InfoNode P.g s.Infos z ∈ Out →
    (∀ k ∈ (s.Infos z).Children, k ∈ Pending ∨ InfoNode P.g s.Infos k ∈ Out) ∧
    ∃ z2, (s.Infos z).Parent = some z2 ∧ (z2 = c ∨ InfoNode P.g s.Infos z2 ∈ Out)
  start : ∀ k ∈ (s.Infos c).Children, k ∈ Pending ∨ InfoNode P.g s.Infos k ∈ Out
  pending_nodup : Pending.Nodup
  pending_new : ∀ y ∈ Pending, InfoNode P.g s.Infos y ∉ Out
  out_nodup : Out.Nodup
  out_map : ∀ n ∈ Out, ∃ z, IsMapInfo P s z ∧ InfoNode P.g s.Infos z = n
  self_new : InfoNode P.g s.Infos c ∉ Out


/-- The number of infos in the tree below the info `c`, followed through the children lists
down to depth `d` (an info is counted once for every path that reaches it). -/
def subtreeSize (Infos : Nat → FFormatXInfo) : Nat → Nat → Nat
  | 0, _ => 1
  | d + 1, c => 1 + ((Infos c).Children.map (subtreeSize Infos d)).sum

/-- There is a path of `d` steps through the children lists that starts at the info `k`. -/
def hasChildChain (Infos : Nat → FFormatXInfo) : Nat → Nat → Prop
  | 0, _ => True
  | d + 1, k => ∃ z ∈ (Infos k).Children, hasChildChain Infos d z


/-- All links that `FormatX` can meet: the links of the root and of the nodes of the pool. -/
def FormatX_links {Env : Type} (P : FormatXParams Env) : List (Nat × Nat) :=
  (P.RootNode :: P.NodePool).flatMap (FormatX_linksOf P.g)

/-- The number of links of `FormatX_links` that have not been visited. -/
def FormatX_unvisited {Env : Type} (P : FormatXParams Env) (s : FormatXState Env) : Nat :=
  ((FormatX_links P).filter (fun l => decide (l ∉ s.VisitedLinks))).length

/-- The number of stack entries that are not stored in `FormatXInfoMap`: infos made for a
link and not popped yet. -/
def FormatX_fresh {Env : Type} (P : FormatXParams Env) (s : FormatXState Env) : Nat :=
  ((s.OutputStack ++ s.InputStack).filter
    (fun e => decide (s.FormatXInfoMap (InfoNode P.g s.Infos e) ≠ some e))).length

/-- The first component of the measure of the loop of `FormatX`: it drops whenever an info
made for a link is popped or a link is visited. -/
def FormatX_measure1 {Env : Type} (P : FormatXParams Env) (s : FormatXState Env) : Nat :=
  2 * FormatX_unvisited P s + FormatX_fresh P s

/-- The second component of the measure of the loop of `FormatX`: the sizes of the trees
below the stack entries.  It drops when a stored info is popped again. -/
def FormatX_measure2 {Env : Type} (s : FormatXState Env) : Nat :=
  ((s.OutputStack ++ s.InputStack).map (subtreeSize s.Infos s.NumInfos)).sum


/-- Every visited link that leads to an impure node of the pool has brought that node into
`FormatXInfoMap` or onto a stack. -/
def FormatX_closed {Env : Type} (P : FormatXParams Env) (s : FormatXState Env) : Prop :=
  ∀ l ∈ s.VisitedLinks, P.g.OwningNode l.2 ∈ P.NodePool →
    P.g.IsNodePure (P.g.OwningNode l.2) = false →
    s.FormatXInfoMap (P.g.OwningNode l.2) ≠ none ∨
    ∃ e ∈ s.OutputStack ++ s.InputStack, InfoNode P.g s.Infos e = P.g.OwningNode l.2

/-- `FormatX(false)` on `poolGraph` from root 0 with the node pool that `InitNodePool` builds
there, every node 100 wide, horizontal padding 80. -/
def poolParams : FormatXParams Unit :=
  { g := poolGraph
    RootNode := 0
    NodePool := [0, 1, 3]
    bUseParameter := false
    bExpanded := true
    GetChildX := GetChildX_plain poolGraph (fun _ => Float32.ofInt 100) (Float32.ofInt 80)
    RefreshFirstVisit := fun e p _ => (e, p)
    RefreshParameters := fun e p _ => (e, p)
    GetExecTreeInput := fun _ => [] }

/-! ## Theorems -/

theorem Float32.excessBits_le (fuel n k : Nat) (h : n < 2 ^ (24 + k)) :
    Float32.excessBits fuel n ≤ k := by
  induction fuel generalizing n k with
  | zero => exact Nat.zero_le k
  | succ f ih =>
    unfold Float32.excessBits
    by_cases hn : n < 2 ^ 24
    · rw [if_pos hn]
      exact Nat.zero_le k
    · rw [if_neg hn]
      cases k with
      | zero => exact absurd h hn
      | succ k =>
        have h2 : n / 2 < 2 ^ (24 + k) := by
          apply Nat.div_lt_of_lt_mul
          have : 2 ^ (24 + (k + 1)) = 2 * 2 ^ (24 + k) := by
            rw [← Nat.add_assoc, Nat.pow_succ, Nat.mul_comm]
          omega
        exact Nat.succ_le_succ (ih (n / 2) k h2)

theorem Float32.roundNat_of_dvd (n k : Nat) (h : 2 ^ k ∣ n) : Float32.roundNat n k = n := by
  unfold Float32.roundNat
  have hr : n % 2 ^ k = 0 := Nat.mod_eq_zero_of_dvd h
  have hpos : 0 < 2 ^ k := Nat.pow_pos (by decide)
  rw [hr, if_pos (by omega)]
  exact Nat.div_mul_cancel h

theorem Float32.round_exact (z : Int) (k : Nat) (hd : (2 : Int) ^ k ∣ z)
    (hb : |z| < 2 ^ (24 + k)) : Float32.round z = ⟨z⟩ := by
  have hn : z.natAbs < 2 ^ (24 + k) := by
    have : ((z.natAbs : Nat) : Int) < ((2 ^ (24 + k) : Nat) : Int) := by
      rw [Int.natCast_natAbs]
      exact_mod_cast hb
    exact_mod_cast this
  have hdn : 2 ^ k ∣ z.natAbs := by
    have := Int.natAbs_dvd_natAbs.2 hd
    simpa [Int.natAbs_pow] using this
  have hj := Float32.excessBits_le z.natAbs z.natAbs k hn
  have hdj : 2 ^ (Float32.excessBits z.natAbs z.natAbs) ∣ z.natAbs :=
    Dvd.dvd.trans (Nat.pow_dvd_pow 2 hj) hdn
  unfold Float32.round
  rw [Float32.roundNat_of_dvd _ _ hdj]
  by_cases hz : 0 ≤ z
  · rw [if_pos hz, Int.natAbs_of_nonneg hz]
  · rw [if_neg hz]
    have : ((z.natAbs : Nat) : Int) = -z := by
      rw [Int.natCast_natAbs]
      exact abs_of_neg (by omega)
    rw [this, neg_neg]

theorem Float32.ofInt_exact (x : Int) (h : |x| < 16777216) :
    Float32.ofInt x = ⟨x * 2 ^ 149⟩ := by
  unfold Float32.ofInt
  apply Float32.round_exact _ 149 (Dvd.intro_left x rfl)
  rw [abs_mul, pow_add]
  have h2 : |(2 : Int) ^ 149| = 2 ^ 149 := abs_of_pos (by positivity)
  rw [h2]
  have : (2 : Int) ^ 24 = 16777216 := by norm_num
  rw [this]
  exact mul_lt_mul_of_pos_right h (by positivity)

theorem Float32.add_whole (a b : Int) (h : |a + b| < 16777216) :
    Float32.add ⟨a * 2 ^ 149⟩ ⟨b * 2 ^ 149⟩ = ⟨(a + b) * 2 ^ 149⟩ := by
  have := Float32.ofInt_exact (a + b) h
  unfold Float32.ofInt at this
  unfold Float32.add
  show Float32.round (a * 2 ^ 149 + b * 2 ^ 149) = _
  rw [← add_mul]
  exact this

theorem Float32.sub_whole (a b : Int) (h : |a - b| < 16777216) :
    Float32.sub ⟨a * 2 ^ 149⟩ ⟨b * 2 ^ 149⟩ = ⟨(a - b) * 2 ^ 149⟩ := by
  have := Float32.ofInt_exact (a - b) h
  unfold Float32.ofInt at this
  unfold Float32.sub
  show Float32.round (a * 2 ^ 149 - b * 2 ^ 149) = _
  rw [← sub_mul]
  exact this

theorem Float32.toInt_whole (x : Int) : Float32.toInt ⟨x * 2 ^ 149⟩ = x := by
  unfold Float32.toInt
  exact Int.mul_tdiv_cancel x (by positivity)

theorem Float32.excessBits_spec (fuel n : Nat) (h : n ≤ fuel) :
    n < 2 ^ (24 + Float32.excessBits fuel n) := by
  induction fuel generalizing n with
  | zero =>
    have : n = 0 := Nat.le_zero.1 h
    subst this
    exact Nat.pow_pos (by decide)
  | succ f ih =>
    unfold Float32.excessBits
    by_cases hn : n < 2 ^ 24
    · rw [if_pos hn]
      exact hn
    · rw [if_neg hn]
      have h24 : (2 : Nat) ^ 24 = 16777216 := by norm_num
      have h2 : n / 2 ≤ f := by omega
      have := ih (n / 2) h2
      have e : 2 ^ (24 + (Float32.excessBits f (n / 2) + 1))
          = 2 * 2 ^ (24 + Float32.excessBits f (n / 2)) := by
        rw [← Nat.add_assoc, Nat.pow_succ, Nat.mul_comm]
      rw [e]
      omega

theorem Float32.roundNat_bounds (n k : Nat) (h : n < 2 ^ (24 + k)) :
    2 ^ k ∣ Float32.roundNat n k ∧ Float32.roundNat n k ≤ 2 ^ (24 + k) := by
  have hq : n / 2 ^ k < 2 ^ 24 := by
    apply Nat.div_lt_of_lt_mul
    rw [← Nat.pow_add, Nat.add_comm]
    exact h
  have e : 2 ^ (24 + k) = 2 ^ 24 * 2 ^ k := Nat.pow_add 2 24 k
  have h1 : n / 2 ^ k * 2 ^ k ≤ 2 ^ (24 + k) := by
    rw [e]
    exact Nat.mul_le_mul_right _ (Nat.le_of_lt hq)
  have h2 : (n / 2 ^ k + 1) * 2 ^ k ≤ 2 ^ (24 + k) := by
    rw [e]
    exact Nat.mul_le_mul_right _ hq
  unfold Float32.roundNat
  split_ifs
  · exact ⟨Dvd.intro_left _ rfl, h1⟩
  · exact ⟨Dvd.intro_left _ rfl, h2⟩
  · exact ⟨Dvd.intro_left _ rfl, h1⟩
  · exact ⟨Dvd.intro_left _ rfl, h2⟩

theorem Float32.roundNat_fixed (y k : Nat) (hd : 2 ^ k ∣ y) (hb : y ≤ 2 ^ (24 + k)) :
    Float32.roundNat y (Float32.excessBits y y) = y := by
  apply Float32.roundNat_of_dvd
  rcases Nat.lt_or_eq_of_le hb with h | h
  · exact Dvd.dvd.trans (Nat.pow_dvd_pow 2 (Float32.excessBits_le y y k h)) hd
  · have h1 : y < 2 ^ (24 + (k + 1)) := by
      rw [h, ← Nat.add_assoc]
      exact Nat.pow_lt_pow_right (by decide) (Nat.lt_succ_self _)
    have h2 := Float32.excessBits_le y y (k + 1) h1
    have h3 : 2 ^ (k + 1) ∣ y := by
      rw [h]
      exact Nat.pow_dvd_pow 2 (by omega)
    exact Dvd.dvd.trans (Nat.pow_dvd_pow 2 h2) h3

theorem Float32.round_idem (z : Int) : Float32.round (Float32.round z).units = Float32.round z := by
  obtain ⟨hd, hb⟩ := Float32.roundNat_bounds z.natAbs _
    (Float32.excessBits_spec z.natAbs z.natAbs (Nat.le_refl _))
  have hfix := Float32.roundNat_fixed _ _ hd hb
  generalize hy : Float32.roundNat z.natAbs (Float32.excessBits z.natAbs z.natAbs) = y at hfix
  have hr : Float32.round z = ⟨if 0 ≤ z then (y : Int) else -(y : Int)⟩ := by
    unfold Float32.round
    rw [hy]
  rw [hr]
  by_cases hz : 0 ≤ z
  · simp only [if_pos hz]
    unfold Float32.round
    simp only [Int.natAbs_ofNat, Int.natCast_nonneg, if_true, hfix]
  · simp only [if_neg hz]
    unfold Float32.round
    simp only [Int.natAbs_neg, Int.natAbs_ofNat, hfix]
    by_cases hy0 : (0 : Int) ≤ -(y : Int)
    · rw [if_pos hy0]
      have : (y : Int) = 0 := by omega
      rw [this]
      rfl
    · rw [if_neg hy0]

theorem Float32.sub_self (a : Float32) : Float32.sub a a = ⟨0⟩ := by
  unfold Float32.sub
  rw [Int.sub_self]
  rfl

theorem Float32.add_add_zero (a b : Float32) :
    Float32.add (Float32.add a b) ⟨0⟩ = Float32.add a b := by
  unfold Float32.add
  rw [Int.add_zero]
  exact Float32.round_idem _

theorem Float32.add_zero_of_round (a : Float32) (h : Float32.round a.units = a) :
    Float32.add a ⟨0⟩ = a := by
  unfold Float32.add
  rw [Int.add_zero]
  exact h

theorem RoundToInt_whole (x : Int) (h : |x| < 8388608) : RoundToInt ⟨x * 2 ^ 149⟩ = x := by
  unfold RoundToInt Float32.add
  have e : x * 2 ^ 149 + 2 ^ 148 = (2 * x + 1) * 2 ^ 148 := by ring
  have hb : |(2 * x + 1) * (2 : Int) ^ 148| < 2 ^ (24 + 148) := by
    rw [abs_mul, pow_add]
    have h2 : |(2 : Int) ^ 148| = 2 ^ 148 := abs_of_pos (by positivity)
    rw [h2]
    have h3 : |2 * x + 1| < (2 : Int) ^ 24 := by
      have : (2 : Int) ^ 24 = 16777216 := by norm_num
      rw [this, abs_lt]
      rw [abs_lt] at h
      constructor <;> omega
    exact mul_lt_mul_of_pos_right h3 (by positivity)
  show (Float32.round (x * 2 ^ 149 + 2 ^ 148)).units / 2 ^ 149 = x
  rw [e, Float32.round_exact _ 148 (Dvd.intro_left _ rfl) hb]
  show (2 * x + 1) * 2 ^ 148 / 2 ^ 149 = x
  have e2 : (2 * x + 1) * (2 : Int) ^ 148 = 2 ^ 148 + 2 ^ 149 * x := by ring
  rw [e2, Int.add_mul_ediv_left _ _ (by positivity)]
  have : (2 : Int) ^ 148 / 2 ^ 149 = 0 := by norm_num
  rw [this, zero_add]

theorem addFloatToInt32_whole (x d : Int) (hx : |x| < 16777216) (hs : |x + d| < 16777216) :
    addFloatToInt32 x ⟨d * 2 ^ 149⟩ = x + d := by
  unfold addFloatToInt32
  rw [Float32.ofInt_exact x hx, Float32.add_whole x d hs, Float32.toInt_whole]

theorem foldl_addToNodePos_X (l : List Nat) (dx dy : Float32) (p : NodePositions) (a : Nat) :
    (l.foldl (fun q Node => addToNodePos q Node dx dy) p).NodePosX a
      = (fun x => addFloatToInt32 x dx)^[l.count a] (p.NodePosX a) := by
  induction l generalizing p with
  | nil => simp
  | cons n l ih =>
    rw [List.foldl_cons, ih, List.count_cons]
    by_cases h : n = a
    · subst h
      simp [addToNodePos]
    · have h' : ¬ a = n := fun e => h e.symm
      simp [addToNodePos, h, h']

theorem foldl_addToNodePos_Y (l : List Nat) (dx dy : Float32) (p : NodePositions) (a : Nat) :
    (l.foldl (fun q Node => addToNodePos q Node dx dy) p).NodePosY a
      = (fun y => addFloatToInt32 y dy)^[l.count a] (p.NodePosY a) := by
  induction l generalizing p with
  | nil => simp
  | cons n l ih =>
    rw [List.foldl_cons, ih, List.count_cons]
    by_cases h : n = a
    · subst h
      simp [addToNodePos]
    · have h' : ¬ a = n := fun e => h e.symm
      simp [addToNodePos, h, h']

theorem SnapAllNodesToGrid_Y (snap : Int → Int) (l : List Nat) (p : NodePositions) (a : Nat) :
    (SnapAllNodesToGrid snap l p).NodePosY a = p.NodePosY a := by
  unfold SnapAllNodesToGrid
  induction l generalizing p with
  | nil => rfl
  | cons n l ih => rw [List.foldl_cons, ih]

theorem SnapAllNodesToGrid_X_not_mem (snap : Int → Int) (l : List Nat) (p : NodePositions)
    (a : Nat) (h : a ∉ l) : (SnapAllNodesToGrid snap l p).NodePosX a = p.NodePosX a := by
  unfold SnapAllNodesToGrid
  induction l generalizing p with
  | nil => rfl
  | cons n l ih =>
    rw [List.foldl_cons, ih _ (fun hm => h (List.mem_cons_of_mem _ hm))]
    have : ¬ a = n := fun e => h (e ▸ List.mem_cons_self _ _)
    simp [this]

theorem SnapAllNodesToGrid_X_mem (snap : Int → Int) (l : List Nat) (p : NodePositions)
    (a : Nat) (h : a ∈ l) (hd : l.Nodup) :
    (SnapAllNodesToGrid snap l p).NodePosX a = snap (p.NodePosX a) := by
  induction l generalizing p with
  | nil => cases h
  | cons n l ih =>
    have hn : n ∉ l := (List.nodup_cons.mp hd).1
    have hl : l.Nodup := (List.nodup_cons.mp hd).2
    rcases List.mem_cons.mp h with e | hm
    · subst e
      have := SnapAllNodesToGrid_X_not_mem snap l
        { p with NodePosX := fun m => if m = a then snap (p.NodePosX m) else p.NodePosX m } a hn
      simpa [SnapAllNodesToGrid] using this
    · have hne : ¬ a = n := fun e => hn (e ▸ hm)
      have := ih
        { p with NodePosX := fun m => if m = n then snap (p.NodePosX m) else p.NodePosX m } hm hl
      simpa [SnapAllNodesToGrid, hne] using this

theorem ResetRelativeToNodeToKeepStill_not_mem (A : Nat) (Saved : Float32 × Float32)
    (Formatted Knots : List Nat) (p : NodePositions) (hf : A ∉ Formatted) (hk : A ∉ Knots) :
    (ResetRelativeToNodeToKeepStill A Saved Formatted Knots p).NodePosX A = p.NodePosX A ∧
    (ResetRelativeToNodeToKeepStill A Saved Formatted Knots p).NodePosY A = p.NodePosY A := by
  unfold ResetRelativeToNodeToKeepStill
  dsimp only
  split_ifs
  · rw [foldl_addToNodePos_X, foldl_addToNodePos_Y, foldl_addToNodePos_X, foldl_addToNodePos_Y]
    rw [List.count_eq_zero_of_not_mem hk, List.count_eq_zero_of_not_mem hf]
    exact ⟨rfl, rfl⟩
  · exact ⟨rfl, rfl⟩

theorem ResetRelativeToNodeToKeepStill_anchor (A : Nat) (sx sy : Int)
    (Formatted Knots : List Nat) (p : NodePositions)
    (hmem : A ∈ Formatted) (hd : Formatted.Nodup) (hk : A ∉ Knots)
    (hsx : |sx| < 16777216) (hpx : |p.NodePosX A| < 16777216)
    (hdx : |sx - p.NodePosX A| < 16777216)
    (hsy : |sy| < 16777216) (hpy : |p.NodePosY A| < 16777216)
    (hdy : |sy - p.NodePosY A| < 16777216) :
    (ResetRelativeToNodeToKeepStill A (Float32.ofInt sx, Float32.ofInt sy)
      Formatted Knots p).NodePosX A = sx ∧
    (ResetRelativeToNodeToKeepStill A (Float32.ofInt sx, Float32.ofInt sy)
      Formatted Knots p).NodePosY A = sy := by
  unfold ResetRelativeToNodeToKeepStill
  dsimp only
  rw [Float32.ofInt_exact sx hsx, Float32.ofInt_exact sy hsy,
    Float32.ofInt_exact _ hpx, Float32.ofInt_exact _ hpy,
    Float32.sub_whole _ _ hdx, Float32.sub_whole _ _ hdy]
  have h149 : (2 : Int) ^ 149 ≠ 0 := by positivity
  by_cases hz : (sx - p.NodePosX A) * 2 ^ 149 ≠ 0 ∨ (sy - p.NodePosY A) * 2 ^ 149 ≠ 0
  · rw [if_pos hz]
    rw [foldl_addToNodePos_X, foldl_addToNodePos_Y, foldl_addToNodePos_X, foldl_addToNodePos_Y]
    rw [List.count_eq_zero_of_not_mem hk, List.count_eq_one_of_mem hd hmem]
    simp only [Function.iterate_zero, Function.iterate_one, id_eq]
    rw [addFloatToInt32_whole _ _ hpx (by rw [add_sub_cancel]; exact hsx),
      addFloatToInt32_whole _ _ hpy (by rw [add_sub_cancel]; exact hsy)]
    constructor <;> ring
  · rw [if_neg hz]
    push_neg at hz
    have h1 := (mul_eq_zero.1 hz.1).resolve_right h149
    have h2 := (mul_eq_zero.1 hz.2).resolve_right h149
    constructor <;> omega

/-- C1 (as amended): in a full pass of `FormatNode` with anchor `A`, whatever the layout
passes did to the positions.  While the anchor's coordinates before the pass, its
coordinates after the layout passes and their differences are below 2^24 in absolute value
(the range in which the `float` arithmetic of `ResetRelativeToNodeToKeepStill` is exact),
an anchor that is one of the formatted graph nodes and not a created knot ends with its
`NodePosY` as before the pass and with its `NodePosX` as before the pass when snap-to-grid is
off and `SnapToGrid` of that value when snap-to-grid is on.  An anchor that is neither a
formatted graph node nor a created knot is written by neither step and ends where the layout
passes left it. -/
theorem FormatNode_anchor_position (bSnapToGrid : Bool) (SnapToGrid : Int → Int)
    (Layout : NodePositions → NodePositions) (A : Nat) (Formatted Knots : List Nat)
    (p0 : NodePositions) (hd : Formatted.Nodup) (hk : A ∉ Knots)
    (hX0 : |p0.NodePosX A| < 16777216) (hX1 : |(Layout p0).NodePosX A| < 16777216)
    (hDX : |p0.NodePosX A - (Layout p0).NodePosX A| < 16777216)
    (hY0 : |p0.NodePosY A| < 16777216) (hY1 : |(Layout p0).NodePosY A| < 16777216)
    (hDY : |p0.NodePosY A - (Layout p0).NodePosY A| < 16777216) :
    (A ∈ Formatted →
      (FormatNode_positions bSnapToGrid SnapToGrid Layout A Formatted Knots p0).NodePosY A
          = p0.NodePosY A ∧
      (FormatNode_positions bSnapToGrid SnapToGrid Layout A Formatted Knots p0).NodePosX A
          = (if bSnapToGrid then SnapToGrid (p0.NodePosX A) else p0.NodePosX A)) ∧
    (A ∉ Formatted →
      (FormatNode_positions bSnapToGrid SnapToGrid Layout A Formatted Knots p0).NodePosY A
          = (Layout p0).NodePosY A ∧
      (FormatNode_positions bSnapToGrid SnapToGrid Layout A Formatted Knots p0).NodePosX A
          = (Layout p0).NodePosX A) := by
  constructor
  · intro hmem
    have hr := ResetRelativeToNodeToKeepStill_anchor A (p0.NodePosX A) (p0.NodePosY A)
      Formatted Knots (Layout p0) hmem hd hk hX0 hX1 hDX hY0 hY1 hDY
    unfold FormatNode_positions
    cases bSnapToGrid with
    | false => simpa using ⟨hr.2, hr.1⟩
    | true =>
      simp only [if_true]
      rw [SnapAllNodesToGrid_Y, SnapAllNodesToGrid_X_mem _ _ _ _ hmem hd]
      exact ⟨hr.2, by rw [hr.1]⟩
  · intro hmem
    have hr := ResetRelativeToNodeToKeepStill_not_mem A
      (Float32.ofInt (p0.NodePosX A), Float32.ofInt (p0.NodePosY A))
      Formatted Knots (Layout p0) hmem hk
    unfold FormatNode_positions
    cases bSnapToGrid with
    | false => simpa using ⟨hr.2, hr.1⟩
    | true =>
      simp only [if_true]
      rw [SnapAllNodesToGrid_Y, SnapAllNodesToGrid_X_not_mem _ _ _ _ hmem]
      exact ⟨hr.2, hr.1⟩

set_option maxRecDepth 1000000 in
/-- C1 witness: three formatted nodes, one knot, a layout that throws every node to
(1000, -70), snap-to-grid on; the anchor 1 started at (37, 5). -/
theorem FormatNode_anchor_position_witness :
    (FormatNode_positions true SnapToGrid16 (fun _ => constPositions 1000 (-70)) 1 [0, 1, 2] [7]
        (constPositions 37 5)).NodePosY 1 = 5 ∧
    (FormatNode_positions true SnapToGrid16 (fun _ => constPositions 1000 (-70)) 1 [0, 1, 2] [7]
        (constPositions 37 5)).NodePosX 1 = 32 :=
  (FormatNode_anchor_position true SnapToGrid16 (fun _ => constPositions 1000 (-70)) 1 [0, 1, 2]
    [7] (constPositions 37 5) (by decide) (by decide) (by decide) (by decide) (by decide)
    (by decide) (by decide) (by decide)).1 (by decide)

set_option maxRecDepth 1000000 in
/-- C1 counterexample: with snap-to-grid on, a single formatted node that is its own anchor
and starts at x = 37 ends the pass at x = 32, although the layout moved nothing. -/
theorem FormatNode_anchor_moves_under_snap :
    (FormatNode_positions true SnapToGrid16 id 0 [0] [] (constPositions 37 5)).NodePosX 0
      ≠ (constPositions 37 5).NodePosX 0 := by
  decide

set_option maxRecDepth 1000000 in
/-- An anchor that is both a formatted graph node and in `KnotNodesSet` receives the delta of
`ResetRelativeToNodeToKeepStill` in both loops (lines 1928-1938): started at x = 37 and moved
to x = 1000 by the layout, it ends at 1000 + 2 * (37 - 1000). -/
theorem FormatNode_anchor_delta_twice :
    (FormatNode_positions false id (fun _ => constPositions 1000 (-70)) 0 [0] [0]
        (constPositions 37 5)).NodePosX 0 = -926 := by
  decide

set_option maxRecDepth 1000000 in
/-- Beyond 2^24 the `float` arithmetic of `ResetRelativeToNodeToKeepStill` loses the anchor
even with snap-to-grid off: an anchor at x = 16777217 that the layout moves by 100 is put
back to x = 16777216. -/
theorem FormatNode_anchor_float_rounding :
    (FormatNode_positions false id (fun _ => constPositions 16777317 5) 0 [0] []
        (constPositions 16777217 5)).NodePosX 0 = 16777216 := by
  decide

set_option maxRecDepth 1000000 in
/-- C3 (failing input): on a graph where node 1, reached from the root through an execution
link, has its execution output wired to its own execution input, `FormatX` ends (both stacks
empty after six passes) with the entry of node 1 being its own parent and its own child, and
the root left without children: the parent pointers do not form a tree. -/
theorem FormatX_selfLink_parent_cycle :
    FormatX_done (FormatX_loop selfLinkParams 6 (FormatX_init selfLinkParams (fun _ => 0) ()))
      = true ∧
    (FormatX_loop selfLinkParams 6 (FormatX_init selfLinkParams (fun _ => 0) ())).FormatXInfoMap 1
      = some 1 ∧
    ((FormatX_loop selfLinkParams 6 (FormatX_init selfLinkParams (fun _ => 0) ())).Infos 1).Parent
      = some 1 ∧
    ((FormatX_loop selfLinkParams 6 (FormatX_init selfLinkParams (fun _ => 0) ())).Infos 1).Children
      = [1] ∧
    ((FormatX_loop selfLinkParams 6 (FormatX_init selfLinkParams (fun _ => 0) ())).Infos 0).Children
      = [] := by
  refine ⟨?_, ?_, ?_, ?_, ?_⟩ <;> decide

theorem wrapInt32_of_IsInt32 (x : Int) (h : IsInt32 x) : wrapInt32 x = x := by
  unfold IsInt32 at h
  unfold wrapInt32
  omega

theorem wrapInt32_add_wrapInt32 (a b : Int) : wrapInt32 (a + wrapInt32 b) = wrapInt32 (a + b) := by
  unfold wrapInt32
  omega

theorem wrapInt32_IsInt32 (x : Int) : IsInt32 (wrapInt32 x) := by
  unfold IsInt32 wrapInt32
  omega

/-- A snapshot as `UpdateValues` leaves it for node `n` at positions `p` with anchor `A`. -/
theorem UpdateValues_fields (g : EdGraph) (p : NodePositions) (n A : Nat) (info : FNodeChangeInfo) :
    (info.UpdateValues g p n A).NodeOffsetX = wrapInt32 (p.NodePosX n - p.NodePosX A) ∧
    (info.UpdateValues g p n A).NodeOffsetY = wrapInt32 (p.NodePosY n - p.NodePosY A) ∧
    (info.UpdateValues g p n A).Links = NodeLinks g n := by
  simp [FNodeChangeInfo.UpdateValues]

theorem SaveFormattingEndInfo_keeps (g : EdGraph) (p : NodePositions) (A : Nat) (F : List Nat)
    (m : Nat → Option FNodeChangeInfo) (n : Nat)
    (h : ∃ info, m n = some info ∧
      info.NodeOffsetX = wrapInt32 (p.NodePosX n - p.NodePosX A) ∧
      info.NodeOffsetY = wrapInt32 (p.NodePosY n - p.NodePosY A) ∧
      info.Links = NodeLinks g n) :
    ∃ info, SaveFormattingEndInfo g p A F m n = some info ∧
      info.NodeOffsetX = wrapInt32 (p.NodePosX n - p.NodePosX A) ∧
      info.NodeOffsetY = wrapInt32 (p.NodePosY n - p.NodePosY A) ∧
      info.Links = NodeLinks g n := by
  unfold SaveFormattingEndInfo
  induction F generalizing m with
  | nil => simpa using h
  | cons x t ih =>
    rw [List.foldl_cons]
    apply ih
    by_cases hx : n = x
    · subst hx
      cases hm : m n with
      | none => exact ⟨FNodeChangeInfo.make g p n A, by simp, UpdateValues_fields g p n A _⟩
      | some i => exact ⟨i.UpdateValues g p n A, by simp, UpdateValues_fields g p n A _⟩
    · cases hm : m x with
      | none => simpa [hx] using h
      | some i => simpa [hx] using h

theorem SaveFormattingEndInfo_mem (g : EdGraph) (p : NodePositions) (A : Nat) (F : List Nat)
    (m : Nat → Option FNodeChangeInfo) (n : Nat) (hn : n ∈ F) :
    ∃ info, SaveFormattingEndInfo g p A F m n = some info ∧
      info.NodeOffsetX = wrapInt32 (p.NodePosX n - p.NodePosX A) ∧
      info.NodeOffsetY = wrapInt32 (p.NodePosY n - p.NodePosY A) ∧
      info.Links = NodeLinks g n := by
  induction F generalizing m with
  | nil => cases hn
  | cons x t ih =>
    by_cases hx : n = x
    · subst hx
      have := SaveFormattingEndInfo_keeps g p A t
        (match m n with
          | some info => fun k => if k = n then some (info.UpdateValues g p n A) else m k
          | none => fun k => if k = n then some (FNodeChangeInfo.make g p n A) else m k) n
        (by
          cases hm : m n with
          | none => exact ⟨FNodeChangeInfo.make g p n A, by simp, UpdateValues_fields g p n A _⟩
          | some i => exact ⟨i.UpdateValues g p n A, by simp, UpdateValues_fields g p n A _⟩)
      simpa [SaveFormattingEndInfo] using this
    · have hn' : n ∈ t := by
        rcases List.mem_cons.mp hn with e | e
        · exact absurd e hx
        · exact e
      have := ih
        (match m x with
          | some info => fun k => if k = x then some (info.UpdateValues g p x A) else m k
          | none => fun k => if k = x then some (FNodeChangeInfo.make g p x A) else m k) hn'
      simpa [SaveFormattingEndInfo] using this

/-- The positions after the replay loop, when the anchor's own snapshot (if any) holds the
offsets (0, 0) and the anchor's coordinates are `int32` values. -/
theorem SimpleRelativeFormatting_positions_eq (A : Nat) (infos : Nat → Option FNodeChangeInfo)
    (F : List Nat)
    (hA : ∀ info, A ∈ F → infos A = some info → info.NodeOffsetX = 0 ∧ info.NodeOffsetY = 0)
    (p : NodePositions)
    (hx : IsInt32 (p.NodePosX A)) (hy : IsInt32 (p.NodePosY A)) (m : Nat) :
    (SimpleRelativeFormatting_positions A F infos p).NodePosX m =
      (if m ∈ F then
        (match infos m with
          | some info => wrapInt32 (p.NodePosX A + info.NodeOffsetX)
          | none => p.NodePosX m)
       else p.NodePosX m) ∧
    (SimpleRelativeFormatting_positions A F infos p).NodePosY m =
      (if m ∈ F then
        (match infos m with
          | some info => wrapInt32 (p.NodePosY A + info.NodeOffsetY)
          | none => p.NodePosY m)
       else p.NodePosY m) := by
  unfold SimpleRelativeFormatting_positions
  induction F generalizing p with
  | nil => simp
  | cons n t ih =>
    rw [List.foldl_cons]
    have hA' : ∀ info, A ∈ t → infos A = some info → info.NodeOffsetX = 0 ∧ info.NodeOffsetY = 0 :=
      fun info hm => hA info (List.mem_cons_of_mem _ hm)
    cases hn : infos n with
    | none =>
      have := ih hA' p hx hy
      by_cases hm : m = n
      · subst hm
        by_cases hmt : m ∈ t <;> simp_all
      · simp_all
    | some info =>
      simp only []
      have hAx : (if A = n then wrapInt32 (p.NodePosX A + info.NodeOffsetX) else p.NodePosX A)
          = p.NodePosX A := by
        by_cases e : A = n
        · subst e
          rw [if_pos rfl, (hA info (List.mem_cons_self _ _) hn).1, add_zero,
            wrapInt32_of_IsInt32 _ hx]
        · rw [if_neg e]
      have hAy : (if A = n then wrapInt32 (p.NodePosY A + info.NodeOffsetY) else p.NodePosY A)
          = p.NodePosY A := by
        by_cases e : A = n
        · subst e
          rw [if_pos rfl, (hA info (List.mem_cons_self _ _) hn).2, add_zero,
            wrapInt32_of_IsInt32 _ hy]
        · rw [if_neg e]
      have := ih hA'
        { NodePosX := fun k => if k = n
            then wrapInt32 (p.NodePosX A + info.NodeOffsetX) else p.NodePosX k
          NodePosY := fun k => if k = n
            then wrapInt32 (p.NodePosY A + info.NodeOffsetY) else p.NodePosY k }
        (by simpa [hAx] using hx) (by simpa [hAy] using hy)
      simp only [hAx, hAy] at this
      rw [this.1, this.2]
      by_cases hm : m = n
      · subst hm
        by_cases hmt : m ∈ t <;> simp [hmt, hn]
      · by_cases hmt : m ∈ t <;> simp [hmt, hm]

/-- The snapshots written by `SaveFormattingEndInfo` give the anchor the offsets (0, 0). -/
theorem SaveFormattingEndInfo_anchor (g : EdGraph) (p : NodePositions) (A : Nat) (F : List Nat)
    (prev : Nat → Option FNodeChangeInfo) (info : FNodeChangeInfo) (hAF : A ∈ F)
    (h : SaveFormattingEndInfo g p A F prev A = some info) :
    info.NodeOffsetX = 0 ∧ info.NodeOffsetY = 0 := by
  obtain ⟨i, hi, hx, hy, _⟩ := SaveFormattingEndInfo_mem g p A F prev A hAF
  rw [hi] at h
  cases h
  simp [hx, hy, wrapInt32]

/-- C8: `SimpleRelativeFormatting`, run with the snapshots that `SaveFormattingEndInfo` took
at positions `p0` and on positions `p1` (both tables of `int32` values), leaves the anchor
where it is and puts every formatted node at anchor + cached offset (an `int32` sum);
run on `p0` itself it changes no position; and when only the anchor was translated by
(dx, dy) since the snapshot, every formatted node ends translated by (dx, dy) modulo 2^32. -/
theorem SimpleRelativeFormatting_replays_offsets (g : EdGraph) (A : Nat) (F : List Nat)
    (prev : Nat → Option FNodeChangeInfo) (p0 p1 : NodePositions)
    (h0 : ∀ n, IsInt32 (p0.NodePosX n) ∧ IsInt32 (p0.NodePosY n))
    (h1 : ∀ n, IsInt32 (p1.NodePosX n) ∧ IsInt32 (p1.NodePosY n)) :
    ((SimpleRelativeFormatting_positions A F (SaveFormattingEndInfo g p0 A F prev) p1).NodePosX A
        = p1.NodePosX A ∧
     (SimpleRelativeFormatting_positions A F (SaveFormattingEndInfo g p0 A F prev) p1).NodePosY A
        = p1.NodePosY A) ∧
    (∀ n ∈ F, ∃ info, SaveFormattingEndInfo g p0 A F prev n = some info ∧
      (SimpleRelativeFormatting_positions A F (SaveFormattingEndInfo g p0 A F prev) p1).NodePosX n
        = wrapInt32 ((SimpleRelativeFormatting_positions A F
            (SaveFormattingEndInfo g p0 A F prev) p1).NodePosX A + info.NodeOffsetX) ∧
      (SimpleRelativeFormatting_positions A F (SaveFormattingEndInfo g p0 A F prev) p1).NodePosY n
        = wrapInt32 ((SimpleRelativeFormatting_positions A F
            (SaveFormattingEndInfo g p0 A F prev) p1).NodePosY A + info.NodeOffsetY)) ∧
    (∀ n, n ∉ F →
      (SimpleRelativeFormatting_positions A F (SaveFormattingEndInfo g p0 A F prev) p1).NodePosX n
        = p1.NodePosX n ∧
      (SimpleRelativeFormatting_positions A F (SaveFormattingEndInfo g p0 A F prev) p1).NodePosY n
        = p1.NodePosY n) ∧
    ((∀ n, p1.NodePosX n = p0.NodePosX n ∧ p1.NodePosY n = p0.NodePosY n) → ∀ n,
      (SimpleRelativeFormatting_positions A F (SaveFormattingEndInfo g p0 A F prev) p1).NodePosX n
        = p0.NodePosX n ∧
      (SimpleRelativeFormatting_positions A F (SaveFormattingEndInfo g p0 A F prev) p1).NodePosY n
        = p0.NodePosY n) ∧
    (∀ dx dy : Int, p1.NodePosX A = wrapInt32 (p0.NodePosX A + dx) →
      p1.NodePosY A = wrapInt32 (p0.NodePosY A + dy) →
      (∀ n, n ≠ A → p1.NodePosX n = p0.NodePosX n ∧ p1.NodePosY n = p0.NodePosY n) →
      ∀ n ∈ F,
      (SimpleRelativeFormatting_positions A F (SaveFormattingEndInfo g p0 A F prev) p1).NodePosX n
        = wrapInt32 (p0.NodePosX n + dx) ∧
      (SimpleRelativeFormatting_positions A F (SaveFormattingEndInfo g p0 A F prev) p1).NodePosY n
        = wrapInt32 (p0.NodePosY n + dy)) := by
  have hA : ∀ info, A ∈ F → SaveFormattingEndInfo g p0 A F prev A = some info →
      info.NodeOffsetX = 0 ∧ info.NodeOffsetY = 0 :=
    fun info hAF h => SaveFormattingEndInfo_anchor g p0 A F prev info hAF h
  have key := SimpleRelativeFormatting_positions_eq A (SaveFormattingEndInfo g p0 A F prev) F hA p1
    (h1 A).1 (h1 A).2
  have hanchor :
      (SimpleRelativeFormatting_positions A F (SaveFormattingEndInfo g p0 A F prev) p1).NodePosX A
        = p1.NodePosX A ∧
      (SimpleRelativeFormatting_positions A F (SaveFormattingEndInfo g p0 A F prev) p1).NodePosY A
        = p1.NodePosY A := by
    by_cases hAF : A ∈ F
    · obtain ⟨i, hi, hx, hy, _⟩ := SaveFormattingEndInfo_mem g p0 A F prev A hAF
      have hz := hA i hAF hi
      rw [(key A).1, (key A).2]
      simp only [hAF, if_true, hi, hz.1, hz.2, add_zero]
      exact ⟨wrapInt32_of_IsInt32 _ (h1 A).1, wrapInt32_of_IsInt32 _ (h1 A).2⟩
    · rw [(key A).1, (key A).2]
      simp [hAF]
  have hmem : ∀ n ∈ F, ∃ info, SaveFormattingEndInfo g p0 A F prev n = some info ∧
      info.NodeOffsetX = wrapInt32 (p0.NodePosX n - p0.NodePosX A) ∧
      info.NodeOffsetY = wrapInt32 (p0.NodePosY n - p0.NodePosY A) ∧
      (SimpleRelativeFormatting_positions A F (SaveFormattingEndInfo g p0 A F prev) p1).NodePosX n
        = wrapInt32 (p1.NodePosX A + info.NodeOffsetX) ∧
      (SimpleRelativeFormatting_positions A F (SaveFormattingEndInfo g p0 A F prev) p1).NodePosY n
        = wrapInt32 (p1.NodePosY A + info.NodeOffsetY) := by
    intro n hn
    obtain ⟨i, hi, hx, hy, _⟩ := SaveFormattingEndInfo_mem g p0 A F prev n hn
    refine ⟨i, hi, hx, hy, ?_, ?_⟩
    · rw [(key n).1]; simp only [hn, if_true, hi]
    · rw [(key n).2]; simp only [hn, if_true, hi]
  refine ⟨hanchor, ?_, ?_, ?_, ?_⟩
  · intro n hn
    obtain ⟨i, hi, _, _, hx, hy⟩ := hmem n hn
    exact ⟨i, hi, by rw [hanchor.1, hx], by rw [hanchor.2, hy]⟩
  · intro n hn
    rw [(key n).1, (key n).2]
    simp [hn]
  · intro hp n
    by_cases hn : n ∈ F
    · obtain ⟨i, _, ox, oy, hx, hy⟩ := hmem n hn
      rw [hx, hy, ox, oy, wrapInt32_add_wrapInt32, wrapInt32_add_wrapInt32, (hp A).1, (hp A).2]
      constructor
      · rw [show p0.NodePosX A + (p0.NodePosX n - p0.NodePosX A) = p0.NodePosX n by ring]
        exact wrapInt32_of_IsInt32 _ (h0 n).1
      · rw [show p0.NodePosY A + (p0.NodePosY n - p0.NodePosY A) = p0.NodePosY n by ring]
        exact wrapInt32_of_IsInt32 _ (h0 n).2
    · rw [(key n).1, (key n).2]
      simp [hn, hp n]
  · intro dx dy hax hay _ n hn
    obtain ⟨i, _, ox, oy, hx, hy⟩ := hmem n hn
    rw [hx, hy, ox, oy, wrapInt32_add_wrapInt32, wrapInt32_add_wrapInt32, hax, hay]
    constructor
    · rw [add_comm (wrapInt32 _), wrapInt32_add_wrapInt32]
      congr 1; ring
    · rw [add_comm (wrapInt32 _), wrapInt32_add_wrapInt32]
      congr 1; ring

/-- C8 witness: anchor 0 and node 1 snapshotted at (10, 20) and (200, 60); afterwards the
anchor alone is moved by (35, -5); the replay moves node 1 by (35, -5) as well. -/
theorem SimpleRelativeFormatting_replays_offsets_witness :
    (SimpleRelativeFormatting_positions 0 [0, 1]
        (SaveFormattingEndInfo twoNodeGraph (twoNodePositions 10 20 200 60) 0 [0, 1] (fun _ => none))
        { NodePosX := fun n => if n = 0 then 45 else 200
          NodePosY := fun n => if n = 0 then 15 else 60 }).NodePosX 1
      = wrapInt32 ((twoNodePositions 10 20 200 60).NodePosX 1 + 35) ∧
    (SimpleRelativeFormatting_positions 0 [0, 1]
        (SaveFormattingEndInfo twoNodeGraph (twoNodePositions 10 20 200 60) 0 [0, 1] (fun _ => none))
        { NodePosX := fun n => if n = 0 then 45 else 200
          NodePosY := fun n => if n = 0 then 15 else 60 }).NodePosY 1
      = wrapInt32 ((twoNodePositions 10 20 200 60).NodePosY 1 + (-5)) :=
  (SimpleRelativeFormatting_replays_offsets twoNodeGraph 0 [0, 1] (fun _ => none)
    (twoNodePositions 10 20 200 60)
    { NodePosX := fun n => if n = 0 then 45 else 200
      NodePosY := fun n => if n = 0 then 15 else 60 }
    (by intro n; simp only [twoNodePositions, IsInt32]; constructor <;> split <;> omega)
    (by intro n; simp only [IsInt32]; constructor <;> split <;> omega)).2.2.2.2 35 (-5)
    (by decide) (by decide)
    (by intro n hn; simp [twoNodePositions, hn]) 1 (by decide)

/-- C6 (failing input): nodes 0 (anchor) and 1 were snapshotted at the end of a full pass with
node 1 at offset (200, 0) from the anchor.  Node 1 is then dragged to offset (500, 40); tree,
links and boxes are unchanged.  `IsFormattingRequired` answers false. -/
theorem IsFormattingRequired_ignores_moved_node :
    ((FormatNode_endCache twoNodeGraph noComments (twoNodePositions 0 0 200 0) 0 none
        [0, 1] [0, 1] [0, 1]).NodeChangeInfos 1).map (fun i => (i.NodeOffsetX, i.NodeOffsetY))
      = some (200, 0) ∧
    ((twoNodePositions 0 0 500 40).NodePosX 1 - (twoNodePositions 0 0 500 40).NodePosX 0,
     (twoNodePositions 0 0 500 40).NodePosY 1 - (twoNodePositions 0 0 500 40).NodePosY 0)
      = (500, 40) ∧
    IsFormattingRequired twoNodeGraph noComments
      (FormatNode_endCache twoNodeGraph noComments (twoNodePositions 0 0 200 0) 0 none
        [0, 1] [0, 1] [0, 1]) [0, 1] = false := by
  refine ⟨?_, ?_, ?_⟩ <;> decide

/-- A duplicate-free list contained in a list of the same length has the same members. -/
theorem mem_iff_of_nodup_subset_length {α : Type} [DecidableEq α] (l1 l2 : List α)
    (hd : l1.Nodup) (hs : ∀ a ∈ l1, a ∈ l2) (hl : l2.length = l1.length) (a : α) :
    a ∈ l1 ↔ a ∈ l2 := by
  have hsub : l1.Subperm l2 := List.subperm_of_subset hd hs
  have hperm : l1.Perm l2 := hsub.perm_of_length_le (le_of_eq hl)
  exact hperm.mem_iff

/-- When `HasChanged` answers false for a snapshot without duplicate links, the snapshot
holds exactly the current links of the node. -/
theorem HasChanged_false_links (g : EdGraph) (info : FNodeChangeInfo) (n : Nat)
    (hd : info.Links.Nodup) (h : info.HasChanged g n = false) (l : Nat × Nat) :
    l ∈ info.Links ↔ l ∈ NodeLinks g n := by
  unfold FNodeChangeInfo.HasChanged at h
  by_cases hlen : (NodeLinks g n).dedup.length ≠ info.Links.length
  · simp [hlen] at h
  · simp only [hlen, if_false] at h
    have hs : ∀ a ∈ info.Links, a ∈ (NodeLinks g n).dedup := by
      intro a ha
      by_contra hna
      have : info.Links.any (fun Link => decide (Link ∉ (NodeLinks g n).dedup)) = true :=
        List.any_eq_true.mpr ⟨a, ha, by simpa using hna⟩
      rw [h] at this
      cases this
    have := mem_iff_of_nodup_subset_length info.Links (NodeLinks g n).dedup hd hs
      (by simpa using hlen) l
    rw [this, List.mem_dedup]

/-- C7: `IsFormattingRequired(NewNodeTree)` returns true as soon as one of the listed changes
is present: the anchor is missing from the new tree, a recorded tree node is deleted, the two
trees differ in size, the new tree has a node the recorded one lacks, a formatted node with a
snapshot has a link set other than the snapshot's, a cached box is gone or its member set is
not the cached one, or a box that is not cached contains a node of the recorded tree.
Snapshot link lists and cached member lists are duplicate-free (they represent sets). -/
theorem IsFormattingRequired_of_change (g : EdGraph) (c : GraphComments) (f : FormatterCache)
    (NewNodeTree : List Nat)
    (hLinks : ∀ n info, f.NodeChangeInfos n = some info → info.Links.Nodup)
    (hBoxes : ∀ e ∈ f.CommentNodesContains, e.2.Nodup)
    (h : f.NodeToKeepStill ∉ NewNodeTree ∨
      (∃ n ∈ f.NodeTree, c.IsNodeDeleted n = true) ∨
      f.NodeTree.length ≠ NewNodeTree.length ∨
      (∃ n ∈ NewNodeTree, n ∉ f.NodeTree) ∨
      (∃ n ∈ f.FormattedNodes, ∃ info, f.NodeChangeInfos n = some info ∧
        ¬ (∀ l, l ∈ info.Links ↔ l ∈ NodeLinks g n)) ∨
      (∃ e ∈ f.CommentNodesContains, e.1 ∉ c.CommentNodes ∨
        ¬ (∀ n, n ∈ e.2 ↔ n ∈ c.NodesUnderComment e.1)) ∨
      (∃ b ∈ c.CommentNodes, b ∉ f.CommentNodesContains.map (·.1) ∧
        ∃ n ∈ c.NodesUnderComment b, n ∈ f.NodeTree)) :
    IsFormattingRequired g c f NewNodeTree = true := by
  by_contra hne
  have hf : IsFormattingRequired g c f NewNodeTree = false := by simpa using hne
  unfold IsFormattingRequired at hf
  dsimp only at hf
  split_ifs at hf with h1 h2 h3 h4 h5 h6 h7
  rcases h with h | ⟨n, hn, hdel⟩ | h | ⟨n, hn, hnot⟩ | ⟨n, hn, info, hinfo, hdiff⟩ |
    ⟨e, he, hbox⟩ | ⟨b, hb, hnc, n, hn, hnt⟩
  · exact h h1
  · exact h2 (List.any_eq_true.mpr ⟨n, hn, hdel⟩)
  · exact h3 h
  · exact h4 (List.any_eq_true.mpr ⟨n, hn, by simpa using hnot⟩)
  · apply hdiff
    apply HasChanged_false_links g info n (hLinks n info hinfo)
    by_contra hch
    apply h5
    exact List.any_eq_true.mpr ⟨n, hn, by rw [hinfo]; simpa using hch⟩
  · have hall : ¬ (decide (e.1 ∉ c.CommentNodes) ||
        decide (e.2.length ≠ (c.NodesUnderComment e.1).length) ||
        e.2.any (fun Contained => decide (Contained ∉ c.NodesUnderComment e.1))) = true :=
      fun hx => h7 (List.any_eq_true.mpr ⟨e, he, hx⟩)
    simp only [Bool.or_eq_true, decide_eq_true_eq, not_or] at hall
    obtain ⟨⟨hin, hlen⟩, hsub⟩ := hall
    rcases hbox with hgone | hmem
    · exact hin hgone
    · apply hmem
      apply mem_iff_of_nodup_subset_length e.2 (c.NodesUnderComment e.1) (hBoxes e he)
      · intro a ha
        by_contra hna
        exact hsub (List.any_eq_true.mpr ⟨a, ha, by simpa using hna⟩)
      · have : e.2.length = (c.NodesUnderComment e.1).length := by
          by_contra hx
          exact hlen hx
        exact this.symm
  · apply h6
    refine List.any_eq_true.mpr ⟨b, hb, ?_⟩
    simp only [Bool.and_eq_true, decide_eq_true_eq]
    exact ⟨List.any_eq_true.mpr ⟨n, hn, by simpa using hnt⟩, hnc⟩

/-- C7 witness: the wire of node 1 recorded in its snapshot has been removed; nothing else
changed. -/
theorem IsFormattingRequired_of_change_witness :
    IsFormattingRequired unlinkedGraph boxAroundNode1 sampleCache [0, 1] = true :=
  IsFormattingRequired_of_change unlinkedGraph boxAroundNode1 sampleCache [0, 1]
    (by
      intro n info h
      by_cases hn : n = 1
      · subst hn
        have : info = sampleInfo := by
          simpa [sampleCache] using h.symm
        subst this
        decide
      · simp [sampleCache, hn] at h)
    (by
      intro e he
      have : e = (9, [1]) := by simpa [sampleCache] using he
      subst this
      decide)
    (Or.inr (Or.inr (Or.inr (Or.inr (Or.inl
      ⟨1, by decide, _, rfl, fun hall => by
        have := (hall (1, 0)).mp (by decide)
        revert this
        decide⟩)))))

/-- Adding a node to the entry of a box that is the last entry of the map and has no
earlier entry. -/
theorem TMapFindOrAddAdd_last (acc : List (Nat × List Nat)) (b n : Nat) (l0 : List Nat)
    (hb : ∀ e ∈ acc, e.1 ≠ b) :
    TMapFindOrAddAdd (acc ++ [(b, l0)]) b n = acc ++ [(b, l0 ++ [n])] := by
  unfold TMapFindOrAddAdd
  have hany : (acc ++ [(b, l0)]).any (fun e => decide (e.1 = b)) = true := by
    simp
  rw [if_pos hany, List.map_append]
  congr 1
  · have : acc.map (fun e => if e.1 = b then (e.1, e.2 ++ [n]) else e) = acc.map id :=
      List.map_congr_left (fun e he => by simp [hb e he])
    rw [this, List.map_id]
  · simp

/-- Adding a node for a box that has no entry yet. -/
theorem TMapFindOrAddAdd_new (acc : List (Nat × List Nat)) (b n : Nat)
    (hb : ∀ e ∈ acc, e.1 ≠ b) :
    TMapFindOrAddAdd acc b n = acc ++ [(b, [n])] := by
  unfold TMapFindOrAddAdd
  have hany : ¬ (acc.any (fun e => decide (e.1 = b)) = true) := by
    intro h
    obtain ⟨e, he, hx⟩ := List.any_eq_true.mp h
    exact hb e he (by simpa using hx)
  rw [if_neg hany]

theorem InitCommentNodeInfo_inner_cont (T : List Nat) (b : Nat) (ms : List Nat)
    (acc : List (Nat × List Nat)) (l0 : List Nat) (hb : ∀ e ∈ acc, e.1 ≠ b) :
    ms.foldl (fun m' Node => if Node ∈ T then TMapFindOrAddAdd m' b Node else m')
        (acc ++ [(b, l0)])
      = acc ++ [(b, l0 ++ ms.filter (fun n => decide (n ∈ T)))] := by
  induction ms generalizing l0 with
  | nil => simp
  | cons n t ih =>
    rw [List.foldl_cons]
    by_cases hn : n ∈ T
    · rw [if_pos hn, TMapFindOrAddAdd_last acc b n l0 hb, ih]
      simp [hn]
    · rw [if_neg hn, ih]
      simp [hn]

theorem InitCommentNodeInfo_inner (T : List Nat) (b : Nat) (ms : List Nat)
    (acc : List (Nat × List Nat)) (hb : ∀ e ∈ acc, e.1 ≠ b) :
    ms.foldl (fun m' Node => if Node ∈ T then TMapFindOrAddAdd m' b Node else m') acc
      = acc ++ (if ms.filter (fun n => decide (n ∈ T)) = [] then []
                else [(b, ms.filter (fun n => decide (n ∈ T)))]) := by
  induction ms with
  | nil => simp
  | cons n t ih =>
    rw [List.foldl_cons]
    by_cases hn : n ∈ T
    · rw [if_pos hn, TMapFindOrAddAdd_new acc b n hb, InitCommentNodeInfo_inner_cont T b t acc [n] hb]
      simp [hn]
    · rw [if_neg hn, ih]
      simp [hn]

/-- The map built by `InitCommentNodeInfo` from a duplicate-free comment list: one entry for
each box with a member in the node tree, holding the members that are in the tree. -/
theorem InitCommentNodeInfo_eq_aux (T : List Nat) (members : Nat → List Nat) (cs : List Nat)
    (acc : List (Nat × List Nat)) (hd : cs.Nodup) (hacc : ∀ e ∈ acc, e.1 ∉ cs) :
    cs.foldl
        (fun m Comment =>
          (members Comment).foldl
            (fun m' Node => if Node ∈ T then TMapFindOrAddAdd m' Comment Node else m') m)
        acc
      = acc ++ cs.flatMap (fun b =>
          if (members b).filter (fun n => decide (n ∈ T)) = [] then []
          else [(b, (members b).filter (fun n => decide (n ∈ T)))]) := by
  induction cs generalizing acc with
  | nil => simp
  | cons b t ih =>
    have hbt : b ∉ t := (List.nodup_cons.mp hd).1
    have ht : t.Nodup := (List.nodup_cons.mp hd).2
    rw [List.foldl_cons, InitCommentNodeInfo_inner T b (members b) acc
      (fun e he hb => hacc e he (hb ▸ List.mem_cons_self _ _))]
    rw [ih _ ht, List.flatMap_cons, List.append_assoc]
    intro e he
    rcases List.mem_append.mp he with h | h
    · exact fun hm => hacc e h (List.mem_cons_of_mem _ hm)
    · by_cases hf : (members b).filter (fun n => decide (n ∈ T)) = []
      · simp [hf] at h
      · simp only [hf, if_false, List.mem_singleton] at h
        subst h
        exact hbt

theorem InitCommentNodeInfo_eq (T : List Nat) (members : Nat → List Nat) (cs : List Nat)
    (hd : cs.Nodup) :
    InitCommentNodeInfo T cs members
      = cs.flatMap (fun b =>
          if (members b).filter (fun n => decide (n ∈ T)) = [] then []
          else [(b, (members b).filter (fun n => decide (n ∈ T)))]) := by
  unfold InitCommentNodeInfo
  rw [InitCommentNodeInfo_eq_aux T members cs [] hd (by simp)]
  simp

/-- Replaying the snapshots on the very positions they were taken from changes nothing. -/
theorem SimpleRelativeFormatting_after_save (g : EdGraph) (A : Nat) (F : List Nat)
    (prev : Nat → Option FNodeChangeInfo) (p : NodePositions)
    (hp : ∀ n, IsInt32 (p.NodePosX n) ∧ IsInt32 (p.NodePosY n)) (n : Nat) :
    (SimpleRelativeFormatting_positions A F (SaveFormattingEndInfo g p A F prev) p).NodePosX n
      = p.NodePosX n ∧
    (SimpleRelativeFormatting_positions A F (SaveFormattingEndInfo g p A F prev) p).NodePosY n
      = p.NodePosY n := by
  have hA : ∀ info, A ∈ F → SaveFormattingEndInfo g p A F prev A = some info →
      info.NodeOffsetX = 0 ∧ info.NodeOffsetY = 0 :=
    fun info hAF h => SaveFormattingEndInfo_anchor g p A F prev info hAF h
  have key := SimpleRelativeFormatting_positions_eq A (SaveFormattingEndInfo g p A F prev) F hA p
    (hp A).1 (hp A).2 n
  rw [key.1, key.2]
  by_cases hn : n ∈ F
  · obtain ⟨i, hi, hx, hy, _⟩ := SaveFormattingEndInfo_mem g p A F prev n hn
    simp only [hn, if_true, hi, hx, hy, wrapInt32_add_wrapInt32]
    constructor
    · rw [show p.NodePosX A + (p.NodePosX n - p.NodePosX A) = p.NodePosX n by ring]
      exact wrapInt32_of_IsInt32 _ (hp n).1
    · rw [show p.NodePosY A + (p.NodePosY n - p.NodePosY A) = p.NodePosY n by ring]
      exact wrapInt32_of_IsInt32 _ (hp n).2
  · simp [hn]

/-- A fresh snapshot of a node whose link list has no duplicate reports no change. -/
theorem HasChanged_fresh (g : EdGraph) (info : FNodeChangeInfo) (n : Nat)
    (hl : info.Links = NodeLinks g n) (hd : (NodeLinks g n).Nodup) :
    info.HasChanged g n = false := by
  unfold FNodeChangeInfo.HasChanged
  rw [hl, hd.dedup]
  simp

/-- C5 (as amended): right after a full pass of `FormatNode` (snapshots saved, node tree
refreshed to `T1`, box cache built from the tree `T0` of the start of the pass), with no
graph edit, `IsFormattingRequired(T1)` returns false provided the anchor is in `T1`, no node
of `T1` is deleted, no formatted node has a duplicate link, and every box holding a node of
`T0` or `T1` has all its members in `T0`; then, with `bEnableFasterFormatting` on, the next
`FormatNode` takes the relative shortcut, and the shortcut leaves every node position
unchanged. -/
theorem FormatNode_twice_shortcut (g : EdGraph) (c : GraphComments) (p : NodePositions)
    (RootNode : Nat) (Param : Option Nat) (T0 T1 F : List Nat)
    (hA : (FormatNode_endCache g c p RootNode Param T0 T1 F).NodeToKeepStill ∈ T1)
    (hDel : ∀ n ∈ T1, c.IsNodeDeleted n = false)
    (hLinks : ∀ n ∈ F, (NodeLinks g n).Nodup)
    (hCs : c.CommentNodes.Nodup)
    (hBoxes : ∀ b ∈ c.CommentNodes, ∀ n ∈ c.NodesUnderComment b, (n ∈ T0 ∨ n ∈ T1) →
      ∀ m ∈ c.NodesUnderComment b, m ∈ T0)
    (hp : ∀ n, IsInt32 (p.NodePosX n) ∧ IsInt32 (p.NodePosY n)) :
    IsFormattingRequired g c (FormatNode_endCache g c p RootNode Param T0 T1 F) T1 = false ∧
    FormatNode_takesShortcut true g c (FormatNode_endCache g c p RootNode Param T0 T1 F) T1
      = true ∧
    ∀ n,
      (SimpleRelativeFormatting_positions
        (FormatNode_endCache g c p RootNode Param T0 T1 F).NodeToKeepStill F
        (FormatNode_endCache g c p RootNode Param T0 T1 F).NodeChangeInfos p).NodePosX n
        = p.NodePosX n ∧
      (SimpleRelativeFormatting_positions
        (FormatNode_endCache g c p RootNode Param T0 T1 F).NodeToKeepStill F
        (FormatNode_endCache g c p RootNode Param T0 T1 F).NodeChangeInfos p).NodePosY n
        = p.NodePosY n := by
  have hfalse :
      IsFormattingRequired g c (FormatNode_endCache g c p RootNode Param T0 T1 F) T1 = false := by
    unfold IsFormattingRequired
    rw [if_neg (by simpa using hA)]
    have h2 : ¬ ((FormatNode_endCache g c p RootNode Param T0 T1 F).NodeTree.any c.IsNodeDeleted
        = true) := by
      intro h
      obtain ⟨n, hn, hx⟩ := List.any_eq_true.mp h
      rw [hDel n hn] at hx
      cases hx
    rw [if_neg h2, if_neg (by simp [FormatNode_endCache])]
    have h4 : ¬ (T1.any (fun Node => decide
        (Node ∉ (FormatNode_endCache g c p RootNode Param T0 T1 F).NodeTree)) = true) := by
      intro h
      obtain ⟨n, hn, hx⟩ := List.any_eq_true.mp h
      simp [FormatNode_endCache, hn] at hx
    rw [if_neg h4]
    have h5 : ¬ ((FormatNode_endCache g c p RootNode Param T0 T1 F).FormattedNodes.any
        (fun Node =>
          match (FormatNode_endCache g c p RootNode Param T0 T1 F).NodeChangeInfos Node with
          | some ChangeInfo => ChangeInfo.HasChanged g Node
          | none => false) = true) := by
      intro h
      obtain ⟨n, hn, hx⟩ := List.any_eq_true.mp h
      have hnF : n ∈ F := hn
      obtain ⟨i, hi, _, _, hl⟩ := SaveFormattingEndInfo_mem g p
        (FormatNode_endCache g c p RootNode Param T0 T1 F).NodeToKeepStill F (fun _ => none) n hnF
      have hi' : (FormatNode_endCache g c p RootNode Param T0 T1 F).NodeChangeInfos n = some i := hi
      rw [hi'] at hx
      simp only [] at hx
      rw [HasChanged_fresh g i n hl (hLinks n hnF)] at hx
      cases hx
    rw [if_neg h5]
    have hmap : (FormatNode_endCache g c p RootNode Param T0 T1 F).CommentNodesContains
        = c.CommentNodes.flatMap (fun b =>
          if (c.NodesUnderComment b).filter (fun n => decide (n ∈ T0)) = [] then []
          else [(b, (c.NodesUnderComment b).filter (fun n => decide (n ∈ T0)))]) :=
      InitCommentNodeInfo_eq T0 c.NodesUnderComment c.CommentNodes hCs
    have hfull : ∀ b ∈ c.CommentNodes, ∀ n ∈ c.NodesUnderComment b, (n ∈ T0 ∨ n ∈ T1) →
        (c.NodesUnderComment b).filter (fun n => decide (n ∈ T0)) = c.NodesUnderComment b := by
      intro b hb n hn hT
      apply List.filter_eq_self.mpr
      intro m hm
      simpa using hBoxes b hb n hn hT m hm
    dsimp only
    have h6 : ¬ (c.CommentNodes.any (fun Comment =>
        (c.NodesUnderComment Comment).any (fun Node => decide
          (Node ∈ (FormatNode_endCache g c p RootNode Param T0 T1 F).NodeTree)) &&
        decide (Comment ∉ (FormatNode_endCache g c p RootNode Param T0 T1 F).CommentNodesContains.map
          (·.1))) = true) := by
      intro h
      obtain ⟨b, hb, hx⟩ := List.any_eq_true.mp h
      simp only [Bool.and_eq_true, decide_eq_true_eq] at hx
      obtain ⟨hany, hnk⟩ := hx
      obtain ⟨n, hn, hnT⟩ := List.any_eq_true.mp hany
      have hnT1 : n ∈ T1 := by simpa [FormatNode_endCache] using hnT
      have hf := hfull b hb n hn (Or.inr hnT1)
      apply hnk
      rw [hmap]
      apply List.mem_map.mpr
      refine ⟨(b, c.NodesUnderComment b), ?_, rfl⟩
      apply List.mem_flatMap.mpr
      refine ⟨b, hb, ?_⟩
      have hne : c.NodesUnderComment b ≠ [] := List.ne_nil_of_mem hn
      rw [hf]
      simp [hne]
    rw [if_neg h6]
    have h7 : ¬ ((FormatNode_endCache g c p RootNode Param T0 T1 F).CommentNodesContains.any
        (fun e =>
          decide (e.1 ∉ c.CommentNodes) ||
          decide (e.2.length ≠ (c.NodesUnderComment e.1).length) ||
          e.2.any (fun Contained => decide (Contained ∉ c.NodesUnderComment e.1))) = true) := by
      intro h
      obtain ⟨e, he, hx⟩ := List.any_eq_true.mp h
      rw [hmap] at he
      obtain ⟨b, hb, heb⟩ := List.mem_flatMap.mp he
      by_cases hnil : (c.NodesUnderComment b).filter (fun n => decide (n ∈ T0)) = []
      · simp [hnil] at heb
      · simp only [hnil, if_false, List.mem_singleton] at heb
        obtain ⟨n, hn⟩ := List.exists_mem_of_ne_nil _ hnil
        have hn' := List.mem_filter.mp hn
        have hf := hfull b hb n hn'.1 (Or.inl (by simpa using hn'.2))
        rw [hf] at heb
        subst heb
        simp [hb] at hx
    rw [if_neg h7]
  refine ⟨hfalse, ?_, ?_⟩
  · simp [FormatNode_takesShortcut, hfalse]
  · intro n
    exact SimpleRelativeFormatting_after_save g _ F (fun _ => none) p hp n

/-- C5 witness: `twoNodeGraph` with box 9 around node 1, root and anchor 0, tree {0, 1}. -/
theorem FormatNode_twice_shortcut_witness :
    IsFormattingRequired twoNodeGraph boxAroundNode1
      (FormatNode_endCache twoNodeGraph boxAroundNode1 (twoNodePositions 0 0 200 0) 0 none
        [0, 1] [0, 1] [0, 1]) [0, 1] = false :=
  (FormatNode_twice_shortcut twoNodeGraph boxAroundNode1 (twoNodePositions 0 0 200 0) 0 none
    [0, 1] [0, 1] [0, 1] (by decide) (by intro n _; rfl) (by decide) (by decide) (by decide)
    (by intro n; simp only [twoNodePositions, IsInt32]; constructor <;> split <;> omega)).1

/-- C5 counterexample: after a full pass on root 0 of `twoNodeGraph` (tree {0, 1}) whose
anchor parameter is node 7, a node outside that tree, `IsFormattingRequired` of the unchanged
tree returns true; and with `bEnableFasterFormatting` off (its default) the next `FormatNode`
does not take the shortcut even with anchor 0. -/
theorem FormatNode_twice_no_shortcut :
    IsFormattingRequired twoNodeGraph noComments
      (FormatNode_endCache twoNodeGraph noComments (twoNodePositions 0 0 200 0) 0 (some 7)
        [0, 1] [0, 1] [0, 1]) [0, 1] = true ∧
    FormatNode_takesShortcut false twoNodeGraph noComments
      (FormatNode_endCache twoNodeGraph noComments (twoNodePositions 0 0 200 0) 0 none
        [0, 1] [0, 1] [0, 1]) [0, 1] = false := by
  constructor <;> decide

/-! ### `FormatX`: facts about one pass of the loop -/

theorem setInfo_Link_of (I : Nat → FFormatXInfo) (i : Nat) (v : FFormatXInfo)
    (hv : v.Link = (I i).Link) (j : Nat) : (setInfo I i v j).Link = (I j).Link := by
  unfold setInfo
  by_cases h : j = i
  · rw [if_pos h, hv, h]
  · rw [if_neg h]

theorem setInfo_Parent_of (I : Nat → FFormatXInfo) (i : Nat) (v : FFormatXInfo)
    (hv : v.Parent = (I i).Parent) (j : Nat) : (setInfo I i v j).Parent = (I j).Parent := by
  unfold setInfo
  by_cases h : j = i
  · rw [if_pos h, hv, h]
  · rw [if_neg h]

theorem SetParent_removeFromOld_Link (I : Nat → FFormatXInfo) (self j : Nat) :
    (SetParent_removeFromOld I self j).Link = (I j).Link := by
  unfold SetParent_removeFromOld
  cases (I self).Parent with
  | none => rfl
  | some p0 =>
    dsimp only
    apply setInfo_Link_of
    rfl

theorem SetParent_removeFromOld_Parent (I : Nat → FFormatXInfo) (self j : Nat) :
    (SetParent_removeFromOld I self j).Parent = (I j).Parent := by
  unfold SetParent_removeFromOld
  cases (I self).Parent with
  | none => rfl
  | some p0 =>
    dsimp only
    apply setInfo_Parent_of
    rfl

theorem SetParent_addToNew_Link (I : Nat → FFormatXInfo) (self : Nat) (np : Option Nat)
    (j : Nat) : (SetParent_addToNew I self np j).Link = (I j).Link := by
  unfold SetParent_addToNew
  cases np with
  | none => rfl
  | some q =>
    dsimp only
    apply setInfo_Link_of
    rfl

theorem SetParent_addToNew_Parent (I : Nat → FFormatXInfo) (self : Nat) (np : Option Nat)
    (j : Nat) : (SetParent_addToNew I self np j).Parent = (I j).Parent := by
  unfold SetParent_addToNew
  cases np with
  | none => rfl
  | some q =>
    dsimp only
    apply setInfo_Parent_of
    rfl

theorem SetParent_Link (Infos : Nat → FFormatXInfo) (self : Nat) (np : Option Nat) (j : Nat) :
    (SetParent Infos self np j).Link = (Infos j).Link := by
  unfold SetParent
  dsimp only
  rw [setInfo_Link_of _ _ _ (by rfl), SetParent_addToNew_Link, SetParent_removeFromOld_Link]

theorem SetParent_Parent (Infos : Nat → FFormatXInfo) (self : Nat) (np : Option Nat) (j : Nat) :
    (SetParent Infos self np j).Parent = if j = self then np else (Infos j).Parent := by
  unfold SetParent
  by_cases h : j = self
  · subst h
    simp [setInfo]
  · simp only [setInfo, if_neg h]
    rw [SetParent_addToNew_Parent, SetParent_removeFromOld_Parent]

theorem FormatX_firstVisit_Infos {Env : Type} (P : FormatXParams Env) (s : FormatXState Env)
    (cur : Nat) (NewX : Int) :
    (FormatX_firstVisit P s cur NewX).Infos =
      if (s.Infos cur).Link.GetNode P.g ≠ P.RootNode
      then SetParent s.Infos cur (s.Infos cur).Parent else s.Infos := by
  unfold FormatX_firstVisit
  dsimp only
  split_ifs <;> rfl

theorem FormatX_revisit_Infos {Env : Type} (P : FormatXParams Env) (s : FormatXState Env)
    (cur old : Nat) (NewX : Int) :
    (FormatX_revisit P s cur old NewX).1.Infos =
      if FormatX_bTakeNewParent P s cur old NewX = true
      then SetParent (setInfo s.Infos old { s.Infos old with Link := (s.Infos cur).Link }) old
        ((setInfo s.Infos old { s.Infos old with Link := (s.Infos cur).Link }) cur).Parent
      else s.Infos := by
  unfold FormatX_revisit
  dsimp only
  split_ifs <;> rfl

theorem FormatX_visitLink_Infos {Env : Type} (P : FormatXParams Env) (cur : Nat)
    (s : FormatXState Env) (l : Nat × Nat) :
    (FormatX_visitLink P cur s l).Infos = s.Infos ∨
    (FormatX_visitLink P cur s l).Infos = setInfo s.Infos s.NumInfos
      { Link := { From := some l.1, To := some l.2, FallbackNode := P.g.OwningNode l.2 },
        Parent := some cur, Children := [] } := by
  unfold FormatX_visitLink
  dsimp only
  split_ifs <;> first | (left; rfl) | (right; rfl)

theorem FormatX_visitLink_parentNone {Env : Type} (P : FormatXParams Env) (cur : Nat)
    (s : FormatXState Env) (l : Nat × Nat)
    (h : ∀ i, (s.Infos i).Parent = none → (s.Infos i).Link.To = none) :
    ∀ i, ((FormatX_visitLink P cur s l).Infos i).Parent = none →
      ((FormatX_visitLink P cur s l).Infos i).Link.To = none := by
  intro i
  rcases FormatX_visitLink_Infos P cur s l with e | e
  · rw [e]; exact h i
  · rw [e]
    simp only [setInfo]
    by_cases hi : i = s.NumInfos
    · simp [hi]
    · simpa [hi] using h i

theorem FormatX_foldl_visitLink_parentNone {Env : Type} (P : FormatXParams Env) (cur : Nat)
    (ls : List (Nat × Nat)) (s : FormatXState Env)
    (h : ∀ i, (s.Infos i).Parent = none → (s.Infos i).Link.To = none) :
    ∀ i, ((ls.foldl (FormatX_visitLink P cur) s).Infos i).Parent = none →
      ((ls.foldl (FormatX_visitLink P cur) s).Infos i).Link.To = none := by
  induction ls generalizing s with
  | nil => exact h
  | cons l t ih =>
    rw [List.foldl_cons]
    exact ih _ (FormatX_visitLink_parentNone P cur s l h)

theorem FormatX_firstVisit_parentNone {Env : Type} (P : FormatXParams Env)
    (s : FormatXState Env) (cur : Nat) (NewX : Int)
    (h : ∀ i, (s.Infos i).Parent = none → (s.Infos i).Link.To = none) :
    ∀ i, ((FormatX_firstVisit P s cur NewX).Infos i).Parent = none →
      ((FormatX_firstVisit P s cur NewX).Infos i).Link.To = none := by
  intro i
  rw [FormatX_firstVisit_Infos]
  split_ifs
  · rw [SetParent_Parent, SetParent_Link]
    by_cases hi : i = cur
    · subst hi
      simpa using h i
    · simpa [hi] using h i
  · exact h i

theorem FormatX_revisit_parentNone {Env : Type} (P : FormatXParams Env)
    (s : FormatXState Env) (cur old : Nat) (NewX : Int)
    (h : ∀ i, (s.Infos i).Parent = none → (s.Infos i).Link.To = none) :
    ∀ i, ((FormatX_revisit P s cur old NewX).1.Infos i).Parent = none →
      ((FormatX_revisit P s cur old NewX).1.Infos i).Link.To = none := by
  intro i
  rw [FormatX_revisit_Infos]
  split_ifs
  · rw [SetParent_Parent, SetParent_Link]
    by_cases hi : i = old
    · subst hi
      by_cases hc : cur = i
      · subst hc
        simpa [setInfo] using h cur
      · simpa [setInfo, hc] using h cur
    · simpa [setInfo, hi] using h i
  · exact h i

theorem FormatX_step_parentNone {Env : Type} (P : FormatXParams Env) (s : FormatXState Env)
    (h : ∀ i, (s.Infos i).Parent = none → (s.Infos i).Link.To = none) :
    ∀ i, ((FormatX_step P s).Infos i).Parent = none →
      ((FormatX_step P s).Infos i).Link.To = none := by
  unfold FormatX_step
  cases hpop : FormatX_pop s with
  | none => exact h
  | some r =>
    obtain ⟨cur, out, inp⟩ := r
    dsimp only
    apply FormatX_foldl_visitLink_parentNone
    cases hm : (FormatX_afterPop P s cur out inp).FormatXInfoMap
        ((s.Infos cur).Link.GetNode P.g) with
    | none => exact FormatX_firstVisit_parentNone P _ cur _ h
    | some old => exact FormatX_revisit_parentNone P _ cur old _ h

/-- In every state that the loop of `FormatX` reaches, an info without parent carries the
root link (no `To` pin). -/
theorem FormatX_loop_parentNone {Env : Type} (P : FormatXParams Env) (k : Nat)
    (s : FormatXState Env)
    (h : ∀ i, (s.Infos i).Parent = none → (s.Infos i).Link.To = none) :
    ∀ i, ((FormatX_loop P k s).Infos i).Parent = none →
      ((FormatX_loop P k s).Infos i).Link.To = none := by
  induction k generalizing s with
  | zero => exact h
  | succ k ih => exact ih _ (FormatX_step_parentNone P s h)

/-- The revisit branch of `FormatX` on a state in which only the root info lacks a parent. -/
theorem FormatX_revisit_spec {Env : Type} (P : FormatXParams Env) (s : FormatXState Env)
    (hInv : ∀ i, (s.Infos i).Parent = none → (s.Infos i).Link.To = none)
    (cur old f t par : Nat) (NewX : Int)
    (hFrom : (s.Infos cur).Link.From = some f) (hTo : (s.Infos cur).Link.To = some t)
    (hPar : (s.Infos cur).Parent = some par) :
    ((((s.Infos par).Link.GetNode P.g ∉ GetChildren P.g s.Infos s.NumInfos old none true) ∧
      (if P.g.Direction f = EEdGraphPinDirection.EGPD_Output
        then NewX > s.NodePosX ((s.Infos cur).Link.GetNode P.g)
        else NewX < s.NodePosX ((s.Infos cur).Link.GetNode P.g)) ∧
      ((s.Infos old).Link.To.map P.g.Direction = some (P.g.Direction t))) →
      ((FormatX_revisit P s cur old NewX).1.Infos old).Parent = some par ∧
      ((FormatX_revisit P s cur old NewX).1.Infos old).Link = (s.Infos cur).Link ∧
      (FormatX_revisit P s cur old NewX).1.NodePosX =
        (if P.bUseParameter = true
          then (P.RefreshParameters s.env
            (setPosX s.NodePosX ((s.Infos cur).Link.GetNode P.g) NewX)
            ((s.Infos cur).Link.GetNode P.g)).2
          else setPosX s.NodePosX ((s.Infos cur).Link.GetNode P.g) NewX)) ∧
    (¬ (((s.Infos par).Link.GetNode P.g ∉ GetChildren P.g s.Infos s.NumInfos old none true) ∧
      (if P.g.Direction f = EEdGraphPinDirection.EGPD_Output
        then NewX > s.NodePosX ((s.Infos cur).Link.GetNode P.g)
        else NewX < s.NodePosX ((s.Infos cur).Link.GetNode P.g)) ∧
      ((s.Infos old).Link.To.map P.g.Direction = some (P.g.Direction t))) →
      FormatX_revisit P s cur old NewX = (s, cur)) := by
  have hcyc : FormatX_bHasCycle P s cur old =
      decide ((s.Infos par).Link.GetNode P.g ∈ GetChildren P.g s.Infos s.NumInfos old none true) := by
    unfold FormatX_bHasCycle
    rw [hFrom, hPar]
  have htake : FormatX_bTakeNewParent P s cur old NewX = true ↔
      (((s.Infos par).Link.GetNode P.g ∉ GetChildren P.g s.Infos s.NumInfos old none true) ∧
      (if P.g.Direction f = EEdGraphPinDirection.EGPD_Output
        then NewX > s.NodePosX ((s.Infos cur).Link.GetNode P.g)
        else NewX < s.NodePosX ((s.Infos cur).Link.GetNode P.g)) ∧
      ((s.Infos old).Link.To.map P.g.Direction = some (P.g.Direction t))) := by
    unfold FormatX_bTakeNewParent
    rw [hcyc, hFrom, hTo]
    have hsome : (s.Infos old).Link.To.map P.g.Direction = some (P.g.Direction t) →
        (s.Infos old).Parent.isSome = true := by
      intro hd
      cases hp : (s.Infos old).Parent with
      | some q => rfl
      | none =>
        rw [hInv old hp] at hd
        cases hd
    by_cases hdesc : (s.Infos par).Link.GetNode P.g ∈
        GetChildren P.g s.Infos s.NumInfos old none true
    · simp [hdesc]
    · by_cases hsd : (s.Infos old).Link.To.map P.g.Direction = some (P.g.Direction t)
      · have hs := hsome hsd
        by_cases hdir : P.g.Direction f = EEdGraphPinDirection.EGPD_Output
        · simp [hdesc, hs, hdir, hsd]
        · simp [hdesc, hs, hdir, hsd]
      · by_cases hs : (s.Infos old).Parent.isSome = true
        · by_cases hdir : P.g.Direction f = EEdGraphPinDirection.EGPD_Output
          · simp [hdesc, hs, hdir, hsd]
          · simp [hdesc, hs, hdir, hsd]
        · simp [hdesc, hs, hsd]
  constructor
  · intro hc
    have ht := htake.mpr hc
    refine ⟨?_, ?_, ?_⟩
    · rw [FormatX_revisit_Infos, if_pos ht, SetParent_Parent, if_pos rfl]
      by_cases hco : cur = old
      · subst hco
        simpa [setInfo] using hPar
      · simpa [setInfo, hco] using hPar
    · rw [FormatX_revisit_Infos, if_pos ht, SetParent_Link]
      simp [setInfo]
    · unfold FormatX_revisit
      rw [if_pos ht]
      dsimp only
      split_ifs <;> rfl
  · intro hc
    have ht : ¬ FormatX_bTakeNewParent P s cur old NewX = true := fun h => hc (htake.mp h)
    unfold FormatX_revisit
    rw [if_neg ht]

/-- C10: in a state reached by the loop of `FormatX`, let the popped info `cur` carry a real
link L = (f, t) from the candidate parent `par`, and let its node N already have the entry
`old`.  With NewX the candidate X: if the node of `par` is not among `GetChildren()` of `old`
(the descendants of N), NewX is strictly better than N's X (greater for an output `From` pin,
smaller for an input one) and the `To` pin of N's current link has the direction of `t`
(which fails for the root, whose link has no `To` pin), then the entry gets parent `par` and
link L and N's `NodePosX` becomes NewX (followed by `RefreshParameters` under
`bUseParameter`); in every other case the revisit branch changes nothing. -/
theorem FormatX_revisit_reparents_iff {Env : Type} (P : FormatXParams Env) (pos : Nat → Int)
    (env : Env) (k : Nat) (cur : Nat) (out inp : List Nat) (old f t par : Nat) (NewX : Int)
    (_hpop : FormatX_pop (FormatX_loop P k (FormatX_init P pos env)) = some (cur, out, inp))
    (_hold : (FormatX_loop P k (FormatX_init P pos env)).FormatXInfoMap
      (((FormatX_loop P k (FormatX_init P pos env)).Infos cur).Link.GetNode P.g) = some old)
    (hFrom : ((FormatX_loop P k (FormatX_init P pos env)).Infos cur).Link.From = some f)
    (hTo : ((FormatX_loop P k (FormatX_init P pos env)).Infos cur).Link.To = some t)
    (hPar : ((FormatX_loop P k (FormatX_init P pos env)).Infos cur).Parent = some par) :
    (((((FormatX_loop P k (FormatX_init P pos env)).Infos par).Link.GetNode P.g ∉
        GetChildren P.g (FormatX_loop P k (FormatX_init P pos env)).Infos
          (FormatX_loop P k (FormatX_init P pos env)).NumInfos old none true) ∧
      (if P.g.Direction f = EEdGraphPinDirection.EGPD_Output
        then NewX > (FormatX_loop P k (FormatX_init P pos env)).NodePosX
          (((FormatX_loop P k (FormatX_init P pos env)).Infos cur).Link.GetNode P.g)
        else NewX < (FormatX_loop P k (FormatX_init P pos env)).NodePosX
          (((FormatX_loop P k (FormatX_init P pos env)).Infos cur).Link.GetNode P.g)) ∧
      (((FormatX_loop P k (FormatX_init P pos env)).Infos old).Link.To.map P.g.Direction
        = some (P.g.Direction t))) →
      ((FormatX_revisit P (FormatX_afterPop P (FormatX_loop P k (FormatX_init P pos env))
          cur out inp) cur old NewX).1.Infos old).Parent = some par ∧
      ((FormatX_revisit P (FormatX_afterPop P (FormatX_loop P k (FormatX_init P pos env))
          cur out inp) cur old NewX).1.Infos old).Link
        = ((FormatX_loop P k (FormatX_init P pos env)).Infos cur).Link ∧
      (FormatX_revisit P (FormatX_afterPop P (FormatX_loop P k (FormatX_init P pos env))
          cur out inp) cur old NewX).1.NodePosX =
        (if P.bUseParameter = true
          then (P.RefreshParameters (FormatX_loop P k (FormatX_init P pos env)).env
            (setPosX (FormatX_loop P k (FormatX_init P pos env)).NodePosX
              (((FormatX_loop P k (FormatX_init P pos env)).Infos cur).Link.GetNode P.g) NewX)
            (((FormatX_loop P k (FormatX_init P pos env)).Infos cur).Link.GetNode P.g)).2
          else setPosX (FormatX_loop P k (FormatX_init P pos env)).NodePosX
            (((FormatX_loop P k (FormatX_init P pos env)).Infos cur).Link.GetNode P.g) NewX)) ∧
    (¬ ((((FormatX_loop P k (FormatX_init P pos env)).Infos par).Link.GetNode P.g ∉
        GetChildren P.g (FormatX_loop P k (FormatX_init P pos env)).Infos
          (FormatX_loop P k (FormatX_init P pos env)).NumInfos old none true) ∧
      (if P.g.Direction f = EEdGraphPinDirection.EGPD_Output
        then NewX > (FormatX_loop P k (FormatX_init P pos env)).NodePosX
          (((FormatX_loop P k (FormatX_init P pos env)).Infos cur).Link.GetNode P.g)
        else NewX < (FormatX_loop P k (FormatX_init P pos env)).NodePosX
          (((FormatX_loop P k (FormatX_init P pos env)).Infos cur).Link.GetNode P.g)) ∧
      (((FormatX_loop P k (FormatX_init P pos env)).Infos old).Link.To.map P.g.Direction
        = some (P.g.Direction t))) →
      FormatX_revisit P (FormatX_afterPop P (FormatX_loop P k (FormatX_init P pos env))
          cur out inp) cur old NewX
        = (FormatX_afterPop P (FormatX_loop P k (FormatX_init P pos env)) cur out inp, cur)) :=
  FormatX_revisit_spec P (FormatX_afterPop P (FormatX_loop P k (FormatX_init P pos env))
      cur out inp)
    (FormatX_loop_parentNone P k (FormatX_init P pos env) (fun _ _ => rfl))
    cur old f t par NewX hFrom hTo hPar

set_option maxRecDepth 1000000 in
/-- C10 witness: `FormatX(false)` on `selfLinkGraph` after two passes.  The popped info 2
carries the link pin 2 -> pin 1 from the entry 1 of node 1, whose entry is info 1 at x = 180;
the candidate 360 is strictly greater, so the entry takes the parent and the link of info 2. -/
theorem FormatX_revisit_reparents_iff_witness :
    ((FormatX_revisit selfLinkParams
        (FormatX_afterPop selfLinkParams
          (FormatX_loop selfLinkParams 2 (FormatX_init selfLinkParams (fun _ => 0) ()))
          2 [] [4, 3]) 2 1 360).1.Infos 1).Parent = some 1 ∧
    ((FormatX_revisit selfLinkParams
        (FormatX_afterPop selfLinkParams
          (FormatX_loop selfLinkParams 2 (FormatX_init selfLinkParams (fun _ => 0) ()))
          2 [] [4, 3]) 2 1 360).1.Infos 1).Link
      = ((FormatX_loop selfLinkParams 2 (FormatX_init selfLinkParams (fun _ => 0) ())).Infos 2).Link :=
  ⟨((FormatX_revisit_reparents_iff selfLinkParams (fun _ => 0) () 2 2 [] [4, 3] 1 2 1 1 360
      (by decide) (by decide) (by decide) (by decide) (by decide)).1
      ⟨by decide, by decide, by decide⟩).1,
   ((FormatX_revisit_reparents_iff selfLinkParams (fun _ => 0) () 2 2 [] [4, 3] 1 2 1 1 360
      (by decide) (by decide) (by decide) (by decide) (by decide)).1
      ⟨by decide, by decide, by decide⟩).2.1⟩

/-- C4 (failing input): one data wire between two pins at the same height, 900 units apart,
with `bExpandNodesByHeight` off.  `MakeKnotTracksForParameterPins` makes a track at that
height with one creation for the parent pin and one for the consumer and breaks the wire;
`RemoveUselessCreationNodes` drops both creations (the consumer pin is handed to the first
creation, which has just been removed from the track); `CreateKnotTracks` creates no knot.
Afterwards neither pin has any link. -/
theorem FormatKnotNodes_loses_link :
    (MakeKnotTracksForParameterPins farPinWorld farPinState 0 [1] false).KnotTracks.map
        (fun t => (t.ParentPin, t.LinkedTo, t.GetTrackHeight farPinWorld, t.KnotCreations))
      = [(0, [1], 36, [0, 1])] ∧
    (MakeKnotTracksForParameterPins farPinWorld farPinState 0 [1] false).LinkedTo 0 = [] ∧
    (RemoveUselessCreationNodes farPinWorld
        (MakeKnotTracksForParameterPins farPinWorld farPinState 0 [1] false)).KnotTracks.map
        (fun t => t.KnotCreations) = [[]] ∧
    (FormatKnotNodes_singlePin farPinWorld farPinState 0 [1]).NumKnots = 0 ∧
    (FormatKnotNodes_singlePin farPinWorld farPinState 0 [1]).LinkedTo 0 = [] ∧
    (FormatKnotNodes_singlePin farPinWorld farPinState 0 [1]).LinkedTo 1 = [] := by
  refine ⟨?_, ?_, ?_, ?_, ?_, ?_⟩ <;> decide

theorem FormatY_collisionStep_false (P : FormatYParams) (cur : Nat) (ParentPin : Option Nat)
    (l : List Nat) (st : Bool × PosMap) (h : st.1 = false) :
    (l.foldl (FormatY_collisionStep P cur ParentPin) st).1 = false := by
  induction l generalizing st with
  | nil => exact h
  | cons a l ih =>
    rw [List.foldl_cons]
    apply ih
    unfold FormatY_collisionStep
    dsimp only
    split_ifs <;> first | exact h | rfl

theorem FormatY_collisionPass_fold (P : FormatYParams) (cur : Nat) (ParentPin : Option Nat)
    (l : List Nat) (st : Bool × PosMap)
    (h : (l.foldl (FormatY_collisionStep P cur ParentPin) st).1 = true) :
    (l.foldl (FormatY_collisionStep P cur ParentPin) st).2 = st.2 ∧
    ∀ m ∈ l, m ≠ cur → ParentPin.map P.g.OwningNode ≠ some m →
      (GetCachedNodeBounds P st.2 cur).DoRectanglesIntersect
        ((GetCachedNodeBounds P st.2 m).ExtendBy 0 0 0 P.NodePaddingY) = false := by
  induction l generalizing st with
  | nil => exact ⟨rfl, fun m hm => absurd hm (List.not_mem_nil m)⟩
  | cons a l ih =>
    rw [List.foldl_cons] at h ⊢
    by_cases hs : FormatY_collisionStep P cur ParentPin st a = st
    · rw [hs] at h ⊢
      obtain ⟨he, hall⟩ := ih st h
      refine ⟨he, fun m hm hne hp => ?_⟩
      rcases List.mem_cons.1 hm with rfl | hm
      · by_contra hc
        have hc : (GetCachedNodeBounds P st.2 cur).DoRectanglesIntersect
            ((GetCachedNodeBounds P st.2 m).ExtendBy 0 0 0 P.NodePaddingY) = true := by
          simpa using hc
        have h1 : (FormatY_collisionStep P cur ParentPin st m).1 = false := by
          unfold FormatY_collisionStep
          dsimp only
          rw [if_neg hne, if_neg hp, if_pos hc]
        rw [hs] at h1
        have := FormatY_collisionStep_false P cur ParentPin l st h1
        rw [this] at h
        exact Bool.noConfusion h
      · exact hall m hm hne hp
    · exfalso
      have h1 : (FormatY_collisionStep P cur ParentPin st a).1 = false := by
        unfold FormatY_collisionStep at hs ⊢
        dsimp only at hs ⊢
        split_ifs at hs ⊢ <;> first | rfl | exact absurd rfl hs
      have := FormatY_collisionStep_false P cur ParentPin l _ h1
      rw [this] at h
      exact Bool.noConfusion h

theorem FormatY_collisionPass_true (P : FormatYParams) (cur : Nat) (ParentPin : Option Nat)
    (Nodes : List Nat) (posY : PosMap)
    (h : (FormatY_collisionPass P cur ParentPin Nodes posY).1 = true) :
    (FormatY_collisionPass P cur ParentPin Nodes posY).2 = posY ∧
    ∀ m ∈ Nodes, m ≠ cur → ParentPin.map P.g.OwningNode ≠ some m →
      (GetCachedNodeBounds P posY cur).DoRectanglesIntersect
        ((GetCachedNodeBounds P posY m).ExtendBy 0 0 0 P.NodePaddingY) = false := by
  unfold FormatY_collisionPass at h ⊢
  obtain ⟨he, hall⟩ := FormatY_collisionPass_fold P cur ParentPin Nodes.reverse (true, posY) h
  exact ⟨he, fun m hm => hall m (List.mem_reverse.2 hm)⟩

theorem FormatY_collisionLoop_true (P : FormatYParams) (cur : Nat) (ParentPin : Option Nat)
    (Nodes : List Nat) (fuel : Nat) (posY : PosMap)
    (h : (FormatY_collisionLoop P cur ParentPin Nodes fuel posY).1 = true) :
    ∀ m ∈ Nodes, m ≠ cur → ParentPin.map P.g.OwningNode ≠ some m →
      (GetCachedNodeBounds P (FormatY_collisionLoop P cur ParentPin Nodes fuel posY).2
          cur).DoRectanglesIntersect
        ((GetCachedNodeBounds P (FormatY_collisionLoop P cur ParentPin Nodes fuel posY).2
          m).ExtendBy 0 0 0 P.NodePaddingY) = false := by
  induction fuel generalizing posY with
  | zero => simp [FormatY_collisionLoop] at h
  | succ k ih =>
    unfold FormatY_collisionLoop at h ⊢
    dsimp only at h ⊢
    by_cases h1 : (FormatY_collisionPass P cur ParentPin Nodes posY).1 = true
    · rw [if_pos h1] at h ⊢
      obtain ⟨he, hall⟩ := FormatY_collisionPass_true P cur ParentPin Nodes posY h1
      rw [he]
      exact hall
    · rw [if_neg h1] at h ⊢
      exact ih _ h

/-- C2 (amended): whenever the collision loop of `FormatY_Recursive` for the current node ends
through `bNoCollision` within its 30 passes, the bounds of the current node do not intersect
the bounds, extended downward by `NodePadding.Y`, of any node of `NodesToCollisionCheck`
other than the current node and the node of `ParentPin`. -/
theorem FormatY_collisionLoop_clear (P : FormatYParams) (CurrentNode : Nat)
    (ParentPin : Option Nat) (NodesToCollisionCheck : List Nat) (posY : PosMap)
    (h : (FormatY_collisionLoop P CurrentNode ParentPin NodesToCollisionCheck 30 posY).1 = true) :
    ∀ m ∈ NodesToCollisionCheck, m ≠ CurrentNode → ParentPin.map P.g.OwningNode ≠ some m →
      (GetCachedNodeBounds P
          (FormatY_collisionLoop P CurrentNode ParentPin NodesToCollisionCheck 30 posY).2
          CurrentNode).DoRectanglesIntersect
        ((GetCachedNodeBounds P
          (FormatY_collisionLoop P CurrentNode ParentPin NodesToCollisionCheck 30 posY).2
          m).ExtendBy 0 0 0 P.NodePaddingY) = false :=
  FormatY_collisionLoop_true P CurrentNode ParentPin NodesToCollisionCheck 30 posY h
set_option maxRecDepth 1000000 in
theorem FormatY_collisionLoop_clear_witness :
    (FormatY_collisionLoop followYParams 2 (some 1) [0, 1, 3, 4] 30 [(2, 26), (4, 570)]).1 = true ∧
    (GetCachedNodeBounds followYParams
        (FormatY_collisionLoop followYParams 2 (some 1) [0, 1, 3, 4] 30 [(2, 26), (4, 570)]).2
        2).DoRectanglesIntersect
      ((GetCachedNodeBounds followYParams
        (FormatY_collisionLoop followYParams 2 (some 1) [0, 1, 3, 4] 30 [(2, 26), (4, 570)]).2
        1).ExtendBy 0 0 0 followYParams.NodePaddingY) = false :=
  ⟨by decide, FormatY_collisionLoop_clear followYParams 2 (some 1) [0, 1, 3, 4]
    [(2, 26), (4, 570)] (by decide) 1 (by decide) (by decide) (by decide)⟩

set_option maxRecDepth 1000000 in
/-- An overlap in the formatting style `Compact`: on `followGraph`, `FormatX` ends with all
six nodes placed, and after `FormatY` the pool nodes 2 and 4 overlap: each one's bounds,
extended downward by `NodePadding.Y` or not, intersect the bounds of the other.  Node 2
was moved onto node 4 when it followed its same-row child down (line 1096). -/
theorem FormatY_overlap_compact :
    FormatX_done followXEnd = true ∧
    2 ∈ followYParams.NodePool ∧ 4 ∈ followYParams.NodePool ∧
    GetCachedNodeBounds followYParams (FormatY followYParams 0 []) 2 = ⟨180, 751, 280, 801⟩ ∧
    GetCachedNodeBounds followYParams (FormatY followYParams 0 []) 4 = ⟨180, 570, 280, 970⟩ ∧
    ((GetCachedNodeBounds followYParams (FormatY followYParams 0 []) 2).ExtendBy 0 0 0
        followYParams.NodePaddingY).DoRectanglesIntersect
      (GetCachedNodeBounds followYParams (FormatY followYParams 0 []) 4) = true ∧
    ((GetCachedNodeBounds followYParams (FormatY followYParams 0 []) 4).ExtendBy 0 0 0
        followYParams.NodePaddingY).DoRectanglesIntersect
      (GetCachedNodeBounds followYParams (FormatY followYParams 0 []) 2) = true := by
  refine ⟨?_, ?_, ?_, ?_, ?_, ?_, ?_⟩ <;> decide

set_option maxRecDepth 1000000 in
/-- C2 (counterexample): on `dragGraph`, a tree of execution links, with the default settings
(style `Expanded`; `NodesToExpand` stays empty, so the style plays no part).  `FormatX` ends
with the seven nodes at x = 0, 180, 180, 280, 280, 410, 380.  In `FormatY` node 2 is placed
at y = 201, in the gap above node 4 (y = 551); its same-row child 5 collides with node 6 and
is pushed to y = 551, and node 2 follows it down (line 1096) onto node 4.  After `FormatY`
the bounds of the pool nodes 2 and 4 intersect, extended downward by `NodePadding.Y` or
not. -/
theorem FormatY_leaves_overlap :
    FormatX_done dragXEnd = true ∧ dragXEnd.NodesToExpand = [] ∧
    [0, 1, 2, 3, 4, 5, 6].map dragXEnd.NodePosX = [0, 180, 180, 280, 280, 410, 380] ∧
    2 ∈ dragYParams.NodePool ∧ 4 ∈ dragYParams.NodePool ∧
    GetCachedNodeBounds dragYParams (FormatY dragYParams 0 []) 2 = ⟨180, 551, 330, 601⟩ ∧
    GetCachedNodeBounds dragYParams (FormatY dragYParams 0 []) 4 = ⟨280, 551, 400, 601⟩ ∧
    (GetCachedNodeBounds dragYParams (FormatY dragYParams 0 []) 2).DoRectanglesIntersect
      (GetCachedNodeBounds dragYParams (FormatY dragYParams 0 []) 4) = true ∧
    ((GetCachedNodeBounds dragYParams (FormatY dragYParams 0 []) 2).ExtendBy 0 0 0
        dragYParams.NodePaddingY).DoRectanglesIntersect
      (GetCachedNodeBounds dragYParams (FormatY dragYParams 0 []) 4) = true ∧
    ((GetCachedNodeBounds dragYParams (FormatY dragYParams 0 []) 4).ExtendBy 0 0 0
        dragYParams.NodePaddingY).DoRectanglesIntersect
      (GetCachedNodeBounds dragYParams (FormatY dragYParams 0 []) 2) = true := by
  refine ⟨?_, ?_, ?_, ?_, ?_, ?_, ?_, ?_, ?_, ?_⟩ <;> decide

theorem PosY_setPosY_same (m : PosMap) (n : Nat) (y : Int) : PosY (setPosY m n y) n = y := by
  simp [PosY, setPosY, List.lookup]

theorem lookup_filter_ne (m : PosMap) (n k : Nat) (h : k ≠ n) :
    (m.filter (fun e => decide (e.1 ≠ n))).lookup k = m.lookup k := by
  induction m with
  | nil => rfl
  | cons a l ih =>
    obtain ⟨a1, a2⟩ := a
    simp only [ne_eq, decide_not] at ih ⊢
    by_cases ha : a1 = n
    · subst ha
      have hk : (k == a1) = false := by simpa using h
      simp [List.filter, List.lookup, hk, ih]
    · by_cases hka : k = a1
      · subst hka
        simp [List.filter, List.lookup, ha]
      · have hk : (k == a1) = false := by simpa using hka
        simp [List.filter, List.lookup, ha, hk, ih]

theorem PosY_setPosY_other (m : PosMap) (n k : Nat) (y : Int) (h : k ≠ n) :
    PosY (setPosY m n y) k = PosY m k := by
  have hk : (k == n) = false := by simpa using h
  simp only [PosY, setPosY, List.lookup, hk]
  rw [lookup_filter_ne m n k h]

theorem PosY_addPosY_same (m : PosMap) (n : Nat) (d : Int) :
    PosY (addPosY m n d) n = PosY m n + d := by
  simp [addPosY, PosY_setPosY_same]

theorem PosY_addPosY_other (m : PosMap) (n k : Nat) (d : Int) (h : k ≠ n) :
    PosY (addPosY m n d) k = PosY m k := by
  simp [addPosY, PosY_setPosY_other _ _ _ _ h]

theorem GetRelativeNodeBounds_fold_skip (w : CommentWorld) (ShouldSkip : List Nat → Nat → Bool)
    (CommentBounds : Nat → Nat → FSlateRect) (NodeAsking : Nat) (l : List Nat)
    (acc : FSlateRect × List Nat)
    (h : ∀ c ∈ l, GetRelativeNodeBounds_box w ShouldSkip CommentBounds NodeAsking acc c = acc) :
    l.foldl (GetRelativeNodeBounds_box w ShouldSkip CommentBounds NodeAsking) acc = acc := by
  induction l with
  | nil => rfl
  | cons a l ih =>
    rw [List.foldl_cons, h a (List.mem_cons_self a l)]
    exact ih (fun c hc => h c (List.mem_cons_of_mem a hc))

theorem GetRelativeNodeBounds_box_skip (w : CommentWorld) (ShouldSkip : List Nat → Nat → Bool)
    (CommentBounds : Nat → Nat → FSlateRect) (NodeAsking : Nat)
    (acc : FSlateRect × List Nat) (c : Nat)
    (h : c ∈ w.ParentComments NodeAsking ∨ w.GetNodesUnderComment c = [] ∨
      (w.GetNodesUnderComment c).any (ShouldSkip (w.GetNodesUnderComment c)) = true) :
    GetRelativeNodeBounds_box w ShouldSkip CommentBounds NodeAsking acc c = acc := by
  unfold GetRelativeNodeBounds_box
  dsimp only
  rcases h with h | h | h
  · rw [if_pos h]
  · by_cases h1 : c ∈ w.ParentComments NodeAsking
    · rw [if_pos h1]
    · rw [if_neg h1, h]
      rfl
  · by_cases h1 : c ∈ w.ParentComments NodeAsking
    · rw [if_pos h1]
    · rw [if_neg h1]
      by_cases h2 : (w.GetNodesUnderComment c).isEmpty = true
      · rw [if_pos h2]
      · rw [if_neg h2, if_pos h]

/-- C13: when every box that holds the node also holds the asking node, or has no members,
or has a member (not a comment or knot node) outside the node tree reachable inside the box
from its first member, both `GetRelativeNodeBounds` return the node's own unexpanded
bounds. -/
theorem GetRelativeNodeBounds_unexpanded (w : CommentWorld) (fuel : Nat) (Node NodeAsking : Nat)
    (bEnabled : Bool) (NodeTree : List Nat) (Own : Nat → FSlateRect)
    (h : ∀ c ∈ w.ParentComments Node,
      c ∈ w.ParentComments NodeAsking ∨ w.GetNodesUnderComment c = [] ∨
      ∃ m ∈ w.GetNodesUnderComment c, w.IsCommentNode m = false ∧ w.IsKnotNode m = false ∧
        m ∉ w.GetNodeTreeWithFilter ((w.GetNodesUnderComment c).headD 0)
          (w.GetNodesUnderComment c)) :
    (FCommentHandler.GetRelativeNodeBounds w fuel Node NodeAsking).1
        = w.GetCachedNodeBounds Node ∧
    (FEdGraphFormatter.GetRelativeNodeBounds w bEnabled NodeTree Own fuel Node NodeAsking).1
        = Own Node := by
  constructor
  · unfold FCommentHandler.GetRelativeNodeBounds
    rw [GetRelativeNodeBounds_fold_skip]
    intro c hc
    apply GetRelativeNodeBounds_box_skip
    rcases h c hc with h1 | h1 | ⟨m, hm, h2, h3, h4⟩
    · exact Or.inl h1
    · exact Or.inr (Or.inl h1)
    · refine Or.inr (Or.inr (List.any_eq_true.2 ⟨m, hm, ?_⟩))
      simp only [FCommentHandler.ShouldSkip, h2, h3, Bool.or_self, Bool.false_eq_true, if_false,
        decide_eq_true_eq]
      exact h4
  · unfold FEdGraphFormatter.GetRelativeNodeBounds
    dsimp only
    split_ifs
    · rfl
    · rfl
    · rfl
    · rw [GetRelativeNodeBounds_fold_skip]
      intro c hc
      apply GetRelativeNodeBounds_box_skip
      rcases h c hc with h1 | h1 | ⟨m, hm, h2, h3, h4⟩
      · exact Or.inl h1
      · exact Or.inr (Or.inl h1)
      · refine Or.inr (Or.inr (List.any_eq_true.2 ⟨m, hm, ?_⟩))
        simp only [FEdGraphFormatter.ShouldSkip, h2, h3, Bool.or_self, Bool.false_eq_true,
          if_false, Bool.or_eq_true, decide_eq_true_eq]
        exact Or.inl h4

theorem GetRelativeNodeBounds_unexpanded_witness :
    (FCommentHandler.GetRelativeNodeBounds (boxWorld [1, 3] boxBounds) 1 1 3).1
        = boxBounds 1 ∧
    (FEdGraphFormatter.GetRelativeNodeBounds (boxWorld [1, 3] boxBounds) true [1, 3] boxBounds
        1 1 3).1 = boxBounds 1 :=
  GetRelativeNodeBounds_unexpanded (boxWorld [1, 3] boxBounds) 1 1 3 true [1, 3] boxBounds
    (by decide)

/-- The formatter's copy keeps the contract: `FEdGraphFormatter::GetRelativeNodeBounds`
returns either the node's own unexpanded bounds or a rectangle contained in the sentinel
rectangle (-99999, -99999, 99999, 99999), thanks to the test of lines 2385-2389. -/
theorem FEdGraphFormatter_GetRelativeNodeBounds_sentinel (w : CommentWorld) (bEnabled : Bool)
    (NodeTree : List Nat) (Own : Nat → FSlateRect) (fuel : Nat) (Node NodeAsking : Nat) :
    (FEdGraphFormatter.GetRelativeNodeBounds w bEnabled NodeTree Own fuel Node NodeAsking).1
        = Own Node ∨
    sentinelRect.IsRectangleContained
      (FEdGraphFormatter.GetRelativeNodeBounds w bEnabled NodeTree Own fuel Node NodeAsking).1
        = true := by
  unfold FEdGraphFormatter.GetRelativeNodeBounds
  dsimp only
  split_ifs with h1 h2 h3
  · exact Or.inl rfl
  · exact Or.inl rfl
  · exact Or.inl rfl
  · right
    simpa using h3

/-- C14 (failing input): `FCommentHandler::GetRelativeNodeBounds` lacks the sentinel test
that its sibling in the formatter performs.  For the box 10 with the members 1 and 2, node 2
lying at x = 200000, and an asking node 3 outside the box, the handler returns for node 1 a
rectangle that is not node 1's own bounds and is not contained in the sentinel rectangle,
where the formatter, asked the same, falls back to the own bounds of node 1. -/
theorem FCommentHandler_GetRelativeNodeBounds_outside_sentinel :
    (FCommentHandler.GetRelativeNodeBounds (boxWorld [1, 2] boxBounds) 1 1 3).1
        = { Left := 170, Top := -60, Right := 200130, Bottom := 80 } ∧
    (FCommentHandler.GetRelativeNodeBounds (boxWorld [1, 2] boxBounds) 1 1 3).1
        ≠ (boxWorld [1, 2] boxBounds).GetCachedNodeBounds 1 ∧
    sentinelRect.IsRectangleContained
      (FCommentHandler.GetRelativeNodeBounds (boxWorld [1, 2] boxBounds) 1 1 3).1 = false ∧
    (FEdGraphFormatter.GetRelativeNodeBounds (boxWorld [1, 2] boxBounds) true [1, 2, 3]
        (boxWorld [1, 2] boxBounds).GetCachedNodeBounds 1 1 3).1
      = (boxWorld [1, 2] boxBounds).GetCachedNodeBounds 1 := by
  refine ⟨?_, ?_, ?_, ?_⟩ <;> decide

theorem Init_fold_flat (Sorted : List Nat) (members : Nat → List Nat) (m : CommentMaps) :
    Sorted.foldl
      (fun m Comment =>
        (members Comment).foldl
          (fun m EdGraphNode => FCommentHandler.Init_add m (Comment, EdGraphNode)) m) m
    = (Sorted.flatMap (fun c => (members c).map (fun n => (c, n)))).foldl
        FCommentHandler.Init_add m := by
  induction Sorted generalizing m with
  | nil => rfl
  | cons c l ih =>
    rw [List.foldl_cons, ih, List.flatMap_cons, List.foldl_append, List.foldl_map]

theorem Init_add_fold (pairs : List (Nat × Nat)) (m : CommentMaps) :
    (∀ c, (pairs.foldl FCommentHandler.Init_add m).CommentNodesContains c =
      m.CommentNodesContains c ++ (pairs.filter (fun p => decide (p.1 = c))).map Prod.snd) ∧
    (∀ n, (pairs.foldl FCommentHandler.Init_add m).ParentComments n =
      m.ParentComments n ++ (pairs.filter (fun p => decide (p.2 = n))).map Prod.fst) := by
  induction pairs generalizing m with
  | nil => simp
  | cons p l ih =>
    obtain ⟨h1, h2⟩ := ih (FCommentHandler.Init_add m p)
    constructor
    · intro c
      rw [List.foldl_cons, h1 c]
      by_cases hc : p.1 = c
      · simp [FCommentHandler.Init_add, FindOrAddAdd, hc, List.filter]
      · have hc' : ¬ c = p.1 := fun h => hc h.symm
        simp [FCommentHandler.Init_add, FindOrAddAdd, hc, hc', List.filter]
    · intro n
      rw [List.foldl_cons, h2 n]
      by_cases hc : p.2 = n
      · simp [FCommentHandler.Init_add, FindOrAddAdd, hc, List.filter]
      · have hc' : ¬ n = p.2 := fun h => hc h.symm
        simp [FCommentHandler.Init_add, FindOrAddAdd, hc, hc', List.filter]

theorem Init_pairs_sorted (Depth : Nat → Int) (Sorted : List Nat) (members : Nat → List Nat)
    (hs : Sorted.Pairwise (fun a b => Depth a ≥ Depth b)) :
    (Sorted.flatMap (fun c => (members c).map (fun n => (c, n)))).Pairwise
      (fun p q => Depth p.1 ≥ Depth q.1) := by
  rw [List.pairwise_flatMap]
  constructor
  · intro c _
    rw [List.pairwise_map]
    exact List.pairwise_of_forall (fun _ _ => le_refl _)
  · refine hs.imp ?_
    intro a b hab x hx y hy
    obtain ⟨_, _, rfl⟩ := List.mem_map.1 hx
    obtain ⟨_, _, rfl⟩ := List.mem_map.1 hy
    exact hab

/-- C15: after `FCommentHandler::Init` on a valid graph handler, whatever the maps held
before, a node n is in `CommentNodesContains[c]` exactly when c is in `ParentComments[n]`,
and exactly when c is a comment node of the graph that has n under it; the boxes listed in
`ParentComments[n]` are in non-increasing `CommentDepth` order; and a second `Init` on the
unchanged graph yields the same maps. -/
theorem FCommentHandler_Init_maps (CommentNodes SortedComments : List Nat)
    (GetNodesUnderComment : Nat → List Nat) (CommentDepth : Nat → Int) (old : CommentMaps)
    (hperm : SortedComments.Perm CommentNodes)
    (hsorted : SortedComments.Pairwise (fun a b => CommentDepth a ≥ CommentDepth b)) :
    (∀ c n, n ∈ (FCommentHandler.Init true SortedComments GetNodesUnderComment
          old).CommentNodesContains c ↔
        c ∈ (FCommentHandler.Init true SortedComments GetNodesUnderComment
          old).ParentComments n) ∧
    (∀ c n, n ∈ (FCommentHandler.Init true SortedComments GetNodesUnderComment
          old).CommentNodesContains c ↔ c ∈ CommentNodes ∧ n ∈ GetNodesUnderComment c) ∧
    (∀ n, ((FCommentHandler.Init true SortedComments GetNodesUnderComment
          old).ParentComments n).Pairwise (fun a b => CommentDepth a ≥ CommentDepth b)) ∧
    FCommentHandler.Init true SortedComments GetNodesUnderComment
        (FCommentHandler.Init true SortedComments GetNodesUnderComment old)
      = FCommentHandler.Init true SortedComments GetNodesUnderComment old := by
  have hI : FCommentHandler.Init true SortedComments GetNodesUnderComment old =
      (SortedComments.flatMap (fun c => (GetNodesUnderComment c).map (fun n => (c, n)))).foldl
        FCommentHandler.Init_add
        { ParentComments := fun _ => [], CommentNodesContains := fun _ => [] } := by
    unfold FCommentHandler.Init
    simp only [Bool.not_true, Bool.false_eq_true, if_false]
    exact Init_fold_flat _ _ _
  obtain ⟨h1, h2⟩ := Init_add_fold
    (SortedComments.flatMap (fun c => (GetNodesUnderComment c).map (fun n => (c, n))))
    { ParentComments := fun _ => [], CommentNodesContains := fun _ => [] }
  have hmem : ∀ c n, (c, n) ∈ SortedComments.flatMap
      (fun c => (GetNodesUnderComment c).map (fun n => (c, n))) ↔
      c ∈ CommentNodes ∧ n ∈ GetNodesUnderComment c := by
    intro c n
    simp only [List.mem_flatMap, List.mem_map, Prod.mk.injEq]
    constructor
    · rintro ⟨a, ha, b, hb, rfl, rfl⟩
      exact ⟨hperm.mem_iff.1 ha, hb⟩
    · rintro ⟨hc, hn⟩
      exact ⟨c, hperm.mem_iff.2 hc, n, hn, rfl, rfl⟩
  have hA : ∀ c n, n ∈ (FCommentHandler.Init true SortedComments GetNodesUnderComment
      old).CommentNodesContains c ↔ c ∈ CommentNodes ∧ n ∈ GetNodesUnderComment c := by
    intro c n
    rw [hI, h1 c, ← hmem]
    simp
  have hB : ∀ c n, c ∈ (FCommentHandler.Init true SortedComments GetNodesUnderComment
      old).ParentComments n ↔ c ∈ CommentNodes ∧ n ∈ GetNodesUnderComment c := by
    intro c n
    rw [hI, h2 n, ← hmem]
    simp
  refine ⟨fun c n => (hA c n).trans (hB c n).symm, hA, ?_, ?_⟩
  · intro n
    rw [hI, h2 n]
    simp only [List.nil_append]
    rw [List.pairwise_map]
    exact (Init_pairs_sorted CommentDepth SortedComments GetNodesUnderComment hsorted).filter _
  · unfold FCommentHandler.Init
    simp

theorem FCommentHandler_Init_maps_witness :
    (1 ∈ (FCommentHandler.Init true [11, 10] (fun c => if c = 10 then [1, 11] else [1])
          ⟨fun _ => [7], fun _ => [8]⟩).CommentNodesContains 10 ↔
      10 ∈ (FCommentHandler.Init true [11, 10] (fun c => if c = 10 then [1, 11] else [1])
          ⟨fun _ => [7], fun _ => [8]⟩).ParentComments 1) :=
  (FCommentHandler_Init_maps [10, 11] [11, 10] (fun c => if c = 10 then [1, 11] else [1])
    (fun c => if c = 11 then 1 else 0) ⟨fun _ => [7], fun _ => [8]⟩
    (by decide) (by decide)).1 10 1

theorem FEdGraphFormatter_GetRelativeNodeBounds_plain (w : CommentWorld) (bEnabled : Bool)
    (NodeTree : List Nat) (Own : Nat → FSlateRect) (fuel : Nat) (Node NodeAsking : Nat)
    (h : bEnabled = false ∨ ∀ n, w.ParentComments n = []) :
    FEdGraphFormatter.GetRelativeNodeBounds w bEnabled NodeTree Own fuel Node NodeAsking
      = (Own Node, []) := by
  unfold FEdGraphFormatter.GetRelativeNodeBounds
  rcases h with h | h
  · simp [h]
  · simp [h Node]

theorem chain_step1 (Width : Nat → Float32) (pos : Nat → Int) :
    FormatX_step (chainParams Width) (FormatX_init (chainParams Width) pos ()) = chainS1 pos :=
  rfl

theorem chain_step2 (Width : Nat → Float32) (pos : Nat → Int) :
    FormatX_step (chainParams Width) (chainS1 pos) = chainS2 Width pos := rfl

theorem chain_step3 (Width : Nat → Float32) (pos : Nat → Int) :
    FormatX_step (chainParams Width) (chainS2 Width pos)
      = chainS3 Width pos EEdGraphPinDirection.EGPD_Output [4, 3] := rfl

theorem chain_step4 (Width : Nat → Float32) (pos : Nat → Int) :
    FormatX_step (chainParams Width) (chainS3 Width pos EEdGraphPinDirection.EGPD_Output [4, 3])
      = chainS3 Width pos EEdGraphPinDirection.EGPD_Input [3] := rfl

set_option maxHeartbeats 4000000 in
theorem chain_step5 (Width : Nat → Float32) (pos : Nat → Int) :
    FormatX_step (chainParams Width) (chainS3 Width pos EEdGraphPinDirection.EGPD_Input [3])
      = chainS3 Width pos EEdGraphPinDirection.EGPD_Input [] := rfl

theorem chain_loop (Width : Nat → Float32) (pos : Nat → Int) :
    FormatX_loop (chainParams Width) 5 (FormatX_init (chainParams Width) pos ())
      = chainS3 Width pos EEdGraphPinDirection.EGPD_Input [] := by
  simp only [FormatX_loop, chain_step1, chain_step2, chain_step3, chain_step4, chain_step5]

theorem chain_FormatX (Width : Nat → Float32) (pos : Nat → Int) :
    FormatX_plain (chainParams Width) Width (Float32.ofInt 80) 5 pos
      = chainS3 Width pos EEdGraphPinDirection.EGPD_Input [] := by
  unfold FormatX_plain FormatX
  rw [chain_loop]
  rfl

theorem chainX1_eq (Width : Nat → Float32) (pos : Nat → Int) :
    chainX1 Width pos
      = RoundToInt (Float32.add (Float32.add (Float32.ofInt (pos 0)) (Width 0))
          (Float32.ofInt 80)) := by
  have h : chainX1 Width pos
      = RoundToInt (Float32.add (Float32.add (Float32.add (Float32.ofInt (pos 0)) (Width 0))
          (Float32.sub (Float32.ofInt (pos 1)) (Float32.ofInt (pos 1)))) (Float32.ofInt 80)) :=
    rfl
  rw [h, Float32.sub_self, Float32.add_add_zero]

theorem chainX2_eq (Width : Nat → Float32) (pos : Nat → Int) :
    chainX2 Width pos
      = RoundToInt (Float32.add (Float32.add (Float32.ofInt (chainX1 Width pos)) (Width 1))
          (Float32.ofInt 80)) := by
  have h : chainX2 Width pos
      = RoundToInt (Float32.add (Float32.add (Float32.add (Float32.ofInt (chainX1 Width pos))
          (Width 1)) (Float32.sub (Float32.ofInt (pos 2)) (Float32.ofInt (pos 2))))
          (Float32.ofInt 80)) := rfl
  rw [h, Float32.sub_self, Float32.add_add_zero]

theorem GetChildX_whole (x w pad : Int) (hx : |x| < 8388608) (hw : |x + w| < 8388608)
    (hp : |pad| < 8388608) (hs : |x + w + pad| < 8388608) :
    RoundToInt (Float32.add (Float32.add (Float32.ofInt x) ⟨w * 2 ^ 149⟩) (Float32.ofInt pad))
      = x + w + pad := by
  have b : ∀ y : Int, |y| < 8388608 → |y| < 16777216 := fun y hy => lt_trans hy (by norm_num)
  rw [Float32.ofInt_exact x (b x hx), Float32.add_whole x w (b _ hw),
    Float32.ofInt_exact pad (b pad hp), Float32.add_whole _ _ (b _ hs), RoundToInt_whole _ hs]

theorem FEdGraphFormatter_GetChildX_plain (g : EdGraph) (Own : Nat → FSlateRectFloat)
    (GetCachedNodeArrayBounds : List Nat → FSlateRectFloat)
    (GetRelativeNodeBounds : Nat → Option Nat → FSlateRectFloat × List Nat)
    (SameRow : Option Bool) (NodePaddingX : Float32) (From To fb : Nat)
    (h : ∀ n a, GetRelativeNodeBounds n a = (Own n, [])) :
    FEdGraphFormatter.GetChildX g Own Own GetCachedNodeArrayBounds GetRelativeNodeBounds SameRow
        NodePaddingX { From := some From, To := some To, FallbackNode := fb } =
      if g.Direction From = EEdGraphPinDirection.EGPD_Input then
        RoundToInt (Float32.sub
          (Float32.sub (Own (g.OwningNode From)).Left
            (Float32.sub (Own (g.OwningNode To)).Right (Own (g.OwningNode To)).Left))
          NodePaddingX)
      else
        RoundToInt (Float32.add (Float32.add (Own (g.OwningNode From)).Right ⟨0⟩)
          NodePaddingX) := by
  unfold FEdGraphFormatter.GetChildX
  simp only [h, Float32.sub_self]
  by_cases hd : g.Direction From = EEdGraphPinDirection.EGPD_Input
  · simp only [hd, if_true]
    split_ifs <;> rfl
  · simp only [hd, if_false]
    split_ifs <;> rfl

/-- C11 (as amended): `FormatX` on the chain 0 -> 1 -> 2 of impure nodes (root 0, no parameter
nodes, no boxes, horizontal padding 80, any cached widths and start positions) ends after
five passes of its loop, `ExpandPendingNodes` has nothing to expand, the root stays where it
was, node 1 gets `RoundToInt` of the `float` sum (root.x + width(root)) + 80 and node 2
`RoundToInt` of (node1.x + width(node 1)) + 80.  When the two widths are whole numbers and
the sums stay below 2^23 in absolute value these are root.x + width(root) + 80 and
node1.x + width(node 1) + 80.  For a link with both pins, when every `GetRelativeNodeBounds`
call returns the own bounds (comment handling off), `GetChildX` returns
`RoundToInt(parent.Right + NodePadding.X)` for an output link (the right edge being a `float`)
and `RoundToInt((parent.Left - (child.Right - child.Left)) - NodePadding.X)` for an input
link, all operations being `float` operations; on the cached bounds that is the value used in
the run. -/
theorem FormatX_chain_positions (Width : Nat → Float32) (pos : Nat → Int) :
    (FormatX_done (FormatX_plain (chainParams Width) Width (Float32.ofInt 80) 5 pos) = true ∧
      (FormatX_plain (chainParams Width) Width (Float32.ofInt 80) 5 pos).NodesToExpand = [] ∧
      (FormatX_plain (chainParams Width) Width (Float32.ofInt 80) 5 pos).NodePosX 0 = pos 0 ∧
      (FormatX_plain (chainParams Width) Width (Float32.ofInt 80) 5 pos).NodePosX 1
        = RoundToInt (Float32.add (Float32.add (Float32.ofInt (pos 0)) (Width 0))
            (Float32.ofInt 80)) ∧
      (FormatX_plain (chainParams Width) Width (Float32.ofInt 80) 5 pos).NodePosX 2
        = RoundToInt (Float32.add (Float32.add
            (Float32.ofInt
              ((FormatX_plain (chainParams Width) Width (Float32.ofInt 80) 5 pos).NodePosX 1))
            (Width 1)) (Float32.ofInt 80))) ∧
    (∀ w0 w1 : Int, Width 0 = ⟨w0 * 2 ^ 149⟩ → Width 1 = ⟨w1 * 2 ^ 149⟩ →
      |pos 0| < 8388608 → |pos 0 + w0| < 8388608 → |pos 0 + w0 + 80| < 8388608 →
      |pos 0 + w0 + 80 + w1| < 8388608 → |pos 0 + w0 + 80 + w1 + 80| < 8388608 →
      (FormatX_plain (chainParams Width) Width (Float32.ofInt 80) 5 pos).NodePosX 1
        = pos 0 + w0 + 80 ∧
      (FormatX_plain (chainParams Width) Width (Float32.ofInt 80) 5 pos).NodePosX 2
        = (FormatX_plain (chainParams Width) Width (Float32.ofInt 80) 5 pos).NodePosX 1
          + w1 + 80) ∧
    (∀ (g : EdGraph) (Own : Nat → FSlateRectFloat)
        (GetCachedNodeArrayBounds : List Nat → FSlateRectFloat)
        (GetRelativeNodeBounds : Nat → Option Nat → FSlateRectFloat × List Nat)
        (SameRow : Option Bool) (NodePaddingX : Float32) (From To fb : Nat),
      (∀ n a, GetRelativeNodeBounds n a = (Own n, [])) →
      (∀ n, Float32.round (Own n).Right.units = (Own n).Right) →
      FEdGraphFormatter.GetChildX g Own Own GetCachedNodeArrayBounds GetRelativeNodeBounds
          SameRow NodePaddingX { From := some From, To := some To, FallbackNode := fb } =
        if g.Direction From = EEdGraphPinDirection.EGPD_Input then
          RoundToInt (Float32.sub
            (Float32.sub (Own (g.OwningNode From)).Left
              (Float32.sub (Own (g.OwningNode To)).Right (Own (g.OwningNode To)).Left))
            NodePaddingX)
        else RoundToInt (Float32.add (Own (g.OwningNode From)).Right NodePaddingX)) ∧
    (∀ (g : EdGraph) (W : Nat → Float32) (p : Nat → Int) (Own : Nat → FSlateRectFloat)
        (GetCachedNodeArrayBounds : List Nat → FSlateRectFloat)
        (SameRow : Option Bool) (NodePaddingX : Float32) (From To fb : Nat),
      (∀ n, (Own n).Left = Float32.ofInt (p n) ∧
        (Own n).Right = Float32.add (Float32.ofInt (p n)) (W n)) →
      GetChildX_plain g W NodePaddingX () p { From := some From, To := some To, FallbackNode := fb }
        = FEdGraphFormatter.GetChildX g Own Own GetCachedNodeArrayBounds
            (fun n _ => (Own n, [])) SameRow NodePaddingX
            { From := some From, To := some To, FallbackNode := fb }) := by
  have hX1 : (FormatX_plain (chainParams Width) Width (Float32.ofInt 80) 5 pos).NodePosX 1
      = chainX1 Width pos := by
    rw [chain_FormatX]
    rfl
  have hX2 : (FormatX_plain (chainParams Width) Width (Float32.ofInt 80) 5 pos).NodePosX 2
      = chainX2 Width pos := by
    rw [chain_FormatX]
    rfl
  refine ⟨⟨?_, ?_, ?_, ?_, ?_⟩, ?_, ?_, ?_⟩
  · rw [chain_FormatX]
    rfl
  · rw [chain_FormatX]
    rfl
  · rw [chain_FormatX]
    rfl
  · rw [hX1, chainX1_eq]
  · rw [hX2, hX1, chainX2_eq]
  · intro w0 w1 h0 h1 b0 b1 b2 b3 b4
    have e1 : chainX1 Width pos = pos 0 + w0 + 80 := by
      rw [chainX1_eq, h0]
      exact GetChildX_whole (pos 0) w0 80 b0 b1 (by norm_num) b2
    have e2 : chainX2 Width pos = pos 0 + w0 + 80 + w1 + 80 := by
      rw [chainX2_eq, h1, e1]
      exact GetChildX_whole (pos 0 + w0 + 80) w1 80 b2 b3 (by norm_num) b4
    rw [hX2, hX1, e1, e2]
    exact ⟨rfl, rfl⟩
  · intro g Own AB Rel SameRow pad From To fb h hf
    rw [FEdGraphFormatter_GetChildX_plain g Own AB Rel SameRow pad From To fb h,
      Float32.add_zero_of_round _ (hf _)]
  · intro g W p Own AB SameRow pad From To fb hb
    rw [FEdGraphFormatter_GetChildX_plain g Own AB _ SameRow pad From To fb (fun _ _ => rfl)]
    unfold GetChildX_plain
    simp only [(hb _).1, (hb _).2, Float32.sub_self]

set_option maxRecDepth 1000000 in
/-- C11 witness: every node 100 wide, all nodes at x = 0 before the pass: node 1 is placed at
180 and node 2 at 360. -/
theorem FormatX_chain_positions_witness :
    (FormatX_plain (chainParams (fun _ => Float32.ofInt 100)) (fun _ => Float32.ofInt 100)
        (Float32.ofInt 80) 5 (fun _ => 0)).NodePosX 1 = 0 + 100 + 80 ∧
    (FormatX_plain (chainParams (fun _ => Float32.ofInt 100)) (fun _ => Float32.ofInt 100)
        (Float32.ofInt 80) 5 (fun _ => 0)).NodePosX 2
      = (FormatX_plain (chainParams (fun _ => Float32.ofInt 100)) (fun _ => Float32.ofInt 100)
        (Float32.ofInt 80) 5 (fun _ => 0)).NodePosX 1 + 100 + 80 :=
  (FormatX_chain_positions (fun _ => Float32.ofInt 100) (fun _ => 0)).2.1 100 100
    (by decide) (by decide) (by decide) (by decide) (by decide) (by decide) (by decide)

set_option maxRecDepth 1000000 in
/-- C11 counterexample: the root is 100.5 wide (cached sizes are `float`s) and lies at x = 0.
`FormatX` places node 1 at 181, whereas root.x + width(root) + 80 is 180.5 (361 halves). -/
theorem FormatX_chain_fractional_width :
    (Float32.ofRatio 201 1).units * 2 = 201 * 2 ^ 149 ∧
    (FormatX_plain
        (chainParams (fun n => if n = 0 then Float32.ofRatio 201 1 else Float32.ofInt 100))
        (fun n => if n = 0 then Float32.ofRatio 201 1 else Float32.ofInt 100)
        (Float32.ofInt 80) 5 (fun _ => 0)).NodePosX 1 = 181 ∧
    (181 : Int) * 2 ^ 149 ≠ 0 * 2 ^ 149 + (Float32.ofRatio 201 1).units + 80 * 2 ^ 149 := by
  refine ⟨?_, ?_, ?_⟩ <;> decide

theorem scanPass_fold (w : KnotWorld) (t : FKnotNodeTrack) (ts te y : Int) (l : List Nat)
    (st : Bool × Int)
    (h : (l.foldl
      (fun st n =>
        if n = w.PinNode t.ParentPin ∨ n = w.PinNode t.GetLastPin then st
        else if w.LineHitsNode n ts te y then (false, w.ExtendedBottom n + 1)
        else st) st).1 = true) :
    (l.foldl
      (fun st n =>
        if n = w.PinNode t.ParentPin ∨ n = w.PinNode t.GetLastPin then st
        else if w.LineHitsNode n ts te y then (false, w.ExtendedBottom n + 1)
        else st) st).2 = st.2 ∧
    l.all (fun n => decide (n = w.PinNode t.ParentPin) || decide (n = w.PinNode t.GetLastPin) ||
      !w.LineHitsNode n ts te y) = true := by
  induction l generalizing st with
  | nil => exact ⟨rfl, rfl⟩
  | cons a l ih =>
    rw [List.foldl_cons] at h ⊢
    by_cases h1 : a = w.PinNode t.ParentPin ∨ a = w.PinNode t.GetLastPin
    · rw [if_pos h1] at h ⊢
      obtain ⟨he, ha⟩ := ih st h
      refine ⟨he, ?_⟩
      rw [List.all_cons, ha]
      rcases h1 with h1 | h1 <;> simp [h1]
    · rw [if_neg h1] at h ⊢
      by_cases h2 : w.LineHitsNode a ts te y = true
      · rw [if_pos h2] at h
        exfalso
        have hf : ∀ (l : List Nat) (st : Bool × Int), st.1 = false →
            (l.foldl
              (fun st n =>
                if n = w.PinNode t.ParentPin ∨ n = w.PinNode t.GetLastPin then st
                else if w.LineHitsNode n ts te y then (false, w.ExtendedBottom n + 1)
                else st) st).1 = false := by
          intro l
          induction l with
          | nil => intro st hst; exact hst
          | cons b l ihl =>
            intro st hst
            rw [List.foldl_cons]
            apply ihl
            split_ifs <;> first | exact hst | rfl
        rw [hf l _ rfl] at h
        exact Bool.noConfusion h
      · rw [if_neg h2] at h ⊢
        obtain ⟨he, ha⟩ := ih st h
        refine ⟨he, ?_⟩
        rw [List.all_cons, ha]
        simp [h2]

theorem scanPass_ge (w : KnotWorld) (t : FKnotNodeTrack) (ts te y : Int)
    (hgeo : ∀ n x1 x2 y, w.LineHitsNode n x1 x2 y = true → y ≤ w.ExtendedBottom n)
    (l : List Nat) (st : Bool × Int) (hst : y ≤ st.2) :
    y ≤ (l.foldl
      (fun st n =>
        if n = w.PinNode t.ParentPin ∨ n = w.PinNode t.GetLastPin then st
        else if w.LineHitsNode n ts te y then (false, w.ExtendedBottom n + 1)
        else st) st).2 := by
  induction l generalizing st with
  | nil => exact hst
  | cons a l ih =>
    rw [List.foldl_cons]
    apply ih
    split_ifs with h1 h2
    · exact hst
    · have := hgeo a ts te y h2
      show y ≤ w.ExtendedBottom a + 1
      omega
    · exact hst

theorem scan_ends (w : KnotWorld) (t : FKnotNodeTrack) (ts te old : Int)
    (hgeo : ∀ n x1 x2 y, w.LineHitsNode n x1 x2 y = true → y ≤ w.ExtendedBottom n)
    (fuel : Nat) (y : Int) (h : FKnotNodeTrack.scanEnds w t ts te fuel y = true) :
    y ≤ FKnotNodeTrack.scan w t ts te old fuel y ∧
    t.TryAlignTrack w ts te (FKnotNodeTrack.scan w t ts te old fuel y) = true := by
  induction fuel generalizing y with
  | zero => simp [FKnotNodeTrack.scanEnds] at h
  | succ k ih =>
    unfold FKnotNodeTrack.scanEnds at h
    unfold FKnotNodeTrack.scan
    dsimp only at h ⊢
    by_cases h1 : (FKnotNodeTrack.scanPass w t ts te y).1 = true
    · rw [if_pos h1]
      obtain ⟨he, ha⟩ := scanPass_fold w t ts te y w.FormattedNodes (true, y) h1
      have he' : (FKnotNodeTrack.scanPass w t ts te y).2 = y := he
      rw [he']
      exact ⟨le_refl y, ha⟩
    · rw [if_neg h1] at h ⊢
      obtain ⟨hle, ha⟩ := ih _ h
      have hge : y ≤ (FKnotNodeTrack.scanPass w t ts te y).2 :=
        scanPass_ge w t ts te y hgeo w.FormattedNodes (true, y) (le_refl y)
      exact ⟨le_trans hge hle, ha⟩

/-- C19: for a non-looping track, `SetTrackHeight` takes the parent pin's Y when the segment
at that height over the track span hits no padded bounds of a formatted node other than the
two end nodes, otherwise the last pin's Y under the same test, otherwise it scans downward
from the last pin's Y; when the scan ends within its 100 passes the chosen height is not
above the last pin's Y and the segment at that height hits no such bounds. -/
theorem SetTrackHeight_choice (w : KnotWorld) (t : FKnotNodeTrack)
    (hloop : t.bIsLoopingTrack = false)
    (hgeo : ∀ n x1 x2 y, w.LineHitsNode n x1 x2 y = true → y ≤ w.ExtendedBottom n) :
    (t.TryAlignTrack w
        (min (w.PinPos t.ParentPin).1 (w.PinPos t.GetLastPin).1 + 5 + 10)
        (max (w.PinPos t.ParentPin).1 (w.PinPos t.GetLastPin).1 - 5 - 10)
        (w.PinPos t.ParentPin).2 = true →
      (FKnotNodeTrack.SetTrackHeight w t).TrackHeight = (w.PinPos t.ParentPin).2) ∧
    (t.TryAlignTrack w
        (min (w.PinPos t.ParentPin).1 (w.PinPos t.GetLastPin).1 + 5 + 10)
        (max (w.PinPos t.ParentPin).1 (w.PinPos t.GetLastPin).1 - 5 - 10)
        (w.PinPos t.ParentPin).2 = false →
      t.TryAlignTrack w
        (min (w.PinPos t.ParentPin).1 (w.PinPos t.GetLastPin).1 + 5 + 10)
        (max (w.PinPos t.ParentPin).1 (w.PinPos t.GetLastPin).1 - 5 - 10)
        (w.PinPos t.GetLastPin).2 = true →
      (FKnotNodeTrack.SetTrackHeight w t).TrackHeight = (w.PinPos t.GetLastPin).2) ∧
    (t.TryAlignTrack w
        (min (w.PinPos t.ParentPin).1 (w.PinPos t.GetLastPin).1 + 5 + 10)
        (max (w.PinPos t.ParentPin).1 (w.PinPos t.GetLastPin).1 - 5 - 10)
        (w.PinPos t.ParentPin).2 = false →
      t.TryAlignTrack w
        (min (w.PinPos t.ParentPin).1 (w.PinPos t.GetLastPin).1 + 5 + 10)
        (max (w.PinPos t.ParentPin).1 (w.PinPos t.GetLastPin).1 - 5 - 10)
        (w.PinPos t.GetLastPin).2 = false →
      FKnotNodeTrack.scanEnds w t
        (min (w.PinPos t.ParentPin).1 (w.PinPos t.GetLastPin).1 + 5 + 10)
        (max (w.PinPos t.ParentPin).1 (w.PinPos t.GetLastPin).1 - 5 - 10)
        100 (w.PinPos t.GetLastPin).2 = true →
      (w.PinPos t.GetLastPin).2 ≤ (FKnotNodeTrack.SetTrackHeight w t).TrackHeight ∧
      t.TryAlignTrack w
        (min (w.PinPos t.ParentPin).1 (w.PinPos t.GetLastPin).1 + 5 + 10)
        (max (w.PinPos t.ParentPin).1 (w.PinPos t.GetLastPin).1 - 5 - 10)
        (FKnotNodeTrack.SetTrackHeight w t).TrackHeight = true) := by
  refine ⟨?_, ?_, ?_⟩
  · intro h1
    unfold FKnotNodeTrack.SetTrackHeight
    simp [hloop, h1]
  · intro h1 h2
    unfold FKnotNodeTrack.SetTrackHeight
    simp [hloop, h1, h2]
  · intro h1 h2 h3
    have := scan_ends w t _ _ t.TrackHeight hgeo 100 _ h3
    unfold FKnotNodeTrack.SetTrackHeight
    simp only [hloop, h1, h2, Bool.false_eq_true, if_false]
    exact this
theorem blockedWorld_geo (n : Nat) (x1 x2 y : Int)
    (h : blockedWorld.LineHitsNode n x1 x2 y = true) : y ≤ blockedWorld.ExtendedBottom n := by
  simp only [blockedWorld, Bool.and_eq_true, decide_eq_true_eq] at h ⊢
  exact h.1.1.2

theorem SetTrackHeight_choice_witness :
    (blockedWorld.PinPos blockedTrack.GetLastPin).2
        ≤ (FKnotNodeTrack.SetTrackHeight blockedWorld blockedTrack).TrackHeight ∧
    (FKnotNodeTrack.SetTrackHeight blockedWorld blockedTrack).TrackHeight = 101 :=
  ⟨((SetTrackHeight_choice blockedWorld blockedTrack rfl blockedWorld_geo).2.2
      (by decide) (by decide) (by decide)).1, by decide⟩

theorem BreakLinkTo_not_mem (L : Nat → List Nat) (a b x : Nat) (h : x ∉ L a) :
    x ∉ BreakLinkTo L a b a := by
  unfold BreakLinkTo
  simp only [if_true]
  intro hx
  exact h (List.mem_filter.1 hx).1

theorem BreakLinkTo_removed (L : Nat → List Nat) (a b : Nat) : b ∉ BreakLinkTo L a b a := by
  unfold BreakLinkTo
  simp

theorem ParameterPins_pin_links (w : KnotWorld) (ParentPin : Nat) (h : Int) (l : List Nat)
    (st : (Nat → List Nat) × (Nat → FKnotNodeCreation) × Nat × List Nat × Nat) :
    (∀ x, x ∉ st.1 ParentPin →
      x ∉ (l.foldl (MakeKnotTracksForParameterPins_pin w ParentPin h) st).1 ParentPin) ∧
    ∀ q ∈ l, q ∉ (l.foldl (MakeKnotTracksForParameterPins_pin w ParentPin h) st).1 ParentPin := by
  induction l generalizing st with
  | nil => exact ⟨fun x hx => hx, fun q hq => absurd hq (List.not_mem_nil q)⟩
  | cons a l ih =>
    rw [List.foldl_cons]
    obtain ⟨h1, h2⟩ := ih (MakeKnotTracksForParameterPins_pin w ParentPin h st a)
    have hstep : (MakeKnotTracksForParameterPins_pin w ParentPin h st a).1
        = BreakLinkTo st.1 ParentPin a := by
      unfold MakeKnotTracksForParameterPins_pin
      dsimp only
      split_ifs <;> rfl
    refine ⟨fun x hx => h1 x ?_, fun q hq => ?_⟩
    · rw [hstep]
      exact BreakLinkTo_not_mem _ _ _ _ hx
    · rcases List.mem_cons.1 hq with rfl | hq
      · apply h1
        rw [hstep]
        exact BreakLinkTo_removed _ _ _
      · exact h2 q hq

theorem AnyCollisionBetweenPins_iff (w : KnotWorld) (Pin OtherPin : Nat) :
    w.AnyCollisionBetweenPins Pin OtherPin = true ↔
      ∃ n ∈ w.FormattedGraphNodes, n ≠ w.PinNode Pin ∧ n ≠ w.PinNode OtherPin ∧
        w.LineRectIntersection n (w.PinPos Pin) (w.PinPos OtherPin) = true := by
  unfold KnotWorld.AnyCollisionBetweenPins KnotWorld.NodeCollisionBetweenLocation
  simp only [List.any_eq_true, Bool.and_eq_true, Bool.not_eq_true', decide_eq_false_iff_not,
    List.mem_cons, List.mem_singleton, List.not_mem_nil, or_false, not_or]
  constructor
  · rintro ⟨n, hn, ⟨h1, h2⟩, h3⟩
    exact ⟨n, hn, h1, h2, h3⟩
  · rintro ⟨n, hn, h1, h2, h3⟩
    exact ⟨n, hn, ⟨h1, h2⟩, h3⟩

theorem DoesPinNeedTrack_iff (w : KnotWorld) (Pin : Nat) (LinkedTo : List Nat) :
    DoesPinNeedTrack w Pin LinkedTo = true ↔
      (1 < LinkedTo.length ∨ ∃ q, LinkedTo = [q] ∧
        ∃ n ∈ w.FormattedGraphNodes, n ≠ w.PinNode Pin ∧ n ≠ w.PinNode q ∧
          w.LineRectIntersection n (w.PinPos Pin) (w.PinPos q) = true) := by
  match LinkedTo with
  | [] => simp [DoesPinNeedTrack]
  | [a] => simp [DoesPinNeedTrack, AnyCollisionBetweenPins_iff]
  | a :: b :: l => simp [DoesPinNeedTrack]

theorem MakeKnotTracksForParameterPins_made (w : KnotWorld) (s : KnotState) (ParentPin : Nat)
    (SortedPins : List Nat) (bPreviousHasTrack : Bool) (LastPin : Nat)
    (hlast : SortedPins.getLast? = some LastPin)
    (hsteep : bTooSteep ((w.PinPos LastPin).1 - (w.PinPos ParentPin).1)
      ((w.PinPos LastPin).2 - (w.PinPos ParentPin).2) = false)
    (hc : (DoesPinNeedTrack w ParentPin SortedPins || bPreviousHasTrack ||
      (decide (|(w.PinPos ParentPin).1 - (w.PinPos LastPin).1| > w.KnotNodeDistanceThreshold) &&
        !w.bExpandNodesByHeight)) = true) :
    ∃ tr h st0,
      (MakeKnotTracksForParameterPins w s ParentPin SortedPins bPreviousHasTrack).KnotTracks
        = s.KnotTracks ++ [tr] ∧
      (MakeKnotTracksForParameterPins w s ParentPin SortedPins bPreviousHasTrack).LinkedTo
        = (SortedPins.foldl (MakeKnotTracksForParameterPins_pin w ParentPin h) st0).1 := by
  unfold MakeKnotTracksForParameterPins
  rw [hlast]
  dsimp only
  rw [hsteep, hc]
  exact ⟨_, _, _, rfl, rfl⟩

theorem MakeKnotTracksForParameterPins_not_made (w : KnotWorld) (s : KnotState)
    (ParentPin : Nat) (SortedPins : List Nat) (bPreviousHasTrack : Bool) (LastPin : Nat)
    (hlast : SortedPins.getLast? = some LastPin)
    (hc : (DoesPinNeedTrack w ParentPin SortedPins || bPreviousHasTrack ||
      (decide (|(w.PinPos ParentPin).1 - (w.PinPos LastPin).1| > w.KnotNodeDistanceThreshold) &&
        !w.bExpandNodesByHeight)) = false) :
    MakeKnotTracksForParameterPins w s ParentPin SortedPins bPreviousHasTrack = s := by
  unfold MakeKnotTracksForParameterPins
  rw [hlast]
  dsimp only
  rw [hc]
  simp only [Bool.not_false, if_true, ite_self]

/-- C16: in `MakeKnotTracksForParameterPins`, for a parameter output pin whose list of linked
pins is non-empty after the removal of the pins that are too close, and whose wire to the
last pin is not too steep: a knot track is added to `KnotTracks` exactly when more than one
linked pin remains, or the straight segment from the pin to the single remaining pin meets
the bounds, extended by `TrackSpacing - 1`, of a formatted graph node other than the owning
nodes of the two pins, or the X distance to the last pin exceeds `KnotNodeDistanceThreshold` while
`bExpandNodesByHeight` is off, or `PreviousTracks` is not empty; when the track is made
every direct link from the parent pin to those pins is broken, and otherwise nothing
changes. -/
theorem MakeKnotTracksForParameterPins_iff (w : KnotWorld) (s : KnotState) (ParentPin : Nat)
    (SortedPins : List Nat) (bPreviousHasTrack : Bool) (LastPin : Nat)
    (hlast : SortedPins.getLast? = some LastPin)
    (hsteep : bTooSteep ((w.PinPos LastPin).1 - (w.PinPos ParentPin).1)
      ((w.PinPos LastPin).2 - (w.PinPos ParentPin).2) = false) :
    ((MakeKnotTracksForParameterPins w s ParentPin SortedPins bPreviousHasTrack).KnotTracks.length
        = s.KnotTracks.length + 1 ↔
      (1 < SortedPins.length ∨
        (∃ q, SortedPins = [q] ∧
          ∃ n ∈ w.FormattedGraphNodes, n ≠ w.PinNode ParentPin ∧ n ≠ w.PinNode q ∧
            w.LineRectIntersection n (w.PinPos ParentPin) (w.PinPos q) = true) ∨
        (|(w.PinPos ParentPin).1 - (w.PinPos LastPin).1| > w.KnotNodeDistanceThreshold ∧
          w.bExpandNodesByHeight = false) ∨
        bPreviousHasTrack = true)) ∧
    ((MakeKnotTracksForParameterPins w s ParentPin SortedPins bPreviousHasTrack).KnotTracks.length
        = s.KnotTracks.length + 1 →
      ∀ q ∈ SortedPins,
        q ∉ (MakeKnotTracksForParameterPins w s ParentPin SortedPins
          bPreviousHasTrack).LinkedTo ParentPin) ∧
    ((MakeKnotTracksForParameterPins w s ParentPin SortedPins bPreviousHasTrack).KnotTracks.length
        ≠ s.KnotTracks.length + 1 →
      MakeKnotTracksForParameterPins w s ParentPin SortedPins bPreviousHasTrack = s) := by
  have hneeds : DoesPinNeedTrack w ParentPin SortedPins = true ↔
      (1 < SortedPins.length ∨
        ∃ q, SortedPins = [q] ∧
          ∃ n ∈ w.FormattedGraphNodes, n ≠ w.PinNode ParentPin ∧ n ≠ w.PinNode q ∧
            w.LineRectIntersection n (w.PinPos ParentPin) (w.PinPos q) = true) :=
    DoesPinNeedTrack_iff w ParentPin SortedPins
  by_cases hc : (DoesPinNeedTrack w ParentPin SortedPins || bPreviousHasTrack ||
      (decide (|(w.PinPos ParentPin).1 - (w.PinPos LastPin).1| > w.KnotNodeDistanceThreshold) &&
        !w.bExpandNodesByHeight)) = true
  · have hcond : (1 < SortedPins.length ∨
        (∃ q, SortedPins = [q] ∧
          ∃ n ∈ w.FormattedGraphNodes, n ≠ w.PinNode ParentPin ∧ n ≠ w.PinNode q ∧
            w.LineRectIntersection n (w.PinPos ParentPin) (w.PinPos q) = true) ∨
        (|(w.PinPos ParentPin).1 - (w.PinPos LastPin).1| > w.KnotNodeDistanceThreshold ∧
          w.bExpandNodesByHeight = false) ∨
        bPreviousHasTrack = true) := by
      simp only [Bool.or_eq_true, Bool.and_eq_true, decide_eq_true_eq,
        Bool.not_eq_true'] at hc
      rcases hc with (h | h) | h
      · rcases hneeds.1 h with h | h
        · exact Or.inl h
        · exact Or.inr (Or.inl h)
      · exact Or.inr (Or.inr (Or.inr h))
      · exact Or.inr (Or.inr (Or.inl h))
    obtain ⟨tr, h, st0, hT, hL⟩ := MakeKnotTracksForParameterPins_made w s ParentPin SortedPins
      bPreviousHasTrack LastPin hlast hsteep hc
    have hlen : (MakeKnotTracksForParameterPins w s ParentPin SortedPins
        bPreviousHasTrack).KnotTracks.length = s.KnotTracks.length + 1 := by
      rw [hT]
      exact List.length_append _ _
    refine ⟨⟨fun _ => hcond, fun _ => hlen⟩, fun _ q hq => ?_, fun h => absurd hlen h⟩
    rw [hL]
    exact (ParameterPins_pin_links w ParentPin _ SortedPins _).2 q hq
  · have hcond : ¬ (1 < SortedPins.length ∨
        (∃ q, SortedPins = [q] ∧
          ∃ n ∈ w.FormattedGraphNodes, n ≠ w.PinNode ParentPin ∧ n ≠ w.PinNode q ∧
            w.LineRectIntersection n (w.PinPos ParentPin) (w.PinPos q) = true) ∨
        (|(w.PinPos ParentPin).1 - (w.PinPos LastPin).1| > w.KnotNodeDistanceThreshold ∧
          w.bExpandNodesByHeight = false) ∨
        bPreviousHasTrack = true) := by
      intro hcond
      apply hc
      simp only [Bool.or_eq_true, Bool.and_eq_true, decide_eq_true_eq, Bool.not_eq_true']
      rcases hcond with h | h | h | h
      · exact Or.inl (Or.inl (hneeds.2 (Or.inl h)))
      · exact Or.inl (Or.inl (hneeds.2 (Or.inr h)))
      · exact Or.inr h
      · exact Or.inl (Or.inr h)
    have hs : MakeKnotTracksForParameterPins w s ParentPin SortedPins bPreviousHasTrack = s :=
      MakeKnotTracksForParameterPins_not_made w s ParentPin SortedPins bPreviousHasTrack LastPin
        hlast (by simpa using hc)
    refine ⟨⟨fun h => ?_, fun h => absurd h hcond⟩, fun h => ?_, fun _ => hs⟩
    · rw [hs] at h
      omega
    · rw [hs] at h
      omega

set_option maxRecDepth 100000 in
/-- C16 witness: the pins 0 and 1 are 900 apart at the same height, below the distance
threshold, and no earlier pin made a track.  With node 2 lying across the segment a track is
made and the link is broken; without node 2 nothing changes. -/
theorem MakeKnotTracksForParameterPins_iff_witness :
    ((MakeKnotTracksForParameterPins crossedWorld farPinState 0 [1] false).KnotTracks.length
        = farPinState.KnotTracks.length + 1 ∧
      1 ∉ (MakeKnotTracksForParameterPins crossedWorld farPinState 0 [1] false).LinkedTo 0) ∧
    MakeKnotTracksForParameterPins clearWorld farPinState 0 [1] false = farPinState :=
  ⟨⟨(MakeKnotTracksForParameterPins_iff crossedWorld farPinState 0 [1] false 1 rfl
      (by decide)).1.2 (Or.inr (Or.inl ⟨1, rfl, 2, by decide, by decide, by decide, by decide⟩)),
    (MakeKnotTracksForParameterPins_iff crossedWorld farPinState 0 [1] false 1 rfl
      (by decide)).2.1 (by decide) 1 (by decide)⟩,
   (MakeKnotTracksForParameterPins_iff clearWorld farPinState 0 [1] false 1 rfl
      (by decide)).2.2 (by decide)⟩

/-- C28: `CenterBranches` does not keep the relative arrangement for a fractional offset.
With the children at y = -10, 0 and 11 and the parent pins at 0 the offset is -0.5; the
`int32` sums are truncated toward zero, node 3 moves up by one unit and node 1 stays, so
their distance changes from 21 to 20. -/
theorem CenterBranches_changes_arrangement :
    PosY [(0, 0), (1, -10), (2, 0), (3, 11)] 3 - PosY [(0, 0), (1, -10), (2, 0), (3, 11)] 1
      = 21 ∧
    PosY (CenterBranches (fanParams (fun _ => 0)) GetCenterYOfPins2
        [(0, 0), (1, -10), (2, 0), (3, 11)] 0 [(3, 0, [1]), (4, 1, [2]), (5, 2, [3])] [0]) 3
      - PosY (CenterBranches (fanParams (fun _ => 0)) GetCenterYOfPins2
        [(0, 0), (1, -10), (2, 0), (3, 11)] 0 [(3, 0, [1]), (4, 1, [2]), (5, 2, [3])] [0]) 1
      = 20 := by
  constructor <;> decide
/-- C23: `FormatNode` called with a null node, a comment node or a knot node returns the
state it was given: `RootNode`, `NodeTree`, `NodePool`, the snapshots, every node position
and every link are unchanged, whatever the rest of the function would do. -/
theorem FormatNode_invalid_node (IsCommentNode IsKnotNode : Nat → Bool)
    (Body : FormatNodeState → Nat → FormatNodeState) (s : FormatNodeState)
    (InitialNode : Option Nat)
    (h : InitialNode = none ∨ ∃ n, InitialNode = some n ∧
      (IsCommentNode n = true ∨ IsKnotNode n = true)) :
    FormatNode IsCommentNode IsKnotNode Body s InitialNode = s := by
  unfold FormatNode
  rcases h with h | ⟨n, h, hk | hk⟩
  · subst h
    simp [IsInitialNodeValid]
  · subst h
    simp [IsInitialNodeValid, hk]
  · subst h
    simp [IsInitialNodeValid, hk]

theorem FormatNode_invalid_node_witness :
    FormatNode (fun n => decide (n = 10)) (fun _ => false)
      (fun s _ => { s with RootNode := some 99, NodePool := [99] })
      { RootNode := none, NodePool := [], cache := sampleCache
        positions := constPositions 0 0, LinkedTo := fun _ => [] } (some 10) =
      { RootNode := none, NodePool := [], cache := sampleCache
        positions := constPositions 0 0, LinkedTo := fun _ => [] } :=
  FormatNode_invalid_node _ _ _ _ (some 10) (Or.inr ⟨10, rfl, Or.inl (by decide)⟩)

/-- C27: the knot-walking loop of `FBAGraphHandler::GetRootNode` does not end when the node
it starts from is a knot without an output link (nothing changes between two tests of the
loop condition), nor when the knots 1 -> 2 -> 3 -> 2 form a cycle that does not contain the
first knot (`Visited` only ever holds the first node): no number of passes yields a
result. -/
theorem GetRootNode_loop_never_ends :
    (∀ fuel, GetRootNode_loop (fun _ => true) (fun _ => []) [1] fuel 1 = none) ∧
    (∀ fuel, GetRootNode_loop (fun _ => true)
      (fun n => if n = 1 then [2] else if n = 2 then [3] else [2]) [1] fuel 1 = none) := by
  constructor
  · intro fuel
    induction fuel with
    | zero => rfl
    | succ k ih =>
      simp only [GetRootNode_loop, GetRootNode_step]
      exact ih
  · have h23 : ∀ fuel,
        GetRootNode_loop (fun _ => true)
          (fun n => if n = 1 then [2] else if n = 2 then [3] else [2]) [1] fuel 2 = none ∧
        GetRootNode_loop (fun _ => true)
          (fun n => if n = 1 then [2] else if n = 2 then [3] else [2]) [1] fuel 3 = none := by
      intro fuel
      induction fuel with
      | zero => exact ⟨rfl, rfl⟩
      | succ k ih =>
        constructor
        · simp only [GetRootNode_loop, GetRootNode_step]
          simpa using ih.2
        · simp only [GetRootNode_loop, GetRootNode_step]
          simpa using ih.1
    intro fuel
    cases fuel with
    | zero => rfl
    | succ k =>
      simp only [GetRootNode_loop, GetRootNode_step]
      simpa using (h23 k).1

theorem PosY_moveNodes (pos : PosMap) (nodes : List Nat) (d : Int) (hnd : nodes.Nodup)
    (n : Nat) :
    PosY (moveNodes pos nodes d) n = if n ∈ nodes then PosY pos n + d else PosY pos n := by
  unfold moveNodes
  induction nodes generalizing pos with
  | nil => simp
  | cons a l ih =>
    rw [List.foldl_cons, ih _ (List.nodup_cons.1 hnd).2]
    have ha : a ∉ l := (List.nodup_cons.1 hnd).1
    by_cases h1 : n = a
    · subst h1
      simp [ha, PosY_addPosY_same]
    · by_cases h2 : n ∈ l
      · simp [h1, h2, PosY_addPosY_other _ _ _ _ h1]
      · simp [h1, h2, PosY_addPosY_other _ _ _ _ h1]

theorem PosY_moveNodesFloat (pos : PosMap) (nodes : List Nat) (D : Float32)
    (hnd : nodes.Nodup) (n : Nat) :
    PosY (moveNodesFloat pos nodes D) n
      = if n ∈ nodes then addFloatToInt32 (PosY pos n) D else PosY pos n := by
  unfold moveNodesFloat
  induction nodes generalizing pos with
  | nil => simp
  | cons a l ih =>
    rw [List.foldl_cons, ih _ (List.nodup_cons.1 hnd).2]
    have ha : a ∉ l := (List.nodup_cons.1 hnd).1
    by_cases h1 : n = a
    · subst h1
      simp [ha, PosY_setPosY_same]
    · by_cases h2 : n ∈ l
      · simp [h1, h2, PosY_setPosY_other _ _ _ _ h1]
      · simp [h1, h2, PosY_setPosY_other _ _ _ _ h1]

theorem FSlateRectFloat_Expand_fold_Top (R : Nat → FSlateRectFloat) (l : List Nat)
    (b : FSlateRectFloat) :
    (l.foldl (fun b k => b.Expand (R k)) b).Top
      = l.foldl (fun t k => Float32.min t (R k).Top) b.Top := by
  induction l generalizing b with
  | nil => rfl
  | cons a l ih =>
    rw [List.foldl_cons, List.foldl_cons, ih]
    rfl

theorem FSlateRectFloat_Expand_fold_Bottom (R : Nat → FSlateRectFloat) (l : List Nat)
    (b : FSlateRectFloat) :
    (l.foldl (fun b k => b.Expand (R k)) b).Bottom
      = l.foldl (fun t k => Float32.max t (R k).Bottom) b.Bottom := by
  induction l generalizing b with
  | nil => rfl
  | cons a l ih =>
    rw [List.foldl_cons, List.foldl_cons, ih]
    rfl

/-- The least of a non-empty family of `float`s, as a fold of `FMath::Min` finds it: it is
one of them and none is below it. -/
theorem Float32_foldl_min_spec (f : Nat → Float32) (l : List Nat) (n : Nat) :
    ∃ k ∈ n :: l, l.foldl (fun t k => Float32.min t (f k)) (f n) = f k ∧
      ∀ m ∈ n :: l, (f k).units ≤ (f m).units := by
  induction l using List.reverseRecOn with
  | nil => exact ⟨n, List.mem_cons_self _ _, rfl, fun m hm => by simp at hm; rw [hm]⟩
  | append_singleton l a ih =>
    obtain ⟨k, hk, he, hle⟩ := ih
    rw [List.foldl_append, List.foldl_cons, List.foldl_nil, he]
    by_cases h : (f k).units ≤ (f a).units
    · refine ⟨k, ?_, by simp [Float32.min, h], fun m hm => ?_⟩
      · simp only [List.mem_cons, List.mem_append, List.not_mem_nil, or_false] at hk ⊢
        tauto
      · simp only [List.mem_cons, List.mem_append, List.not_mem_nil, or_false] at hm
        rcases hm with hm | hm | hm
        · exact hle m (by simp [hm])
        · exact hle m (by simp [hm])
        · rw [hm]; exact h
    · refine ⟨a, by simp, by simp [Float32.min, h], fun m hm => ?_⟩
      simp only [List.mem_cons, List.mem_append, List.not_mem_nil, or_false] at hm
      have hlt : (f a).units ≤ (f k).units := by omega
      rcases hm with hm | hm | hm
      · exact le_trans hlt (hle m (by simp [hm]))
      · exact le_trans hlt (hle m (by simp [hm]))
      · rw [hm]

/-- The greatest of a non-empty family of `float`s, as a fold of `FMath::Max` finds it. -/
theorem Float32_foldl_max_spec (f : Nat → Float32) (l : List Nat) (n : Nat) :
    ∃ k ∈ n :: l, l.foldl (fun t k => Float32.max t (f k)) (f n) = f k ∧
      ∀ m ∈ n :: l, (f m).units ≤ (f k).units := by
  induction l using List.reverseRecOn with
  | nil => exact ⟨n, List.mem_cons_self _ _, rfl, fun m hm => by simp at hm; rw [hm]⟩
  | append_singleton l a ih =>
    obtain ⟨k, hk, he, hle⟩ := ih
    rw [List.foldl_append, List.foldl_cons, List.foldl_nil, he]
    by_cases h : (f a).units ≤ (f k).units
    · refine ⟨k, ?_, by simp [Float32.max, h], fun m hm => ?_⟩
      · simp only [List.mem_cons, List.mem_append, List.not_mem_nil, or_false] at hk ⊢
        tauto
      · simp only [List.mem_cons, List.mem_append, List.not_mem_nil, or_false] at hm
        rcases hm with hm | hm | hm
        · exact hle m (by simp [hm])
        · exact hle m (by simp [hm])
        · rw [hm]; exact h
    · refine ⟨a, by simp, by simp [Float32.max, h], fun m hm => ?_⟩
      simp only [List.mem_cons, List.mem_append, List.not_mem_nil, or_false] at hm
      have hlt : (f k).units ≤ (f a).units := by omega
      rcases hm with hm | hm | hm
      · exact le_trans (hle m (by simp [hm])) hlt
      · exact le_trans (hle m (by simp [hm])) hlt
      · rw [hm]

theorem ArrayBounds_Top_spec (Size : Nat → Float32 × Float32) (posX posY : PosMap)
    (nodes : List Nat) (hne : nodes ≠ []) :
    ∃ k ∈ nodes, (ArrayBounds Size posX posY nodes).Top = Float32.ofInt (PosY posY k) ∧
      ∀ m ∈ nodes, (Float32.ofInt (PosY posY k)).units ≤ (Float32.ofInt (PosY posY m)).units := by
  match nodes, hne with
  | n :: rest, _ =>
    simp only [ArrayBounds, FSlateRectFloat_Expand_fold_Top]
    exact Float32_foldl_min_spec (fun k => Float32.ofInt (PosY posY k)) rest n

theorem ArrayBounds_Bottom_spec (Size : Nat → Float32 × Float32) (posX posY : PosMap)
    (nodes : List Nat) (hne : nodes ≠ []) :
    ∃ k ∈ nodes, (ArrayBounds Size posX posY nodes).Bottom
        = Float32.add (Float32.ofInt (PosY posY k)) (Size k).2 ∧
      ∀ m ∈ nodes, (Float32.add (Float32.ofInt (PosY posY m)) (Size m).2).units
        ≤ (Float32.add (Float32.ofInt (PosY posY k)) (Size k).2).units := by
  match nodes, hne with
  | n :: rest, _ =>
    simp only [ArrayBounds, FSlateRectFloat_Expand_fold_Bottom]
    exact Float32_foldl_max_spec
      (fun k => Float32.add (Float32.ofInt (PosY posY k)) (Size k).2) rest n

/-- The top and bottom edges of the bounds of a node array depend only on the `NodePosY` of
its nodes. -/
theorem ArrayBounds_congr (Size : Nat → Float32 × Float32) (posX posX1 posY posY1 : PosMap)
    (nodes : List Nat) (h : ∀ n ∈ nodes, PosY posY1 n = PosY posY n) :
    (ArrayBounds Size posX1 posY1 nodes).Top = (ArrayBounds Size posX posY nodes).Top ∧
    (ArrayBounds Size posX1 posY1 nodes).Bottom = (ArrayBounds Size posX posY nodes).Bottom := by
  match nodes with
  | [] => exact ⟨rfl, rfl⟩
  | n :: rest =>
    simp only [ArrayBounds, FSlateRectFloat_Expand_fold_Top, FSlateRectFloat_Expand_fold_Bottom]
    have hn := h n (List.mem_cons_self _ _)
    constructor
    · simp only [NodeRect, hn]
      apply List.foldl_ext
      intro t k hk
      rw [h k (List.mem_cons_of_mem _ hk)]
    · simp only [NodeRect, hn]
      apply List.foldl_ext
      intro t k hk
      rw [h k (List.mem_cons_of_mem _ hk)]

theorem ArrayBounds_Top_whole (Size : Nat → Float32 × Float32) (posX posY : PosMap)
    (nodes : List Nat) (hne : nodes ≠ [])
    (hb : ∀ n ∈ nodes, |PosY posY n| < 16777216) :
    ∃ k ∈ nodes, (ArrayBounds Size posX posY nodes).Top = ⟨PosY posY k * 2 ^ 149⟩ ∧
      ∀ m ∈ nodes, PosY posY k ≤ PosY posY m := by
  obtain ⟨k, hk, he, hle⟩ := ArrayBounds_Top_spec Size posX posY nodes hne
  refine ⟨k, hk, by rw [he, Float32.ofInt_exact _ (hb k hk)], fun m hm => ?_⟩
  have := hle m hm
  rw [Float32.ofInt_exact _ (hb k hk), Float32.ofInt_exact _ (hb m hm)] at this
  simp only at this
  exact le_of_mul_le_mul_right this (by positivity)

theorem ArrayBounds_Bottom_whole (Size : Nat → Float32 × Float32) (Height : Nat → Int)
    (posX posY : PosMap) (nodes : List Nat) (hne : nodes ≠ [])
    (hh : ∀ n ∈ nodes, (Size n).2 = ⟨Height n * 2 ^ 149⟩)
    (hb : ∀ n ∈ nodes, |PosY posY n| < 16777216)
    (hs : ∀ n ∈ nodes, |PosY posY n + Height n| < 16777216) :
    ∃ k ∈ nodes, (ArrayBounds Size posX posY nodes).Bottom
        = ⟨(PosY posY k + Height k) * 2 ^ 149⟩ ∧
      ∀ m ∈ nodes, PosY posY m + Height m ≤ PosY posY k + Height k := by
  obtain ⟨k, hk, he, hle⟩ := ArrayBounds_Bottom_spec Size posX posY nodes hne
  have key : ∀ n ∈ nodes, Float32.add (Float32.ofInt (PosY posY n)) (Size n).2
      = ⟨(PosY posY n + Height n) * 2 ^ 149⟩ := fun n hn => by
    rw [Float32.ofInt_exact _ (hb n hn), hh n hn, Float32.add_whole _ _ (hs n hn)]
  refine ⟨k, hk, by rw [he, key k hk], fun m hm => ?_⟩
  have := hle m hm
  rw [key k hk, key m hm] at this
  simp only at this
  exact le_of_mul_le_mul_right this (by positivity)

theorem mem_foldl_TSetAdd (l s : List Nat) (m : Nat) :
    m ∈ l.foldl TSetAdd s ↔ m ∈ s ∨ m ∈ l := by
  induction l generalizing s with
  | nil => simp
  | cons a l ih =>
    rw [List.foldl_cons, ih]
    unfold TSetAdd
    by_cases h : a ∈ s
    · rw [if_pos h]
      constructor
      · rintro (h1 | h1)
        · exact Or.inl h1
        · exact Or.inr (List.mem_cons_of_mem _ h1)
      · rintro (h1 | h1)
        · exact Or.inl h1
        · rcases List.mem_cons.1 h1 with h2 | h2
          · exact Or.inl (h2 ▸ h)
          · exact Or.inr h2
    · rw [if_neg h]
      simp only [List.mem_append, List.mem_singleton, List.mem_cons]
      tauto

theorem Float32_max_of_le (a b : Int) (h : a ≤ b) :
    Float32.max ⟨a * 2 ^ 149⟩ ⟨b * 2 ^ 149⟩ = ⟨b * 2 ^ 149⟩ := by
  unfold Float32.max
  by_cases h1 : b * 2 ^ 149 ≤ a * 2 ^ 149
  · have h2 : b ≤ a := le_of_mul_le_mul_right h1 (by positivity)
    have h3 : a = b := le_antisymm h h2
    subst h3
    exact if_pos le_rfl
  · exact if_neg h1

/-- The body of the loop of `SimpleFormatAll` for the first tree of a column, when the
sizes are whole and everything stays within the exact range of `float`. -/
theorem SimpleFormatAll_node_first (Size : Nat → Float32 × Float32)
    (FormatAllPadding : Float32 × Float32)
    (FormatNodes : PosMap → PosMap → Nat → Option FormatAllFormatter × PosMap × PosMap)
    (Height : Nat → Int) (B : Int) (s : FormatAllState) (N : Nat) (F : FormatAllFormatter)
    (hnew : N ∉ s.FormattedNodes) (hfirst : s.bFirst = true)
    (hF : (FormatNodes s.posX s.posY N).1 = some F)
    (hnd : F.FormattedNodes.Nodup) (hroot : F.RootNode ∈ F.FormattedNodes)
    (hH : ∀ n ∈ F.FormattedNodes, (Size n).2 = ⟨Height n * 2 ^ 149⟩ ∧ 0 ≤ Height n ∧
      Height n ≤ B)
    (hy : ∀ n ∈ F.FormattedNodes, |PosY (FormatNodes s.posX s.posY N).2.2 n| ≤ B)
    (hB : 4 * B < 16777216) :
    ∃ s1, SimpleFormatAll_node Size FormatAllPadding FormatNodes s N = some s1 ∧
      s1.bFirst = false ∧
      (∀ m, m ∈ s1.FormattedNodes ↔ m ∈ s.FormattedNodes ∨ m ∈ F.FormattedNodes) ∧
      (∀ m, m ∉ F.FormattedNodes →
        PosY s1.posY m = PosY (FormatNodes s.posX s.posY N).2.2 m) ∧
      s1.FormattedBounds.Bottom = (ArrayBounds Size s1.posX s1.posY F.FormattedNodes).Bottom ∧
      ∃ b1, s1.FormattedBounds.Bottom = ⟨b1 * 2 ^ 149⟩ ∧ 0 ≤ b1 ∧ b1 ≤ 4 * B := by
  have hne : F.FormattedNodes ≠ [] := List.ne_nil_of_mem hroot
  have hyr := abs_le.1 (hy _ hroot)
  have hpos : ∀ n ∈ F.FormattedNodes,
      PosY (moveNodes (FormatNodes s.posX s.posY N).2.2 F.FormattedNodes
        (0 - PosY (FormatNodes s.posX s.posY N).2.2 F.RootNode)) n
      = PosY (FormatNodes s.posX s.posY N).2.2 n
        - PosY (FormatNodes s.posX s.posY N).2.2 F.RootNode := fun n hn => by
    rw [PosY_moveNodes _ _ _ hnd, if_pos hn]; ring
  obtain ⟨k, hk, hbot, hmax⟩ := ArrayBounds_Bottom_whole Size Height
    (moveNodes (FormatNodes s.posX s.posY N).2.1 F.FormattedNodes
      (s.ColumnX - PosY (FormatNodes s.posX s.posY N).2.1 F.RootNode))
    (moveNodes (FormatNodes s.posX s.posY N).2.2 F.FormattedNodes
      (0 - PosY (FormatNodes s.posX s.posY N).2.2 F.RootNode))
    F.FormattedNodes hne (fun n hn => (hH n hn).1)
    (fun n hn => by
      rw [hpos n hn]
      have := abs_le.1 (hy n hn)
      rw [abs_lt]; constructor <;> omega)
    (fun n hn => by
      rw [hpos n hn]
      have := abs_le.1 (hy n hn)
      have := hH n hn
      rw [abs_lt]; constructor <;> omega)
  refine ⟨{ posX := moveNodes (FormatNodes s.posX s.posY N).2.1 F.FormattedNodes
              (s.ColumnX - PosY (FormatNodes s.posX s.posY N).2.1 F.RootNode)
            posY := moveNodes (FormatNodes s.posX s.posY N).2.2 F.FormattedNodes
              (0 - PosY (FormatNodes s.posX s.posY N).2.2 F.RootNode)
            FormattedNodes := F.FormattedNodes.foldl TSetAdd s.FormattedNodes
            FormattedBounds := ArrayBounds Size
              (moveNodes (FormatNodes s.posX s.posY N).2.1 F.FormattedNodes
                (s.ColumnX - PosY (FormatNodes s.posX s.posY N).2.1 F.RootNode))
              (moveNodes (FormatNodes s.posX s.posY N).2.2 F.FormattedNodes
                (0 - PosY (FormatNodes s.posX s.posY N).2.2 F.RootNode))
              F.FormattedNodes
            ColumnX := s.ColumnX, bFirst := false }, ?_, rfl, ?_, ?_, rfl, ?_⟩
  · unfold SimpleFormatAll_node
    rw [if_neg hnew]
    simp only [hF, hfirst, if_true]
  · intro m
    exact mem_foldl_TSetAdd _ _ _
  · intro m hm
    show PosY (moveNodes _ _ _) m = _
    rw [PosY_moveNodes _ _ _ hnd, if_neg hm]
  · refine ⟨_, hbot, ?_, ?_⟩
    · have h1 := hmax _ hroot
      rw [hpos _ hroot, hpos k hk] at h1
      rw [hpos k hk]
      have := (hH _ hroot).2.1
      omega
    · rw [hpos k hk]
      have := abs_le.1 (hy k hk)
      have := hH k hk
      omega

/-- The body of the loop of `SimpleFormatAll` for a later tree of a column, when the sizes
and the padding are whole and everything stays within the exact range of `float`: the tree
is put with its top at the recorded bottom plus the padding. -/
theorem SimpleFormatAll_node_later (Size : Nat → Float32 × Float32)
    (FormatAllPadding : Float32 × Float32)
    (FormatNodes : PosMap → PosMap → Nat → Option FormatAllFormatter × PosMap × PosMap)
    (Height : Nat → Int) (PadY B b0 : Int) (s : FormatAllState) (N : Nat)
    (F : FormatAllFormatter)
    (hnew : N ∉ s.FormattedNodes) (hfirst : s.bFirst = false)
    (hF : (FormatNodes s.posX s.posY N).1 = some F)
    (hnd : F.FormattedNodes.Nodup) (hne : F.FormattedNodes ≠ [])
    (hH : ∀ n ∈ F.FormattedNodes, (Size n).2 = ⟨Height n * 2 ^ 149⟩ ∧ 0 ≤ Height n ∧
      Height n ≤ B)
    (hP : FormatAllPadding.2 = ⟨PadY * 2 ^ 149⟩) (hP0 : 0 ≤ PadY) (hPB : PadY ≤ B)
    (hy : ∀ n ∈ F.FormattedNodes, |PosY (FormatNodes s.posX s.posY N).2.2 n| ≤ B)
    (hb0 : s.FormattedBounds.Bottom = ⟨b0 * 2 ^ 149⟩) (hb00 : 0 ≤ b0)
    (hb0B : b0 + 4 * B < 16777216) :
    ∃ s1, SimpleFormatAll_node Size FormatAllPadding FormatNodes s N = some s1 ∧
      s1.bFirst = false ∧
      (∀ m, m ∈ s1.FormattedNodes ↔ m ∈ s.FormattedNodes ∨ m ∈ F.FormattedNodes) ∧
      (∀ m, m ∉ F.FormattedNodes →
        PosY s1.posY m = PosY (FormatNodes s.posX s.posY N).2.2 m) ∧
      (ArrayBounds Size s1.posX s1.posY F.FormattedNodes).Top = ⟨(b0 + PadY) * 2 ^ 149⟩ ∧
      s1.FormattedBounds.Bottom = (ArrayBounds Size s1.posX s1.posY F.FormattedNodes).Bottom ∧
      ∃ b1, s1.FormattedBounds.Bottom = ⟨b1 * 2 ^ 149⟩ ∧ b0 ≤ b1 ∧ b1 ≤ b0 + 4 * B := by
  have hB0 : 0 ≤ B := le_trans hP0 hPB
  -- the positions after the `int32` moves
  have hpos1 : ∀ n, PosY (moveNodes (FormatNodes s.posX s.posY N).2.2 F.FormattedNodes 0) n
      = PosY (FormatNodes s.posX s.posY N).2.2 n := fun n => by
    rw [PosY_moveNodes _ _ _ hnd]; split <;> ring
  -- the top of the tree before the `float` move
  obtain ⟨k, hk, htop, hmin⟩ := ArrayBounds_Top_whole Size
    (moveNodes (FormatNodes s.posX s.posY N).2.1 F.FormattedNodes
      (s.ColumnX - PosY (FormatNodes s.posX s.posY N).2.1 F.RootNode))
    (moveNodes (FormatNodes s.posX s.posY N).2.2 F.FormattedNodes 0)
    F.FormattedNodes hne
    (fun n hn => by
      rw [hpos1 n]
      have := abs_le.1 (hy n hn)
      rw [abs_lt]; constructor <;> omega)
  rw [hpos1 k] at htop
  have hyk := abs_le.1 (hy k hk)
  -- `Delta`
  have hDelta : Float32.sub (Float32.add s.FormattedBounds.Bottom FormatAllPadding.2)
      (ArrayBounds Size
        (moveNodes (FormatNodes s.posX s.posY N).2.1 F.FormattedNodes
          (s.ColumnX - PosY (FormatNodes s.posX s.posY N).2.1 F.RootNode))
        (moveNodes (FormatNodes s.posX s.posY N).2.2 F.FormattedNodes 0)
        F.FormattedNodes).Top
      = ⟨(b0 + PadY - PosY (FormatNodes s.posX s.posY N).2.2 k) * 2 ^ 149⟩ := by
    rw [hb0, hP, htop, Float32.add_whole _ _ (by rw [abs_lt]; constructor <;> omega),
      Float32.sub_whole _ _ (by rw [abs_lt]; constructor <;> omega)]
  -- the positions after the `float` move
  have hpos2 : ∀ n ∈ F.FormattedNodes,
      PosY (moveNodesFloat (moveNodes (FormatNodes s.posX s.posY N).2.2 F.FormattedNodes 0)
        F.FormattedNodes
        ⟨(b0 + PadY - PosY (FormatNodes s.posX s.posY N).2.2 k) * 2 ^ 149⟩) n
      = PosY (FormatNodes s.posX s.posY N).2.2 n
        + (b0 + PadY - PosY (FormatNodes s.posX s.posY N).2.2 k) := fun n hn => by
    have h1 := abs_le.1 (hy n hn)
    have h2 := hmin n hn
    rw [hpos1 n, hpos1 k] at h2
    rw [PosY_moveNodesFloat _ _ _ hnd, if_pos hn, hpos1 n,
      addFloatToInt32_whole _ _ (by rw [abs_lt]; constructor <;> omega)
        (by rw [abs_lt]; constructor <;> omega)]
  have hlow : ∀ n ∈ F.FormattedNodes,
      PosY (FormatNodes s.posX s.posY N).2.2 k ≤ PosY (FormatNodes s.posX s.posY N).2.2 n :=
    fun n hn => by
      have h2 := hmin n hn
      rw [hpos1 n, hpos1 k] at h2
      exact h2
  -- the top and the bottom of the tree after the `float` move
  obtain ⟨k2, hk2, htop2, hmin2⟩ := ArrayBounds_Top_whole Size
    (moveNodes (FormatNodes s.posX s.posY N).2.1 F.FormattedNodes
      (s.ColumnX - PosY (FormatNodes s.posX s.posY N).2.1 F.RootNode))
    (moveNodesFloat (moveNodes (FormatNodes s.posX s.posY N).2.2 F.FormattedNodes 0)
      F.FormattedNodes ⟨(b0 + PadY - PosY (FormatNodes s.posX s.posY N).2.2 k) * 2 ^ 149⟩)
    F.FormattedNodes hne
    (fun n hn => by
      rw [hpos2 n hn]
      have := abs_le.1 (hy n hn)
      have := hlow n hn
      rw [abs_lt]; constructor <;> omega)
  obtain ⟨k3, hk3, hbot3, hmax3⟩ := ArrayBounds_Bottom_whole Size Height
    (moveNodes (FormatNodes s.posX s.posY N).2.1 F.FormattedNodes
      (s.ColumnX - PosY (FormatNodes s.posX s.posY N).2.1 F.RootNode))
    (moveNodesFloat (moveNodes (FormatNodes s.posX s.posY N).2.2 F.FormattedNodes 0)
      F.FormattedNodes ⟨(b0 + PadY - PosY (FormatNodes s.posX s.posY N).2.2 k) * 2 ^ 149⟩)
    F.FormattedNodes hne (fun n hn => (hH n hn).1)
    (fun n hn => by
      rw [hpos2 n hn]
      have := abs_le.1 (hy n hn)
      have := hlow n hn
      rw [abs_lt]; constructor <;> omega)
    (fun n hn => by
      rw [hpos2 n hn]
      have := abs_le.1 (hy n hn)
      have := hlow n hn
      have := hH n hn
      rw [abs_lt]; constructor <;> omega)
  have htopv : PosY (moveNodesFloat
      (moveNodes (FormatNodes s.posX s.posY N).2.2 F.FormattedNodes 0) F.FormattedNodes
      ⟨(b0 + PadY - PosY (FormatNodes s.posX s.posY N).2.2 k) * 2 ^ 149⟩) k2
      = b0 + PadY := by
    have h1 := hmin2 k hk
    rw [hpos2 k hk, hpos2 k2 hk2] at h1
    have h2 := hlow k2 hk2
    rw [hpos2 k2 hk2]
    omega
  have hbotv1 : b0 ≤ PosY (moveNodesFloat
      (moveNodes (FormatNodes s.posX s.posY N).2.2 F.FormattedNodes 0) F.FormattedNodes
      ⟨(b0 + PadY - PosY (FormatNodes s.posX s.posY N).2.2 k) * 2 ^ 149⟩) k3 + Height k3 := by
    rw [hpos2 k3 hk3]
    have := hlow k3 hk3
    have := hH k3 hk3
    omega
  have hbotv2 : PosY (moveNodesFloat
      (moveNodes (FormatNodes s.posX s.posY N).2.2 F.FormattedNodes 0) F.FormattedNodes
      ⟨(b0 + PadY - PosY (FormatNodes s.posX s.posY N).2.2 k) * 2 ^ 149⟩) k3 + Height k3
      ≤ b0 + 4 * B := by
    rw [hpos2 k3 hk3]
    have := abs_le.1 (hy k3 hk3)
    have := hH k3 hk3
    omega
  have hstep : SimpleFormatAll_node Size FormatAllPadding FormatNodes s N
      = some { posX := moveNodes (FormatNodes s.posX s.posY N).2.1 F.FormattedNodes
                 (s.ColumnX - PosY (FormatNodes s.posX s.posY N).2.1 F.RootNode)
               posY := moveNodesFloat
                 (moveNodes (FormatNodes s.posX s.posY N).2.2 F.FormattedNodes 0)
                 F.FormattedNodes
                 ⟨(b0 + PadY - PosY (FormatNodes s.posX s.posY N).2.2 k) * 2 ^ 149⟩
               FormattedNodes := F.FormattedNodes.foldl TSetAdd s.FormattedNodes
               FormattedBounds := s.FormattedBounds.Expand (ArrayBounds Size
                 (moveNodes (FormatNodes s.posX s.posY N).2.1 F.FormattedNodes
                   (s.ColumnX - PosY (FormatNodes s.posX s.posY N).2.1 F.RootNode))
                 (moveNodesFloat
                   (moveNodes (FormatNodes s.posX s.posY N).2.2 F.FormattedNodes 0)
                   F.FormattedNodes
                   ⟨(b0 + PadY - PosY (FormatNodes s.posX s.posY N).2.2 k) * 2 ^ 149⟩)
                 F.FormattedNodes)
               ColumnX := s.ColumnX, bFirst := false } := by
    unfold SimpleFormatAll_node
    rw [if_neg hnew]
    simp only [hF, hfirst, Bool.false_eq_true, if_false, hDelta]
  have hFB : (s.FormattedBounds.Expand (ArrayBounds Size
      (moveNodes (FormatNodes s.posX s.posY N).2.1 F.FormattedNodes
        (s.ColumnX - PosY (FormatNodes s.posX s.posY N).2.1 F.RootNode))
      (moveNodesFloat
        (moveNodes (FormatNodes s.posX s.posY N).2.2 F.FormattedNodes 0)
        F.FormattedNodes
        ⟨(b0 + PadY - PosY (FormatNodes s.posX s.posY N).2.2 k) * 2 ^ 149⟩)
      F.FormattedNodes)).Bottom
      = ⟨(PosY (moveNodesFloat
          (moveNodes (FormatNodes s.posX s.posY N).2.2 F.FormattedNodes 0) F.FormattedNodes
          ⟨(b0 + PadY - PosY (FormatNodes s.posX s.posY N).2.2 k) * 2 ^ 149⟩) k3
          + Height k3) * 2 ^ 149⟩ := by
    show Float32.max _ _ = _
    rw [hb0, hbot3]
    exact Float32_max_of_le _ _ hbotv1
  refine ⟨_, hstep, rfl, fun m => mem_foldl_TSetAdd _ _ _, fun m hm => ?_, ?_, ?_, ?_⟩
  · show PosY (moveNodesFloat _ _ _) m = _
    rw [PosY_moveNodesFloat _ _ _ hnd, if_neg hm, hpos1]
  · show (ArrayBounds _ _ _ _).Top = _
    rw [htop2, htopv]
  · show (FSlateRectFloat.Expand _ _).Bottom = _
    rw [hFB, hbot3]
  · exact ⟨_, hFB, hbotv1, hbotv2⟩

/-- The trees of a column placed one after the other: after the nodes `p` of a column have
been handled, every tree of `p` but the first has its top at the greatest bottom of the
trees before it plus the padding. -/
theorem SimpleFormatAll_column_prefix (Size : Nat → Float32 × Float32)
    (FormatAllPadding : Float32 × Float32)
    (FormatNodes : PosMap → PosMap → Nat → Option FormatAllFormatter × PosMap × PosMap)
    (F : Nat → FormatAllFormatter) (Height : Nat → Int) (PadY B K : Int) (posY0 : PosMap)
    (L : List Nat)
    (hF : ∀ pX pY N, N ∈ L → (FormatNodes pX pY N).1 = some (F N))
    (hframe : ∀ pX pY N n, N ∈ L → n ∉ (F N).FormattedNodes →
      PosY (FormatNodes pX pY N).2.2 n = PosY pY n)
    (hself : ∀ N ∈ L, N ∈ (F N).FormattedNodes)
    (hroot : ∀ N ∈ L, (F N).RootNode ∈ (F N).FormattedNodes)
    (hndT : ∀ N ∈ L, (F N).FormattedNodes.Nodup)
    (hdisj : ∀ N ∈ L, ∀ M ∈ L, N ≠ M → ∀ m ∈ (F N).FormattedNodes, m ∉ (F M).FormattedNodes)
    (hH : ∀ N ∈ L, ∀ n ∈ (F N).FormattedNodes,
      (Size n).2 = ⟨Height n * 2 ^ 149⟩ ∧ 0 ≤ Height n ∧ Height n ≤ B)
    (hP : FormatAllPadding.2 = ⟨PadY * 2 ^ 149⟩) (hP0 : 0 ≤ PadY) (hPB : PadY ≤ B)
    (hy : ∀ pX pY N, N ∈ L → (∀ m ∈ (F N).FormattedNodes, PosY pY m = PosY posY0 m) →
      ∀ n ∈ (F N).FormattedNodes, |PosY (FormatNodes pX pY N).2.2 n| ≤ B)
    (hK : 4 * (K + 1) * B < 16777216)
    (s0 : FormatAllState)
    (hs0 : ∀ m, m ∉ s0.FormattedNodes → PosY s0.posY m = PosY posY0 m)
    (p : List Nat) :
    (∀ N ∈ p, N ∈ L) → p.Nodup →
    (∀ N ∈ p, ∀ m ∈ (F N).FormattedNodes, m ∉ s0.FormattedNodes) →
    (p.length : Int) ≤ K →
    ∃ s, p.foldl (fun (st : Option FormatAllState) Node =>
          st.bind (fun s => SimpleFormatAll_node Size FormatAllPadding FormatNodes s Node))
        (some { s0 with bFirst := true }) = some s ∧
      (∀ m, m ∈ s.FormattedNodes ↔
        m ∈ s0.FormattedNodes ∨ ∃ N ∈ p, m ∈ (F N).FormattedNodes) ∧
      (∀ m, (∀ N ∈ p, m ∉ (F N).FormattedNodes) → PosY s.posY m = PosY s0.posY m) ∧
      (s.bFirst = true ↔ p = []) ∧
      (p ≠ [] → ∃ b0, s.FormattedBounds.Bottom = ⟨b0 * 2 ^ 149⟩ ∧ 0 ≤ b0 ∧
        b0 ≤ 4 * (p.length : Int) * B ∧
        (∀ a ∈ p, (ArrayBounds Size s.posX s.posY (F a).FormattedNodes).Bottom.units
          ≤ b0 * 2 ^ 149) ∧
        (∃ a ∈ p, (ArrayBounds Size s.posX s.posY (F a).FormattedNodes).Bottom
          = ⟨b0 * 2 ^ 149⟩)) ∧
      (∀ pre b post, p = pre ++ b :: post → pre ≠ [] →
        (∃ a ∈ pre, (ArrayBounds Size s.posX s.posY (F b).FormattedNodes).Top
          = Float32.add (ArrayBounds Size s.posX s.posY (F a).FormattedNodes).Bottom
              FormatAllPadding.2) ∧
        (∀ a ∈ pre, (ArrayBounds Size s.posX s.posY (F a).FormattedNodes).Bottom.units
            + FormatAllPadding.2.units
          ≤ (ArrayBounds Size s.posX s.posY (F b).FormattedNodes).Top.units)) := by
  have hB0 : 0 ≤ B := le_trans hP0 hPB
  induction p using List.reverseRecOn with
  | nil =>
    intro _ _ _ _
    refine ⟨{ s0 with bFirst := true }, rfl, fun m => by simp, fun m _ => rfl,
      by simp, fun h => absurd rfl h, ?_⟩
    intro pre b post h
    exact absurd h (by simp)
  | append_singleton p N ih =>
    intro hpL hpnd hfresh hpK
    have hNL : N ∈ L := hpL N (by simp)
    have hNp : N ∉ p := fun h => by
      have := List.nodup_append.1 hpnd
      exact this.2.2 h (List.mem_singleton_self N)
    have hlen : ((p ++ [N]).length : Int) = (p.length : Int) + 1 := by simp
    obtain ⟨s, hfold, hmem, hfr, hbf, hJ, hR⟩ := ih
      (fun M hM => hpL M (List.mem_append_left _ hM))
      (List.nodup_append.1 hpnd).1
      (fun M hM => hfresh M (List.mem_append_left _ hM))
      (by rw [hlen] at hpK; omega)
    have hdN : ∀ M ∈ p, ∀ m ∈ (F N).FormattedNodes, m ∉ (F M).FormattedNodes :=
      fun M hM m hm => hdisj N hNL M (hpL M (List.mem_append_left _ hM))
        (fun h => hNp (h ▸ hM)) m hm
    have hdN2 : ∀ M ∈ p, ∀ m ∈ (F M).FormattedNodes, m ∉ (F N).FormattedNodes :=
      fun M hM m hm => hdisj M (hpL M (List.mem_append_left _ hM)) N hNL
        (fun h => hNp (h ▸ hM)) m hm
    have hnew : N ∉ s.FormattedNodes := by
      rw [hmem]
      rintro (h | ⟨M, hM, h⟩)
      · exact hfresh N (by simp) N (hself N hNL) h
      · exact hdN M hM N (hself N hNL) h
    have hun : ∀ m ∈ (F N).FormattedNodes, PosY s.posY m = PosY posY0 m := fun m hm => by
      rw [hfr m (fun M hM => hdN M hM m hm)]
      exact hs0 m (hfresh N (by simp) m hm)
    have hyN := hy s.posX s.posY N hNL hun
    have hfoldN : (p ++ [N]).foldl (fun (st : Option FormatAllState) Node =>
          st.bind (fun s => SimpleFormatAll_node Size FormatAllPadding FormatNodes s Node))
        (some { s0 with bFirst := true })
        = SimpleFormatAll_node Size FormatAllPadding FormatNodes s N := by
      rw [List.foldl_append, hfold]
      rfl
    rw [hfoldN]
    -- what both kinds of step share
    have hcommon : ∀ s1 : FormatAllState,
        (∀ m, m ∈ s1.FormattedNodes ↔ m ∈ s.FormattedNodes ∨ m ∈ (F N).FormattedNodes) →
        (∀ m, m ∉ (F N).FormattedNodes →
          PosY s1.posY m = PosY (FormatNodes s.posX s.posY N).2.2 m) →
        (∀ m, m ∈ s1.FormattedNodes ↔
          m ∈ s0.FormattedNodes ∨ ∃ M ∈ p ++ [N], m ∈ (F M).FormattedNodes) ∧
        (∀ m, (∀ M ∈ p ++ [N], m ∉ (F M).FormattedNodes) →
          PosY s1.posY m = PosY s0.posY m) ∧
        (∀ a ∈ p,
          (ArrayBounds Size s1.posX s1.posY (F a).FormattedNodes).Top
            = (ArrayBounds Size s.posX s.posY (F a).FormattedNodes).Top ∧
          (ArrayBounds Size s1.posX s1.posY (F a).FormattedNodes).Bottom
            = (ArrayBounds Size s.posX s.posY (F a).FormattedNodes).Bottom) := by
      intro s1 hm1 hf1
      refine ⟨fun m => ?_, fun m hm => ?_, fun a ha => ?_⟩
      · rw [hm1, hmem]
        constructor
        · rintro ((h | ⟨M, hM, h⟩) | h)
          · exact Or.inl h
          · exact Or.inr ⟨M, List.mem_append_left _ hM, h⟩
          · exact Or.inr ⟨N, by simp, h⟩
        · rintro (h | ⟨M, hM, h⟩)
          · exact Or.inl (Or.inl h)
          · rcases List.mem_append.1 hM with hM | hM
            · exact Or.inl (Or.inr ⟨M, hM, h⟩)
            · rw [List.mem_singleton.1 hM] at h
              exact Or.inr h
      · rw [hf1 m (hm N (by simp)), hframe _ _ N m hNL (hm N (by simp))]
        exact hfr m (fun M hM => hm M (List.mem_append_left _ hM))
      · apply ArrayBounds_congr
        intro n hn
        rw [hf1 n (hdN2 a ha n hn), hframe _ _ N n hNL (hdN2 a ha n hn)]
    by_cases hp : p = []
    · -- the first tree of the column
      subst hp
      have hfirst : s.bFirst = true := hbf.2 rfl
      obtain ⟨s1, hs1, hb1, hm1, hf1, hFB1, b1, hb1e, hb10, hb1B⟩ :=
        SimpleFormatAll_node_first Size FormatAllPadding FormatNodes Height B s N (F N)
          hnew hfirst (hF _ _ N hNL) (hndT N hNL) (hroot N hNL) (hH N hNL) hyN
          (by nlinarith)
      obtain ⟨hc1, hc2, _⟩ := hcommon s1 hm1 hf1
      refine ⟨s1, hs1, hc1, hc2, by simp [hb1], fun _ => ?_, ?_⟩
      · refine ⟨b1, hb1e, hb10, by simpa using hb1B, fun a ha => ?_, N, by simp, ?_⟩
        · have : a = N := by simpa using ha
          rw [this, ← hFB1, hb1e]
        · rw [← hFB1, hb1e]
      · intro pre b post h hpre
        exfalso
        have h1 := congrArg List.length h
        simp at h1
        have : pre.length = 0 := by omega
        exact hpre (List.length_eq_zero.1 this)
    · -- a later tree
      have hfirst : s.bFirst = false := by
        cases hb : s.bFirst with
        | false => rfl
        | true => exact absurd (hbf.1 hb) hp
      obtain ⟨b0, hb0e, hb00, hb0B, hJ2, hJ3⟩ := hJ hp
      have hKp : (p.length : Int) + 1 ≤ K := by rw [hlen] at hpK; exact hpK
      have hbound : b0 + 4 * B < 16777216 := by nlinarith
      obtain ⟨s1, hs1, hb1, hm1, hf1, htop1, hFB1, b1, hb1e, hb1l, hb1B⟩ :=
        SimpleFormatAll_node_later Size FormatAllPadding FormatNodes Height PadY B b0 s N
          (F N) hnew hfirst (hF _ _ N hNL) (hndT N hNL)
          (List.ne_nil_of_mem (hself N hNL)) (hH N hNL) hP hP0 hPB hyN hb0e hb00 hbound
      obtain ⟨hc1, hc2, hc3⟩ := hcommon s1 hm1 hf1
      refine ⟨s1, hs1, hc1, hc2, by simp [hb1], fun _ => ?_, ?_⟩
      · refine ⟨b1, hb1e, le_trans hb00 hb1l, ?_, fun a ha => ?_, N, by simp, ?_⟩
        · rw [hlen]; nlinarith
        · rcases List.mem_append.1 ha with ha | ha
          · rw [(hc3 a ha).2]
            exact le_trans (hJ2 a ha) (mul_le_mul_of_nonneg_right hb1l (by positivity))
          · rw [List.mem_singleton.1 ha, ← hFB1, hb1e]
        · rw [← hFB1, hb1e]
      · intro pre b post h hpre
        rcases List.eq_nil_or_concat post with hpost | ⟨post0, x, hpost⟩
        · subst hpost
          obtain ⟨h1, h2⟩ := List.append_inj' h rfl
          have hbN : N = b := by simpa using h2
          subst h1 hbN
          obtain ⟨a, ha, hae⟩ := hJ3
          refine ⟨⟨a, ha, ?_⟩, fun a2 ha2 => ?_⟩
          · rw [htop1, (hc3 a ha).2, hae, hP,
              Float32.add_whole _ _ (by rw [abs_lt]; constructor <;> omega)]
          · rw [htop1, (hc3 a2 ha2).2, hP]
            have := hJ2 a2 ha2
            show _ + PadY * 2 ^ 149 ≤ (b0 + PadY) * 2 ^ 149
            linarith
        · subst hpost
          have h2 : p ++ [N] = (pre ++ b :: post0) ++ [x] := by simpa using h
          obtain ⟨h3, _⟩ := List.append_inj' h2 rfl
          obtain ⟨⟨a, ha, hae⟩, hall⟩ := hR pre b post0 h3 hpre
          have hbp : b ∈ p := by rw [h3]; simp
          have hprep : ∀ a ∈ pre, a ∈ p := fun a ha => by rw [h3]; simp [ha]
          refine ⟨⟨a, ha, ?_⟩, fun a2 ha2 => ?_⟩
          · rw [(hc3 b hbp).1, (hc3 a (hprep a ha)).2]
            exact hae
          · rw [(hc3 b hbp).1, (hc3 a2 (hprep a2 ha2)).2]
            exact hall a2 ha2

/-- `SimpleFormatAll_column` after the loop over the nodes of the column has ended in the
state `s1`: only `ColumnX` can differ from `s1`. -/
theorem SimpleFormatAll_column_of_fold (Size : Nat → Float32 × Float32)
    (FormatAllPadding : Float32 × Float32)
    (FormatNodes : PosMap → PosMap → Nat → Option FormatAllFormatter × PosMap × PosMap)
    (s s1 : FormatAllState) (c : List Nat)
    (h : c.foldl (fun (st : Option FormatAllState) Node =>
          st.bind (fun s => SimpleFormatAll_node Size FormatAllPadding FormatNodes s Node))
        (some { s with bFirst := true }) = some s1) :
    ∃ s2, SimpleFormatAll_column Size FormatAllPadding FormatNodes s c = some s2 ∧
      s2.posX = s1.posX ∧ s2.posY = s1.posY ∧ s2.FormattedNodes = s1.FormattedNodes := by
  unfold SimpleFormatAll_column
  rw [h]
  by_cases hb : s1.bFirst = true
  · exact ⟨_, rfl, by simp [hb]⟩
  · exact ⟨_, rfl, by simp [hb]⟩

/-- `SimpleFormatAll` column by column: after the columns `CS`, in every column of `CS`
every tree but the first has its top at the greatest bottom of the trees before it plus the
padding. -/
theorem SimpleFormatAll_columns_prefix (Size : Nat → Float32 × Float32)
    (FormatAllPadding : Float32 × Float32)
    (FormatNodes : PosMap → PosMap → Nat → Option FormatAllFormatter × PosMap × PosMap)
    (F : Nat → FormatAllFormatter) (Height : Nat → Int) (PadY B : Int) (posY0 : PosMap)
    (L : List Nat)
    (hF : ∀ pX pY N, N ∈ L → (FormatNodes pX pY N).1 = some (F N))
    (hframe : ∀ pX pY N n, N ∈ L → n ∉ (F N).FormattedNodes →
      PosY (FormatNodes pX pY N).2.2 n = PosY pY n)
    (hself : ∀ N ∈ L, N ∈ (F N).FormattedNodes)
    (hroot : ∀ N ∈ L, (F N).RootNode ∈ (F N).FormattedNodes)
    (hndT : ∀ N ∈ L, (F N).FormattedNodes.Nodup)
    (hdisj : ∀ N ∈ L, ∀ M ∈ L, N ≠ M → ∀ m ∈ (F N).FormattedNodes, m ∉ (F M).FormattedNodes)
    (hH : ∀ N ∈ L, ∀ n ∈ (F N).FormattedNodes,
      (Size n).2 = Float32.ofInt (Height n) ∧ 0 ≤ Height n ∧ Height n ≤ B)
    (hP : FormatAllPadding.2 = Float32.ofInt PadY) (hP0 : 0 ≤ PadY) (hPB : PadY ≤ B)
    (hy : ∀ pX pY N, N ∈ L → (∀ m ∈ (F N).FormattedNodes, PosY pY m = PosY posY0 m) →
      ∀ n ∈ (F N).FormattedNodes, |PosY (FormatNodes pX pY N).2.2 n| ≤ B)
    (sInit : FormatAllState) (hi1 : sInit.FormattedNodes = []) (hi2 : sInit.posY = posY0)
    (CS : List (List Nat)) :
    (∀ c ∈ CS, ∀ N ∈ c, N ∈ L) → CS.flatten.Nodup →
    (∀ c ∈ CS, 4 * ((c.length : Int) + 1) * B < 16777216) →
    ∃ s, CS.foldl (fun (st : Option FormatAllState) Column =>
          st.bind (fun s => SimpleFormatAll_column Size FormatAllPadding FormatNodes s Column))
        (some sInit) = some s ∧
      (∀ m, m ∈ s.FormattedNodes ↔ ∃ N ∈ CS.flatten, m ∈ (F N).FormattedNodes) ∧
      (∀ m, (∀ N ∈ CS.flatten, m ∉ (F N).FormattedNodes) → PosY s.posY m = PosY posY0 m) ∧
      (∀ c ∈ CS, ∀ pre b post, c = pre ++ b :: post → pre ≠ [] →
        (∃ a ∈ pre, (ArrayBounds Size s.posX s.posY (F b).FormattedNodes).Top
          = Float32.add (ArrayBounds Size s.posX s.posY (F a).FormattedNodes).Bottom
              FormatAllPadding.2) ∧
        (∀ a ∈ pre, (ArrayBounds Size s.posX s.posY (F a).FormattedNodes).Bottom.units
            + FormatAllPadding.2.units
          ≤ (ArrayBounds Size s.posX s.posY (F b).FormattedNodes).Top.units)) := by
  have hB0 : 0 ≤ B := le_trans hP0 hPB
  induction CS using List.reverseRecOn with
  | nil =>
    intro _ _ _
    refine ⟨sInit, rfl, fun m => by simp [hi1], fun m _ => by rw [hi2], ?_⟩
    intro c hc
    exact absurd hc (List.not_mem_nil c)
  | append_singleton CS c ih =>
    intro hCL hnd hK
    have hfl : (CS ++ [c]).flatten = CS.flatten ++ c := by simp
    rw [hfl] at hnd
    obtain ⟨s, hfold, hmem, hfr, hR⟩ := ih
      (fun c2 hc2 => hCL c2 (List.mem_append_left _ hc2))
      (List.nodup_append.1 hnd).1
      (fun c2 hc2 => hK c2 (List.mem_append_left _ hc2))
    have hcL : ∀ N ∈ c, N ∈ L := hCL c (by simp)
    have hKc := hK c (by simp)
    have hBb : B < 16777216 := by
      have : (0 : Int) ≤ (c.length : Int) := Int.natCast_nonneg _
      nlinarith
    have hne : ∀ N ∈ c, ∀ M ∈ CS.flatten, N ≠ M := fun N hN M hM h =>
      (List.nodup_append.1 hnd).2.2 (h ▸ hM) hN
    have hCSL : ∀ M ∈ CS.flatten, M ∈ L := fun M hM => by
      obtain ⟨c2, hc2, hM2⟩ := List.mem_flatten.1 hM
      exact hCL c2 (List.mem_append_left _ hc2) M hM2
    obtain ⟨s1, hs1, hm1, hf1, _, _, hR1⟩ :=
      SimpleFormatAll_column_prefix Size FormatAllPadding FormatNodes F Height PadY B
        (c.length : Int) posY0 c
        (fun pX pY N hN => hF pX pY N (hcL N hN))
        (fun pX pY N n hN hn => hframe pX pY N n (hcL N hN) hn)
        (fun N hN => hself N (hcL N hN))
        (fun N hN => hroot N (hcL N hN))
        (fun N hN => hndT N (hcL N hN))
        (fun N hN M hM hNM => hdisj N (hcL N hN) M (hcL M hM) hNM)
        (fun N hN n hn => by
          obtain ⟨h1, h2, h3⟩ := hH N (hcL N hN) n hn
          refine ⟨?_, h2, h3⟩
          rw [h1, Float32.ofInt_exact _ (by rw [abs_lt]; constructor <;> omega)])
        (by rw [hP, Float32.ofInt_exact _ (by rw [abs_lt]; constructor <;> omega)])
        hP0 hPB
        (fun pX pY N hN => hy pX pY N (hcL N hN))
        hKc s
        (fun m hm => hfr m (fun N hN hmN => hm ((hmem m).2 ⟨N, hN, hmN⟩)))
        c (fun N hN => hN) (List.nodup_append.1 hnd).2.1
        (fun N hN m hm hms => by
          obtain ⟨M, hM, hmM⟩ := (hmem m).1 hms
          exact hdisj N (hcL N hN) M (hCSL M hM) (hne N hN M hM) m hm hmM)
        le_rfl
    obtain ⟨s2, hs2, hx2, hy2, hn2⟩ :=
      SimpleFormatAll_column_of_fold Size FormatAllPadding FormatNodes s s1 c hs1
    refine ⟨s2, ?_, fun m => ?_, fun m hm => ?_, fun c2 hc2 => ?_⟩
    · rw [List.foldl_append, hfold]
      exact hs2
    · rw [hn2, hm1, hmem, hfl]
      constructor
      · rintro (⟨N, hN, h⟩ | ⟨N, hN, h⟩)
        · exact ⟨N, List.mem_append_left _ hN, h⟩
        · exact ⟨N, List.mem_append_right _ hN, h⟩
      · rintro ⟨N, hN, h⟩
        rcases List.mem_append.1 hN with hN | hN
        · exact Or.inl ⟨N, hN, h⟩
        · exact Or.inr ⟨N, hN, h⟩
    · rw [hfl] at hm
      rw [hy2, hf1 m (fun N hN => hm N (List.mem_append_right _ hN))]
      exact hfr m (fun N hN => hm N (List.mem_append_left _ hN))
    · rw [hx2, hy2]
      rcases List.mem_append.1 hc2 with hc2 | hc2
      · -- an earlier column: its trees have not moved
        have hcg : ∀ a ∈ c2,
            (ArrayBounds Size s1.posX s1.posY (F a).FormattedNodes).Top
              = (ArrayBounds Size s.posX s.posY (F a).FormattedNodes).Top ∧
            (ArrayBounds Size s1.posX s1.posY (F a).FormattedNodes).Bottom
              = (ArrayBounds Size s.posX s.posY (F a).FormattedNodes).Bottom := by
          intro a ha
          apply ArrayBounds_congr
          intro n hn
          have haf : a ∈ CS.flatten := List.mem_flatten.2 ⟨c2, hc2, ha⟩
          exact hf1 n (fun N hN hnN =>
            hdisj a (hCSL a haf) N (hcL N hN) (fun h => hne N hN a haf h.symm) n hn hnN)
        intro pre b post h hpre
        obtain ⟨⟨a, ha, hae⟩, hall⟩ := hR c2 hc2 pre b post h hpre
        have hbc : b ∈ c2 := by rw [h]; simp
        have hprec : ∀ a ∈ pre, a ∈ c2 := fun a ha => by rw [h]; simp [ha]
        refine ⟨⟨a, ha, ?_⟩, fun a2 ha2 => ?_⟩
        · rw [(hcg b hbc).1, (hcg a (hprec a ha)).2]
          exact hae
        · rw [(hcg b hbc).1, (hcg a2 (hprec a2 ha2)).2]
          exact hall a2 ha2
      · rw [List.mem_singleton.1 hc2]
        exact hR1

/-- C22 (amended): the trees of one column after the whole batch.  `F N` is the formatter
that `FormatNodes` returns for the column node `N`.  Suppose the column nodes are pairwise
distinct; every formatter is valid, holds its column node and its root among its formatted
nodes (a set) and moves no other node; the trees of different column nodes share no node;
the heights of the nodes and the vertical padding are whole numbers between 0 and `B`; the
formatter leaves the nodes of a tree that has not moved yet within `B` of the origin; and
`4 * (length of the column + 1) * B` stays below 2^24, the range in which the `float`
arithmetic of the loop is exact.  Then `SimpleFormatAll` completes, and in the positions it
leaves, for every column and every tree `b` of the column but the first: the top of the
bounds of `b` is the bottom of the bounds of one of the trees before it in the column plus
`FormatAllPadding.Y`; no tree before it in the column has a bottom lower than that; and with
a positive padding the bounds of `b` intersect the bounds of no tree before it in the
column. -/
theorem SimpleFormatAll_column_trees_stacked (Size : Nat → Float32 × Float32)
    (FormatAllPadding : Float32 × Float32)
    (FormatNodes : PosMap → PosMap → Nat → Option FormatAllFormatter × PosMap × PosMap)
    (F : Nat → FormatAllFormatter) (Height : Nat → Int) (PadY B : Int) (posX posY : PosMap)
    (FormatAllColumns : List (List Nat))
    (hnd : FormatAllColumns.flatten.Nodup)
    (hF : ∀ pX pY, ∀ N ∈ FormatAllColumns.flatten, (FormatNodes pX pY N).1 = some (F N))
    (hframe : ∀ pX pY, ∀ N ∈ FormatAllColumns.flatten, ∀ n, n ∉ (F N).FormattedNodes →
      PosY (FormatNodes pX pY N).2.2 n = PosY pY n)
    (hself : ∀ N ∈ FormatAllColumns.flatten, N ∈ (F N).FormattedNodes)
    (hroot : ∀ N ∈ FormatAllColumns.flatten, (F N).RootNode ∈ (F N).FormattedNodes)
    (hndT : ∀ N ∈ FormatAllColumns.flatten, (F N).FormattedNodes.Nodup)
    (hdisj : ∀ N ∈ FormatAllColumns.flatten, ∀ M ∈ FormatAllColumns.flatten, N ≠ M →
      ∀ m ∈ (F N).FormattedNodes, m ∉ (F M).FormattedNodes)
    (hH : ∀ N ∈ FormatAllColumns.flatten, ∀ n ∈ (F N).FormattedNodes,
      (Size n).2 = Float32.ofInt (Height n) ∧ 0 ≤ Height n ∧ Height n ≤ B)
    (hP : FormatAllPadding.2 = Float32.ofInt PadY) (hP0 : 0 ≤ PadY) (hPB : PadY ≤ B)
    (hy : ∀ pX pY, ∀ N ∈ FormatAllColumns.flatten,
      (∀ m ∈ (F N).FormattedNodes, PosY pY m = PosY posY m) →
      ∀ n ∈ (F N).FormattedNodes, |PosY (FormatNodes pX pY N).2.2 n| ≤ B)
    (hK : ∀ c ∈ FormatAllColumns, 4 * ((c.length : Int) + 1) * B < 16777216) :
    ∃ s, SimpleFormatAll Size FormatAllPadding FormatNodes posX posY FormatAllColumns
        = some s ∧
      ∀ c ∈ FormatAllColumns, ∀ pre b post, c = pre ++ b :: post → pre ≠ [] →
        (∃ a ∈ pre, (ArrayBounds Size s.posX s.posY (F b).FormattedNodes).Top
          = Float32.add (ArrayBounds Size s.posX s.posY (F a).FormattedNodes).Bottom
              FormatAllPadding.2) ∧
        (∀ a ∈ pre, (ArrayBounds Size s.posX s.posY (F a).FormattedNodes).Bottom.units
            + FormatAllPadding.2.units
          ≤ (ArrayBounds Size s.posX s.posY (F b).FormattedNodes).Top.units) ∧
        (0 < PadY → ∀ a ∈ pre,
          (ArrayBounds Size s.posX s.posY (F a).FormattedNodes).DoRectanglesIntersect
            (ArrayBounds Size s.posX s.posY (F b).FormattedNodes) = false) := by
  obtain ⟨s, hs, _, _, hR⟩ :=
    SimpleFormatAll_columns_prefix Size FormatAllPadding FormatNodes F Height PadY B posY
      FormatAllColumns.flatten
      (fun pX pY N hN => hF pX pY N hN)
      (fun pX pY N n hN hn => hframe pX pY N hN n hn)
      hself hroot hndT hdisj hH hP hP0 hPB
      (fun pX pY N hN => hy pX pY N hN)
      { posX := posX, posY := posY, FormattedNodes := []
        FormattedBounds := { Left := Float32.ofInt (-1), Top := Float32.ofInt (-1)
                             Right := Float32.ofInt (-1), Bottom := Float32.ofInt (-1) }
        ColumnX := 0, bFirst := true } rfl rfl
      FormatAllColumns
      (fun c hc N hN => List.mem_flatten.2 ⟨c, hc, hN⟩) hnd hK
  refine ⟨s, hs, fun c hc pre b post h hpre => ?_⟩
  obtain ⟨hex, hall⟩ := hR c hc pre b post h hpre
  refine ⟨hex, hall, fun hpos a ha => ?_⟩
  have h1 := hall a ha
  have hKc := hK c hc
  have hBb : B < 16777216 := by
    have : (0 : Int) ≤ (c.length : Int) := Int.natCast_nonneg _
    nlinarith
  rw [hP, Float32.ofInt_exact _ (by rw [abs_lt]; constructor <;> omega)] at h1
  have h2 : (0 : Int) < PadY * 2 ^ 149 := by positivity
  unfold FSlateRectFloat.DoRectanglesIntersect
  simp only [Bool.not_eq_false', Bool.or_eq_true, decide_eq_true_eq]
  right
  simp only at h1
  omega

set_option maxRecDepth 1000000 in
theorem SimpleFormatAll_column_trees_stacked_witness :
    ∃ s, SimpleFormatAll (fun _ => (100, 50)) (800, 250) sampleFormatNodes
        [(1, 1000), (2, 0)] [(2, 40)] [[0, 1]] = some s ∧
      (ArrayBounds (fun _ => (100, 50)) s.posX s.posY [1, 2]).Top
        = Float32.add (ArrayBounds (fun _ => (100, 50)) s.posX s.posY [0]).Bottom 250 ∧
      (ArrayBounds (fun _ => (100, 50)) s.posX s.posY [0]).DoRectanglesIntersect
        (ArrayBounds (fun _ => (100, 50)) s.posX s.posY [1, 2]) = false := by
  obtain ⟨s, hs, h⟩ := SimpleFormatAll_column_trees_stacked (fun _ => (100, 50)) (800, 250)
    sampleFormatNodes
    (fun N => if N = 0 then { RootNode := 0, FormattedNodes := [0] }
      else { RootNode := 1, FormattedNodes := [1, 2] })
    (fun _ => 50) 250 1000 [(1, 1000), (2, 0)] [(2, 40)] [[0, 1]]
    (by decide)
    (fun pX pY N hN => by
      have : N = 0 ∨ N = 1 := by simpa using hN
      rcases this with rfl | rfl <;> rfl)
    (fun pX pY N hN n _ => by
      have : N = 0 ∨ N = 1 := by simpa using hN
      rcases this with rfl | rfl <;> rfl)
    (by decide) (by decide) (by decide) (by decide)
    (fun N hN n hn => by
      exact ⟨rfl, (by decide : (0 : Int) ≤ 50), (by decide : (50 : Int) ≤ 1000)⟩)
    rfl (by decide) (by decide)
    (fun pX pY N hN hun n hn => by
      have hN2 : N = 0 ∨ N = 1 := by simpa using hN
      have hout : (sampleFormatNodes pX pY N).2.2 = pY := by
        rcases hN2 with rfl | rfl <;> rfl
      rw [hout, hun n hn]
      rcases hN2 with rfl | rfl
      · have : n = 0 := by simpa using hn
        subst this
        decide
      · have : n = 1 ∨ n = 2 := by simpa using hn
        rcases this with rfl | rfl <;> decide)
    (by decide)
  obtain ⟨⟨a, ha, hae⟩, _, hint⟩ := h [0, 1] (by simp) [0] 1 [] rfl (by simp)
  have ha0 : a = 0 := by simpa using ha
  subst ha0
  exact ⟨s, hs, hae, hint (by decide) 0 (by simp)⟩

set_option maxRecDepth 1000000 in
/-- A node shared by two trees of a column is moved again with the second tree (line 2021
tests only the column node): with the trees [0, 2] and [1, 2] in one column, node 2 is
moved down with the tree of node 1, the bounds of the first tree grow to the bottom 350 and
the second tree starts at 300. -/
theorem SimpleFormatAll_shared_node_moves_again :
    ∃ s, SimpleFormatAll (fun _ => (100, 50)) (800, 250)
        (fun pX pY N =>
          if N = 0 then (some { RootNode := 0, FormattedNodes := [0, 2] }, pX, pY)
          else (some { RootNode := 1, FormattedNodes := [1, 2] }, pX, pY))
        [(2, 200)] [(1, 500)] [[0, 1]] = some s ∧
      (ArrayBounds (fun _ => (100, 50)) s.posX s.posY [0, 2]).Bottom = 350 ∧
      (ArrayBounds (fun _ => (100, 50)) s.posX s.posY [1, 2]).Top = 300 := by
  refine ⟨_, rfl, ?_, ?_⟩ <;> decide

set_option maxRecDepth 1000000 in
/-- A height with a fraction: the `float` delta of line 2059 is cut to a whole number when
it is added to the `int32` field `NodePosY` (line 2062).  With two one-node trees of height
50.5 in a column and the padding 250, the second tree is moved by 300 and not by 300.5: its
top is 300 while the bottom of the first tree plus the padding is 300.5. -/
theorem SimpleFormatAll_fractional_height :
    ∃ s, SimpleFormatAll (fun _ => (100, Float32.ofRatio 101 1)) (800, 250)
        (fun pX pY N => (some { RootNode := N, FormattedNodes := [N] }, pX, pY))
        [] [] [[0, 1]] = some s ∧
      (ArrayBounds (fun _ => (100, Float32.ofRatio 101 1)) s.posX s.posY [1]).Top = 300 ∧
      Float32.add (ArrayBounds (fun _ => (100, Float32.ofRatio 101 1)) s.posX s.posY [0]).Bottom
        250 = Float32.ofRatio 601 1 := by
  refine ⟨_, rfl, ?_, ?_⟩ <;> decide

set_option maxRecDepth 1000000 in
/-- C22 (counterexample): two columns, node 0 in the first and node 1 in the second, padding
(800, 250).  The tree of node 1 also holds node 2, which the formatter leaves 1000 units left
of its root.  After `SimpleFormatAll` the first column occupies x from 0 to 100 and the
tree of the second column x from -100 to 1000 at the same height: the two bounding
rectangles intersect. -/
theorem SimpleFormatAll_columns_overlap :
    ∃ s, SimpleFormatAll (fun _ => (100, 50)) (800, 250) sampleFormatNodes [(1, 1000), (2, 0)]
        [] [[0], [1]] = some s ∧
      ArrayBounds (fun _ => (100, 50)) s.posX s.posY [0] = ⟨0, 0, 100, 50⟩ ∧
      ArrayBounds (fun _ => (100, 50)) s.posX s.posY [1, 2]
        = ⟨Float32.ofInt (-100), 0, 1000, 50⟩ ∧
      (ArrayBounds (fun _ => (100, 50)) s.posX s.posY [0]).DoRectanglesIntersect
        (ArrayBounds (fun _ => (100, 50)) s.posX s.posY [1, 2]) = true :=
  ⟨_, rfl, by decide, by decide, by decide⟩

set_option maxRecDepth 1000000 in
/-- C30: a column node whose `FormatNodes` call returns an invalid formatter is not skipped:
the loop body calls `Formatter->GetRootNode()` on it (line 2029) before the `IsValid` test of
line 2031.  For the column [0, 3], where node 3 has no formatter, the body fails at node 3
and `SimpleFormatAll` does not complete. -/
theorem SimpleFormatAll_dereferences_invalid_formatter :
    (sampleFormatNodes [(0, 0)] [(0, 0)] 3).1.isNone = true ∧
    SimpleFormatAll_node (fun _ => (100, 50)) (800, 250) sampleFormatNodes
      { posX := [(0, 0)], posY := [(0, 0)], FormattedNodes := [0]
        FormattedBounds := ⟨0, 0, 100, 50⟩, ColumnX := 0, bFirst := false } 3 = none ∧
    SimpleFormatAll (fun _ => (100, 50)) (800, 250) sampleFormatNodes [] [] [[0, 3]] = none := by
  refine ⟨?_, ?_, ?_⟩ <;> decide

theorem InitNodePool_visitLink_facts (g : EdGraph) (NTF : List Nat) (s : InitNodePoolState)
    (l : EEdGraphPinDirection × Nat × Nat) :
    (InitNodePool_visitLink g NTF s l).NodePool = s.NodePool ∧
    (∀ x ∈ s.OutputNodeStack, x ∈ (InitNodePool_visitLink g NTF s l).OutputNodeStack) ∧
    (∀ x ∈ s.InputNodeStack, x ∈ (InitNodePool_visitLink g NTF s l).InputNodeStack) ∧
    (g.IsNodePure (g.OwningNode l.2.2) = false →
      FilterSelectiveFormatting NTF (g.OwningNode l.2.2) = true →
      g.OwningNode l.2.2 ∈ (InitNodePool_visitLink g NTF s l).NodePool ∨
      g.OwningNode l.2.2 ∈ (InitNodePool_visitLink g NTF s l).OutputNodeStack ∨
      g.OwningNode l.2.2 ∈ (InitNodePool_visitLink g NTF s l).InputNodeStack) ∧
    (InitNodePool_visitLink g NTF s l).OutputNodeStack.length
      + (InitNodePool_visitLink g NTF s l).InputNodeStack.length
      ≤ s.OutputNodeStack.length + s.InputNodeStack.length + 1 ∧
    (∀ x, x ∈ (InitNodePool_visitLink g NTF s l).OutputNodeStack ∨
        x ∈ (InitNodePool_visitLink g NTF s l).InputNodeStack →
      x ∈ s.OutputNodeStack ∨ x ∈ s.InputNodeStack ∨ x = g.OwningNode l.2.2) := by
  unfold InitNodePool_visitLink
  dsimp only
  by_cases h1 : (decide (g.OwningNode l.2.2 ∈ s.NodePool) || g.IsNodePure (g.OwningNode l.2.2) ||
      !FilterSelectiveFormatting NTF (g.OwningNode l.2.2)) = true
  · rw [if_pos h1]
    refine ⟨rfl, fun x hx => hx, fun x hx => hx, fun hp hf => ?_, by omega, fun x hx => ?_⟩
    · simp only [Bool.or_eq_true, decide_eq_true_eq, Bool.not_eq_true'] at h1
      rcases h1 with (h1 | h1) | h1
      · exact Or.inl h1
      · rw [hp] at h1; exact absurd h1 Bool.false_ne_true
      · rw [hf] at h1; exact absurd h1 (by decide)
    · rcases hx with hx | hx
      · exact Or.inl hx
      · exact Or.inr (Or.inl hx)
  · rw [if_neg h1]
    by_cases h2 : l.1 = EEdGraphPinDirection.EGPD_Output
    · rw [if_pos h2]
      refine ⟨rfl, fun x hx => List.mem_cons_of_mem _ hx, fun x hx => hx,
        fun _ _ => Or.inr (Or.inl (List.mem_cons_self _ _)), by simp; omega, fun x hx => ?_⟩
      rcases hx with hx | hx
      · rcases List.mem_cons.1 hx with hx | hx
        · exact Or.inr (Or.inr hx)
        · exact Or.inl hx
      · exact Or.inr (Or.inl hx)
    · rw [if_neg h2]
      refine ⟨rfl, fun x hx => hx, fun x hx => List.mem_cons_of_mem _ hx,
        fun _ _ => Or.inr (Or.inr (List.mem_cons_self _ _)), by simp; omega, fun x hx => ?_⟩
      rcases hx with hx | hx
      · exact Or.inl hx
      · rcases List.mem_cons.1 hx with hx | hx
        · exact Or.inr (Or.inr hx)
        · exact Or.inr (Or.inl hx)

theorem InitNodePool_fold_facts (g : EdGraph) (NTF : List Nat)
    (L : List (EEdGraphPinDirection × Nat × Nat)) (s : InitNodePoolState) :
    (L.foldl (InitNodePool_visitLink g NTF) s).NodePool = s.NodePool ∧
    (∀ x ∈ s.OutputNodeStack, x ∈ (L.foldl (InitNodePool_visitLink g NTF) s).OutputNodeStack) ∧
    (∀ x ∈ s.InputNodeStack, x ∈ (L.foldl (InitNodePool_visitLink g NTF) s).InputNodeStack) ∧
    (∀ l ∈ L, g.IsNodePure (g.OwningNode l.2.2) = false →
      FilterSelectiveFormatting NTF (g.OwningNode l.2.2) = true →
      g.OwningNode l.2.2 ∈ (L.foldl (InitNodePool_visitLink g NTF) s).NodePool ∨
      g.OwningNode l.2.2 ∈ (L.foldl (InitNodePool_visitLink g NTF) s).OutputNodeStack ∨
      g.OwningNode l.2.2 ∈ (L.foldl (InitNodePool_visitLink g NTF) s).InputNodeStack) ∧
    (L.foldl (InitNodePool_visitLink g NTF) s).OutputNodeStack.length
      + (L.foldl (InitNodePool_visitLink g NTF) s).InputNodeStack.length
      ≤ s.OutputNodeStack.length + s.InputNodeStack.length + L.length ∧
    (∀ x, x ∈ (L.foldl (InitNodePool_visitLink g NTF) s).OutputNodeStack ∨
        x ∈ (L.foldl (InitNodePool_visitLink g NTF) s).InputNodeStack →
      x ∈ s.OutputNodeStack ∨ x ∈ s.InputNodeStack ∨ ∃ l ∈ L, x = g.OwningNode l.2.2) := by
  induction L generalizing s with
  | nil =>
    refine ⟨rfl, fun x hx => hx, fun x hx => hx,
      fun l hl => absurd hl (List.not_mem_nil l), by simp, fun x hx => ?_⟩
    rcases hx with hx | hx
    · exact Or.inl hx
    · exact Or.inr (Or.inl hx)
  | cons a L ih =>
    rw [List.foldl_cons]
    obtain ⟨h1, h2, h3, h4, h5, h6⟩ := ih (InitNodePool_visitLink g NTF s a)
    obtain ⟨k1, k2, k3, k4, k5, k6⟩ := InitNodePool_visitLink_facts g NTF s a
    refine ⟨h1.trans k1, fun x hx => h2 x (k2 x hx), fun x hx => h3 x (k3 x hx),
      fun l hl hp hf => ?_, ?_, fun x hx => ?_⟩
    · rcases List.mem_cons.1 hl with rfl | hl
      · rcases k4 hp hf with h | h | h
        · exact Or.inl (by rw [h1]; exact h)
        · exact Or.inr (Or.inl (h2 _ h))
        · exact Or.inr (Or.inr (h3 _ h))
      · exact h4 l hl hp hf
    · simp only [List.length_cons]
      omega
    · rcases h6 x hx with h | h | ⟨l, hl, h⟩
      · rcases k6 x (Or.inl h) with h | h | h
        · exact Or.inl h
        · exact Or.inr (Or.inl h)
        · exact Or.inr (Or.inr ⟨a, List.mem_cons_self a L, h⟩)
      · rcases k6 x (Or.inr h) with h | h | h
        · exact Or.inl h
        · exact Or.inr (Or.inl h)
        · exact Or.inr (Or.inr ⟨a, List.mem_cons_self a L, h⟩)
      · exact Or.inr (Or.inr ⟨l, List.mem_cons_of_mem a hl, h⟩)

theorem InitNodePool_visit_inv (g : EdGraph) (NTF : List Nat) (RootNode : Nat)
    (s : InitNodePoolState) (c : Nat) (h : InitNodePool_inv g NTF RootNode (some c) s) :
    InitNodePool_inv g NTF RootNode none (InitNodePool_visit g NTF s c) := by
  obtain ⟨i1, i2, i3, i4⟩ := h
  unfold InitNodePool_visit
  by_cases hf : FilterSelectiveFormatting NTF c = true
  · rw [if_neg (by simp [hf])]
    by_cases hp : (decide (c ∈ s.NodePool) || g.IsNodePure c) = true
    · rw [if_pos hp]
      simp only [Bool.or_eq_true, decide_eq_true_eq] at hp
      refine ⟨i1, i2, fun m hm l hl hq hfq => ?_, fun hq hfq => ?_⟩
      · rcases i3 m hm l hl hq hfq with h | h | h | h
        · exact Or.inl h
        · exact Or.inr (Or.inl h)
        · exact Or.inr (Or.inr (Or.inl h))
        · have hc : g.OwningNode l.2.2 = c := Option.some.inj h
          rcases hp with hp | hp
          · exact Or.inl (hc ▸ hp)
          · rw [hc, hp] at hq; exact absurd hq (by decide)
      · rcases i4 hq hfq with h | h | h | h
        · exact Or.inl h
        · exact Or.inr (Or.inl h)
        · exact Or.inr (Or.inr (Or.inl h))
        · have hc : RootNode = c := Option.some.inj h
          rcases hp with hp | hp
          · exact Or.inl (hc ▸ hp)
          · rw [hc, hp] at hq; exact absurd hq (by decide)
    · rw [if_neg hp]
      simp only [Bool.or_eq_true, decide_eq_true_eq, not_or, Bool.not_eq_true] at hp
      obtain ⟨f1, f2, f3, f4, _, _⟩ := InitNodePool_fold_facts g NTF (InitNodePool_links g c)
        { s with NodePool := s.NodePool ++ [c] }
      have hpool : ((InitNodePool_links g c).foldl (InitNodePool_visitLink g NTF)
          { s with NodePool := s.NodePool ++ [c] }).NodePool = s.NodePool ++ [c] := f1
      refine ⟨?_, ?_, fun m hm l hl hq hfq => ?_, fun hq hfq => ?_⟩
      · rw [hpool]
        exact List.nodup_append.2 ⟨i1, List.nodup_singleton c, by
          intro a ha hb
          rw [List.mem_singleton] at hb
          exact hp.1 (hb ▸ ha)⟩
      · intro n hn
        rw [hpool] at hn
        rcases List.mem_append.1 hn with hn | hn
        · exact i2 n hn
        · rw [List.mem_singleton] at hn
          subst hn
          exact ⟨hp.2, hf⟩
      · rw [hpool] at hm ⊢
        rcases List.mem_append.1 hm with hm | hm
        · rcases i3 m hm l hl hq hfq with h | h | h | h
          · exact Or.inl (List.mem_append_left _ h)
          · exact Or.inr (Or.inl (f2 _ h))
          · exact Or.inr (Or.inr (Or.inl (f3 _ h)))
          · exact Or.inl (List.mem_append_right _
              (List.mem_singleton.2 (Option.some.inj h)))
        · rw [List.mem_singleton] at hm
          subst hm
          rcases f4 l hl hq hfq with h | h | h
          · exact Or.inl (hpool ▸ h)
          · exact Or.inr (Or.inl h)
          · exact Or.inr (Or.inr (Or.inl h))
      · rw [hpool]
        rcases i4 hq hfq with h | h | h | h
        · exact Or.inl (List.mem_append_left _ h)
        · exact Or.inr (Or.inl (f2 _ h))
        · exact Or.inr (Or.inr (Or.inl (f3 _ h)))
        · exact Or.inl (List.mem_append_right _ (List.mem_singleton.2 (Option.some.inj h)))
  · rw [if_pos (by simpa using hf)]
    have hf' : FilterSelectiveFormatting NTF c = false := by simpa using hf
    refine ⟨i1, i2, fun m hm l hl hq hfq => ?_, fun hq hfq => ?_⟩
    · rcases i3 m hm l hl hq hfq with h | h | h | h
      · exact Or.inl h
      · exact Or.inr (Or.inl h)
      · exact Or.inr (Or.inr (Or.inl h))
      · have hc : g.OwningNode l.2.2 = c := Option.some.inj h
        rw [hc, hf'] at hfq; exact absurd hfq (by decide)
    · rcases i4 hq hfq with h | h | h | h
      · exact Or.inl h
      · exact Or.inr (Or.inl h)
      · exact Or.inr (Or.inr (Or.inl h))
      · have hc : RootNode = c := Option.some.inj h
        rw [hc, hf'] at hfq; exact absurd hfq (by decide)

theorem InitNodePool_step_inv (g : EdGraph) (NTF : List Nat) (RootNode : Nat)
    (s : InitNodePoolState) (h : InitNodePool_inv g NTF RootNode none s) :
    InitNodePool_inv g NTF RootNode none (InitNodePool_step g NTF s) := by
  obtain ⟨i1, i2, i3, i4⟩ := h
  unfold InitNodePool_step
  match ho : s.OutputNodeStack, hi : s.InputNodeStack with
  | c :: o, i =>
    apply InitNodePool_visit_inv
    refine ⟨i1, i2, fun m hm l hl hq hfq => ?_, fun hq hfq => ?_⟩
    · rcases i3 m hm l hl hq hfq with h | h | h | h
      · exact Or.inl h
      · rw [ho] at h
        rcases List.mem_cons.1 h with h | h
        · exact Or.inr (Or.inr (Or.inr (congrArg some h)))
        · exact Or.inr (Or.inl h)
      · exact Or.inr (Or.inr (Or.inl (hi ▸ h)))
      · exact absurd h (by simp)
    · rcases i4 hq hfq with h | h | h | h
      · exact Or.inl h
      · rw [ho] at h
        rcases List.mem_cons.1 h with h | h
        · exact Or.inr (Or.inr (Or.inr (congrArg some h)))
        · exact Or.inr (Or.inl h)
      · exact Or.inr (Or.inr (Or.inl (hi ▸ h)))
      · exact absurd h (by simp)
  | [], c :: i =>
    apply InitNodePool_visit_inv
    refine ⟨i1, i2, fun m hm l hl hq hfq => ?_, fun hq hfq => ?_⟩
    · rcases i3 m hm l hl hq hfq with h | h | h | h
      · exact Or.inl h
      · exact Or.inr (Or.inl (ho ▸ h))
      · rw [hi] at h
        rcases List.mem_cons.1 h with h | h
        · exact Or.inr (Or.inr (Or.inr (congrArg some h)))
        · exact Or.inr (Or.inr (Or.inl h))
      · exact absurd h (by simp)
    · rcases i4 hq hfq with h | h | h | h
      · exact Or.inl h
      · exact Or.inr (Or.inl (ho ▸ h))
      · rw [hi] at h
        rcases List.mem_cons.1 h with h | h
        · exact Or.inr (Or.inr (Or.inr (congrArg some h)))
        · exact Or.inr (Or.inr (Or.inl h))
      · exact absurd h (by simp)
  | [], [] => exact ⟨i1, i2, i3, i4⟩

theorem InitNodePool_loop_inv (g : EdGraph) (NTF : List Nat) (RootNode : Nat) (fuel : Nat)
    (s : InitNodePoolState) (h : InitNodePool_inv g NTF RootNode none s) :
    InitNodePool_inv g NTF RootNode none (InitNodePool_loop g NTF fuel s) := by
  induction fuel generalizing s with
  | zero => exact h
  | succ k ih => exact ih _ (InitNodePool_step_inv g NTF RootNode s h)

theorem InitNodePool_init_inv (g : EdGraph) (NTF : List Nat) (RootNode : Nat) :
    InitNodePool_inv g NTF RootNode none (InitNodePool_init RootNode) :=
  ⟨List.nodup_nil, fun n hn => absurd hn (List.not_mem_nil n),
    fun m hm => absurd hm (List.not_mem_nil m),
    fun _ _ => Or.inr (Or.inl (List.mem_singleton.2 rfl))⟩
theorem InitNodePool_le_sum (f : Nat → Nat) (U : List Nat) (c : Nat) (hc : c ∈ U) :
    f c ≤ (U.map f).sum := by
  induction U with
  | nil => exact absurd hc (List.not_mem_nil c)
  | cons a U ih =>
    simp only [List.map_cons, List.sum_cons]
    rcases List.mem_cons.1 hc with rfl | h
    · omega
    · have := ih h
      omega

theorem InitNodePool_filter_lt (U pool : List Nat) (c : Nat) (hc : c ∈ U) (hp : c ∉ pool) :
    (U.filter (fun n => decide (n ∉ pool ++ [c]))).length + 1
      ≤ (U.filter (fun n => decide (n ∉ pool))).length := by
  induction U with
  | nil => exact absurd hc (List.not_mem_nil c)
  | cons a U ih =>
    have hmono : ∀ V : List Nat, (V.filter (fun n => decide (n ∉ pool ++ [c]))).length
        ≤ (V.filter (fun n => decide (n ∉ pool))).length := by
      intro V
      induction V with
      | nil => simp
      | cons b V ihV =>
        simp only [List.filter_cons]
        by_cases hb : b ∈ pool
        · have hb2 : b ∈ pool ++ [c] := List.mem_append_left _ hb
          simp only [hb, hb2, not_true_eq_false, decide_False, Bool.false_eq_true, if_false]
          exact ihV
        · by_cases hbc : b ∈ pool ++ [c]
          · simp only [hb, hbc, not_true_eq_false, not_false_eq_true, decide_False, decide_True,
              Bool.false_eq_true, if_false, if_true, List.length_cons]
            omega
          · simp only [hb, hbc, not_false_eq_true, decide_True, if_true, List.length_cons]
            omega
    simp only [List.filter_cons]
    by_cases hac : a = c
    · subst hac
      have h2 : a ∈ pool ++ [a] := List.mem_append_right _ (List.mem_singleton.2 rfl)
      simp only [hp, h2, not_true_eq_false, not_false_eq_true, decide_False, decide_True,
        Bool.false_eq_true, if_false, if_true, List.length_cons]
      have := hmono U
      omega
    · have hcU : c ∈ U := by
        rcases List.mem_cons.1 hc with h | h
        · exact absurd h.symm hac
        · exact h
      have := ih hcU
      by_cases hb : a ∈ pool
      · have hb2 : a ∈ pool ++ [c] := List.mem_append_left _ hb
        simp only [hb, hb2, not_true_eq_false, decide_False, Bool.false_eq_true, if_false]
        exact this
      · have hb2 : a ∉ pool ++ [c] := by
          intro h
          rcases List.mem_append.1 h with h | h
          · exact hb h
          · exact hac (List.mem_singleton.1 h)
        simp only [hb, hb2, not_false_eq_true, decide_True, if_true, List.length_cons]
        omega

theorem InitNodePool_visit_measure (g : EdGraph) (NTF : List Nat) (U : List Nat)
    (hU : ∀ n ∈ U, ∀ l ∈ InitNodePool_links g n, g.OwningNode l.2.2 ∈ U)
    (s : InitNodePoolState) (c : Nat) (hc : c ∈ U)
    (hO : ∀ x ∈ s.OutputNodeStack, x ∈ U) (hI : ∀ x ∈ s.InputNodeStack, x ∈ U) :
    InitNodePool_measure g U (InitNodePool_visit g NTF s c) ≤ InitNodePool_measure g U s ∧
    (∀ x ∈ (InitNodePool_visit g NTF s c).OutputNodeStack, x ∈ U) ∧
    (∀ x ∈ (InitNodePool_visit g NTF s c).InputNodeStack, x ∈ U) := by
  unfold InitNodePool_visit
  by_cases hf : (!FilterSelectiveFormatting NTF c) = true
  · rw [if_pos hf]
    exact ⟨le_refl _, hO, hI⟩
  · rw [if_neg hf]
    by_cases hp : (decide (c ∈ s.NodePool) || g.IsNodePure c) = true
    · rw [if_pos hp]
      exact ⟨le_refl _, hO, hI⟩
    · rw [if_neg hp]
      simp only [Bool.or_eq_true, decide_eq_true_eq, not_or, Bool.not_eq_true] at hp
      obtain ⟨f1, _, _, _, f5, f6⟩ := InitNodePool_fold_facts g NTF (InitNodePool_links g c)
        { s with NodePool := s.NodePool ++ [c] }
      have hpool : ((InitNodePool_links g c).foldl (InitNodePool_visitLink g NTF)
          { s with NodePool := s.NodePool ++ [c] }).NodePool = s.NodePool ++ [c] := f1
      have hlen : ((InitNodePool_links g c).foldl (InitNodePool_visitLink g NTF)
          { s with NodePool := s.NodePool ++ [c] }).OutputNodeStack.length +
          ((InitNodePool_links g c).foldl (InitNodePool_visitLink g NTF)
          { s with NodePool := s.NodePool ++ [c] }).InputNodeStack.length
          ≤ s.OutputNodeStack.length + s.InputNodeStack.length
            + (InitNodePool_links g c).length := f5
      have hmem : ∀ x, x ∈ ((InitNodePool_links g c).foldl (InitNodePool_visitLink g NTF)
          { s with NodePool := s.NodePool ++ [c] }).OutputNodeStack ∨
          x ∈ ((InitNodePool_links g c).foldl (InitNodePool_visitLink g NTF)
          { s with NodePool := s.NodePool ++ [c] }).InputNodeStack → x ∈ U := by
        intro x hx
        rcases f6 x hx with h | h | ⟨l, hl, h⟩
        · exact hO x h
        · exact hI x h
        · exact h ▸ hU c hc l hl
      refine ⟨?_, fun x hx => hmem x (Or.inl hx), fun x hx => hmem x (Or.inr hx)⟩
      unfold InitNodePool_measure
      rw [hpool]
      have h1 := InitNodePool_filter_lt U s.NodePool c hc hp.1
      have h2 : (InitNodePool_links g c).length
          ≤ (U.map (fun n => (InitNodePool_links g n).length)).sum :=
        InitNodePool_le_sum (fun n => (InitNodePool_links g n).length) U c hc
      have h3 := Nat.mul_le_mul_right
        ((U.map (fun n => (InitNodePool_links g n).length)).sum + 1) h1
      rw [Nat.add_mul, Nat.one_mul] at h3
      omega

theorem InitNodePool_step_done (g : EdGraph) (NTF : List Nat) (s : InitNodePoolState)
    (h : InitNodePool_done s = true) : InitNodePool_step g NTF s = s := by
  unfold InitNodePool_done at h
  simp only [Bool.and_eq_true, List.isEmpty_iff] at h
  unfold InitNodePool_step
  rw [h.1, h.2]

theorem InitNodePool_step_out (g : EdGraph) (NTF : List Nat) (s : InitNodePoolState)
    (c : Nat) (o : List Nat) (h : s.OutputNodeStack = c :: o) :
    InitNodePool_step g NTF s
      = InitNodePool_visit g NTF { s with OutputNodeStack := o } c := by
  simp only [InitNodePool_step, h]

theorem InitNodePool_step_in (g : EdGraph) (NTF : List Nat) (s : InitNodePoolState)
    (c : Nat) (i : List Nat) (ho : s.OutputNodeStack = []) (h : s.InputNodeStack = c :: i) :
    InitNodePool_step g NTF s
      = InitNodePool_visit g NTF { s with InputNodeStack := i } c := by
  simp only [InitNodePool_step, h, ho]

theorem InitNodePool_step_measure (g : EdGraph) (NTF : List Nat) (U : List Nat)
    (hU : ∀ n ∈ U, ∀ l ∈ InitNodePool_links g n, g.OwningNode l.2.2 ∈ U)
    (s : InitNodePoolState)
    (hO : ∀ x ∈ s.OutputNodeStack, x ∈ U) (hI : ∀ x ∈ s.InputNodeStack, x ∈ U) :
    (InitNodePool_done s = true ∨
      InitNodePool_measure g U (InitNodePool_step g NTF s) + 1 ≤ InitNodePool_measure g U s) ∧
    (∀ x ∈ (InitNodePool_step g NTF s).OutputNodeStack, x ∈ U) ∧
    (∀ x ∈ (InitNodePool_step g NTF s).InputNodeStack, x ∈ U) := by
  cases ho : s.OutputNodeStack with
  | cons c o =>
    rw [InitNodePool_step_out g NTF s c o ho]
    have hc : c ∈ U := hO c (ho ▸ List.mem_cons_self c o)
    obtain ⟨m1, m2, m3⟩ := InitNodePool_visit_measure g NTF U hU
      { s with OutputNodeStack := o } c hc
      (fun x hx => hO x (ho ▸ List.mem_cons_of_mem c hx)) hI
    refine ⟨Or.inr ?_, m2, m3⟩
    have : InitNodePool_measure g U { s with OutputNodeStack := o } + 1
        = InitNodePool_measure g U s := by
      unfold InitNodePool_measure
      simp only [ho, List.length_cons]
      omega
    omega
  | nil =>
    cases hi : s.InputNodeStack with
    | cons c i =>
      rw [InitNodePool_step_in g NTF s c i ho hi]
      have hc : c ∈ U := hI c (hi ▸ List.mem_cons_self c i)
      obtain ⟨m1, m2, m3⟩ := InitNodePool_visit_measure g NTF U hU
        { s with InputNodeStack := i } c hc hO
        (fun x hx => hI x (hi ▸ List.mem_cons_of_mem c hx))
      refine ⟨Or.inr ?_, m2, m3⟩
      have : InitNodePool_measure g U { s with InputNodeStack := i } + 1
          = InitNodePool_measure g U s := by
        unfold InitNodePool_measure
        simp only [hi, List.length_cons]
        omega
      omega
    | nil =>
      have hd : InitNodePool_done s = true := by
        simp [InitNodePool_done, ho, hi]
      rw [InitNodePool_step_done g NTF s hd]
      exact ⟨Or.inl hd, hO, hI⟩

theorem InitNodePool_loop_done (g : EdGraph) (NTF : List Nat) (U : List Nat)
    (hU : ∀ n ∈ U, ∀ l ∈ InitNodePool_links g n, g.OwningNode l.2.2 ∈ U)
    (fuel : Nat) (s : InitNodePoolState)
    (hO : ∀ x ∈ s.OutputNodeStack, x ∈ U) (hI : ∀ x ∈ s.InputNodeStack, x ∈ U)
    (hm : InitNodePool_measure g U s ≤ fuel) :
    InitNodePool_done (InitNodePool_loop g NTF fuel s) = true := by
  induction fuel generalizing s with
  | zero =>
    unfold InitNodePool_measure at hm
    have h1 : s.OutputNodeStack.length = 0 := by omega
    have h2 : s.InputNodeStack.length = 0 := by omega
    simp [InitNodePool_loop, InitNodePool_done, List.length_eq_zero.1 h1,
      List.length_eq_zero.1 h2]
  | succ k ih =>
    obtain ⟨m1, m2, m3⟩ := InitNodePool_step_measure g NTF U hU s hO hI
    rw [InitNodePool_loop]
    rcases m1 with m1 | m1
    · rw [InitNodePool_step_done g NTF s m1]
      have hz : InitNodePool_measure g U s ≤ InitNodePool_measure g U s := le_refl _
      have hs : ∀ j, InitNodePool_loop g NTF j s = s := by
        intro j
        induction j with
        | zero => rfl
        | succ j ihj => rw [InitNodePool_loop, InitNodePool_step_done g NTF s m1, ihj]
      rw [hs k]
      exact m1
    · exact ih _ m2 m3 (by omega)
theorem InitNodePool_links_mem (g : EdGraph) (m : Nat) (l : EEdGraphPinDirection × Nat × Nat)
    (h : l ∈ InitNodePool_links g m) :
    l.2.1 ∈ g.Pins m ∧ l.2.2 ∈ g.LinkedTo l.2.1 ∧ g.IsExecOrDelegatePin l.2.1 = true := by
  unfold InitNodePool_links at h
  simp only [List.mem_flatMap, List.mem_reverse, List.mem_filter, List.mem_map,
    GetLinkedPins] at h
  obtain ⟨Dir, _, Pin, ⟨⟨hPin, _⟩, hE⟩, LinkedPin, hL, rfl⟩ := h
  exact ⟨hPin, hL, hE⟩

theorem InitNodePool_links_of_mem (g : EdGraph) (m Pin LinkedPin : Nat)
    (hPin : Pin ∈ g.Pins m) (hE : g.IsExecOrDelegatePin Pin = true)
    (hL : LinkedPin ∈ g.LinkedTo Pin) :
    (g.Direction Pin, Pin, LinkedPin) ∈ InitNodePool_links g m := by
  unfold InitNodePool_links
  simp only [List.mem_flatMap, List.mem_reverse, List.mem_filter, List.mem_map,
    GetLinkedPins]
  refine ⟨g.Direction Pin, ?_, Pin, ⟨⟨hPin, ?_⟩, hE⟩, LinkedPin, hL, rfl⟩
  · cases g.Direction Pin <;> simp
  · have hne : (g.LinkedTo Pin).isEmpty = false := by
      cases hl : g.LinkedTo Pin with
      | nil => rw [hl] at hL; exact absurd hL (List.not_mem_nil _)
      | cons a t => rfl
    simp [hne]

theorem InitNodePool_loop_add (g : EdGraph) (NTF : List Nat) (a b : Nat)
    (s : InitNodePoolState) :
    InitNodePool_loop g NTF (a + b) s
      = InitNodePool_loop g NTF b (InitNodePool_loop g NTF a s) := by
  induction a generalizing s with
  | zero => simp [InitNodePool_loop]
  | succ a ih => rw [Nat.succ_add, InitNodePool_loop, InitNodePool_loop, ih]

theorem InitNodePool_loop_fixed (g : EdGraph) (NTF : List Nat) (k : Nat)
    (s : InitNodePoolState) (h : InitNodePool_done s = true) :
    InitNodePool_loop g NTF k s = s := by
  induction k with
  | zero => rfl
  | succ k ih => rw [InitNodePool_loop, InitNodePool_step_done g NTF s h, ih]

/-- C29: on a finite graph (the node list `U` holds the root and the owner of every pin
wired to a pin of a node of `U`) the two-stack loop of `InitNodePool` empties both stacks
within `InitNodePool_fuel g U` passes and further passes change nothing; the resulting
`NodePool` has no node twice, holds only impure nodes accepted by
`FilterSelectiveFormatting`, holds the root when the root is impure and accepted, and holds
every impure accepted node that is wired to an execution or delegate pin of one of its
members. -/
theorem InitNodePool_pool_closed (g : EdGraph) (NodesToFormat : List Nat) (RootNode : Nat)
    (U : List Nat) (hRoot : RootNode ∈ U)
    (hU : ∀ n ∈ U, ∀ Pin ∈ g.Pins n, ∀ LinkedPin ∈ g.LinkedTo Pin,
      g.OwningNode LinkedPin ∈ U) :
    InitNodePool_done (InitNodePool_loop g NodesToFormat (InitNodePool_fuel g U)
        (InitNodePool_init RootNode)) = true ∧
    (∀ k, InitNodePool_loop g NodesToFormat (InitNodePool_fuel g U + k)
        (InitNodePool_init RootNode)
      = InitNodePool_loop g NodesToFormat (InitNodePool_fuel g U)
        (InitNodePool_init RootNode)) ∧
    (InitNodePool_loop g NodesToFormat (InitNodePool_fuel g U)
        (InitNodePool_init RootNode)).NodePool.Nodup ∧
    (∀ n ∈ (InitNodePool_loop g NodesToFormat (InitNodePool_fuel g U)
        (InitNodePool_init RootNode)).NodePool,
      g.IsNodePure n = false ∧ FilterSelectiveFormatting NodesToFormat n = true) ∧
    (g.IsNodePure RootNode = false → FilterSelectiveFormatting NodesToFormat RootNode = true →
      RootNode ∈ (InitNodePool_loop g NodesToFormat (InitNodePool_fuel g U)
        (InitNodePool_init RootNode)).NodePool) ∧
    (∀ m ∈ (InitNodePool_loop g NodesToFormat (InitNodePool_fuel g U)
        (InitNodePool_init RootNode)).NodePool,
      ∀ Pin ∈ g.Pins m, g.IsExecOrDelegatePin Pin = true →
      ∀ LinkedPin ∈ g.LinkedTo Pin,
      g.IsNodePure (g.OwningNode LinkedPin) = false →
      FilterSelectiveFormatting NodesToFormat (g.OwningNode LinkedPin) = true →
      g.OwningNode LinkedPin ∈ (InitNodePool_loop g NodesToFormat (InitNodePool_fuel g U)
        (InitNodePool_init RootNode)).NodePool) := by
  have hU2 : ∀ n ∈ U, ∀ l ∈ InitNodePool_links g n, g.OwningNode l.2.2 ∈ U := by
    intro n hn l hl
    obtain ⟨h1, h2, _⟩ := InitNodePool_links_mem g n l hl
    exact hU n hn _ h1 _ h2
  have hdone : InitNodePool_done (InitNodePool_loop g NodesToFormat (InitNodePool_fuel g U)
      (InitNodePool_init RootNode)) = true := by
    apply InitNodePool_loop_done g NodesToFormat U hU2
    · intro x hx
      rw [List.mem_singleton.1 hx]
      exact hRoot
    · intro x hx
      exact absurd hx (List.not_mem_nil x)
    · unfold InitNodePool_measure InitNodePool_fuel InitNodePool_init
      have : (U.filter (fun n => decide (n ∉ ([] : List Nat)))).length ≤ U.length :=
        List.length_filter_le _ _
      have h3 := Nat.mul_le_mul_right
        ((U.map (fun n => (InitNodePool_links g n).length)).sum + 1) this
      simp only [List.length_singleton, List.length_nil]
      omega
  obtain ⟨i1, i2, i3, i4⟩ := InitNodePool_loop_inv g NodesToFormat RootNode
    (InitNodePool_fuel g U) _ (InitNodePool_init_inv g NodesToFormat RootNode)
  have hO := (List.isEmpty_iff.1 (Bool.and_eq_true_iff.1 hdone).2)
  have hI := (List.isEmpty_iff.1 (Bool.and_eq_true_iff.1 hdone).1)
  refine ⟨hdone, fun k => ?_, i1, i2, fun hp hf => ?_, fun m hm Pin hPin hE LinkedPin hL hp hf => ?_⟩
  · rw [InitNodePool_loop_add, InitNodePool_loop_fixed g NodesToFormat k _ hdone]
  · rcases i4 hp hf with h | h | h | h
    · exact h
    · rw [hO] at h; exact absurd h (List.not_mem_nil _)
    · rw [hI] at h; exact absurd h (List.not_mem_nil _)
    · exact absurd h (by simp)
  · rcases i3 m hm _ (InitNodePool_links_of_mem g m Pin LinkedPin hPin hE hL) hp hf
      with h | h | h | h
    · exact h
    · rw [hO] at h; exact absurd h (List.not_mem_nil _)
    · rw [hI] at h; exact absurd h (List.not_mem_nil _)
    · exact absurd h (by simp)

set_option maxRecDepth 1000000 in
/-- On `poolGraph` (nodes 0..3, an execution cycle 1 -> 3 -> 1 and the pure node 2) from
root 0 without a selection, the loop ends and the pool is the three impure nodes. -/
theorem InitNodePool_pool_closed_witness :
    (0 ∈ [0, 1, 2, 3] ∧
      ∀ n ∈ [0, 1, 2, 3], ∀ Pin ∈ poolGraph.Pins n, ∀ LinkedPin ∈ poolGraph.LinkedTo Pin,
        poolGraph.OwningNode LinkedPin ∈ [0, 1, 2, 3]) ∧
    (InitNodePool_loop poolGraph [] 8 (InitNodePool_init 0)).NodePool = [0, 1, 3] ∧
    InitNodePool_done (InitNodePool_loop poolGraph []
      (InitNodePool_fuel poolGraph [0, 1, 2, 3]) (InitNodePool_init 0)) = true :=
  ⟨by decide, by decide,
    (InitNodePool_pool_closed poolGraph [] 0 [0, 1, 2, 3] (by decide) (by decide)).1⟩

theorem StableSort_perm {α : Type} (lt : α → α → Bool) (l : List α) :
    (StableSort lt l).Perm l :=
  List.perm_insertionSort _ l

theorem FormatParameterNodes_claim_map (M : Nat) (s : ParameterState) (N : Nat) :
    (FormatParameterNodes_claim M s N).ParameterParentMap N = some M ∧
    (∀ n, n ≠ N → (FormatParameterNodes_claim M s N).ParameterParentMap n
      = s.ParameterParentMap n) ∧
    (FormatParameterNodes_claim M s N).IgnoredNodes = s.IgnoredNodes := by
  refine ⟨by simp [FormatParameterNodes_claim], fun n hn => ?_, rfl⟩
  simp [FormatParameterNodes_claim, hn]

theorem FormatParameterNodes_claim_formatter (M : Nat) (s : ParameterState) (N j : Nat) :
    ((FormatParameterNodes_claim M s N).ParameterFormatterMap j = s.ParameterFormatterMap j ∧
      s.ParameterParentMap N ≠ some j) ∨
    ((FormatParameterNodes_claim M s N).ParameterFormatterMap j
        = (s.ParameterFormatterMap j).dropNode N ∧
      s.ParameterParentMap N = some j) := by
  unfold FormatParameterNodes_claim
  cases h : s.ParameterParentMap N with
  | none => exact Or.inl ⟨rfl, by simp⟩
  | some Q =>
    by_cases hj : j = Q
    · right
      subst hj
      simp
    · left
      refine ⟨by simp [hj], ?_⟩
      intro e
      exact hj (Option.some.inj e).symm

theorem dropNode_facts (F : FEdGraphParameterFormatter) (N : Nat) :
    (∀ P ∈ (F.dropNode N).AllFormattedNodes, P ∈ F.AllFormattedNodes ∧ P ≠ N) ∧
    (∀ P ∈ (F.dropNode N).FormattedOutputNodes, P ∈ F.FormattedOutputNodes ∧ P ≠ N) ∧
    (∀ P, P ∈ F.IgnoredNodes ∨ P = N → P ∈ (F.dropNode N).IgnoredNodes) ∧
    (F.dropNode N).FormattedInputNodes = F.FormattedInputNodes := by
  refine ⟨fun P hP => ?_, fun P hP => ?_, fun P hP => ?_, rfl⟩
  · simpa [FEdGraphParameterFormatter.dropNode] using hP
  · simpa [FEdGraphParameterFormatter.dropNode] using hP
  · simpa [FEdGraphParameterFormatter.dropNode] using hP

theorem FormatParameterNodes_claim_mono (M : Nat) (s : ParameterState) (N j : Nat) :
    (∀ P ∈ ((FormatParameterNodes_claim M s N).ParameterFormatterMap j).AllFormattedNodes,
      P ∈ (s.ParameterFormatterMap j).AllFormattedNodes) ∧
    (∀ P ∈ ((FormatParameterNodes_claim M s N).ParameterFormatterMap j).FormattedOutputNodes,
      P ∈ (s.ParameterFormatterMap j).FormattedOutputNodes) ∧
    (∀ P ∈ (s.ParameterFormatterMap j).IgnoredNodes,
      P ∈ ((FormatParameterNodes_claim M s N).ParameterFormatterMap j).IgnoredNodes) := by
  rcases FormatParameterNodes_claim_formatter M s N j with ⟨h, _⟩ | ⟨h, _⟩
  · rw [h]
    exact ⟨fun P hP => hP, fun P hP => hP, fun P hP => hP⟩
  · rw [h]
    obtain ⟨d1, d2, d3, _⟩ := dropNode_facts (s.ParameterFormatterMap j) N
    exact ⟨fun P hP => (d1 P hP).1, fun P hP => (d2 P hP).1, fun P hP => d3 P (Or.inl hP)⟩

theorem FormatParameterNodes_claims_mono (M : Nat) (L : List Nat) (s : ParameterState) :
    (∀ j, ∀ P ∈ ((L.foldl (FormatParameterNodes_claim M) s).ParameterFormatterMap
        j).AllFormattedNodes, P ∈ (s.ParameterFormatterMap j).AllFormattedNodes) ∧
    (∀ j, ∀ P ∈ ((L.foldl (FormatParameterNodes_claim M) s).ParameterFormatterMap
        j).FormattedOutputNodes, P ∈ (s.ParameterFormatterMap j).FormattedOutputNodes) ∧
    (∀ j, ∀ P ∈ (s.ParameterFormatterMap j).IgnoredNodes,
      P ∈ ((L.foldl (FormatParameterNodes_claim M) s).ParameterFormatterMap j).IgnoredNodes) ∧
    (∀ n, n ∉ L → (L.foldl (FormatParameterNodes_claim M) s).ParameterParentMap n
      = s.ParameterParentMap n) ∧
    (L.foldl (FormatParameterNodes_claim M) s).IgnoredNodes = s.IgnoredNodes := by
  induction L generalizing s with
  | nil => exact ⟨fun j P h => h, fun j P h => h, fun j P h => h, fun n _ => rfl, rfl⟩
  | cons a L ih =>
    rw [List.foldl_cons]
    obtain ⟨i1, i2, i3, i4, i5⟩ := ih (FormatParameterNodes_claim M s a)
    obtain ⟨m1, m2, m3⟩ := FormatParameterNodes_claim_map M s a
    refine ⟨fun j P h => (FormatParameterNodes_claim_mono M s a j).1 P (i1 j P h),
      fun j P h => (FormatParameterNodes_claim_mono M s a j).2.1 P (i2 j P h),
      fun j P h => i3 j P ((FormatParameterNodes_claim_mono M s a j).2.2 P h),
      fun n hn => ?_, i5.trans m3⟩
    rw [i4 n (fun h => hn (List.mem_cons_of_mem a h)),
      m2 n (fun h => hn (h ▸ List.mem_cons_self a L))]

theorem FormatParameterNodes_claims_takeover (M : Nat) (L : List Nat) (hL : L.Nodup)
    (s : ParameterState) (P A : Nat) (hP : P ∈ L) (hA : s.ParameterParentMap P = some A) :
    (L.foldl (FormatParameterNodes_claim M) s).ParameterParentMap P = some M ∧
    P ∉ ((L.foldl (FormatParameterNodes_claim M) s).ParameterFormatterMap
      A).AllFormattedNodes ∧
    P ∉ ((L.foldl (FormatParameterNodes_claim M) s).ParameterFormatterMap
      A).FormattedOutputNodes ∧
    P ∈ ((L.foldl (FormatParameterNodes_claim M) s).ParameterFormatterMap A).IgnoredNodes := by
  induction L generalizing s with
  | nil => exact absurd hP (List.not_mem_nil P)
  | cons a L ih =>
    have hn := List.nodup_cons.1 hL
    rw [List.foldl_cons]
    obtain ⟨m1, m2, _⟩ := FormatParameterNodes_claim_map M s a
    by_cases hPa : P = a
    · subst hPa
      obtain ⟨i1, i2, i3, i4, _⟩ := FormatParameterNodes_claims_mono M L
        (FormatParameterNodes_claim M s P)
      have hdrop : (FormatParameterNodes_claim M s P).ParameterFormatterMap A
          = (s.ParameterFormatterMap A).dropNode P := by
        rcases FormatParameterNodes_claim_formatter M s P A with ⟨_, h⟩ | ⟨h, _⟩
        · exact absurd hA h
        · exact h
      obtain ⟨d1, d2, d3, _⟩ := dropNode_facts (s.ParameterFormatterMap A) P
      refine ⟨by rw [i4 P hn.1]; exact m1, fun h => ?_, fun h => ?_, ?_⟩
      · have := i1 A P h
        rw [hdrop] at this
        exact (d1 P this).2 rfl
      · have := i2 A P h
        rw [hdrop] at this
        exact (d2 P this).2 rfl
      · apply i3 A P
        rw [hdrop]
        exact d3 P (Or.inr rfl)
    · have hPL : P ∈ L := by
        rcases List.mem_cons.1 hP with h | h
        · exact absurd h hPa
        · exact h
      exact ih hn.2 _ hPL (by rw [m2 P hPa]; exact hA)

theorem FormatParameterNodes_claims_inv (M : Nat) (Proc : List Nat) (hM : M ∉ Proc)
    (L : List Nat) (hL : L.Nodup) (s : ParameterState)
    (h1 : ∀ A ∈ Proc, ∀ P ∈ (s.ParameterFormatterMap A).AllFormattedNodes,
      s.ParameterParentMap P = some A)
    (h2 : ∀ P C, s.ParameterParentMap P = some C → C ∈ Proc ∨ (C = M ∧ P ∉ L)) :
    (∀ A ∈ Proc, ∀ P ∈ ((L.foldl (FormatParameterNodes_claim M) s).ParameterFormatterMap
        A).AllFormattedNodes,
      (L.foldl (FormatParameterNodes_claim M) s).ParameterParentMap P = some A) ∧
    (∀ P C, (L.foldl (FormatParameterNodes_claim M) s).ParameterParentMap P = some C →
      C ∈ Proc ∨ C = M) ∧
    (∀ P ∈ L, (L.foldl (FormatParameterNodes_claim M) s).ParameterParentMap P = some M) ∧
    (∀ P, s.ParameterParentMap P = some M →
      (L.foldl (FormatParameterNodes_claim M) s).ParameterParentMap P = some M) ∧
    (L.foldl (FormatParameterNodes_claim M) s).ParameterFormatterMap M
      = s.ParameterFormatterMap M := by
  induction L generalizing s with
  | nil =>
    refine ⟨h1, fun P C h => ?_, fun P hP => absurd hP (List.not_mem_nil P), fun P h => h, rfl⟩
    rcases h2 P C h with h | h
    · exact Or.inl h
    · exact Or.inr h.1
  | cons a L ih =>
    have hn := List.nodup_cons.1 hL
    rw [List.foldl_cons]
    obtain ⟨m1, m2, _⟩ := FormatParameterNodes_claim_map M s a
    have k1 : ∀ A ∈ Proc,
        ∀ P ∈ ((FormatParameterNodes_claim M s a).ParameterFormatterMap A).AllFormattedNodes,
        (FormatParameterNodes_claim M s a).ParameterParentMap P = some A := by
      intro A hA P hP
      rcases FormatParameterNodes_claim_formatter M s a A with ⟨h, _⟩ | ⟨h, hmap⟩
      · rw [h] at hP
        have hPA := h1 A hA P hP
        by_cases hPa : P = a
        · subst hPa
          exact absurd hPA (by assumption)
        · rw [m2 P hPa]; exact hPA
      · rw [h] at hP
        obtain ⟨d1, _⟩ := dropNode_facts (s.ParameterFormatterMap A) a
        obtain ⟨hP1, hP2⟩ := d1 P hP
        rw [m2 P hP2]
        exact h1 A hA P hP1
    have k2 : ∀ P C, (FormatParameterNodes_claim M s a).ParameterParentMap P = some C →
        C ∈ Proc ∨ (C = M ∧ P ∉ L) := by
      intro P C h
      by_cases hPa : P = a
      · subst hPa
        rw [m1] at h
        exact Or.inr ⟨(Option.some.inj h).symm, hn.1⟩
      · rw [m2 P hPa] at h
        rcases h2 P C h with h | ⟨h, h3⟩
        · exact Or.inl h
        · exact Or.inr ⟨h, fun h4 => h3 (List.mem_cons_of_mem a h4)⟩
    have k3 : (FormatParameterNodes_claim M s a).ParameterFormatterMap M
        = s.ParameterFormatterMap M := by
      rcases FormatParameterNodes_claim_formatter M s a M with ⟨h, _⟩ | ⟨_, hmap⟩
      · exact h
      · rcases h2 a M hmap with h | ⟨_, h⟩
        · exact absurd h hM
        · exact absurd (List.mem_cons_self a L) h
    obtain ⟨j1, j2, j3, j4, j5⟩ := ih hn.2 (FormatParameterNodes_claim M s a) k1 k2
    refine ⟨j1, j2, fun P hP => ?_, fun P h => ?_, j5.trans k3⟩
    · rcases List.mem_cons.1 hP with h | h
      · subst h
        exact j4 P m1
      · exact j3 P h
    · by_cases hPa : P = a
      · subst hPa
        exact j4 P m1
      · exact j4 P (by rw [m2 P hPa]; exact h)
theorem FormatParameterNodes_main_inv
    (FormatNode : ParameterState → Nat → FEdGraphParameterFormatter → FEdGraphParameterFormatter)
    (Proc : List Nat) (s : ParameterState) (M : Nat) (hM : M ∉ Proc)
    (h : ParameterState_inv Proc s) :
    ParameterState_inv (Proc ++ [M]) (FormatParameterNodes_main FormatNode s M) := by
  obtain ⟨h1, h2⟩ := h
  unfold FormatParameterNodes_main
  dsimp only
  have hs1 : ∀ A ∈ Proc, ∀ P ∈ ((fun j => if j = M
      then FormatParameterNodes_format FormatNode s M
      else s.ParameterFormatterMap j) A).AllFormattedNodes,
      s.ParameterParentMap P = some A := by
    intro A hA P hP
    have hAM : A ≠ M := fun e => hM (e ▸ hA)
    simp only [hAM, if_false] at hP
    exact h1 A hA P hP
  obtain ⟨j1, j2, j3, _, j5⟩ := FormatParameterNodes_claims_inv M Proc hM
    (FormatParameterNodes_format FormatNode s M).GetFormattedNodes
    (List.nodup_dedup _)
    { s with ParameterFormatterMap := fun j =>
        if j = M then FormatParameterNodes_format FormatNode s M
        else s.ParameterFormatterMap j }
    hs1 (fun P C hPC => Or.inl (h2 P C hPC))
  refine ⟨fun A hA P hP => ?_, fun P C hPC => ?_⟩
  · rcases List.mem_append.1 hA with hA | hA
    · exact j1 A hA P hP
    · rw [List.mem_singleton] at hA
      subst hA
      apply j3 P
      have hP2 : P ∈ ((List.foldl (FormatParameterNodes_claim A)
          { s with ParameterFormatterMap := fun j =>
              if j = A then FormatParameterNodes_format FormatNode s A
              else s.ParameterFormatterMap j }
          (FormatParameterNodes_format FormatNode s A).GetFormattedNodes).ParameterFormatterMap
          A).AllFormattedNodes := hP
      rw [j5] at hP2
      simp only [if_true] at hP2
      exact List.mem_dedup.2 hP2
  · rcases j2 P C hPC with h | h
    · exact List.mem_append_left _ h
    · exact List.mem_append_right _ (List.mem_singleton.2 h)

theorem FormatParameterNodes_fold_inv
    (FormatNode : ParameterState → Nat → FEdGraphParameterFormatter → FEdGraphParameterFormatter)
    (L : List Nat) (Proc : List Nat) (s : ParameterState) (hL : L.Nodup)
    (hd : ∀ x ∈ L, x ∉ Proc) (h : ParameterState_inv Proc s) :
    ParameterState_inv (Proc ++ L) (L.foldl (FormatParameterNodes_main FormatNode) s) := by
  induction L generalizing Proc s with
  | nil => simpa using h
  | cons a L ih =>
    have hn := List.nodup_cons.1 hL
    rw [List.foldl_cons]
    have := ih (Proc ++ [a]) (FormatParameterNodes_main FormatNode s a) hn.2
      (fun x hx hx2 => by
        rcases List.mem_append.1 hx2 with h3 | h3
        · exact hd x (List.mem_cons_of_mem a hx) h3
        · rw [List.mem_singleton] at h3
          exact hn.1 (h3 ▸ hx))
      (FormatParameterNodes_main_inv FormatNode Proc s a (hd a (List.mem_cons_self a L)) h)
    simpa only [List.append_assoc, List.singleton_append] using this

theorem LeftTopMostSort_false_iff (X Y : Nat → Int) (a b : Nat) :
    LeftTopMostSort X Y b a = false ↔ (X a < X b ∨ (X a = X b ∧ Y a ≤ Y b)) := by
  unfold LeftTopMostSort
  by_cases h : X b = X a
  · rw [if_neg (by simpa using h)]
    rw [decide_eq_false_iff_not]
    constructor
    · intro h1; exact Or.inr ⟨h.symm, by omega⟩
    · intro h1
      rcases h1 with h1 | h1
      · omega
      · omega
  · rw [if_pos (by simpa using h)]
    rw [decide_eq_false_iff_not]
    constructor
    · intro h1
      left
      have : X a ≠ X b := fun e => h e.symm
      omega
    · intro h1
      rcases h1 with h1 | h1
      · omega
      · exact absurd h1.1.symm h
theorem FormatParameterNodes_order_sorted (NodePosX NodePosY : Nat → Int) (NodePool : List Nat) :
    (FormatParameterNodes_order NodePosX NodePosY NodePool).Pairwise
      (fun A B => NodePosX A < NodePosX B ∨ (NodePosX A = NodePosX B ∧ NodePosY A ≤ NodePosY B)) := by
  unfold FormatParameterNodes_order StableSort
  haveI : IsTotal Nat (fun a b => LeftTopMostSort NodePosX NodePosY b a = false) :=
    ⟨fun a b => by
      show LeftTopMostSort NodePosX NodePosY b a = false ∨
        LeftTopMostSort NodePosX NodePosY a b = false
      rw [LeftTopMostSort_false_iff, LeftTopMostSort_false_iff]
      omega⟩
  haveI : IsTrans Nat (fun a b => LeftTopMostSort NodePosX NodePosY b a = false) :=
    ⟨fun a b c => by
      show LeftTopMostSort NodePosX NodePosY b a = false →
        LeftTopMostSort NodePosX NodePosY c b = false →
        LeftTopMostSort NodePosX NodePosY c a = false
      rw [LeftTopMostSort_false_iff, LeftTopMostSort_false_iff, LeftTopMostSort_false_iff]
      omega⟩
  have hs := List.sorted_insertionSort
    (fun a b => LeftTopMostSort NodePosX NodePosY b a = false) NodePool
  refine List.Pairwise.imp ?_ hs
  intro a b hab
  exact (LeftTopMostSort_false_iff NodePosX NodePosY a b).1 hab

theorem FormatParameterNodes_main_takeover
    (FormatNode : ParameterState → Nat → FEdGraphParameterFormatter → FEdGraphParameterFormatter)
    (s : ParameterState) (M P A : Nat)
    (hP : P ∈ (FormatParameterNodes_format FormatNode s M).GetFormattedNodes)
    (hA : s.ParameterParentMap P = some A) :
    (FormatParameterNodes_main FormatNode s M).ParameterParentMap P = some M ∧
    P ∉ ((FormatParameterNodes_main FormatNode s M).ParameterFormatterMap A).AllFormattedNodes ∧
    P ∉ ((FormatParameterNodes_main FormatNode s M).ParameterFormatterMap
      A).FormattedOutputNodes ∧
    P ∈ ((FormatParameterNodes_main FormatNode s M).ParameterFormatterMap A).IgnoredNodes :=
  FormatParameterNodes_claims_takeover M _ (List.nodup_dedup _)
    { s with ParameterFormatterMap := fun j =>
        if j = M then FormatParameterNodes_format FormatNode s M
        else s.ParameterFormatterMap j } P A hP hA

/-- C20: the first pass of `FormatParameterNodes` processes the main nodes of a duplicate-free
`NodePool` in ascending (NodePosX, then NodePosY) order; when the formatter of the main node
being processed claims a node that already has a parent formatter, the node's entry in
`ParameterParentMap` becomes the main node being processed, and the previous parent formatter
loses the node from `AllFormattedNodes` and `FormattedOutputNodes` and gets it into
`IgnoredNodes`; at the end of the pass every node in the formatted set of a main node has
that main node as its parent, so no node is in the formatted sets of two main nodes. -/
theorem FormatParameterNodes_later_owner_wins (NodePosX NodePosY : Nat → Int)
    (FormatNode : ParameterState → Nat → FEdGraphParameterFormatter → FEdGraphParameterFormatter)
    (ParameterFormatterMap : Nat → FEdGraphParameterFormatter) (NodePool : List Nat)
    (hN : NodePool.Nodup) :
    (FormatParameterNodes_order NodePosX NodePosY NodePool).Perm NodePool ∧
    (FormatParameterNodes_order NodePosX NodePosY NodePool).Pairwise
      (fun A B => NodePosX A < NodePosX B ∨
        (NodePosX A = NodePosX B ∧ NodePosY A ≤ NodePosY B)) ∧
    (∀ (s : ParameterState) (MainNode NodeToCheck ParentFormatter : Nat),
      NodeToCheck ∈ (FormatParameterNodes_format FormatNode s MainNode).GetFormattedNodes →
      s.ParameterParentMap NodeToCheck = some ParentFormatter →
      (FormatParameterNodes_main FormatNode s MainNode).ParameterParentMap NodeToCheck
        = some MainNode ∧
      NodeToCheck ∉ ((FormatParameterNodes_main FormatNode s MainNode).ParameterFormatterMap
        ParentFormatter).AllFormattedNodes ∧
      NodeToCheck ∉ ((FormatParameterNodes_main FormatNode s MainNode).ParameterFormatterMap
        ParentFormatter).FormattedOutputNodes ∧
      NodeToCheck ∈ ((FormatParameterNodes_main FormatNode s MainNode).ParameterFormatterMap
        ParentFormatter).IgnoredNodes) ∧
    (∀ A ∈ NodePool, ∀ P ∈ ((FormatParameterNodes_firstPass NodePosX NodePosY FormatNode
        ParameterFormatterMap NodePool).ParameterFormatterMap A).AllFormattedNodes,
      (FormatParameterNodes_firstPass NodePosX NodePosY FormatNode ParameterFormatterMap
        NodePool).ParameterParentMap P = some A) ∧
    (∀ A ∈ NodePool, ∀ B ∈ NodePool, A ≠ B →
      ∀ P ∈ ((FormatParameterNodes_firstPass NodePosX NodePosY FormatNode
        ParameterFormatterMap NodePool).ParameterFormatterMap A).AllFormattedNodes,
      P ∉ ((FormatParameterNodes_firstPass NodePosX NodePosY FormatNode
        ParameterFormatterMap NodePool).ParameterFormatterMap B).AllFormattedNodes) := by
  have hperm : (FormatParameterNodes_order NodePosX NodePosY NodePool).Perm NodePool :=
    StableSort_perm _ _
  have hinv := FormatParameterNodes_fold_inv FormatNode
    (FormatParameterNodes_order NodePosX NodePosY NodePool) []
    { ParameterFormatterMap := ParameterFormatterMap
      ParameterParentMap := fun _ => none
      IgnoredNodes := [] }
    (hperm.nodup_iff.2 hN) (fun x _ h => absurd h (List.not_mem_nil x))
    ⟨fun A hA => absurd hA (List.not_mem_nil A), fun P C h => by simp at h⟩
  rw [List.nil_append] at hinv
  have hfinal : ∀ A ∈ NodePool, ∀ P ∈ ((FormatParameterNodes_firstPass NodePosX NodePosY
      FormatNode ParameterFormatterMap NodePool).ParameterFormatterMap A).AllFormattedNodes,
      (FormatParameterNodes_firstPass NodePosX NodePosY FormatNode ParameterFormatterMap
        NodePool).ParameterParentMap P = some A :=
    fun A hA P hP => hinv.1 A (hperm.mem_iff.2 hA) P hP
  refine ⟨hperm, FormatParameterNodes_order_sorted NodePosX NodePosY NodePool,
    fun s M P A hP hA => FormatParameterNodes_main_takeover FormatNode s M P A hP hA,
    hfinal, fun A hA B hB hAB P hPA hPB => ?_⟩
  have h1 := hfinal A hA P hPA
  have h2 := hfinal B hB P hPB
  rw [h1] at h2
  exact hAB (Option.some.inj h2)

set_option maxRecDepth 1000000 in
/-- With the pool [2, 1], node 1 at x = 0 and node 2 at x = 300, node 1 is processed first;
after the pass node 7 is in the formatted set of node 2 only. -/
theorem FormatParameterNodes_later_owner_wins_witness :
    [2, 1].Nodup ∧
    FormatParameterNodes_order (fun n => if n = 1 then 0 else 300) (fun _ => 0) [2, 1]
      = [1, 2] ∧
    7 ∉ ((FormatParameterNodes_firstPass (fun n => if n = 1 then 0 else 300) (fun _ => 0)
      sharedFormatNode (fun _ => emptyParameterFormatter) [2, 1]).ParameterFormatterMap
      1).AllFormattedNodes :=
  ⟨by decide, by decide,
    (FormatParameterNodes_later_owner_wins (fun n => if n = 1 then 0 else 300) (fun _ => 0)
      sharedFormatNode (fun _ => emptyParameterFormatter) [2, 1] (by decide)).2.2.2.2
      2 (by decide) 1 (by decide) (by decide) 7 (by decide)⟩

set_option maxRecDepth 1000000 in
/-- C20, counterexample to "the earlier owner stays the owner": both main nodes claim node 7,
node 1 is processed before node 2, and after the pass the parent of node 7 is the later main
node 2, while the formatter of the earlier main node 1 has dropped node 7 and ignores it. -/
theorem FormatParameterNodes_earlier_owner_loses :
    FormatParameterNodes_order (fun n => if n = 1 then 0 else 300) (fun _ => 0) [2, 1]
      = [1, 2] ∧
    7 ∈ (sharedFormatNode
      { ParameterFormatterMap := fun _ => emptyParameterFormatter
        ParameterParentMap := fun _ => none, IgnoredNodes := [] } 1
      emptyParameterFormatter).GetFormattedNodes ∧
    7 ∈ (sharedFormatNode
      { ParameterFormatterMap := fun _ => emptyParameterFormatter
        ParameterParentMap := fun _ => none, IgnoredNodes := [] } 2
      emptyParameterFormatter).GetFormattedNodes ∧
    (FormatParameterNodes_firstPass (fun n => if n = 1 then 0 else 300) (fun _ => 0)
      sharedFormatNode (fun _ => emptyParameterFormatter) [2, 1]).ParameterParentMap 7
      = some 2 ∧
    (FormatParameterNodes_firstPass (fun n => if n = 1 then 0 else 300) (fun _ => 0)
      sharedFormatNode (fun _ => emptyParameterFormatter) [2, 1]).ParameterFormatterMap 1
      = { FormattedInputNodes := [], FormattedOutputNodes := [], AllFormattedNodes := [1]
          IgnoredNodes := [7] } ∧
    (FormatParameterNodes_firstPass (fun n => if n = 1 then 0 else 300) (fun _ => 0)
      sharedFormatNode (fun _ => emptyParameterFormatter) [2, 1]).ParameterFormatterMap 2
      = { FormattedInputNodes := [7], FormattedOutputNodes := [], AllFormattedNodes := [2, 7]
          IgnoredNodes := [] } := by
  decide

/-! ### `FormatX`: structural invariant, termination, and the final `FormatXInfoMap` -/

theorem InfoNode_zero {Env : Type} (P : FormatXParams Env) (s : FormatXState Env)
    (h : FormatX_inv P s) : InfoNode P.g s.Infos 0 = P.RootNode := by
  unfold InfoNode
  rw [h.root_link]
  rfl

theorem IsMapInfo_zero {Env : Type} (P : FormatXParams Env) (s : FormatXState Env)
    (h : FormatX_inv P s) : IsMapInfo P s 0 := by
  unfold IsMapInfo
  rw [InfoNode_zero P s h]
  exact h.root_map

theorem IsMapInfo_inj {Env : Type} (P : FormatXParams Env) (s : FormatXState Env)
    (a b : Nat) (ha : IsMapInfo P s a) (hb : IsMapInfo P s b)
    (hn : InfoNode P.g s.Infos a = InfoNode P.g s.Infos b) : a = b := by
  unfold IsMapInfo at ha hb
  rw [hn, hb] at ha
  exact (Option.some.inj ha).symm

theorem IsMapInfo_of_map {Env : Type} (P : FormatXParams Env) (s : FormatXState Env)
    (h : FormatX_inv P s) (n i : Nat) (hm : s.FormatXInfoMap n = some i) : IsMapInfo P s i := by
  unfold IsMapInfo
  rw [(h.map_lt n i hm).2]
  exact hm

theorem InfoNode_link {Env : Type} (P : FormatXParams Env) (s : FormatXState Env)
    (i pp lp : Nat)
    (h : (s.Infos i).Link = { From := some pp, To := some lp, FallbackNode := P.g.OwningNode lp }) :
    InfoNode P.g s.Infos i = P.g.OwningNode lp := by
  unfold InfoNode
  rw [h]
  rfl

theorem InfoNode_mem {Env : Type} (P : FormatXParams Env) (s : FormatXState Env)
    (h : FormatX_inv P s) (i : Nat) (hi : i < s.NumInfos) :
    InfoNode P.g s.Infos i ∈ P.RootNode :: P.NodePool := by
  by_cases h0 : i = 0
  · subst h0
    rw [InfoNode_zero P s h]
    exact List.mem_cons_self _ _
  · obtain ⟨pp, lp, p, h1, h2, _⟩ := h.link i (Nat.pos_of_ne_zero h0) hi
    rw [InfoNode_link P s i pp lp h1]
    exact List.mem_cons_of_mem _ h2

theorem FormatX_init_inv {Env : Type} (P : FormatXParams Env) (pos : Nat → Int) (env : Env) :
    FormatX_inv P (FormatX_init P pos env) ∧ FormatX_visited P (FormatX_init P pos env) := by
  refine ⟨⟨le_refl _, rfl, rfl, by simp [FormatX_init], fun i h0 hi => ?_, fun n i hm => ?_,
    fun e he => ?_, fun c k hk => ?_, fun c => List.nodup_nil, fun k p hk hp => ?_⟩,
    Or.inr ⟨rfl, rfl, fun n hn => ?_⟩⟩
  · exact absurd hi (by simp [FormatX_init]; omega)
  · simp only [FormatX_init] at hm
    by_cases hn : n = P.RootNode
    · simp only [hn, if_true, Option.some.injEq] at hm
      subst hm
      exact ⟨by simp [FormatX_init], by rw [hn]; rfl⟩
    · simp [hn] at hm
  · simp only [FormatX_init, List.append_nil, List.mem_singleton] at he
    subst he
    simp [FormatX_init]
  · simp [FormatX_init] at hk
  · simp [FormatX_init] at hp
  · by_contra hne
    simp [FormatX_init, hne] at hn

theorem SetParent_removeFromOld_Children (X : Nat → FFormatXInfo) (self q c : Nat)
    (hq : (X self).Parent = some q) :
    (SetParent_removeFromOld X self c).Children =
      if c = q then (X c).Children.filter (· ≠ self) else (X c).Children := by
  unfold SetParent_removeFromOld
  rw [hq]
  simp only [setInfo]
  by_cases hcq : c = q
  · subst hcq
    simp
  · simp [hcq]

theorem SetParent_addToNew_Children (I : Nat → FFormatXInfo) (self p c : Nat) :
    (SetParent_addToNew I self (some p) c).Children =
      (I c).Children ++ (if c = p then [self] else []) := by
  unfold SetParent_addToNew
  simp only [setInfo]
  by_cases hp : c = p
  · subst hp
    simp
  · simp [hp]

theorem SetParent_Children (X : Nat → FFormatXInfo) (self p q c : Nat)
    (hq : (X self).Parent = some q) :
    (SetParent X self (some p) c).Children =
      (if c = q then (X c).Children.filter (· ≠ self) else (X c).Children)
        ++ (if c = p then [self] else []) := by
  have h1 : (SetParent X self (some p) c).Children
      = (SetParent_addToNew (SetParent_removeFromOld X self) self (some p) c).Children := by
    unfold SetParent
    simp only [setInfo]
    by_cases hs : c = self
    · subst hs
      simp
    · simp [hs]
  rw [h1, SetParent_addToNew_Children, SetParent_removeFromOld_Children X self q c hq]

theorem SetParent_mem_Children (X : Nat → FFormatXInfo) (self p q c k : Nat)
    (hq : (X self).Parent = some q) :
    k ∈ (SetParent X self (some p) c).Children ↔
      (c = p ∧ k = self) ∨ (k ∈ (X c).Children ∧ (c = q → k ≠ self)) := by
  rw [SetParent_Children X self p q c hq, List.mem_append]
  have h1 : k ∈ (if c = q then (X c).Children.filter (· ≠ self) else (X c).Children) ↔
      (k ∈ (X c).Children ∧ (c = q → k ≠ self)) := by
    by_cases hcq : c = q
    · rw [if_pos hcq, List.mem_filter]
      simp [hcq]
    · rw [if_neg hcq]
      simp [hcq]
  have h2 : k ∈ (if c = p then [self] else []) ↔ (c = p ∧ k = self) := by
    by_cases hp : c = p
    · rw [if_pos hp]
      simp [hp]
    · rw [if_neg hp]
      simp [hp]
  rw [h1, h2]
  tauto

theorem SetParent_Children_nodup (X : Nat → FFormatXInfo) (self p q c : Nat)
    (hq : (X self).Parent = some q) (hN : (X c).Children.Nodup)
    (hself : self ∈ (X c).Children → c = q) :
    (SetParent X self (some p) c).Children.Nodup := by
  rw [SetParent_Children X self p q c hq]
  have h1 : (if c = q then (X c).Children.filter (· ≠ self) else (X c).Children).Nodup := by
    by_cases h : c = q
    · rw [if_pos h]
      exact hN.filter _
    · rw [if_neg h]
      exact hN
  have h2 : self ∉ (if c = q then (X c).Children.filter (· ≠ self) else (X c).Children) := by
    by_cases h : c = q
    · rw [if_pos h]
      simp [List.mem_filter]
    · rw [if_neg h]
      exact fun hm => h (hself hm)
  by_cases hp : c = p
  · rw [if_pos hp]
    exact List.nodup_append.2 ⟨h1, List.nodup_singleton _, by
      intro a ha hb
      rw [List.mem_singleton] at hb
      exact h2 (hb ▸ ha)⟩
  · rw [if_neg hp, List.append_nil]
    exact h1

theorem FormatX_pop_perm {Env : Type} (s : FormatXState Env) (cur : Nat) (out inp : List Nat)
    (h : FormatX_pop s = some (cur, out, inp)) :
    (s.OutputStack ++ s.InputStack).Perm (cur :: (out ++ inp)) := by
  unfold FormatX_pop at h
  cases hd : s.LastDirection with
  | EGPD_Output =>
    rw [hd] at h
    cases ho : s.OutputStack with
    | cons c o =>
      rw [ho] at h
      simp only [Option.some.injEq, Prod.mk.injEq] at h
      obtain ⟨rfl, rfl, rfl⟩ := h
      exact List.Perm.refl _
    | nil =>
      rw [ho] at h
      cases hi : s.InputStack with
      | cons c i =>
        rw [hi] at h
        simp only [Option.some.injEq, Prod.mk.injEq] at h
        obtain ⟨rfl, rfl, rfl⟩ := h
        exact List.Perm.refl _
      | nil =>
        rw [hi] at h
        simp at h
  | EGPD_Input =>
    rw [hd] at h
    cases hi : s.InputStack with
    | cons c i =>
      rw [hi] at h
      simp only [Option.some.injEq, Prod.mk.injEq] at h
      obtain ⟨rfl, rfl, rfl⟩ := h
      simp
    | nil =>
      rw [hi] at h
      cases ho : s.OutputStack with
      | cons c o =>
        rw [ho] at h
        simp only [Option.some.injEq, Prod.mk.injEq] at h
        obtain ⟨rfl, rfl, rfl⟩ := h
        exact List.Perm.refl _
      | nil =>
        rw [ho] at h
        simp at h

theorem FormatX_pop_none {Env : Type} (s : FormatXState Env) :
    FormatX_pop s = none ↔ FormatX_done s = true := by
  unfold FormatX_pop FormatX_done
  cases s.LastDirection <;> cases s.OutputStack <;> cases s.InputStack <;> simp

theorem FormatX_afterPop_inv {Env : Type} (P : FormatXParams Env) (s : FormatXState Env)
    (cur : Nat) (out inp : List Nat) (h : FormatX_inv P s)
    (hpop : FormatX_pop s = some (cur, out, inp)) :
    FormatX_inv P (FormatX_afterPop P s cur out inp) ∧ cur < s.NumInfos := by
  have hperm := FormatX_pop_perm s cur out inp hpop
  have hcur : cur < s.NumInfos := h.stack_lt cur (hperm.mem_iff.2 (List.mem_cons_self _ _))
  refine ⟨⟨h.num_pos, h.root_parent, h.root_link, h.root_map, h.link, h.map_lt,
    fun e he => ?_, h.child, h.child_nodup, h.child_conv⟩, hcur⟩
  exact h.stack_lt e (hperm.mem_iff.2 (List.mem_cons_of_mem _ he))

theorem FormatX_firstVisit_fields {Env : Type} (P : FormatXParams Env) (s : FormatXState Env)
    (cur : Nat) (NewX : Int) :
    (FormatX_firstVisit P s cur NewX).NumInfos = s.NumInfos ∧
    (FormatX_firstVisit P s cur NewX).FormatXInfoMap
      = (fun n => if n = InfoNode P.g s.Infos cur then some cur else s.FormatXInfoMap n) ∧
    (FormatX_firstVisit P s cur NewX).OutputStack = s.OutputStack ∧
    (FormatX_firstVisit P s cur NewX).InputStack = s.InputStack ∧
    (FormatX_firstVisit P s cur NewX).VisitedLinks = s.VisitedLinks := by
  unfold FormatX_firstVisit
  dsimp only
  split_ifs <;> exact ⟨rfl, rfl, rfl, rfl, rfl⟩

theorem FormatX_firstVisit_inv {Env : Type} (P : FormatXParams Env) (s : FormatXState Env)
    (cur : Nat) (NewX : Int) (h : FormatX_inv P s) (hcur : cur < s.NumInfos)
    (hm : s.FormatXInfoMap (InfoNode P.g s.Infos cur) = none) :
    FormatX_inv P (FormatX_firstVisit P s cur NewX) ∧
    IsMapInfo P (FormatX_firstVisit P s cur NewX) cur ∧
    (∀ i, InfoNode P.g (FormatX_firstVisit P s cur NewX).Infos i = InfoNode P.g s.Infos i) ∧
    (∀ i, IsMapInfo P s i → IsMapInfo P (FormatX_firstVisit P s cur NewX) i) ∧
    (∀ n, (FormatX_firstVisit P s cur NewX).FormatXInfoMap n ≠ none →
      n = InfoNode P.g s.Infos cur ∨ s.FormatXInfoMap n ≠ none) := by
  have h0 : cur ≠ 0 := by
    intro e
    rw [e, InfoNode_zero P s h, h.root_map] at hm
    exact absurd hm (by simp)
  obtain ⟨pp, lp, p, hl, hpool, hpure, hpar, hp, hpm⟩ := h.link cur (Nat.pos_of_ne_zero h0) hcur
  have hroot : InfoNode P.g s.Infos cur ≠ P.RootNode := by
    intro e
    rw [e, h.root_map] at hm
    exact absurd hm (by simp)
  obtain ⟨f1, f2, f3, f4, f5⟩ := FormatX_firstVisit_fields P s cur NewX
  have fI : (FormatX_firstVisit P s cur NewX).Infos = SetParent s.Infos cur (some p) := by
    rw [FormatX_firstVisit_Infos, if_pos hroot, hpar]
  have hnode : ∀ i, InfoNode P.g (FormatX_firstVisit P s cur NewX).Infos i
      = InfoNode P.g s.Infos i := by
    intro i
    unfold InfoNode
    rw [fI, SetParent_Link]
  have hnotmap : ¬ IsMapInfo P s cur := by
    intro e
    unfold IsMapInfo at e
    rw [hm] at e
    exact absurd e (by simp)
  have hmapiff : ∀ i, IsMapInfo P (FormatX_firstVisit P s cur NewX) i ↔
      (i = cur ∨ IsMapInfo P s i) := by
    intro i
    unfold IsMapInfo
    rw [hnode i, f2]
    by_cases hi : InfoNode P.g s.Infos i = InfoNode P.g s.Infos cur
    · simp only [hi, if_true, Option.some.injEq]
      constructor
      · intro e; exact Or.inl e.symm
      · intro e
        rcases e with e | e
        · exact e.symm
        · rw [hm] at e
          exact absurd e (by simp)
    · simp only [hi, if_false]
      constructor
      · intro e; exact Or.inr e
      · intro e
        rcases e with e | e
        · exact absurd (by rw [e]) hi
        · exact e
  have hpar2 : ∀ i, ((FormatX_firstVisit P s cur NewX).Infos i).Parent = (s.Infos i).Parent := by
    intro i
    rw [fI, SetParent_Parent]
    by_cases hi : i = cur
    · rw [if_pos hi, hi, hpar]
    · rw [if_neg hi]
  have hcurnot : ∀ c, cur ∉ (s.Infos c).Children :=
    fun c hc => hnotmap (h.child c cur hc).2.1
  have hmem : ∀ c k, k ∈ ((FormatX_firstVisit P s cur NewX).Infos c).Children ↔
      ((c = p ∧ k = cur) ∨ k ∈ (s.Infos c).Children) := by
    intro c k
    rw [fI, SetParent_mem_Children s.Infos cur p p c k hpar]
    constructor
    · rintro (e | ⟨e, _⟩)
      · exact Or.inl e
      · exact Or.inr e
    · rintro (e | e)
      · exact Or.inl e
      · exact Or.inr ⟨e, fun _ hk => hcurnot c (hk ▸ e)⟩
  refine ⟨⟨by rw [f1]; exact h.num_pos, by rw [hpar2]; exact h.root_parent, ?_, ?_,
    fun i hi0 hiN => ?_, fun n i hmi => ?_, fun e he => ?_, fun c k hk => ?_, fun c => ?_,
    fun k c hk hc => ?_⟩, (hmapiff cur).2 (Or.inl rfl), hnode,
    fun i hi => (hmapiff i).2 (Or.inr hi), fun n hn => ?_⟩
  · rw [fI, SetParent_Link]; exact h.root_link
  · rw [f2]
    have : P.RootNode ≠ InfoNode P.g s.Infos cur := fun e => hroot e.symm
    simp only [this, if_false]
    exact h.root_map
  · rw [f1] at hiN
    obtain ⟨pp2, lp2, p2, a1, a2, a3, a4, a5, a6⟩ := h.link i hi0 hiN
    refine ⟨pp2, lp2, p2, ?_, a2, a3, ?_, by rw [f1]; exact a5, (hmapiff p2).2 (Or.inr a6)⟩
    · rw [fI, SetParent_Link]; exact a1
    · rw [hpar2]; exact a4
  · rw [f2] at hmi
    rw [f1, hnode]
    by_cases hn : n = InfoNode P.g s.Infos cur
    · simp only [hn, if_true, Option.some.injEq] at hmi
      subst hmi
      exact ⟨hcur, hn.symm⟩
    · simp only [hn, if_false] at hmi
      exact h.map_lt n i hmi
  · rw [f3, f4] at he
    rw [f1]
    exact h.stack_lt e he
  · rw [f1, hpar2]
    rcases (hmem c k).1 hk with ⟨e1, e2⟩ | e
    · subst e1 e2
      exact ⟨hcur, (hmapiff k).2 (Or.inl rfl), hpar⟩
    · obtain ⟨b1, b2, b3⟩ := h.child c k e
      exact ⟨b1, (hmapiff k).2 (Or.inr b2), b3⟩
  · rw [fI]
    exact SetParent_Children_nodup s.Infos cur p p c hpar (h.child_nodup c)
      (fun hc => absurd hc (hcurnot c))
  · rw [hpar2] at hc
    rw [hmem]
    rcases (hmapiff k).1 hk with e | e
    · subst e
      rw [hpar] at hc
      exact Or.inl ⟨(Option.some.inj hc).symm, rfl⟩
    · exact Or.inr (h.child_conv k c e hc)
  · rw [f2] at hn
    by_cases hn2 : n = InfoNode P.g s.Infos cur
    · exact Or.inl hn2
    · simp only [hn2, if_false] at hn
      exact Or.inr hn

theorem FormatX_pushChildren_perm (g : EdGraph) (Infos : Nat → FFormatXInfo)
    (Children OutputStack InputStack : List Nat) :
    ((FormatX_pushChildren g Infos Children OutputStack InputStack).1 ++
      (FormatX_pushChildren g Infos Children OutputStack InputStack).2).Perm
      (Children ++ (OutputStack ++ InputStack)) := by
  unfold FormatX_pushChildren
  induction Children generalizing OutputStack InputStack with
  | nil => exact List.Perm.refl _
  | cons c t ih =>
    rw [List.foldl_cons]
    by_cases hd : (Infos c).Link.GetDirection g = EEdGraphPinDirection.EGPD_Output
    · rw [if_pos hd]
      refine (ih (c :: OutputStack) InputStack).trans ?_
      simp only [List.cons_append]
      exact List.perm_middle
    · rw [if_neg hd]
      refine (ih OutputStack (c :: InputStack)).trans ?_
      have h1 : (t ++ (OutputStack ++ c :: InputStack)).Perm (c :: (t ++ (OutputStack ++ InputStack))) := by
        rw [← List.append_assoc, ← List.append_assoc]
        exact List.perm_middle
      simpa using h1

theorem FormatX_bTakeNewParent_true {Env : Type} (P : FormatXParams Env) (s : FormatXState Env)
    (cur old : Nat) (NewX : Int) (h : FormatX_bTakeNewParent P s cur old NewX = true) :
    (s.Infos old).Parent.isSome = true ∧
    ((s.Infos cur).Link.From.isNone = true ∨ FormatX_bHasCycle P s cur old = false) := by
  unfold FormatX_bTakeNewParent at h
  dsimp only at h
  by_cases h1 : ((s.Infos cur).Link.From.isNone || !FormatX_bHasCycle P s cur old) = true
  · rw [if_pos h1] at h
    by_cases h2 : (s.Infos old).Parent.isSome = true
    · refine ⟨h2, ?_⟩
      simp only [Bool.or_eq_true, Bool.not_eq_true'] at h1
      exact h1
    · rw [if_neg h2] at h
      exact absurd h (by simp)
  · rw [if_neg h1] at h
    exact absurd h (by simp)

theorem FormatX_revisit_fields {Env : Type} (P : FormatXParams Env) (s : FormatXState Env)
    (cur old : Nat) (NewX : Int) (h : FormatX_bTakeNewParent P s cur old NewX = true) :
    (FormatX_revisit P s cur old NewX).2 = old ∧
    (FormatX_revisit P s cur old NewX).1.NumInfos = s.NumInfos ∧
    (FormatX_revisit P s cur old NewX).1.FormatXInfoMap = s.FormatXInfoMap ∧
    (FormatX_revisit P s cur old NewX).1.VisitedLinks = s.VisitedLinks ∧
    (FormatX_revisit P s cur old NewX).1.OutputStack
      = (FormatX_pushChildren P.g (FormatX_revisit P s cur old NewX).1.Infos
          ((FormatX_revisit P s cur old NewX).1.Infos old).Children
          s.OutputStack s.InputStack).1 ∧
    (FormatX_revisit P s cur old NewX).1.InputStack
      = (FormatX_pushChildren P.g (FormatX_revisit P s cur old NewX).1.Infos
          ((FormatX_revisit P s cur old NewX).1.Infos old).Children
          s.OutputStack s.InputStack).2 := by
  unfold FormatX_revisit
  rw [if_pos h]
  exact ⟨rfl, rfl, rfl, rfl, rfl, rfl⟩

theorem FormatX_revisit_rejected {Env : Type} (P : FormatXParams Env) (s : FormatXState Env)
    (cur old : Nat) (NewX : Int) (h : ¬ FormatX_bTakeNewParent P s cur old NewX = true) :
    FormatX_revisit P s cur old NewX = (s, cur) := by
  unfold FormatX_revisit
  rw [if_neg h]

theorem FormatX_revisit_accepted {Env : Type} (P : FormatXParams Env) (s : FormatXState Env)
    (cur old : Nat) (NewX : Int) (h : FormatX_inv P s) (hcur : cur < s.NumInfos)
    (hm : s.FormatXInfoMap (InfoNode P.g s.Infos cur) = some old)
    (ht : FormatX_bTakeNewParent P s cur old NewX = true) :
    ∃ p q, (s.Infos cur).Parent = some p ∧ (s.Infos old).Parent = some q ∧
      0 < cur ∧ 0 < old ∧ old < s.NumInfos ∧ IsMapInfo P s old ∧ IsMapInfo P s p ∧
      FormatX_bHasCycle P s cur old = false ∧
      (FormatX_revisit P s cur old NewX).1.Infos
        = SetParent (setInfo s.Infos old { s.Infos old with Link := (s.Infos cur).Link })
            old (some p) ∧
      (∀ i, InfoNode P.g (FormatX_revisit P s cur old NewX).1.Infos i = InfoNode P.g s.Infos i) ∧
      (∀ i, ((FormatX_revisit P s cur old NewX).1.Infos i).Parent
        = if i = old then some p else (s.Infos i).Parent) ∧
      (∀ c k, k ∈ ((FormatX_revisit P s cur old NewX).1.Infos c).Children ↔
        ((c = p ∧ k = old) ∨ (k ∈ (s.Infos c).Children ∧ (c = q → k ≠ old)))) ∧
      (∀ c, ((FormatX_revisit P s cur old NewX).1.Infos c).Children =
        (if c = q then (s.Infos c).Children.filter (· ≠ old) else (s.Infos c).Children)
          ++ (if c = p then [old] else [])) := by
  obtain ⟨t1, t2⟩ := FormatX_bTakeNewParent_true P s cur old NewX ht
  obtain ⟨hold, hnold⟩ := h.map_lt _ _ hm
  have hmold : IsMapInfo P s old := IsMapInfo_of_map P s h _ _ hm
  have hold0 : old ≠ 0 := by
    intro e
    rw [e, h.root_parent] at t1
    exact absurd t1 (by simp)
  have hcur0 : cur ≠ 0 := by
    intro e
    rw [e, InfoNode_zero P s h, h.root_map] at hm
    exact hold0 (Option.some.inj hm).symm
  obtain ⟨pp, lp, p, hl, hpool, hpure, hpar, hp, hpm⟩ := h.link cur (Nat.pos_of_ne_zero hcur0) hcur
  obtain ⟨pp0, lp0, q, hl0, _, _, hpar0, hq, hqm⟩ := h.link old (Nat.pos_of_ne_zero hold0) hold
  have hcyc : FormatX_bHasCycle P s cur old = false := by
    rcases t2 with t2 | t2
    · rw [hl] at t2
      exact absurd t2 (by simp)
    · exact t2
  have hI1par : ((setInfo s.Infos old { s.Infos old with Link := (s.Infos cur).Link }) cur).Parent
      = some p := by
    rw [setInfo_Parent_of _ _ _ (by rfl)]
    exact hpar
  have hI1old : ((setInfo s.Infos old { s.Infos old with Link := (s.Infos cur).Link }) old).Parent
      = some q := by
    rw [setInfo_Parent_of _ _ _ (by rfl)]
    exact hpar0
  have fI : (FormatX_revisit P s cur old NewX).1.Infos
      = SetParent (setInfo s.Infos old { s.Infos old with Link := (s.Infos cur).Link })
          old (some p) := by
    rw [FormatX_revisit_Infos, if_pos ht, hI1par]
  have hch1 : ∀ c, ((setInfo s.Infos old { s.Infos old with Link := (s.Infos cur).Link })
      c).Children = (s.Infos c).Children := by
    intro c
    unfold setInfo
    by_cases hc : c = old
    · rw [if_pos hc, hc]
    · rw [if_neg hc]
  refine ⟨p, q, hpar, hpar0, Nat.pos_of_ne_zero hcur0, Nat.pos_of_ne_zero hold0, hold, hmold,
    hpm, hcyc, fI, fun i => ?_, fun i => ?_, fun c k => ?_, fun c => ?_⟩
  · unfold InfoNode
    rw [fI, SetParent_Link]
    unfold setInfo
    by_cases hi : i = old
    · rw [if_pos hi, hi]
      show InfoNode P.g s.Infos cur = InfoNode P.g s.Infos old
      exact hnold.symm
    · rw [if_neg hi]
  · rw [fI, SetParent_Parent]
    by_cases hi : i = old
    · rw [if_pos hi, if_pos hi]
    · rw [if_neg hi, if_neg hi, setInfo_Parent_of _ _ _ (by rfl)]
  · rw [fI, SetParent_mem_Children _ old p q c k hI1old, hch1]
  · rw [fI, SetParent_Children _ old p q c hI1old, hch1]

theorem FormatX_revisit_inv {Env : Type} (P : FormatXParams Env) (s : FormatXState Env)
    (cur old : Nat) (NewX : Int) (h : FormatX_inv P s) (hcur : cur < s.NumInfos)
    (hm : s.FormatXInfoMap (InfoNode P.g s.Infos cur) = some old) :
    FormatX_inv P (FormatX_revisit P s cur old NewX).1 ∧
    (FormatX_revisit P s cur old NewX).1.NumInfos = s.NumInfos ∧
    (FormatX_revisit P s cur old NewX).1.FormatXInfoMap = s.FormatXInfoMap ∧
    (FormatX_revisit P s cur old NewX).1.VisitedLinks = s.VisitedLinks ∧
    (∀ i, InfoNode P.g (FormatX_revisit P s cur old NewX).1.Infos i = InfoNode P.g s.Infos i) ∧
    ((FormatX_revisit P s cur old NewX).2 = old ∨
      FormatX_revisit P s cur old NewX = (s, cur)) := by
  by_cases ht : FormatX_bTakeNewParent P s cur old NewX = true
  · obtain ⟨p, q, hpar, hpar0, hc0, ho0, hold, hmold, hpm, _, fI, hnode, hparent, hmem, _⟩ :=
      FormatX_revisit_accepted P s cur old NewX h hcur hm ht
    obtain ⟨f1, f2, f3, f4, f5, f6⟩ := FormatX_revisit_fields P s cur old NewX ht
    have hmapiff : ∀ i, IsMapInfo P (FormatX_revisit P s cur old NewX).1 i ↔ IsMapInfo P s i := by
      intro i
      unfold IsMapInfo
      rw [hnode i, f3]
    have hlp := h.link cur hc0 hcur
    refine ⟨⟨by rw [f2]; exact h.num_pos, ?_, ?_, by rw [f3]; exact h.root_map,
      fun i hi0 hiN => ?_, fun n i hmi => ?_, fun e he => ?_, fun c k hk => ?_, fun c => ?_,
      fun k c hk hc => ?_⟩, f2, f3, f4, hnode, Or.inl f1⟩
    · rw [hparent, if_neg (Nat.ne_of_lt ho0)]
      exact h.root_parent
    · rw [fI, SetParent_Link]
      unfold setInfo
      rw [if_neg (Nat.ne_of_lt ho0)]
      exact h.root_link
    · rw [f2] at hiN
      by_cases hi : i = old
      · obtain ⟨pp, lp, p2, a1, a2, a3, a4, a5, a6⟩ := hlp
        rw [hpar] at a4
        have hp2 : p2 = p := (Option.some.inj a4).symm
        subst hp2
        refine ⟨pp, lp, p2, ?_, a2, a3, ?_, by rw [f2]; exact a5, (hmapiff p2).2 a6⟩
        · rw [fI, SetParent_Link]
          unfold setInfo
          rw [if_pos hi]
          exact a1
        · rw [hparent, if_pos hi]
      · obtain ⟨pp, lp, p2, a1, a2, a3, a4, a5, a6⟩ := h.link i hi0 hiN
        refine ⟨pp, lp, p2, ?_, a2, a3, ?_, by rw [f2]; exact a5, (hmapiff p2).2 a6⟩
        · rw [fI, SetParent_Link]
          unfold setInfo
          rw [if_neg hi]
          exact a1
        · rw [hparent, if_neg hi]
          exact a4
    · rw [f3] at hmi
      rw [f2, hnode]
      exact h.map_lt n i hmi
    · rw [f5, f6] at he
      rw [f2]
      have he2 := (FormatX_pushChildren_perm _ _ _ _ _).mem_iff.1 he
      rcases List.mem_append.1 he2 with he3 | he3
      · rcases (hmem old e).1 he3 with ⟨_, e2⟩ | ⟨e2, _⟩
        · rw [e2]; exact hold
        · exact (h.child old e e2).1
      · exact h.stack_lt e he3
    · rw [f2, hmapiff, hparent]
      rcases (hmem c k).1 hk with ⟨e1, e2⟩ | ⟨e1, e2⟩
      · subst e1 e2
        exact ⟨hold, hmold, by rw [if_pos rfl]⟩
      · obtain ⟨b1, b2, b3⟩ := h.child c k e1
        have hk2 : k ≠ old := by
          intro e
          subst e
          rw [hpar0] at b3
          exact e2 (Option.some.inj b3).symm rfl
        exact ⟨b1, b2, by rw [if_neg hk2]; exact b3⟩
    · rw [fI]
      apply SetParent_Children_nodup _ old p q c
      · rw [setInfo_Parent_of _ _ _ (by rfl)]
        exact hpar0
      · have : ((setInfo s.Infos old { s.Infos old with Link := (s.Infos cur).Link })
            c).Children = (s.Infos c).Children := by
          unfold setInfo
          by_cases hc : c = old
          · rw [if_pos hc, hc]
          · rw [if_neg hc]
        rw [this]
        exact h.child_nodup c
      · intro hc
        have : ((setInfo s.Infos old { s.Infos old with Link := (s.Infos cur).Link })
            c).Children = (s.Infos c).Children := by
          unfold setInfo
          by_cases hc : c = old
          · rw [if_pos hc, hc]
          · rw [if_neg hc]
        rw [this] at hc
        have b3 := (h.child c old hc).2.2
        rw [hpar0] at b3
        exact (Option.some.inj b3).symm
    · rw [hmapiff] at hk
      rw [hparent] at hc
      rw [hmem]
      by_cases hk2 : k = old
      · rw [if_pos hk2] at hc
        exact Or.inl ⟨(Option.some.inj hc).symm, hk2⟩
      · rw [if_neg hk2] at hc
        exact Or.inr ⟨h.child_conv k c hk hc, fun _ => hk2⟩
  · rw [FormatX_revisit_rejected P s cur old NewX ht]
    exact ⟨h, rfl, rfl, rfl, fun i => rfl, Or.inr rfl⟩

theorem FormatX_visitLink_cases {Env : Type} (P : FormatXParams Env) (cur : Nat)
    (s : FormatXState Env) (l : Nat × Nat) :
    (l ∈ s.VisitedLinks ∧ FormatX_visitLink P cur s l = s) ∨
    (l ∉ s.VisitedLinks ∧
      (P.g.OwningNode l.2 ∉ P.NodePool ∨ P.g.IsNodePure (P.g.OwningNode l.2) = true) ∧
      (FormatX_visitLink P cur s l).Infos = s.Infos ∧
      (FormatX_visitLink P cur s l).NumInfos = s.NumInfos ∧
      (FormatX_visitLink P cur s l).FormatXInfoMap = s.FormatXInfoMap ∧
      (FormatX_visitLink P cur s l).OutputStack = s.OutputStack ∧
      (FormatX_visitLink P cur s l).InputStack = s.InputStack ∧
      (FormatX_visitLink P cur s l).VisitedLinks = s.VisitedLinks ++ [l]) ∨
    (l ∉ s.VisitedLinks ∧ P.g.OwningNode l.2 ∈ P.NodePool ∧
      P.g.IsNodePure (P.g.OwningNode l.2) = false ∧
      (FormatX_visitLink P cur s l).Infos = setInfo s.Infos s.NumInfos
        { Link := { From := some l.1, To := some l.2, FallbackNode := P.g.OwningNode l.2 },
          Parent := some cur, Children := [] } ∧
      (FormatX_visitLink P cur s l).NumInfos = s.NumInfos + 1 ∧
      (FormatX_visitLink P cur s l).FormatXInfoMap = s.FormatXInfoMap ∧
      (FormatX_visitLink P cur s l).VisitedLinks = s.VisitedLinks ++ [l] ∧
      (((FormatX_visitLink P cur s l).OutputStack = s.NumInfos :: s.OutputStack ∧
        (FormatX_visitLink P cur s l).InputStack = s.InputStack) ∨
       ((FormatX_visitLink P cur s l).OutputStack = s.OutputStack ∧
        (FormatX_visitLink P cur s l).InputStack = s.NumInfos :: s.InputStack))) := by
  unfold FormatX_visitLink
  dsimp only
  by_cases h1 : (l.1, l.2) ∈ s.VisitedLinks
  · left
    rw [if_pos h1]
    exact ⟨h1, rfl⟩
  · right
    rw [if_neg h1]
    by_cases h2 : P.g.OwningNode l.2 ∉ P.NodePool
    · left
      rw [if_pos h2]
      exact ⟨h1, Or.inl h2, rfl, rfl, rfl, rfl, rfl, rfl⟩
    · rw [if_neg h2]
      by_cases h3 : P.g.IsNodePure (P.g.OwningNode l.2) = true
      · left
        rw [if_pos h3]
        exact ⟨h1, Or.inr h3, rfl, rfl, rfl, rfl, rfl, rfl⟩
      · right
        rw [if_neg h3]
        refine ⟨h1, not_not.1 h2, by simpa using h3, ?_⟩
        by_cases h4 : P.g.Direction l.1 = EEdGraphPinDirection.EGPD_Output
        · rw [if_pos h4]
          exact ⟨rfl, rfl, rfl, rfl, Or.inl ⟨rfl, rfl⟩⟩
        · rw [if_neg h4]
          exact ⟨rfl, rfl, rfl, rfl, Or.inr ⟨rfl, rfl⟩⟩

theorem FormatX_visitLink_inv {Env : Type} (P : FormatXParams Env) (cur : Nat)
    (s : FormatXState Env) (l : Nat × Nat) (h : FormatX_inv P s) (hcur : cur < s.NumInfos)
    (hc : IsMapInfo P s cur ∨ l ∈ s.VisitedLinks) :
    FormatX_inv P (FormatX_visitLink P cur s l) ∧
    s.NumInfos ≤ (FormatX_visitLink P cur s l).NumInfos ∧
    (FormatX_visitLink P cur s l).FormatXInfoMap = s.FormatXInfoMap ∧
    (∀ x ∈ s.VisitedLinks, x ∈ (FormatX_visitLink P cur s l).VisitedLinks) ∧
    l ∈ (FormatX_visitLink P cur s l).VisitedLinks ∧
    (∀ i, i < s.NumInfos → (FormatX_visitLink P cur s l).Infos i = s.Infos i) ∧
    (∀ i, i < s.NumInfos → (IsMapInfo P (FormatX_visitLink P cur s l) i ↔ IsMapInfo P s i)) := by
  rcases FormatX_visitLink_cases P cur s l with ⟨h1, h2⟩ | ⟨h1, _, f1, f2, f3, f4, f5, f6⟩ |
      ⟨h1, hpool, hpure, f1, f2, f3, f6, fst⟩
  · rw [h2]
    exact ⟨h, le_refl _, rfl, fun x hx => hx, h1, fun i _ => rfl, fun i _ => Iff.rfl⟩
  · have hmapiff : ∀ i, IsMapInfo P (FormatX_visitLink P cur s l) i ↔ IsMapInfo P s i := by
      intro i
      unfold IsMapInfo InfoNode
      rw [f1, f3]
    refine ⟨⟨by rw [f2]; exact h.num_pos, by rw [f1]; exact h.root_parent,
      by rw [f1]; exact h.root_link, by rw [f3]; exact h.root_map, fun i hi0 hiN => ?_,
      fun n i hmi => ?_, fun e he => ?_, fun c k hk => ?_, fun c => by rw [f1]; exact h.child_nodup c,
      fun k c hk hc2 => ?_⟩, by rw [f2], f3, fun x hx => ?_, ?_, fun i _ => by rw [f1],
      fun i _ => hmapiff i⟩
    · rw [f2] at hiN
      obtain ⟨pp, lp, p2, a1, a2, a3, a4, a5, a6⟩ := h.link i hi0 hiN
      exact ⟨pp, lp, p2, by rw [f1]; exact a1, a2, a3, by rw [f1]; exact a4, by rw [f2]; exact a5,
        (hmapiff p2).2 a6⟩
    · rw [f3] at hmi
      rw [f2, f1]
      exact h.map_lt n i hmi
    · rw [f4, f5] at he
      rw [f2]
      exact h.stack_lt e he
    · rw [f1] at hk
      rw [f2, hmapiff, f1]
      exact h.child c k hk
    · rw [hmapiff] at hk
      rw [f1] at hc2 ⊢
      exact h.child_conv k c hk hc2
    · rw [f6]; exact List.mem_append_left _ hx
    · rw [f6]; exact List.mem_append_right _ (List.mem_singleton.2 rfl)
  · have hcm : IsMapInfo P s cur := by
      rcases hc with hc | hc
      · exact hc
      · exact absurd hc h1
    have hsame : ∀ i, i < s.NumInfos → (FormatX_visitLink P cur s l).Infos i = s.Infos i := by
      intro i hi
      rw [f1]
      unfold setInfo
      rw [if_neg (Nat.ne_of_lt hi)]
    have hnew : (FormatX_visitLink P cur s l).Infos s.NumInfos =
        { Link := { From := some l.1, To := some l.2, FallbackNode := P.g.OwningNode l.2 },
          Parent := some cur, Children := [] } := by
      rw [f1]
      unfold setInfo
      rw [if_pos rfl]
    have hmapiff : ∀ i, i < s.NumInfos →
        (IsMapInfo P (FormatX_visitLink P cur s l) i ↔ IsMapInfo P s i) := by
      intro i hi
      unfold IsMapInfo InfoNode
      rw [hsame i hi, f3]
    have hmaplt : ∀ i, IsMapInfo P (FormatX_visitLink P cur s l) i → i < s.NumInfos := by
      intro i hi
      unfold IsMapInfo at hi
      rw [f3] at hi
      exact (h.map_lt _ _ hi).1
    refine ⟨⟨by rw [f2]; omega, ?_, ?_, by rw [f3]; exact h.root_map, fun i hi0 hiN => ?_,
      fun n i hmi => ?_, fun e he => ?_, fun c k hk => ?_, fun c => ?_,
      fun k c hk hc2 => ?_⟩, by rw [f2]; omega, f3, fun x hx => ?_, ?_, hsame, hmapiff⟩
    · rw [hsame 0 h.num_pos]; exact h.root_parent
    · rw [hsame 0 h.num_pos]; exact h.root_link
    · rw [f2] at hiN
      by_cases hi : i < s.NumInfos
      · obtain ⟨pp, lp, p2, a1, a2, a3, a4, a5, a6⟩ := h.link i hi0 hi
        exact ⟨pp, lp, p2, by rw [hsame i hi]; exact a1, a2, a3, by rw [hsame i hi]; exact a4,
          by rw [f2]; omega, (hmapiff p2 a5).2 a6⟩
      · have hi2 : i = s.NumInfos := by omega
        subst hi2
        exact ⟨l.1, l.2, cur, by rw [hnew], hpool, hpure, by rw [hnew], by rw [f2]; omega,
          (hmapiff cur hcur).2 hcm⟩
    · rw [f3] at hmi
      obtain ⟨b1, b2⟩ := h.map_lt n i hmi
      refine ⟨by rw [f2]; omega, ?_⟩
      unfold InfoNode
      rw [hsame i b1]
      exact b2
    · rw [f2]
      rcases fst with ⟨e1, e2⟩ | ⟨e1, e2⟩
      · rw [e1, e2] at he
        rcases List.mem_append.1 he with he | he
        · rcases List.mem_cons.1 he with he | he
          · omega
          · have := h.stack_lt e (List.mem_append_left _ he)
            omega
        · have := h.stack_lt e (List.mem_append_right _ he)
          omega
      · rw [e1, e2] at he
        rcases List.mem_append.1 he with he | he
        · have := h.stack_lt e (List.mem_append_left _ he)
          omega
        · rcases List.mem_cons.1 he with he | he
          · omega
          · have := h.stack_lt e (List.mem_append_right _ he)
            omega
    · by_cases hcN : c < s.NumInfos
      · rw [hsame c hcN] at hk
        obtain ⟨b1, b2, b3⟩ := h.child c k hk
        exact ⟨by rw [f2]; omega, (hmapiff k b1).2 b2, by rw [hsame k b1]; exact b3⟩
      · by_cases hcN2 : c = s.NumInfos
        · subst hcN2
          rw [hnew] at hk
          exact absurd hk (List.not_mem_nil k)
        · rw [f1] at hk
          unfold setInfo at hk
          rw [if_neg hcN2] at hk
          obtain ⟨b1, b2, b3⟩ := h.child c k hk
          exact ⟨by rw [f2]; omega, (hmapiff k b1).2 b2, by rw [hsame k b1]; exact b3⟩
    · rw [f1]
      unfold setInfo
      by_cases hcN2 : c = s.NumInfos
      · rw [if_pos hcN2]
        exact List.nodup_nil
      · rw [if_neg hcN2]
        exact h.child_nodup c
    · have hk1 := hmaplt k hk
      have hk2 := (hmapiff k hk1).1 hk
      rw [hsame k hk1] at hc2
      have hmem := h.child_conv k c hk2 hc2
      have hcN : c < s.NumInfos := by
        by_cases hk0 : k = 0
        · rw [hk0, h.root_parent] at hc2
          exact absurd hc2 (by simp)
        · obtain ⟨_, _, p2, _, _, _, a4, a5, _⟩ := h.link k (Nat.pos_of_ne_zero hk0) hk1
          rw [a4] at hc2
          rw [← Option.some.inj hc2]
          exact a5
      rw [hsame c hcN]
      exact hmem
    · rw [f6]; exact List.mem_append_left _ hx
    · rw [f6]; exact List.mem_append_right _ (List.mem_singleton.2 rfl)

theorem FormatX_visitLinks_inv {Env : Type} (P : FormatXParams Env) (cur : Nat)
    (ls : List (Nat × Nat)) (s : FormatXState Env) (h : FormatX_inv P s)
    (hcur : cur < s.NumInfos)
    (hc : IsMapInfo P s cur ∨ ∀ l ∈ ls, l ∈ s.VisitedLinks) :
    FormatX_inv P (ls.foldl (FormatX_visitLink P cur) s) ∧
    s.NumInfos ≤ (ls.foldl (FormatX_visitLink P cur) s).NumInfos ∧
    (ls.foldl (FormatX_visitLink P cur) s).FormatXInfoMap = s.FormatXInfoMap ∧
    (∀ x ∈ s.VisitedLinks, x ∈ (ls.foldl (FormatX_visitLink P cur) s).VisitedLinks) ∧
    (∀ l ∈ ls, l ∈ (ls.foldl (FormatX_visitLink P cur) s).VisitedLinks) ∧
    (∀ i, i < s.NumInfos → (ls.foldl (FormatX_visitLink P cur) s).Infos i = s.Infos i) ∧
    (∀ i, i < s.NumInfos →
      (IsMapInfo P (ls.foldl (FormatX_visitLink P cur) s) i ↔ IsMapInfo P s i)) := by
  induction ls generalizing s with
  | nil =>
    exact ⟨h, le_refl _, rfl, fun x hx => hx, fun l hl => absurd hl (List.not_mem_nil l),
      fun i _ => rfl, fun i _ => Iff.rfl⟩
  | cons a ls ih =>
    rw [List.foldl_cons]
    have hc1 : IsMapInfo P s cur ∨ a ∈ s.VisitedLinks := by
      rcases hc with hc | hc
      · exact Or.inl hc
      · exact Or.inr (hc a (List.mem_cons_self a ls))
    obtain ⟨v1, v2, v3, v4, v5, v6, v7⟩ := FormatX_visitLink_inv P cur s a h hcur hc1
    have hc2 : IsMapInfo P (FormatX_visitLink P cur s a) cur ∨
        ∀ l ∈ ls, l ∈ (FormatX_visitLink P cur s a).VisitedLinks := by
      rcases hc with hc | hc
      · exact Or.inl ((v7 cur hcur).2 hc)
      · exact Or.inr (fun l hl => v4 l (hc l (List.mem_cons_of_mem a hl)))
    obtain ⟨i1, i2, i3, i4, i5, i6, i7⟩ := ih (FormatX_visitLink P cur s a) v1
      (Nat.lt_of_lt_of_le hcur v2) hc2
    refine ⟨i1, le_trans v2 i2, i3.trans v3, fun x hx => i4 x (v4 x hx), fun l hl => ?_,
      fun i hi => (i6 i (Nat.lt_of_lt_of_le hi v2)).trans (v6 i hi),
      fun i hi => (i7 i (Nat.lt_of_lt_of_le hi v2)).trans (v7 i hi)⟩
    rcases List.mem_cons.1 hl with e | e
    · rw [e]; exact i4 a v5
    · exact i5 l e

theorem FormatX_step_eq {Env : Type} (P : FormatXParams Env) (s : FormatXState Env)
    (cur : Nat) (out inp : List Nat) (hpop : FormatX_pop s = some (cur, out, inp)) :
    FormatX_step P s =
      (FormatX_linksOf P.g (InfoNode P.g
          (FormatX_branch P (FormatX_afterPop P s cur out inp) cur).1.Infos
          (FormatX_branch P (FormatX_afterPop P s cur out inp) cur).2)).foldl
        (FormatX_visitLink P (FormatX_branch P (FormatX_afterPop P s cur out inp) cur).2)
        (FormatX_branch P (FormatX_afterPop P s cur out inp) cur).1 := by
  unfold FormatX_step
  rw [hpop]
  rfl

theorem FormatX_step_done {Env : Type} (P : FormatXParams Env) (s : FormatXState Env)
    (h : FormatX_done s = true) : FormatX_step P s = s := by
  unfold FormatX_step
  rw [(FormatX_pop_none s).2 h]

theorem FormatX_branch_inv {Env : Type} (P : FormatXParams Env) (s : FormatXState Env)
    (cur : Nat) (h : FormatX_inv P s) (hcur : cur < s.NumInfos) :
    FormatX_inv P (FormatX_branch P s cur).1 ∧
    (FormatX_branch P s cur).1.NumInfos = s.NumInfos ∧
    (FormatX_branch P s cur).2 < s.NumInfos ∧
    (FormatX_branch P s cur).1.VisitedLinks = s.VisitedLinks ∧
    InfoNode P.g (FormatX_branch P s cur).1.Infos (FormatX_branch P s cur).2
      = InfoNode P.g s.Infos cur ∧
    (∀ i, InfoNode P.g (FormatX_branch P s cur).1.Infos i = InfoNode P.g s.Infos i) ∧
    (∀ i, IsMapInfo P s i → IsMapInfo P (FormatX_branch P s cur).1 i) ∧
    (∀ n, (FormatX_branch P s cur).1.FormatXInfoMap n ≠ none →
      n = InfoNode P.g s.Infos cur ∨ s.FormatXInfoMap n ≠ none) ∧
    (FormatX_branch P s cur).1.FormatXInfoMap (InfoNode P.g s.Infos cur) ≠ none ∧
    (IsMapInfo P (FormatX_branch P s cur).1 (FormatX_branch P s cur).2 ∨
      (FormatX_branch P s cur = (s, cur) ∧ s.FormatXInfoMap (InfoNode P.g s.Infos cur) ≠ none)) := by
  unfold FormatX_branch
  cases hm : s.FormatXInfoMap ((s.Infos cur).Link.GetNode P.g) with
  | none =>
    dsimp only
    obtain ⟨a1, a2, a3, a4, a5⟩ := FormatX_firstVisit_inv P s cur
      (P.GetChildX s.env s.NodePosX (s.Infos cur).Link) h hcur hm
    obtain ⟨f1, f2, f3, f4, f5⟩ := FormatX_firstVisit_fields P s cur
      (P.GetChildX s.env s.NodePosX (s.Infos cur).Link)
    refine ⟨a1, f1, hcur, f5, a3 cur, a3, a4, a5, ?_, Or.inl a2⟩
    rw [f2]
    simp
  | some old =>
    dsimp only
    obtain ⟨a1, a2, a3, a4, a5, a6⟩ := FormatX_revisit_inv P s cur old
      (P.GetChildX s.env s.NodePosX (s.Infos cur).Link) h hcur hm
    have hmapiff : ∀ i, IsMapInfo P s i → IsMapInfo P (FormatX_revisit P s cur old
        (P.GetChildX s.env s.NodePosX (s.Infos cur).Link)).1 i := by
      intro i hi
      unfold IsMapInfo
      rw [a5 i, a3]
      exact hi
    have hold := h.map_lt _ _ hm
    refine ⟨a1, a2, ?_, a4, ?_, a5, hmapiff, fun n hn => Or.inr (by rw [a3] at hn; exact hn),
      by rw [a3]; exact (by rw [hm]; simp), ?_⟩
    · rcases a6 with e | e
      · rw [e]; exact hold.1
      · rw [e]; exact hcur
    · rcases a6 with e | e
      · rw [e, a5]; exact hold.2
      · rw [e]
    · rcases a6 with e | e
      · left
        rw [e]
        exact hmapiff old (IsMapInfo_of_map P s h _ _ hm)
      · right
        exact ⟨e, by simp⟩

theorem FormatX_afterPop_fields {Env : Type} (P : FormatXParams Env) (s : FormatXState Env)
    (cur : Nat) (out inp : List Nat) :
    (FormatX_afterPop P s cur out inp).Infos = s.Infos ∧
    (FormatX_afterPop P s cur out inp).NumInfos = s.NumInfos ∧
    (FormatX_afterPop P s cur out inp).FormatXInfoMap = s.FormatXInfoMap ∧
    (FormatX_afterPop P s cur out inp).VisitedLinks = s.VisitedLinks ∧
    (FormatX_afterPop P s cur out inp).OutputStack = out ∧
    (FormatX_afterPop P s cur out inp).InputStack = inp :=
  ⟨rfl, rfl, rfl, rfl, rfl, rfl⟩

theorem FormatX_step_inv {Env : Type} (P : FormatXParams Env) (s : FormatXState Env)
    (h : FormatX_inv P s) (hv : FormatX_visited P s) :
    FormatX_inv P (FormatX_step P s) ∧ FormatX_visited P (FormatX_step P s) := by
  cases hpop : FormatX_pop s with
  | none =>
    rw [FormatX_step_done P s ((FormatX_pop_none s).1 hpop)]
    exact ⟨h, hv⟩
  | some r =>
    obtain ⟨cur, out, inp⟩ := r
    rw [FormatX_step_eq P s cur out inp hpop]
    obtain ⟨h0, hcur⟩ := FormatX_afterPop_inv P s cur out inp h hpop
    obtain ⟨b1, b2, b3, b4, b5, b6, b7, b8, b9, b10⟩ :=
      FormatX_branch_inv P (FormatX_afterPop P s cur out inp) cur h0 hcur
    have hperm := FormatX_pop_perm s cur out inp hpop
    have hcur0 : (s.OutputStack = [0] ∧ s.InputStack = []) → cur = 0 := by
      rintro ⟨e1, e2⟩
      rw [e1, e2] at hperm
      have := hperm.mem_iff.2 (List.mem_cons_self cur (out ++ inp))
      simpa using this
    have hfoldhyp : IsMapInfo P (FormatX_branch P (FormatX_afterPop P s cur out inp) cur).1
          (FormatX_branch P (FormatX_afterPop P s cur out inp) cur).2 ∨
        ∀ l ∈ FormatX_linksOf P.g (InfoNode P.g
            (FormatX_branch P (FormatX_afterPop P s cur out inp) cur).1.Infos
            (FormatX_branch P (FormatX_afterPop P s cur out inp) cur).2),
          l ∈ (FormatX_branch P (FormatX_afterPop P s cur out inp) cur).1.VisitedLinks := by
      rcases b10 with e | ⟨e, hne⟩
      · exact Or.inl e
      · rcases hv with hv | ⟨e1, e2, _⟩
        · right
          rw [b5, b4]
          exact hv _ hne
        · left
          rw [e]
          have hc := hcur0 ⟨e1, e2⟩
          subst hc
          exact IsMapInfo_zero P _ h0
    obtain ⟨i1, i2, i3, i4, i5, i6, i7⟩ := FormatX_visitLinks_inv P
      (FormatX_branch P (FormatX_afterPop P s cur out inp) cur).2
      (FormatX_linksOf P.g (InfoNode P.g
          (FormatX_branch P (FormatX_afterPop P s cur out inp) cur).1.Infos
          (FormatX_branch P (FormatX_afterPop P s cur out inp) cur).2))
      (FormatX_branch P (FormatX_afterPop P s cur out inp) cur).1 b1 (by rw [b2]; exact b3)
      hfoldhyp
    have hl5 : ∀ l ∈ FormatX_linksOf P.g
        (InfoNode P.g (FormatX_afterPop P s cur out inp).Infos cur),
        l ∈ (List.foldl (FormatX_visitLink P
          (FormatX_branch P (FormatX_afterPop P s cur out inp) cur).2)
          (FormatX_branch P (FormatX_afterPop P s cur out inp) cur).1
          (FormatX_linksOf P.g (InfoNode P.g
            (FormatX_branch P (FormatX_afterPop P s cur out inp) cur).1.Infos
            (FormatX_branch P (FormatX_afterPop P s cur out inp) cur).2))).VisitedLinks := by
      intro l hl
      apply i5
      rw [b5]
      exact hl
    refine ⟨i1, Or.inl (fun n hn => ?_)⟩
    rw [i3] at hn
    intro l hl
    rcases b8 n hn with e | e
    · rw [e] at hl
      exact hl5 l hl
    · rcases hv with hv | ⟨e1, e2, e3⟩
      · apply i4
        rw [b4]
        exact hv n e l hl
      · have hc := hcur0 ⟨e1, e2⟩
        have hn2 : n = P.RootNode := e3 n e
        rw [hn2] at hl
        apply hl5
        have : InfoNode P.g (FormatX_afterPop P s cur out inp).Infos cur = P.RootNode := by
          show InfoNode P.g s.Infos cur = P.RootNode
          rw [hc]
          exact InfoNode_zero P s h
        rw [this]
        exact hl

theorem FormatX_loop_inv {Env : Type} (P : FormatXParams Env) (fuel : Nat)
    (s : FormatXState Env) (h : FormatX_inv P s) (hv : FormatX_visited P s) :
    FormatX_inv P (FormatX_loop P fuel s) ∧ FormatX_visited P (FormatX_loop P fuel s) := by
  induction fuel generalizing s with
  | zero => exact ⟨h, hv⟩
  | succ k ih =>
    obtain ⟨a, b⟩ := FormatX_step_inv P s h hv
    exact ih _ a b

theorem GetChildren_loop_mono (g : EdGraph) (Infos : Nat → FFormatXInfo)
    (Dir : Option EEdGraphPinDirection) (b : Bool) (fuel : Nat) (Pending Out : List Nat) :
    ∀ n ∈ Out, n ∈ GetChildren_loop g Infos Dir b fuel Pending Out := by
  induction fuel generalizing Pending Out with
  | zero =>
    intro n hn
    unfold GetChildren_loop
    exact hn
  | succ k ih =>
    intro n hn
    cases Pending with
    | nil =>
      unfold GetChildren_loop
      exact hn
    | cons cur rest =>
      unfold GetChildren_loop
      dsimp only
      by_cases h1 : (Infos cur).Link.GetNode g ∈ Out
      · rw [if_pos h1]
        exact hn
      · rw [if_neg h1]
        exact ih _ _ n (List.mem_append_left _ hn)

theorem iterParent_succ_left (Infos : Nat → FFormatXInfo) (t y : Nat) :
    iterParent Infos (t + 1) y = ((Infos y).Parent).bind (iterParent Infos t) := by
  induction t with
  | zero =>
    simp [iterParent]
  | succ k ih =>
    rw [iterParent, ih]
    cases (Infos y).Parent with
    | none => rfl
    | some z =>
      simp only [Option.some_bind]
      rw [iterParent]

theorem iterParent_add (Infos : Nat → FFormatXInfo) (a b y z : Nat)
    (h : iterParent Infos a y = some z) :
    iterParent Infos (a + b) y = iterParent Infos b z := by
  induction b with
  | zero => simpa [iterParent] using h
  | succ k ih =>
    rw [← Nat.add_assoc, iterParent, ih, iterParent]

theorem iterParent_prefix (Infos : Nat → FFormatXInfo) (t y w : Nat)
    (h : iterParent Infos (t + 1) y = some w) :
    ∃ z, iterParent Infos t y = some z ∧ (Infos z).Parent = some w := by
  rw [iterParent] at h
  cases hz : iterParent Infos t y with
  | none =>
    rw [hz] at h
    simp at h
  | some z =>
    rw [hz] at h
    exact ⟨z, rfl, h⟩

theorem iterParent_IsMapInfo {Env : Type} (P : FormatXParams Env) (s : FormatXState Env)
    (h : FormatX_inv P s) (t y z : Nat) (hy : IsMapInfo P s y)
    (hz : iterParent s.Infos t y = some z) : IsMapInfo P s z := by
  induction t generalizing z with
  | zero =>
    simp only [iterParent, Option.some.injEq] at hz
    exact hz ▸ hy
  | succ k ih =>
    obtain ⟨w, hw1, hw2⟩ := iterParent_prefix s.Infos k y z hz
    have hwm := ih w hw1
    have hwlt : w < s.NumInfos := by
      unfold IsMapInfo at hwm
      exact (h.map_lt _ _ hwm).1
    by_cases hw0 : w = 0
    · rw [hw0, h.root_parent] at hw2
      exact absurd hw2 (by simp)
    · obtain ⟨_, _, p, _, _, _, a4, _, a6⟩ := h.link w (Nat.pos_of_ne_zero hw0) hwlt
      rw [a4] at hw2
      rw [← Option.some.inj hw2]
      exact a6

theorem IsMapInfo_lt {Env : Type} (P : FormatXParams Env) (s : FormatXState Env)
    (h : FormatX_inv P s) (i : Nat) (hi : IsMapInfo P s i) : i < s.NumInfos := by
  unfold IsMapInfo at hi
  exact (h.map_lt _ _ hi).1

theorem GetChildren_inv_length {Env : Type} (P : FormatXParams Env) (s : FormatXState Env)
    (h : FormatX_inv P s) (Out : List Nat) (hN : Out.Nodup)
    (hO : ∀ n ∈ Out, ∃ z, IsMapInfo P s z ∧ InfoNode P.g s.Infos z = n) :
    Out.length ≤ s.NumInfos := by
  have hsub : Out ⊆ (List.range s.NumInfos).map (InfoNode P.g s.Infos) := by
    intro n hn
    obtain ⟨z, hz1, hz2⟩ := hO n hn
    exact List.mem_map.2 ⟨z, List.mem_range.2 (IsMapInfo_lt P s h z hz1), hz2⟩
  have := (List.Nodup.subperm hN hsub).length_le
  simpa using this

theorem iterParent_defined (Infos : Nat → FFormatXInfo) (a b y w : Nat)
    (h : iterParent Infos (a + b) y = some w) : ∃ z, iterParent Infos a y = some z := by
  induction b generalizing w with
  | zero => exact ⟨w, h⟩
  | succ k ih =>
    rw [← Nat.add_assoc] at h
    obtain ⟨z, hz, _⟩ := iterParent_prefix Infos (a + k) y w h
    exact ih z hz

theorem GetChildren_inv_nil {Env : Type} (P : FormatXParams Env) (s : FormatXState Env)
    (h : FormatX_inv P s) (c : Nat) (Out : List Nat) (hc : IsMapInfo P s c)
    (hcyc : OnParentCycle s.Infos c) (hI : GetChildren_inv P s c [] Out) : False := by
  obtain ⟨t, ht0, htc⟩ := hcyc
  have key : ∀ m i z, i + m + 1 = t → iterParent s.Infos i c = some z →
      InfoNode P.g s.Infos z ∈ Out := by
    intro m
    induction m with
    | zero =>
      intro i z hi hz
      have hz2 : iterParent s.Infos (i + 1) c = some c := by
        rw [show i + 1 = t by omega]
        exact htc
      obtain ⟨z', hz3, hz4⟩ := iterParent_prefix s.Infos i c c hz2
      rw [hz] at hz3
      have hzz : z = z' := Option.some.inj hz3
      subst hzz
      have hzm := iterParent_IsMapInfo P s h i c z hc hz
      have hmem := h.child_conv z c hzm hz4
      rcases hI.start z hmem with e | e
      · exact absurd e (List.not_mem_nil z)
      · exact e
    | succ m ih =>
      intro i z hi hz
      have hdef : ∃ w, iterParent s.Infos (i + 1) c = some w := by
        apply iterParent_defined s.Infos (i + 1) (m + 1) c c
        rw [show i + 1 + (m + 1) = t by omega]
        exact htc
      obtain ⟨w, hw⟩ := hdef
      have hwO := ih (i + 1) w (by omega) hw
      obtain ⟨z', hz3, hz4⟩ := iterParent_prefix s.Infos i c w hw
      rw [hz] at hz3
      have hzz : z = z' := Option.some.inj hz3
      subst hzz
      have hzm := iterParent_IsMapInfo P s h i c z hc hz
      have hwm := iterParent_IsMapInfo P s h (i + 1) c w hc hw
      have hmem := h.child_conv z w hzm hz4
      rcases (hI.closed w hwm hwO).1 z hmem with e | e
      · exact absurd e (List.not_mem_nil z)
      · exact e
  have := key (t - 1) 0 c (by omega) rfl
  exact hI.self_new this

theorem GetChildren_inv_init {Env : Type} (P : FormatXParams Env) (s : FormatXState Env)
    (h : FormatX_inv P s) (c : Nat) :
    GetChildren_inv P s c (s.Infos c).Children.reverse [] :=
  { pending := fun y hy => by
      have hy2 := List.mem_reverse.1 hy
      obtain ⟨_, b2, b3⟩ := h.child c y hy2
      exact ⟨b2, c, b3, Or.inl rfl⟩
    closed := fun z _ hz => absurd hz (List.not_mem_nil _)
    start := fun k hk => Or.inl (List.mem_reverse.2 hk)
    pending_nodup := List.nodup_reverse.2 (h.child_nodup c)
    pending_new := fun y _ hy => absurd hy (List.not_mem_nil _)
    out_nodup := List.nodup_nil
    out_map := fun n hn => absurd hn (List.not_mem_nil _)
    self_new := fun hn => absurd hn (List.not_mem_nil _) }

theorem GetChildren_inv_step {Env : Type} (P : FormatXParams Env) (s : FormatXState Env)
    (h : FormatX_inv P s) (c y : Nat) (rest Out : List Nat) (hc : IsMapInfo P s c)
    (hI : GetChildren_inv P s c (y :: rest) Out) (hyc : y ≠ c) :
    GetChildren_inv P s c ((s.Infos y).Children.reverse ++ rest)
      (Out ++ [InfoNode P.g s.Infos y]) := by
  obtain ⟨hym, zy, hzy, hzy2⟩ := hI.pending y (List.mem_cons_self y rest)
  have hyO : InfoNode P.g s.Infos y ∉ Out := hI.pending_new y (List.mem_cons_self y rest)
  have hnd := List.nodup_cons.1 hI.pending_nodup
  -- a child of `y` is not output and is not `y`
  have hchild_new : ∀ k ∈ (s.Infos y).Children,
      InfoNode P.g s.Infos k ∉ Out ++ [InfoNode P.g s.Infos y] := by
    intro k hk hkO
    obtain ⟨_, hkm, hkp⟩ := h.child y k hk
    rcases List.mem_append.1 hkO with e | e
    · obtain ⟨_, z2, hz2, hz3⟩ := hI.closed k hkm e
      rw [hkp] at hz2
      have : y = z2 := Option.some.inj hz2
      subst this
      rcases hz3 with e2 | e2
      · exact hyc e2
      · exact hyO e2
    · rw [List.mem_singleton] at e
      have hky : k = y := IsMapInfo_inj P s k y hkm hym e
      subst hky
      rw [hkp] at hzy
      have : k = zy := Option.some.inj hzy
      subst this
      rcases hzy2 with e2 | e2
      · exact hyc e2
      · exact hyO e2
  refine ⟨fun k hk => ?_, fun z hzm hzO => ?_, fun k hk => ?_, ?_, fun k hk => ?_, ?_,
    fun n hn => ?_, fun hn => ?_⟩
  · rcases List.mem_append.1 hk with e | e
    · have e2 := List.mem_reverse.1 e
      obtain ⟨_, hkm, hkp⟩ := h.child y k e2
      exact ⟨hkm, y, hkp, Or.inr (List.mem_append_right _ (List.mem_singleton.2 rfl))⟩
    · obtain ⟨a1, z, a2, a3⟩ := hI.pending k (List.mem_cons_of_mem y e)
      refine ⟨a1, z, a2, ?_⟩
      rcases a3 with a3 | a3
      · exact Or.inl a3
      · exact Or.inr (List.mem_append_left _ a3)
  · rcases List.mem_append.1 hzO with e | e
    · obtain ⟨a1, z2, a2, a3⟩ := hI.closed z hzm e
      refine ⟨fun k hk => ?_, z2, a2, ?_⟩
      · rcases a1 k hk with e2 | e2
        · rcases List.mem_cons.1 e2 with e3 | e3
          · right
            rw [e3]
            exact List.mem_append_right _ (List.mem_singleton.2 rfl)
          · exact Or.inl (List.mem_append_right _ e3)
        · exact Or.inr (List.mem_append_left _ e2)
      · rcases a3 with a3 | a3
        · exact Or.inl a3
        · exact Or.inr (List.mem_append_left _ a3)
    · rw [List.mem_singleton] at e
      have hzy3 : z = y := IsMapInfo_inj P s z y hzm hym e
      subst hzy3
      refine ⟨fun k hk => Or.inl (List.mem_append_left _ (List.mem_reverse.2 hk)), zy, hzy, ?_⟩
      rcases hzy2 with a3 | a3
      · exact Or.inl a3
      · exact Or.inr (List.mem_append_left _ a3)
  · rcases hI.start k hk with e2 | e2
    · rcases List.mem_cons.1 e2 with e3 | e3
      · right
        rw [e3]
        exact List.mem_append_right _ (List.mem_singleton.2 rfl)
      · exact Or.inl (List.mem_append_right _ e3)
    · exact Or.inr (List.mem_append_left _ e2)
  · refine List.nodup_append.2 ⟨List.nodup_reverse.2 (h.child_nodup y), hnd.2, ?_⟩
    intro k hk1 hk2
    have hk3 := List.mem_reverse.1 hk1
    obtain ⟨_, hkm, hkp⟩ := h.child y k hk3
    obtain ⟨_, z, a2, a3⟩ := hI.pending k (List.mem_cons_of_mem y hk2)
    rw [hkp] at a2
    have : y = z := Option.some.inj a2
    subst this
    rcases a3 with a3 | a3
    · exact hyc a3
    · exact hyO a3
  · rcases List.mem_append.1 hk with e | e
    · exact hchild_new k (List.mem_reverse.1 e)
    · intro hkO
      rcases List.mem_append.1 hkO with e2 | e2
      · exact hI.pending_new k (List.mem_cons_of_mem y e) e2
      · rw [List.mem_singleton] at e2
        have hkm := (hI.pending k (List.mem_cons_of_mem y e)).1
        have hky : k = y := IsMapInfo_inj P s k y hkm hym e2
        exact hnd.1 (hky ▸ e)
  · refine List.nodup_append.2 ⟨hI.out_nodup, List.nodup_singleton _, ?_⟩
    intro a ha hb
    rw [List.mem_singleton] at hb
    exact hyO (hb ▸ ha)
  · rcases List.mem_append.1 hn with e | e
    · exact hI.out_map n e
    · rw [List.mem_singleton] at e
      exact ⟨y, hym, e.symm⟩
  · rcases List.mem_append.1 hn with e | e
    · exact hI.self_new e
    · rw [List.mem_singleton] at e
      exact hyc (IsMapInfo_inj P s c y hc hym e).symm

theorem GetChildren_loop_cycle {Env : Type} (P : FormatXParams Env) (s : FormatXState Env)
    (h : FormatX_inv P s) (c p : Nat) (hc : IsMapInfo P s c)
    (hpar : (s.Infos c).Parent = some p) (hcyc : OnParentCycle s.Infos c)
    (fuel : Nat) (Pending Out : List Nat) (hI : GetChildren_inv P s c Pending Out)
    (hf : s.NumInfos + 1 ≤ Out.length + fuel) :
    InfoNode P.g s.Infos p ∈ GetChildren_loop P.g s.Infos none true fuel Pending Out := by
  induction fuel generalizing Pending Out with
  | zero =>
    have := GetChildren_inv_length P s h Out hI.out_nodup hI.out_map
    omega
  | succ k ih =>
    cases Pending with
    | nil => exact absurd (GetChildren_inv_nil P s h c Out hc hcyc hI) id
    | cons y rest =>
      have hyO : InfoNode P.g s.Infos y ∉ Out := hI.pending_new y (List.mem_cons_self y rest)
      unfold GetChildren_loop
      dsimp only
      rw [if_neg hyO]
      simp only [if_true]
      by_cases hyc : y = c
      · subst hyc
        obtain ⟨_, z, hz1, hz2⟩ := hI.pending y (List.mem_cons_self y rest)
        rw [hpar] at hz1
        have hpz : p = z := Option.some.inj hz1
        subst hpz
        apply GetChildren_loop_mono
        rcases hz2 with e | e
        · rw [e]
          exact List.mem_append_right _ (List.mem_singleton.2 rfl)
        · exact List.mem_append_left _ e
      · apply ih
        · exact GetChildren_inv_step P s h c y rest Out hc hI hyc
        · rw [List.length_append, List.length_singleton]
          omega

theorem GetChildren_of_cycle {Env : Type} (P : FormatXParams Env) (s : FormatXState Env)
    (h : FormatX_inv P s) (c p : Nat) (hc : IsMapInfo P s c)
    (hpar : (s.Infos c).Parent = some p) (hcyc : OnParentCycle s.Infos c) :
    InfoNode P.g s.Infos p ∈ GetChildren P.g s.Infos s.NumInfos c none true := by
  unfold GetChildren
  have hfilter : (s.Infos c).Children.filter (FilterByDirection P.g s.Infos none)
      = (s.Infos c).Children := by
    apply List.filter_eq_self.2
    intro a _
    rfl
  rw [hfilter]
  exact GetChildren_loop_cycle P s h c p hc hpar hcyc (s.NumInfos + 1) _ []
    (GetChildren_inv_init P s h c) (by simp)

theorem subtreeSize_pos (Infos : Nat → FFormatXInfo) (d c : Nat) :
    1 ≤ subtreeSize Infos d c := by
  cases d with
  | zero => simp [subtreeSize]
  | succ d => simp [subtreeSize]

theorem subtreeSize_stable (Infos : Nat → FFormatXInfo) (d k : Nat)
    (h : ¬ hasChildChain Infos (d + 1) k) :
    subtreeSize Infos (d + 1) k = subtreeSize Infos d k := by
  induction d generalizing k with
  | zero =>
    have hnil : (Infos k).Children = [] := by
      cases hc : (Infos k).Children with
      | nil => rfl
      | cons a t =>
        exfalso
        apply h
        exact ⟨a, by rw [hc]; exact List.mem_cons_self a t, trivial⟩
    simp [subtreeSize, hnil]
  | succ d ih =>
    have hch : ∀ z ∈ (Infos k).Children,
        subtreeSize Infos (d + 1) z = subtreeSize Infos d z := by
      intro z hz
      apply ih
      intro hcz
      exact h ⟨z, hz, hcz⟩
    rw [subtreeSize, subtreeSize, List.map_congr_left hch]

theorem hasChildChain_parent {Env : Type} (P : FormatXParams Env) (s : FormatXState Env)
    (h : FormatX_inv P s) (d k : Nat) (hk : k < s.NumInfos)
    (hc : hasChildChain s.Infos d k) :
    ∃ y, y < s.NumInfos ∧ iterParent s.Infos d y = some k := by
  induction d generalizing k with
  | zero => exact ⟨k, hk, rfl⟩
  | succ d ih =>
    obtain ⟨z, hz, hcz⟩ := hc
    obtain ⟨b1, _, b3⟩ := h.child k z hz
    obtain ⟨y, hy1, hy2⟩ := ih z b1 hcz
    refine ⟨y, hy1, ?_⟩
    rw [iterParent, hy2]
    exact b3

theorem OnParentCycle_up (Infos : Nat → FFormatXInfo) (z k m : Nat)
    (hz : OnParentCycle Infos z) (hk : iterParent Infos m z = some k) :
    OnParentCycle Infos k := by
  obtain ⟨t, ht0, htz⟩ := hz
  refine ⟨t, ht0, ?_⟩
  have h1 : iterParent Infos (m + t) z = iterParent Infos t k := iterParent_add Infos m t z k hk
  have h2 : iterParent Infos (t + m) z = iterParent Infos m z := iterParent_add Infos t m z z htz
  rw [← h1, Nat.add_comm, h2, hk]

theorem iterParent_lt {Env : Type} (P : FormatXParams Env) (s : FormatXState Env)
    (h : FormatX_inv P s) (t y z : Nat) (hy : y < s.NumInfos)
    (hz : iterParent s.Infos t y = some z) : z < s.NumInfos := by
  induction t generalizing z with
  | zero =>
    simp only [iterParent, Option.some.injEq] at hz
    omega
  | succ k ih =>
    obtain ⟨w, hw1, hw2⟩ := iterParent_prefix s.Infos k y z hz
    have hwlt := ih w hw1
    by_cases hw0 : w = 0
    · rw [hw0, h.root_parent] at hw2
      exact absurd hw2 (by simp)
    · obtain ⟨_, _, p, _, _, _, a4, a5, _⟩ := h.link w (Nat.pos_of_ne_zero hw0) hwlt
      rw [a4] at hw2
      rw [← Option.some.inj hw2]
      exact a5

theorem iterParent_pigeonhole {Env : Type} (P : FormatXParams Env) (s : FormatXState Env)
    (h : FormatX_inv P s) (y k : Nat) (hy : y < s.NumInfos)
    (hk : iterParent s.Infos s.NumInfos y = some k) : OnParentCycle s.Infos k := by
  have hdef : ∀ j, j ≤ s.NumInfos → ∃ z, iterParent s.Infos j y = some z := by
    intro j hj
    apply iterParent_defined s.Infos j (s.NumInfos - j) y k
    rw [show j + (s.NumInfos - j) = s.NumInfos by omega]
    exact hk
  have hlt : ∀ j, j ≤ s.NumInfos → (iterParent s.Infos j y).getD 0 < s.NumInfos := by
    intro j hj
    obtain ⟨z, hz⟩ := hdef j hj
    rw [hz]
    exact iterParent_lt P s h j y z hy hz
  let f : Fin (s.NumInfos + 1) → Fin s.NumInfos :=
    fun j => ⟨(iterParent s.Infos j.1 y).getD 0, hlt j.1 (Nat.le_of_lt_succ j.2)⟩
  obtain ⟨a, b, hab, hfab⟩ := Fintype.exists_ne_map_eq_of_card_lt f (by simp)
  have key : ∀ a b : Fin (s.NumInfos + 1), a.1 < b.1 → f a = f b → OnParentCycle s.Infos k := by
    intro a b hlt2 hf
    obtain ⟨za, hza⟩ := hdef a.1 (Nat.le_of_lt_succ a.2)
    obtain ⟨zb, hzb⟩ := hdef b.1 (Nat.le_of_lt_succ b.2)
    have hval : za = zb := by
      have := congrArg Fin.val hf
      simp only [f, hza, hzb, Option.getD_some] at this
      exact this
    subst hval
    have hcyc : OnParentCycle s.Infos za := by
      refine ⟨b.1 - a.1, by omega, ?_⟩
      rw [← iterParent_add s.Infos a.1 (b.1 - a.1) y za hza,
        show a.1 + (b.1 - a.1) = b.1 by omega]
      exact hzb
    apply OnParentCycle_up s.Infos za k (s.NumInfos - a.1) hcyc
    rw [← iterParent_add s.Infos a.1 (s.NumInfos - a.1) y za hza,
      show a.1 + (s.NumInfos - a.1) = s.NumInfos by omega]
    exact hk
  rcases Nat.lt_or_gt_of_ne (fun e => hab (Fin.ext e)) with e | e
  · exact key a b e hfab
  · exact key b a e hfab.symm

theorem subtreeSize_children {Env : Type} (P : FormatXParams Env) (s : FormatXState Env)
    (h : FormatX_inv P s) (c : Nat) (hc : ¬ OnParentCycle s.Infos c) :
    subtreeSize s.Infos s.NumInfos c
      = 1 + ((s.Infos c).Children.map (subtreeSize s.Infos s.NumInfos)).sum := by
  obtain ⟨n, hn⟩ : ∃ n, s.NumInfos = n + 1 := ⟨s.NumInfos - 1, by have := h.num_pos; omega⟩
  have hch : ∀ k ∈ (s.Infos c).Children,
      subtreeSize s.Infos (n + 1) k = subtreeSize s.Infos n k := by
    intro k hk
    obtain ⟨b1, _, b3⟩ := h.child c k hk
    apply subtreeSize_stable
    intro hchain
    rw [← hn] at hchain
    obtain ⟨y, hy1, hy2⟩ := hasChildChain_parent P s h s.NumInfos k b1 hchain
    have hkc := iterParent_pigeonhole P s h y k hy1 hy2
    apply hc
    apply OnParentCycle_up s.Infos k c 1 hkc
    rw [iterParent, iterParent]
    exact b3
  rw [hn, subtreeSize, List.map_congr_left hch]

theorem subtreeSize_perm (I1 I2 : Nat → FFormatXInfo)
    (h : ∀ x, (I1 x).Children.Perm (I2 x).Children) (d c : Nat) :
    subtreeSize I1 d c = subtreeSize I2 d c := by
  induction d generalizing c with
  | zero => rfl
  | succ d ih =>
    rw [subtreeSize, subtreeSize]
    have h1 : (I1 c).Children.map (subtreeSize I1 d) = (I1 c).Children.map (subtreeSize I2 d) :=
      List.map_congr_left (fun z _ => ih z)
    rw [h1, ((h c).map _).sum_eq]

theorem filter_length_mono {α : Type} (p q : α → Bool) (L : List α)
    (h : ∀ x ∈ L, p x = true → q x = true) : (L.filter p).length ≤ (L.filter q).length := by
  induction L with
  | nil => simp
  | cons a L ih =>
    have ih2 := ih (fun x hx => h x (List.mem_cons_of_mem a hx))
    simp only [List.filter_cons]
    by_cases hp : p a = true
    · have hq := h a (List.mem_cons_self a L) hp
      rw [if_pos hp, if_pos hq]
      simp only [List.length_cons]
      omega
    · rw [if_neg hp]
      by_cases hq : q a = true
      · rw [if_pos hq]
        simp only [List.length_cons]
        omega
      · rw [if_neg hq]
        exact ih2

theorem filter_length_congr {α : Type} (p q : α → Bool) (L : List α)
    (h : ∀ x ∈ L, p x = q x) : (L.filter p).length = (L.filter q).length := by
  apply Nat.le_antisymm
  · exact filter_length_mono p q L (fun x hx hp => by rw [← h x hx]; exact hp)
  · exact filter_length_mono q p L (fun x hx hq => by rw [h x hx]; exact hq)

theorem filter_length_lt_of {α : Type} (p q : α → Bool) (L : List α)
    (hpq : ∀ y ∈ L, p y = true → q y = true) (x : α) (hx : x ∈ L) (hqx : q x = true)
    (hpx : p x = false) : (L.filter p).length + 1 ≤ (L.filter q).length := by
  induction L with
  | nil => exact absurd hx (List.not_mem_nil x)
  | cons a L ih =>
    have hmono := filter_length_mono p q L (fun y hy => hpq y (List.mem_cons_of_mem a hy))
    simp only [List.filter_cons]
    by_cases hp : p a = true
    · have hq := hpq a (List.mem_cons_self a L) hp
      rw [if_pos hp, if_pos hq]
      have hxL : x ∈ L := by
        rcases List.mem_cons.1 hx with e | e
        · rw [e, hp] at hpx
          exact absurd hpx (by simp)
        · exact e
      have := ih (fun y hy => hpq y (List.mem_cons_of_mem a hy)) hxL
      simp only [List.length_cons]
      omega
    · rw [if_neg hp]
      by_cases hq : q a = true
      · rw [if_pos hq]
        simp only [List.length_cons]
        omega
      · rw [if_neg hq]
        have hxL : x ∈ L := by
          rcases List.mem_cons.1 hx with e | e
          · rw [e] at hqx
            exact absurd hqx hq
          · exact e
        exact ih (fun y hy => hpq y (List.mem_cons_of_mem a hy)) hxL

theorem FormatX_visitLink_measure {Env : Type} (P : FormatXParams Env) (cur : Nat)
    (s : FormatXState Env) (l : Nat × Nat) (h : FormatX_inv P s)
    (hl : l ∈ FormatX_links P) :
    FormatX_visitLink P cur s l = s ∨
    FormatX_measure1 P (FormatX_visitLink P cur s l) < FormatX_measure1 P s := by
  rcases FormatX_visitLink_cases P cur s l with ⟨_, h2⟩ | ⟨h1, _, f1, f2, f3, f4, f5, f6⟩ |
      ⟨h1, hpool, hpure, f1, f2, f3, f6, fst⟩
  · exact Or.inl h2
  · right
    have hu : FormatX_unvisited P (FormatX_visitLink P cur s l) + 1 ≤ FormatX_unvisited P s := by
      unfold FormatX_unvisited
      rw [f6]
      apply filter_length_lt_of _ _ (FormatX_links P) _ l hl
      · simpa using h1
      · simp
      · intro y _ hy
        simp only [decide_eq_true_eq, List.mem_append, List.mem_singleton, not_or] at hy ⊢
        exact hy.1
    have hf : FormatX_fresh P (FormatX_visitLink P cur s l) = FormatX_fresh P s := by
      unfold FormatX_fresh
      rw [f1, f3, f4, f5]
    unfold FormatX_measure1
    omega
  · right
    have hu : FormatX_unvisited P (FormatX_visitLink P cur s l) + 1 ≤ FormatX_unvisited P s := by
      unfold FormatX_unvisited
      rw [f6]
      apply filter_length_lt_of _ _ (FormatX_links P) _ l hl
      · simpa using h1
      · simp
      · intro y _ hy
        simp only [decide_eq_true_eq, List.mem_append, List.mem_singleton, not_or] at hy ⊢
        exact hy.1
    have hperm : ((FormatX_visitLink P cur s l).OutputStack ++
        (FormatX_visitLink P cur s l).InputStack).Perm
        (s.NumInfos :: (s.OutputStack ++ s.InputStack)) := by
      rcases fst with ⟨e1, e2⟩ | ⟨e1, e2⟩
      · rw [e1, e2]
        exact List.Perm.refl _
      · rw [e1, e2]
        exact List.perm_middle
    have hf : FormatX_fresh P (FormatX_visitLink P cur s l) ≤ FormatX_fresh P s + 1 := by
      unfold FormatX_fresh
      rw [(hperm.filter _).length_eq, f3]
      have hcongr : ((s.OutputStack ++ s.InputStack).filter (fun e =>
          decide (s.FormatXInfoMap (InfoNode P.g (FormatX_visitLink P cur s l).Infos e)
            ≠ some e))).length
          = ((s.OutputStack ++ s.InputStack).filter (fun e =>
          decide (s.FormatXInfoMap (InfoNode P.g s.Infos e) ≠ some e))).length := by
        apply filter_length_congr
        intro e he
        have he2 := h.stack_lt e he
        have : (FormatX_visitLink P cur s l).Infos e = s.Infos e := by
          rw [f1]
          unfold setInfo
          rw [if_neg (Nat.ne_of_lt he2)]
        unfold InfoNode
        rw [this]
      rw [← hcongr]
      simp only [List.filter_cons]
      split_ifs
      · simp only [List.length_cons]
        omega
      · omega
    unfold FormatX_measure1
    omega

theorem FormatX_visitLinks_measure {Env : Type} (P : FormatXParams Env) (cur : Nat)
    (ls : List (Nat × Nat)) (s : FormatXState Env) (h : FormatX_inv P s)
    (hcur : cur < s.NumInfos)
    (hc : IsMapInfo P s cur ∨ ∀ l ∈ ls, l ∈ s.VisitedLinks)
    (hl : ∀ l ∈ ls, l ∈ FormatX_links P) :
    ls.foldl (FormatX_visitLink P cur) s = s ∨
    FormatX_measure1 P (ls.foldl (FormatX_visitLink P cur) s) < FormatX_measure1 P s := by
  induction ls generalizing s with
  | nil => exact Or.inl rfl
  | cons a ls ih =>
    rw [List.foldl_cons]
    have hc1 : IsMapInfo P s cur ∨ a ∈ s.VisitedLinks := by
      rcases hc with hc | hc
      · exact Or.inl hc
      · exact Or.inr (hc a (List.mem_cons_self a ls))
    obtain ⟨v1, v2, v3, v4, v5, v6, v7⟩ := FormatX_visitLink_inv P cur s a h hcur hc1
    have hc2 : IsMapInfo P (FormatX_visitLink P cur s a) cur ∨
        ∀ l ∈ ls, l ∈ (FormatX_visitLink P cur s a).VisitedLinks := by
      rcases hc with hc | hc
      · exact Or.inl ((v7 cur hcur).2 hc)
      · exact Or.inr (fun l hl => v4 l (hc l (List.mem_cons_of_mem a hl)))
    have ih2 := ih (FormatX_visitLink P cur s a) v1 (Nat.lt_of_lt_of_le hcur v2) hc2
      (fun l hl2 => hl l (List.mem_cons_of_mem a hl2))
    rcases FormatX_visitLink_measure P cur s a h (hl a (List.mem_cons_self a ls)) with e | e
    · rw [e] at ih2 ⊢
      exact ih2
    · right
      rcases ih2 with e2 | e2
      · rw [e2]
        exact e
      · exact Nat.lt_trans e2 e

theorem FormatX_bHasCycle_false {Env : Type} (P : FormatXParams Env) (s : FormatXState Env)
    (h : FormatX_inv P s) (c p : Nat) (hc0 : 0 < c) (hcN : c < s.NumInfos)
    (hcm : IsMapInfo P s c) (hpar : (s.Infos c).Parent = some p)
    (hcyc : FormatX_bHasCycle P s c c = false) : ¬ OnParentCycle s.Infos c := by
  intro hon
  have hmem := GetChildren_of_cycle P s h c p hcm hpar hon
  obtain ⟨pp, lp, p2, a1, _, _, _, _, _⟩ := h.link c hc0 hcN
  unfold FormatX_bHasCycle at hcyc
  rw [a1, hpar] at hcyc
  simp only [decide_eq_false_iff_not] at hcyc
  exact hcyc hmem

theorem FormatX_revisit_same_measure2 {Env : Type} (P : FormatXParams Env)
    (s : FormatXState Env) (cur : Nat) (NewX : Int) (h : FormatX_inv P s)
    (hcur : cur < s.NumInfos)
    (hm : s.FormatXInfoMap (InfoNode P.g s.Infos cur) = some cur)
    (ht : FormatX_bTakeNewParent P s cur cur NewX = true) :
    FormatX_measure2 (FormatX_revisit P s cur cur NewX).1 + 1
      ≤ subtreeSize s.Infos s.NumInfos cur + FormatX_measure2 s := by
  obtain ⟨p, q, hpar, hpar0, hc0, _, _, hcm, _, hcyc, _, _, _, hmem, _⟩ :=
    FormatX_revisit_accepted P s cur cur NewX h hcur hm ht
  obtain ⟨h1, f2, f3, f4, _, _⟩ := FormatX_revisit_inv P s cur cur NewX h hcur hm
  obtain ⟨_, _, _, _, f5, f6⟩ := FormatX_revisit_fields P s cur cur NewX ht
  have hpq : p = q := by
    rw [hpar] at hpar0
    exact Option.some.inj hpar0
  subst hpq
  have hnc : ¬ OnParentCycle s.Infos cur :=
    FormatX_bHasCycle_false P s h cur p hc0 hcur hcm hpar hcyc
  have hperm : ∀ x, ((FormatX_revisit P s cur cur NewX).1.Infos x).Children.Perm
      (s.Infos x).Children := by
    intro x
    apply (List.perm_ext_iff_of_nodup (h1.child_nodup x) (h.child_nodup x)).2
    intro k
    rw [hmem]
    constructor
    · rintro (⟨e1, e2⟩ | ⟨e1, _⟩)
      · rw [e1, e2]
        exact h.child_conv cur p hcm hpar
      · exact e1
    · intro hk
      by_cases hkc : k = cur
      · left
        subst hkc
        have := (h.child x k hk).2.2
        rw [hpar] at this
        exact ⟨(Option.some.inj this).symm, rfl⟩
      · exact Or.inr ⟨hk, fun _ => hkc⟩
  have hsize : ∀ d c, subtreeSize (FormatX_revisit P s cur cur NewX).1.Infos d c
      = subtreeSize s.Infos d c := subtreeSize_perm _ _ hperm
  have hstack := FormatX_pushChildren_perm P.g (FormatX_revisit P s cur cur NewX).1.Infos
    ((FormatX_revisit P s cur cur NewX).1.Infos cur).Children s.OutputStack s.InputStack
  rw [← f5, ← f6] at hstack
  have hstack2 : ((FormatX_revisit P s cur cur NewX).1.OutputStack ++
      (FormatX_revisit P s cur cur NewX).1.InputStack).Perm
      ((s.Infos cur).Children ++ (s.OutputStack ++ s.InputStack)) :=
    hstack.trans (List.Perm.append_right _ (hperm cur))
  unfold FormatX_measure2
  rw [f2]
  have hfun : subtreeSize (FormatX_revisit P s cur cur NewX).1.Infos s.NumInfos
      = subtreeSize s.Infos s.NumInfos := funext (hsize s.NumInfos)
  rw [hfun, (hstack2.map _).sum_eq, List.map_append, List.sum_append,
    subtreeSize_children P s h cur hnc]
  omega

theorem FormatX_afterPop_measure {Env : Type} (P : FormatXParams Env) (s : FormatXState Env)
    (cur : Nat) (out inp : List Nat) (hpop : FormatX_pop s = some (cur, out, inp)) :
    FormatX_measure1 P s = FormatX_measure1 P (FormatX_afterPop P s cur out inp)
      + (if s.FormatXInfoMap (InfoNode P.g s.Infos cur) ≠ some cur then 1 else 0) ∧
    FormatX_measure2 s = subtreeSize s.Infos s.NumInfos cur
      + FormatX_measure2 (FormatX_afterPop P s cur out inp) := by
  have hperm := FormatX_pop_perm s cur out inp hpop
  constructor
  · unfold FormatX_measure1 FormatX_unvisited FormatX_fresh
    rw [(hperm.filter _).length_eq]
    simp only [List.filter_cons]
    have e1 : (FormatX_afterPop P s cur out inp).VisitedLinks = s.VisitedLinks := rfl
    have e2 : (FormatX_afterPop P s cur out inp).Infos = s.Infos := rfl
    have e3 : (FormatX_afterPop P s cur out inp).FormatXInfoMap = s.FormatXInfoMap := rfl
    have e4 : (FormatX_afterPop P s cur out inp).OutputStack = out := rfl
    have e5 : (FormatX_afterPop P s cur out inp).InputStack = inp := rfl
    rw [e1, e2, e3, e4, e5]
    by_cases hc : s.FormatXInfoMap (InfoNode P.g s.Infos cur) = some cur
    · simp [hc]
    · simp [hc]
      omega
  · unfold FormatX_measure2
    rw [(hperm.map _).sum_eq]
    rfl

theorem FormatX_branch_measure1 {Env : Type} (P : FormatXParams Env) (s : FormatXState Env)
    (cur : Nat) (h : FormatX_inv P s) (hcur : cur < s.NumInfos) :
    FormatX_measure1 P (FormatX_branch P s cur).1 ≤ FormatX_measure1 P s := by
  unfold FormatX_branch
  cases hm : s.FormatXInfoMap ((s.Infos cur).Link.GetNode P.g) with
  | none =>
    dsimp only
    obtain ⟨a1, a2, a3, a4, a5⟩ := FormatX_firstVisit_inv P s cur
      (P.GetChildX s.env s.NodePosX (s.Infos cur).Link) h hcur hm
    obtain ⟨f1, f2, f3, f4, f5⟩ := FormatX_firstVisit_fields P s cur
      (P.GetChildX s.env s.NodePosX (s.Infos cur).Link)
    have hu : FormatX_unvisited P (FormatX_firstVisit P s cur
        (P.GetChildX s.env s.NodePosX (s.Infos cur).Link)) = FormatX_unvisited P s := by
      unfold FormatX_unvisited
      rw [f5]
    have hf : FormatX_fresh P (FormatX_firstVisit P s cur
        (P.GetChildX s.env s.NodePosX (s.Infos cur).Link)) ≤ FormatX_fresh P s := by
      unfold FormatX_fresh
      rw [f3, f4]
      apply filter_length_mono
      intro e _ he
      simp only [decide_eq_true_eq] at he ⊢
      intro hme
      exact he (a4 e hme)
    unfold FormatX_measure1
    omega
  | some old =>
    dsimp only
    by_cases ht : FormatX_bTakeNewParent P s cur old
        (P.GetChildX s.env s.NodePosX (s.Infos cur).Link) = true
    · obtain ⟨a1, a2, a3, a4, a5, _⟩ := FormatX_revisit_inv P s cur old
        (P.GetChildX s.env s.NodePosX (s.Infos cur).Link) h hcur hm
      obtain ⟨_, _, _, _, f5, f6⟩ := FormatX_revisit_fields P s cur old
        (P.GetChildX s.env s.NodePosX (s.Infos cur).Link) ht
      have hu : FormatX_unvisited P (FormatX_revisit P s cur old
          (P.GetChildX s.env s.NodePosX (s.Infos cur).Link)).1 = FormatX_unvisited P s := by
        unfold FormatX_unvisited
        rw [a4]
      have hstack := FormatX_pushChildren_perm P.g (FormatX_revisit P s cur old
          (P.GetChildX s.env s.NodePosX (s.Infos cur).Link)).1.Infos
        ((FormatX_revisit P s cur old
          (P.GetChildX s.env s.NodePosX (s.Infos cur).Link)).1.Infos old).Children
        s.OutputStack s.InputStack
      rw [← f5, ← f6] at hstack
      have hf : FormatX_fresh P (FormatX_revisit P s cur old
          (P.GetChildX s.env s.NodePosX (s.Infos cur).Link)).1 ≤ FormatX_fresh P s := by
        unfold FormatX_fresh
        rw [(hstack.filter _).length_eq, List.filter_append, List.length_append, a3]
        have hz : (List.filter (fun e => decide (s.FormatXInfoMap (InfoNode P.g
            (FormatX_revisit P s cur old
              (P.GetChildX s.env s.NodePosX (s.Infos cur).Link)).1.Infos e) ≠ some e))
            ((FormatX_revisit P s cur old
              (P.GetChildX s.env s.NodePosX (s.Infos cur).Link)).1.Infos old).Children).length
            = 0 := by
          rw [List.length_eq_zero, List.filter_eq_nil_iff]
          intro e he
          have hme := (a1.child old e he).2.1
          unfold IsMapInfo at hme
          rw [a3] at hme
          simp only [decide_eq_true_eq, ne_eq, not_not]
          exact hme
        rw [hz, Nat.zero_add]
        apply Nat.le_of_eq
        apply filter_length_congr
        intro e _
        rw [a5 e]
      unfold FormatX_measure1
      omega
    · rw [FormatX_revisit_rejected P s cur old _ ht]

theorem FormatX_step_measure {Env : Type} (P : FormatXParams Env) (s : FormatXState Env)
    (h : FormatX_inv P s) (hv : FormatX_visited P s) (hnd : FormatX_done s = false) :
    FormatX_measure1 P (FormatX_step P s) < FormatX_measure1 P s ∨
    (FormatX_measure1 P (FormatX_step P s) ≤ FormatX_measure1 P s ∧
      FormatX_measure2 (FormatX_step P s) < FormatX_measure2 s) := by
  cases hpop : FormatX_pop s with
  | none =>
    rw [(FormatX_pop_none s).1 hpop] at hnd
    exact absurd hnd (by simp)
  | some r =>
    obtain ⟨cur, out, inp⟩ := r
    rw [FormatX_step_eq P s cur out inp hpop]
    obtain ⟨h0, hcur⟩ := FormatX_afterPop_inv P s cur out inp h hpop
    obtain ⟨b1, b2, b3, b4, b5, b6, b7, b8, b9, b10⟩ :=
      FormatX_branch_inv P (FormatX_afterPop P s cur out inp) cur h0 hcur
    have hperm := FormatX_pop_perm s cur out inp hpop
    have hcur0 : (s.OutputStack = [0] ∧ s.InputStack = []) → cur = 0 := by
      rintro ⟨e1, e2⟩
      rw [e1, e2] at hperm
      have := hperm.mem_iff.2 (List.mem_cons_self cur (out ++ inp))
      simpa using this
    have hfoldhyp : IsMapInfo P (FormatX_branch P (FormatX_afterPop P s cur out inp) cur).1
          (FormatX_branch P (FormatX_afterPop P s cur out inp) cur).2 ∨
        ∀ l ∈ FormatX_linksOf P.g (InfoNode P.g
            (FormatX_branch P (FormatX_afterPop P s cur out inp) cur).1.Infos
            (FormatX_branch P (FormatX_afterPop P s cur out inp) cur).2),
          l ∈ (FormatX_branch P (FormatX_afterPop P s cur out inp) cur).1.VisitedLinks := by
      rcases b10 with e | ⟨e, hne⟩
      · exact Or.inl e
      · rcases hv with hv | ⟨e1, e2, _⟩
        · right
          rw [b5, b4]
          exact hv _ hne
        · left
          rw [e]
          have hc := hcur0 ⟨e1, e2⟩
          subst hc
          exact IsMapInfo_zero P _ h0
    have hlinks : ∀ l ∈ FormatX_linksOf P.g (InfoNode P.g
        (FormatX_branch P (FormatX_afterPop P s cur out inp) cur).1.Infos
        (FormatX_branch P (FormatX_afterPop P s cur out inp) cur).2), l ∈ FormatX_links P := by
      intro l hl
      rw [b5] at hl
      unfold FormatX_links
      exact List.mem_flatMap.2 ⟨_, InfoNode_mem P _ h0 cur hcur, hl⟩
    have hfold := FormatX_visitLinks_measure P
      (FormatX_branch P (FormatX_afterPop P s cur out inp) cur).2
      (FormatX_linksOf P.g (InfoNode P.g
          (FormatX_branch P (FormatX_afterPop P s cur out inp) cur).1.Infos
          (FormatX_branch P (FormatX_afterPop P s cur out inp) cur).2))
      (FormatX_branch P (FormatX_afterPop P s cur out inp) cur).1 b1 (by rw [b2]; exact b3)
      hfoldhyp hlinks
    have hbr := FormatX_branch_measure1 P (FormatX_afterPop P s cur out inp) cur h0 hcur
    obtain ⟨hm1, hm2⟩ := FormatX_afterPop_measure P s cur out inp hpop
    by_cases hm : s.FormatXInfoMap (InfoNode P.g s.Infos cur) = some cur
    · rw [if_neg (by simpa using hm)] at hm1
      rcases hfold with e | e
      · right
        rw [e]
        refine ⟨by omega, ?_⟩
        rw [hm2]
        have hbranch : FormatX_branch P (FormatX_afterPop P s cur out inp) cur
            = FormatX_revisit P (FormatX_afterPop P s cur out inp) cur cur
              (P.GetChildX (FormatX_afterPop P s cur out inp).env
                (FormatX_afterPop P s cur out inp).NodePosX
                ((FormatX_afterPop P s cur out inp).Infos cur).Link) := by
          unfold FormatX_branch
          have hm' : (FormatX_afterPop P s cur out inp).FormatXInfoMap
              (((FormatX_afterPop P s cur out inp).Infos cur).Link.GetNode P.g) = some cur := hm
          rw [hm']
        rw [hbranch]
        by_cases ht : FormatX_bTakeNewParent P (FormatX_afterPop P s cur out inp) cur cur
            (P.GetChildX (FormatX_afterPop P s cur out inp).env
              (FormatX_afterPop P s cur out inp).NodePosX
              ((FormatX_afterPop P s cur out inp).Infos cur).Link) = true
        · have := FormatX_revisit_same_measure2 P (FormatX_afterPop P s cur out inp) cur _ h0
            hcur hm ht
          have this2 : FormatX_measure2 (FormatX_revisit P (FormatX_afterPop P s cur out inp)
              cur cur (P.GetChildX (FormatX_afterPop P s cur out inp).env
                (FormatX_afterPop P s cur out inp).NodePosX
                ((FormatX_afterPop P s cur out inp).Infos cur).Link)).1 + 1
              ≤ subtreeSize s.Infos s.NumInfos cur
                + FormatX_measure2 (FormatX_afterPop P s cur out inp) := this
          omega
        · rw [FormatX_revisit_rejected P _ cur cur _ ht]
          have := subtreeSize_pos s.Infos s.NumInfos cur
          show FormatX_measure2 (FormatX_afterPop P s cur out inp) < _
          omega
      · left
        omega
    · rw [if_pos (by simpa using hm)] at hm1
      left
      rcases hfold with e | e
      · rw [e]
        omega
      · omega

theorem FormatX_loop_succ_done {Env : Type} (P : FormatXParams Env) (fuel : Nat)
    (s : FormatXState Env) (h : FormatX_done (FormatX_loop P fuel (FormatX_step P s)) = true) :
    FormatX_done (FormatX_loop P (fuel + 1) s) = true := by
  rw [FormatX_loop]
  exact h

theorem FormatX_terminates_from {Env : Type} (P : FormatXParams Env) :
    ∀ a b (s : FormatXState Env), FormatX_inv P s → FormatX_visited P s →
      FormatX_measure1 P s = a → FormatX_measure2 s = b →
      ∃ fuel, FormatX_done (FormatX_loop P fuel s) = true := by
  intro a
  induction a using Nat.strong_induction_on with
  | _ a iha =>
    intro b
    induction b using Nat.strong_induction_on with
    | _ b ihb =>
      intro s h hv ha hb
      by_cases hd : FormatX_done s = true
      · exact ⟨0, hd⟩
      · have hd2 : FormatX_done s = false := by simpa using hd
        obtain ⟨h', hv'⟩ := FormatX_step_inv P s h hv
        rcases FormatX_step_measure P s h hv hd2 with e | ⟨e1, e2⟩
        · obtain ⟨fuel, hf⟩ := iha _ (by rw [← ha]; exact e) _ (FormatX_step P s) h' hv' rfl rfl
          exact ⟨fuel + 1, FormatX_loop_succ_done P fuel s hf⟩
        · rcases Nat.lt_or_eq_of_le e1 with e3 | e3
          · obtain ⟨fuel, hf⟩ := iha _ (by rw [← ha]; exact e3) _ (FormatX_step P s) h' hv'
              rfl rfl
            exact ⟨fuel + 1, FormatX_loop_succ_done P fuel s hf⟩
          · obtain ⟨fuel, hf⟩ := ihb _ (by rw [← hb]; exact e2) (FormatX_step P s) h' hv'
              (by rw [e3, ha]) rfl
            exact ⟨fuel + 1, FormatX_loop_succ_done P fuel s hf⟩

theorem FormatX_loop_add {Env : Type} (P : FormatXParams Env) (a b : Nat)
    (s : FormatXState Env) :
    FormatX_loop P (a + b) s = FormatX_loop P b (FormatX_loop P a s) := by
  induction a generalizing s with
  | zero => simp [FormatX_loop]
  | succ a ih => rw [Nat.succ_add, FormatX_loop, FormatX_loop, ih]

theorem FormatX_loop_fixed {Env : Type} (P : FormatXParams Env) (k : Nat)
    (s : FormatXState Env) (h : FormatX_done s = true) : FormatX_loop P k s = s := by
  induction k with
  | zero => rfl
  | succ k ih => rw [FormatX_loop, FormatX_step_done P s h, ih]

theorem FormatX_branch_stacks {Env : Type} (P : FormatXParams Env) (s : FormatXState Env)
    (cur : Nat) (h : FormatX_inv P s) (hcur : cur < s.NumInfos) :
    (∀ e ∈ s.OutputStack ++ s.InputStack,
      e ∈ (FormatX_branch P s cur).1.OutputStack ++ (FormatX_branch P s cur).1.InputStack) ∧
    (∀ n, s.FormatXInfoMap n ≠ none → (FormatX_branch P s cur).1.FormatXInfoMap n ≠ none) := by
  obtain ⟨b1, b2, b3, b4, b5, b6, b7, b8, b9, b10⟩ := FormatX_branch_inv P s cur h hcur
  constructor
  · unfold FormatX_branch
    cases hm : s.FormatXInfoMap ((s.Infos cur).Link.GetNode P.g) with
    | none =>
      dsimp only
      obtain ⟨f1, f2, f3, f4, f5⟩ := FormatX_firstVisit_fields P s cur
        (P.GetChildX s.env s.NodePosX (s.Infos cur).Link)
      rw [f3, f4]
      exact fun e he => he
    | some old =>
      dsimp only
      by_cases ht : FormatX_bTakeNewParent P s cur old
          (P.GetChildX s.env s.NodePosX (s.Infos cur).Link) = true
      · obtain ⟨_, _, _, _, f5, f6⟩ := FormatX_revisit_fields P s cur old
          (P.GetChildX s.env s.NodePosX (s.Infos cur).Link) ht
        intro e he
        rw [f5, f6]
        exact (FormatX_pushChildren_perm _ _ _ _ _).mem_iff.2 (List.mem_append_right _ he)
      · rw [FormatX_revisit_rejected P s cur old _ ht]
        exact fun e he => he
  · intro n hn
    cases hmn : s.FormatXInfoMap n with
    | none => exact absurd hmn hn
    | some i =>
      have hi := IsMapInfo_of_map P s h n i hmn
      have hi2 := b7 i hi
      unfold IsMapInfo at hi2
      rw [b6 i, (h.map_lt n i hmn).2] at hi2
      rw [hi2]
      simp

theorem FormatX_visitLink_closed {Env : Type} (P : FormatXParams Env) (cur : Nat)
    (s : FormatXState Env) (l : Nat × Nat) (h : FormatX_inv P s) (hc : FormatX_closed P s) :
    FormatX_closed P (FormatX_visitLink P cur s l) := by
  rcases FormatX_visitLink_cases P cur s l with ⟨_, h2⟩ | ⟨h1, hskip, f1, f2, f3, f4, f5, f6⟩ |
      ⟨h1, hpool, hpure, f1, f2, f3, f6, fst⟩
  · rw [h2]
    exact hc
  · intro x hx hxp hxi
    rw [f6] at hx
    rw [f1, f3, f4, f5]
    rcases List.mem_append.1 hx with e | e
    · exact hc x e hxp hxi
    · rw [List.mem_singleton] at e
      subst e
      rcases hskip with e2 | e2
      · exact absurd hxp e2
      · rw [hxi] at e2
        exact absurd e2 (by simp)
  · intro x hx hxp hxi
    rw [f6] at hx
    rw [f3]
    have hsub : ∀ e ∈ s.OutputStack ++ s.InputStack,
        e ∈ (FormatX_visitLink P cur s l).OutputStack ++
          (FormatX_visitLink P cur s l).InputStack := by
      intro e he
      rcases fst with ⟨e1, e2⟩ | ⟨e1, e2⟩
      · rw [e1, e2]
        exact List.mem_cons_of_mem _ he
      · rw [e1, e2]
        rcases List.mem_append.1 he with he | he
        · exact List.mem_append_left _ he
        · exact List.mem_append_right _ (List.mem_cons_of_mem _ he)
    have hnew : s.NumInfos ∈ (FormatX_visitLink P cur s l).OutputStack ++
        (FormatX_visitLink P cur s l).InputStack := by
      rcases fst with ⟨e1, e2⟩ | ⟨e1, e2⟩
      · rw [e1, e2]
        exact List.mem_cons_self _ _
      · rw [e1, e2]
        exact List.mem_append_right _ (List.mem_cons_self _ _)
    rcases List.mem_append.1 hx with e | e
    · rcases hc x e hxp hxi with e2 | ⟨e3, he3, hn3⟩
      · exact Or.inl e2
      · right
        refine ⟨e3, hsub e3 he3, ?_⟩
        have : (FormatX_visitLink P cur s l).Infos e3 = s.Infos e3 := by
          rw [f1]
          unfold setInfo
          rw [if_neg (Nat.ne_of_lt (h.stack_lt e3 he3))]
        unfold InfoNode
        rw [this]
        exact hn3
    · rw [List.mem_singleton] at e
      subst e
      right
      refine ⟨s.NumInfos, hnew, ?_⟩
      unfold InfoNode
      rw [f1]
      unfold setInfo
      rw [if_pos rfl]
      rfl

theorem FormatX_visitLinks_closed {Env : Type} (P : FormatXParams Env) (cur : Nat)
    (ls : List (Nat × Nat)) (s : FormatXState Env) (h : FormatX_inv P s)
    (hcur : cur < s.NumInfos)
    (hm : IsMapInfo P s cur ∨ ∀ l ∈ ls, l ∈ s.VisitedLinks) (hc : FormatX_closed P s) :
    FormatX_closed P (ls.foldl (FormatX_visitLink P cur) s) := by
  induction ls generalizing s with
  | nil => exact hc
  | cons a ls ih =>
    rw [List.foldl_cons]
    have hc1 : IsMapInfo P s cur ∨ a ∈ s.VisitedLinks := by
      rcases hm with hm | hm
      · exact Or.inl hm
      · exact Or.inr (hm a (List.mem_cons_self a ls))
    obtain ⟨v1, v2, v3, v4, v5, v6, v7⟩ := FormatX_visitLink_inv P cur s a h hcur hc1
    have hc2 : IsMapInfo P (FormatX_visitLink P cur s a) cur ∨
        ∀ l ∈ ls, l ∈ (FormatX_visitLink P cur s a).VisitedLinks := by
      rcases hm with hm | hm
      · exact Or.inl ((v7 cur hcur).2 hm)
      · exact Or.inr (fun l hl => v4 l (hm l (List.mem_cons_of_mem a hl)))
    exact ih (FormatX_visitLink P cur s a) v1 (Nat.lt_of_lt_of_le hcur v2) hc2
      (FormatX_visitLink_closed P cur s a h hc)

theorem FormatX_step_closed {Env : Type} (P : FormatXParams Env) (s : FormatXState Env)
    (h : FormatX_inv P s) (hv : FormatX_visited P s) (hc : FormatX_closed P s) :
    FormatX_closed P (FormatX_step P s) := by
  cases hpop : FormatX_pop s with
  | none =>
    rw [FormatX_step_done P s ((FormatX_pop_none s).1 hpop)]
    exact hc
  | some r =>
    obtain ⟨cur, out, inp⟩ := r
    rw [FormatX_step_eq P s cur out inp hpop]
    obtain ⟨h0, hcur⟩ := FormatX_afterPop_inv P s cur out inp h hpop
    obtain ⟨b1, b2, b3, b4, b5, b6, b7, b8, b9, b10⟩ :=
      FormatX_branch_inv P (FormatX_afterPop P s cur out inp) cur h0 hcur
    obtain ⟨k1, k2⟩ := FormatX_branch_stacks P (FormatX_afterPop P s cur out inp) cur h0 hcur
    have hperm := FormatX_pop_perm s cur out inp hpop
    have hcur0 : (s.OutputStack = [0] ∧ s.InputStack = []) → cur = 0 := by
      rintro ⟨e1, e2⟩
      rw [e1, e2] at hperm
      have := hperm.mem_iff.2 (List.mem_cons_self cur (out ++ inp))
      simpa using this
    have hfoldhyp : IsMapInfo P (FormatX_branch P (FormatX_afterPop P s cur out inp) cur).1
          (FormatX_branch P (FormatX_afterPop P s cur out inp) cur).2 ∨
        ∀ l ∈ FormatX_linksOf P.g (InfoNode P.g
            (FormatX_branch P (FormatX_afterPop P s cur out inp) cur).1.Infos
            (FormatX_branch P (FormatX_afterPop P s cur out inp) cur).2),
          l ∈ (FormatX_branch P (FormatX_afterPop P s cur out inp) cur).1.VisitedLinks := by
      rcases b10 with e | ⟨e, hne⟩
      · exact Or.inl e
      · rcases hv with hv | ⟨e1, e2, _⟩
        · right
          rw [b5, b4]
          exact hv _ hne
        · left
          rw [e]
          have hc := hcur0 ⟨e1, e2⟩
          subst hc
          exact IsMapInfo_zero P _ h0
    have hclosed : FormatX_closed P (FormatX_branch P (FormatX_afterPop P s cur out inp) cur).1 := by
      intro l hl hlp hli
      rw [b4] at hl
      rcases hc l hl hlp hli with e | ⟨e, he, hn⟩
      · exact Or.inl (k2 _ e)
      · rcases List.mem_cons.1 (hperm.mem_iff.1 he) with e2 | e2
        · left
          rw [← hn, e2]
          exact b9
        · right
          exact ⟨e, k1 e e2, by rw [b6 e]; exact hn⟩
    exact FormatX_visitLinks_closed P _ _ _ b1 (by rw [b2]; exact b3) hfoldhyp hclosed

theorem FormatX_loop_closed {Env : Type} (P : FormatXParams Env) (fuel : Nat)
    (s : FormatXState Env) (h : FormatX_inv P s) (hv : FormatX_visited P s)
    (hc : FormatX_closed P s) : FormatX_closed P (FormatX_loop P fuel s) := by
  induction fuel generalizing s with
  | zero => exact hc
  | succ k ih =>
    obtain ⟨a, b⟩ := FormatX_step_inv P s h hv
    exact ih _ a b (FormatX_step_closed P s h hv hc)

theorem FormatX_init_closed {Env : Type} (P : FormatXParams Env) (pos : Nat → Int) (env : Env) :
    FormatX_closed P (FormatX_init P pos env) :=
  fun l hl => absurd hl (List.not_mem_nil l)

theorem FormatX_linksOf_mem (g : EdGraph) (n pp lp : Nat) :
    (pp, lp) ∈ FormatX_linksOf g n ↔
      (pp ∈ g.Pins n ∧ g.IsExecOrDelegatePin pp = true ∧ lp ∈ g.LinkedTo pp) := by
  unfold FormatX_linksOf GetLinkedPins
  simp only [List.mem_flatMap, List.mem_reverse, List.mem_filter, List.mem_map,
    Prod.mk.injEq, Bool.true_and, Bool.not_eq_true', Bool.and_eq_true]
  constructor
  · rintro ⟨a, ⟨⟨ha1, _⟩, ha3⟩, b, hb1, rfl, rfl⟩
    exact ⟨ha1, ha3, hb1⟩
  · rintro ⟨h1, h2, h3⟩
    refine ⟨pp, ⟨⟨h1, ?_⟩, h2⟩, lp, h3, rfl, rfl⟩
    cases hl : g.LinkedTo pp with
    | nil => rw [hl] at h3; exact absurd h3 (List.not_mem_nil _)
    | cons a t => rfl

/-- At the end of the loop of `FormatX`, the nodes with an entry in `FormatXInfoMap` are the
root and nodes of the pool, each entry is an info for its node, and the set of these nodes is
closed under the links to impure nodes of the pool. -/
theorem FormatX_done_map {Env : Type} (P : FormatXParams Env) (s : FormatXState Env)
    (h : FormatX_inv P s) (hv : FormatX_visited P s) (hc : FormatX_closed P s)
    (hd : FormatX_done s = true) :
    s.FormatXInfoMap P.RootNode ≠ none ∧
    (∀ n i, s.FormatXInfoMap n = some i → InfoNode P.g s.Infos i = n ∧
      (n ∈ P.NodePool ∨ n = P.RootNode)) ∧
    (∀ m, s.FormatXInfoMap m ≠ none → ∀ pp ∈ P.g.Pins m, P.g.IsExecOrDelegatePin pp = true →
      ∀ lp ∈ P.g.LinkedTo pp, P.g.OwningNode lp ∈ P.NodePool →
      P.g.IsNodePure (P.g.OwningNode lp) = false →
      s.FormatXInfoMap (P.g.OwningNode lp) ≠ none) := by
  unfold FormatX_done at hd
  simp only [Bool.and_eq_true, List.isEmpty_iff] at hd
  refine ⟨by rw [h.root_map]; simp, fun n i hm => ?_, fun m hm pp hpp hex lp hlp hpool hpure => ?_⟩
  · obtain ⟨a1, a2⟩ := h.map_lt n i hm
    refine ⟨a2, ?_⟩
    have := InfoNode_mem P s h i a1
    rw [a2] at this
    rcases List.mem_cons.1 this with e | e
    · exact Or.inr e
    · exact Or.inl e
  · have hvis : LinksVisited P s m := by
      rcases hv with hv | ⟨e1, _, _⟩
      · exact hv m hm
      · rw [hd.1] at e1
        exact absurd e1 (by simp)
    have hl := hvis (pp, lp) ((FormatX_linksOf_mem P.g m pp lp).2 ⟨hpp, hex, hlp⟩)
    rcases hc (pp, lp) hl hpool hpure with e | ⟨e, he, _⟩
    · exact e
    · rw [hd.1, hd.2] at he
      exact absurd he (List.not_mem_nil e)

theorem InitNodePool_visit_trace (g : EdGraph) (NTF : List Nat) (s : InitNodePoolState)
    (c : Nat) :
    (∀ n ∈ s.NodePool, n ∈ (InitNodePool_visit g NTF s c).NodePool) ∧
    (∀ n ∈ (InitNodePool_visit g NTF s c).NodePool, n ∈ s.NodePool ∨ n = c) ∧
    (∀ x, x ∈ (InitNodePool_visit g NTF s c).OutputNodeStack ∨
        x ∈ (InitNodePool_visit g NTF s c).InputNodeStack →
      x ∈ s.OutputNodeStack ∨ x ∈ s.InputNodeStack ∨
      (c ∈ (InitNodePool_visit g NTF s c).NodePool ∧
        ∃ l ∈ InitNodePool_links g c, x = g.OwningNode l.2.2)) := by
  unfold InitNodePool_visit
  by_cases hf : (!FilterSelectiveFormatting NTF c) = true
  · rw [if_pos hf]
    refine ⟨fun n hn => hn, fun n hn => Or.inl hn, fun x hx => ?_⟩
    rcases hx with hx | hx
    · exact Or.inl hx
    · exact Or.inr (Or.inl hx)
  · rw [if_neg hf]
    by_cases hp : (decide (c ∈ s.NodePool) || g.IsNodePure c) = true
    · rw [if_pos hp]
      refine ⟨fun n hn => hn, fun n hn => Or.inl hn, fun x hx => ?_⟩
      rcases hx with hx | hx
      · exact Or.inl hx
      · exact Or.inr (Or.inl hx)
    · rw [if_neg hp]
      obtain ⟨f1, _, _, _, _, f6⟩ := InitNodePool_fold_facts g NTF (InitNodePool_links g c)
        { s with NodePool := s.NodePool ++ [c] }
      have hpool : ((InitNodePool_links g c).foldl (InitNodePool_visitLink g NTF)
          { s with NodePool := s.NodePool ++ [c] }).NodePool = s.NodePool ++ [c] := f1
      refine ⟨fun n hn => ?_, fun n hn => ?_, fun x hx => ?_⟩
      · rw [hpool]
        exact List.mem_append_left _ hn
      · rw [hpool] at hn
        rcases List.mem_append.1 hn with e | e
        · exact Or.inl e
        · exact Or.inr (List.mem_singleton.1 e)
      · rcases f6 x hx with e | e | e
        · exact Or.inl e
        · exact Or.inr (Or.inl e)
        · refine Or.inr (Or.inr ⟨?_, e⟩)
          rw [hpool]
          exact List.mem_append_right _ (List.mem_singleton.2 rfl)

theorem InitNodePool_step_trace (g : EdGraph) (NTF : List Nat) (s : InitNodePoolState) :
    (∀ n ∈ s.NodePool, n ∈ (InitNodePool_step g NTF s).NodePool) ∧
    (∀ n ∈ (InitNodePool_step g NTF s).NodePool,
      n ∈ s.NodePool ∨ n ∈ s.OutputNodeStack ∨ n ∈ s.InputNodeStack) ∧
    (∀ x, x ∈ (InitNodePool_step g NTF s).OutputNodeStack ∨
        x ∈ (InitNodePool_step g NTF s).InputNodeStack →
      x ∈ s.OutputNodeStack ∨ x ∈ s.InputNodeStack ∨
      ∃ c ∈ (InitNodePool_step g NTF s).NodePool,
        ∃ l ∈ InitNodePool_links g c, x = g.OwningNode l.2.2) := by
  cases ho : s.OutputNodeStack with
  | cons c o =>
    rw [InitNodePool_step_out g NTF s c o ho]
    obtain ⟨t1, t2, t3⟩ := InitNodePool_visit_trace g NTF { s with OutputNodeStack := o } c
    refine ⟨t1, fun n hn => ?_, fun x hx => ?_⟩
    · rcases t2 n hn with e | e
      · exact Or.inl e
      · exact Or.inr (Or.inl (e ▸ List.mem_cons_self c o))
    · rcases t3 x hx with e | e | ⟨e1, e2⟩
      · exact Or.inl (List.mem_cons_of_mem c e)
      · exact Or.inr (Or.inl e)
      · exact Or.inr (Or.inr ⟨c, e1, e2⟩)
  | nil =>
    cases hi : s.InputNodeStack with
    | cons c i =>
      rw [InitNodePool_step_in g NTF s c i ho hi]
      obtain ⟨t1, t2, t3⟩ := InitNodePool_visit_trace g NTF { s with InputNodeStack := i } c
      refine ⟨t1, fun n hn => ?_, fun x hx => ?_⟩
      · rcases t2 n hn with e | e
        · exact Or.inl e
        · exact Or.inr (Or.inr (e ▸ List.mem_cons_self c i))
      · rcases t3 x hx with e | e | ⟨e1, e2⟩
        · rw [ho] at e
          exact absurd e (List.not_mem_nil x)
        · exact Or.inr (Or.inl (List.mem_cons_of_mem c e))
        · exact Or.inr (Or.inr ⟨c, e1, e2⟩)
    | nil =>
      have hd : InitNodePool_done s = true := by
        simp [InitNodePool_done, ho, hi]
      rw [InitNodePool_step_done g NTF s hd]
      refine ⟨fun n hn => hn, fun n hn => Or.inl hn, fun x hx => ?_⟩
      rw [ho, hi] at hx
      rcases hx with hx | hx <;> exact absurd hx (List.not_mem_nil x)

theorem InitNodePool_loop_mono (g : EdGraph) (NTF : List Nat) (fuel : Nat)
    (s : InitNodePoolState) :
    ∀ n ∈ s.NodePool, n ∈ (InitNodePool_loop g NTF fuel s).NodePool := by
  induction fuel generalizing s with
  | zero => exact fun n hn => hn
  | succ k ih =>
    intro n hn
    rw [InitNodePool_loop]
    exact ih _ n ((InitNodePool_step_trace g NTF s).1 n hn)

theorem InitNodePool_loop_least (g : EdGraph) (NTF : List Nat) (S : Nat → Prop) (fuel : Nat)
    (s : InitNodePoolState)
    (h1 : ∀ n ∈ s.NodePool, S n)
    (h2 : ∀ n, (n ∈ s.OutputNodeStack ∨ n ∈ s.InputNodeStack) →
      n ∈ (InitNodePool_loop g NTF fuel s).NodePool → S n)
    (h3 : ∀ m, S m → ∀ l ∈ InitNodePool_links g m,
      g.OwningNode l.2.2 ∈ (InitNodePool_loop g NTF fuel s).NodePool →
      S (g.OwningNode l.2.2)) :
    ∀ n ∈ (InitNodePool_loop g NTF fuel s).NodePool, S n := by
  induction fuel generalizing s with
  | zero => exact h1
  | succ k ih =>
    rw [InitNodePool_loop] at h2 h3 ⊢
    obtain ⟨t1, t2, t3⟩ := InitNodePool_step_trace g NTF s
    have k1 : ∀ n ∈ (InitNodePool_step g NTF s).NodePool, S n := by
      intro n hn
      rcases t2 n hn with e | e | e
      · exact h1 n e
      · exact h2 n (Or.inl e) (InitNodePool_loop_mono g NTF k _ n hn)
      · exact h2 n (Or.inr e) (InitNodePool_loop_mono g NTF k _ n hn)
    apply ih (InitNodePool_step g NTF s) k1 _ h3
    intro x hx hxf
    rcases t3 x hx with e | e | ⟨c, hc, l, hl, e⟩
    · exact h2 x (Or.inl e) hxf
    · exact h2 x (Or.inr e) hxf
    · rw [e]
      exact h3 c (k1 c hc) l hl (e ▸ hxf)

theorem FormatX_terminates_init {Env : Type} (P : FormatXParams Env) (pos : Nat → Int)
    (env : Env) :
    ∃ fuel, FormatX_done (FormatX_loop P fuel (FormatX_init P pos env)) = true := by
  obtain ⟨h, hv⟩ := FormatX_init_inv P pos env
  exact FormatX_terminates_from P _ _ _ h hv rfl rfl

theorem FormatX_pool_mapped {Env : Type} (P : FormatXParams Env) (NodesToFormat : List Nat)
    (f : Nat) (s : FormatXState Env)
    (hPool : P.NodePool
      = (InitNodePool_loop P.g NodesToFormat f (InitNodePool_init P.RootNode)).NodePool)
    (h : FormatX_inv P s) (hv : FormatX_visited P s) (hc : FormatX_closed P s)
    (hd : FormatX_done s = true) :
    ∀ n ∈ P.NodePool, s.FormatXInfoMap n ≠ none := by
  obtain ⟨m1, _, m3⟩ := FormatX_done_map P s h hv hc hd
  obtain ⟨_, i2, _, _⟩ := InitNodePool_loop_inv P.g NodesToFormat P.RootNode f _
    (InitNodePool_init_inv P.g NodesToFormat P.RootNode)
  rw [hPool]
  apply InitNodePool_loop_least P.g NodesToFormat (fun n => s.FormatXInfoMap n ≠ none) f
  · intro n hn
    exact absurd hn (List.not_mem_nil n)
  · intro n hn _
    have e : n = P.RootNode := by
      rcases hn with hn | hn
      · exact List.mem_singleton.1 hn
      · exact absurd hn (List.not_mem_nil n)
    rw [e]
    exact m1
  · intro m hm l hl hin
    obtain ⟨l1, l2, l3⟩ := InitNodePool_links_mem P.g m l hl
    exact m3 m hm l.2.1 l1 l3 l.2.2 l2 (hPool ▸ hin) (i2 _ hin).1

/-- C26: the two-stack loop of `FormatX` terminates on every graph whose pin and link lists
are finite, cycles of execution links included: from the state in which the loop is entered
some number of passes empties both stacks, and further passes change nothing. -/
theorem FormatX_loop_terminates {Env : Type} (P : FormatXParams Env) (pos : Nat → Int) (env : Env) :
    ∃ fuel, FormatX_done (FormatX_loop P fuel (FormatX_init P pos env)) = true ∧
      ∀ k, FormatX_loop P (fuel + k) (FormatX_init P pos env)
        = FormatX_loop P fuel (FormatX_init P pos env) := by
  obtain ⟨fuel, hd⟩ := FormatX_terminates_init P pos env
  exact ⟨fuel, hd, fun k => by rw [FormatX_loop_add, FormatX_loop_fixed P k _ hd]⟩

/-- C9: let `NodePool` be the pool that the loop of `InitNodePool` has built from the root
(after any number `f` of passes, in particular when it returns).  Then `FormatX`, started
with an empty `FormatXInfoMap`, ends, and when it has ended the map has an entry for every
node of `NodePool`, the entry of a node is an info of that node, the root has an entry, and
no other node outside `NodePool` has one. -/
theorem FormatX_map_covers_pool {Env : Type} (P : FormatXParams Env)
    (NodesToFormat : List Nat) (f : Nat) (pos : Nat → Int) (env : Env)
    (hPool : P.NodePool
      = (InitNodePool_loop P.g NodesToFormat f (InitNodePool_init P.RootNode)).NodePool) :
    (∃ fuel, FormatX_done (FormatX_loop P fuel (FormatX_init P pos env)) = true) ∧
    ∀ fuel, FormatX_done (FormatX_loop P fuel (FormatX_init P pos env)) = true →
      (∀ n ∈ P.NodePool, ∃ i,
        (FormatX_loop P fuel (FormatX_init P pos env)).FormatXInfoMap n = some i ∧
        ((FormatX_loop P fuel (FormatX_init P pos env)).Infos i).Link.GetNode P.g = n) ∧
      (FormatX_loop P fuel (FormatX_init P pos env)).FormatXInfoMap P.RootNode ≠ none ∧
      (∀ n, n ∉ P.NodePool → n ≠ P.RootNode →
        (FormatX_loop P fuel (FormatX_init P pos env)).FormatXInfoMap n = none) := by
  refine ⟨FormatX_terminates_init P pos env, fun fuel hd => ?_⟩
  obtain ⟨h0, hv0⟩ := FormatX_init_inv P pos env
  obtain ⟨h, hv⟩ := FormatX_loop_inv P fuel _ h0 hv0
  have hc := FormatX_loop_closed P fuel _ h0 hv0 (FormatX_init_closed P pos env)
  obtain ⟨m1, m2, _⟩ := FormatX_done_map P _ h hv hc hd
  refine ⟨fun n hn => ?_, m1, fun n hn hr => ?_⟩
  · have hne := FormatX_pool_mapped P NodesToFormat f _ hPool h hv hc hd n hn
    cases hm : (FormatX_loop P fuel (FormatX_init P pos env)).FormatXInfoMap n with
    | none => exact absurd hm hne
    | some i => exact ⟨i, rfl, (m2 n i hm).1⟩
  · cases hm : (FormatX_loop P fuel (FormatX_init P pos env)).FormatXInfoMap n with
    | none => rfl
    | some i =>
      rcases (m2 n i hm).2 with e | e
      · exact absurd e hn
      · exact absurd e hr

set_option maxRecDepth 1000000 in
/-- On `poolGraph` from root 0 the loop of `InitNodePool` has ended after 8 passes with the
pool of `poolParams`; `FormatX` has ended there after 7 passes, and then each of the nodes
0, 1, 3 has an entry that is an info of that node and the pure node 2 has none. -/
theorem FormatX_map_covers_pool_witness :
    (InitNodePool_done (InitNodePool_loop poolParams.g [] 8
        (InitNodePool_init poolParams.RootNode)) = true ∧
      poolParams.NodePool
        = (InitNodePool_loop poolParams.g [] 8 (InitNodePool_init poolParams.RootNode)).NodePool ∧
      FormatX_done (FormatX_loop poolParams 7 (FormatX_init poolParams (fun _ => 0) ())) = true) ∧
    ((∀ n ∈ poolParams.NodePool, ∃ i,
        (FormatX_loop poolParams 7 (FormatX_init poolParams (fun _ => 0) ())).FormatXInfoMap n
          = some i ∧
        ((FormatX_loop poolParams 7 (FormatX_init poolParams (fun _ => 0) ())).Infos i).Link.GetNode
          poolParams.g = n) ∧
      (FormatX_loop poolParams 7 (FormatX_init poolParams (fun _ => 0) ())).FormatXInfoMap
        poolParams.RootNode ≠ none ∧
      (∀ n, n ∉ poolParams.NodePool → n ≠ poolParams.RootNode →
        (FormatX_loop poolParams 7 (FormatX_init poolParams (fun _ => 0) ())).FormatXInfoMap n
          = none)) :=
  ⟨by decide,
    (FormatX_map_covers_pool poolParams [] 8 (fun _ => 0) () (by decide)).2 7 (by decide)⟩

end BlueprintAssist
